import Mathlib

/-!
iqdb: a verification development of the similarity engine

Shallow embedding of `delta_queue.h`, `imglib.h`, `imgdb.h` and `imgdb.cpp`.

Conventions of the embedding.
* `size_t` is 64 bits wide; arithmetic on it is written with an explicit `% SIZE_T_MOD`.
* The fixed-point build (`INTMATH`) is the one embedded: `Score` is `int32_t`, `DScore` is
  `int64_t`, both kept in `Int`; a value stored into a `Score` goes through `toScore` (two's
  complement wrap). The coefficient type `Idx` of `haar.h` is `Int` as well.
* `std::vector` is a `List`; `imageIdMap` (a `std::map` or `std::unordered_map`) is an
  association list with unique keys, iterated in list order.
* A C++ exception is a value of `Error`; a mutator returns the state it leaves behind
  together with the exception it raised, if any.
-/

namespace iqdb

/-! ## delta_queue.h -/

/-- The value `sizeof(size_t)`. -/
def sizeof_size_t : Nat := 8

/-- The constant `size_t_mask = sizeof(size_t) - 1`. -/
def size_t_mask : Nat := sizeof_size_t - 1

/-- Number of values of `size_t`: unsigned arithmetic is modulo this. -/
def SIZE_T_MOD : Nat := 2 ^ 64

/-- The method `delta_value::put`: `full |= (size_t)v << (8 * pos)`, with `v` an `unsigned char`. -/
def delta_value_put (full v pos : Nat) : Nat :=
  (full ||| ((v % 256) <<< (8 * pos))) % SIZE_T_MOD

/-- The class `delta_queue`: `m_base` is the vector of storage words. -/
structure delta_queue where
  m_base : List Nat
  m_size : Nat
  m_pos : Nat
  m_bval : Nat
  deriving DecidableEq, Repr

/-- The constructor `delta_queue()`: `m_base(2, 0), m_size(0), m_pos(0), m_bval(0)`. -/
def delta_queue.empty : delta_queue :=
  { m_base := [0, 0], m_size := 0, m_pos := 0, m_bval := 0 }

/-- The method `delta_queue::size`. -/
def delta_queue.size (q : delta_queue) : Nat := q.m_size

/-- The method `delta_queue::push_back`. -/
def delta_queue.push_back (q : delta_queue) (v : Nat) : delta_queue :=
  -- v -= m_bval; m_bval += v;
  let v1 := (v + SIZE_T_MOD - q.m_bval) % SIZE_T_MOD
  let bval := (q.m_bval + v1) % SIZE_T_MOD
  -- if (v >= 255) { m_base.back() = v - 255; m_base.push_back(0); v = 255; }
  let base1 := if 255 ≤ v1 then q.m_base.set (q.m_base.length - 1) (v1 - 255) ++ [0] else q.m_base
  let v2 := if 255 ≤ v1 then 255 else v1
  -- m_base[m_pos].put(v, m_size++ & mask);
  let base2 := base1.set q.m_pos (delta_value_put (base1.getD q.m_pos 0) v2 (q.m_size % sizeof_size_t))
  let size := q.m_size + 1
  -- if (!(m_size & mask)) { m_pos = m_base.size() - 1; m_base.push_back(0); }
  if size % sizeof_size_t = 0 then
    { m_base := base2 ++ [0], m_size := size, m_pos := base2.length - 1, m_bval := bval }
  else
    { m_base := base2, m_size := size, m_pos := q.m_pos, m_bval := bval }

/-- The struct `delta_iterator`. The pointer `m_p` is a byte offset from `&m_base[0]`
(the vector's storage is word aligned), its low bits being the byte index `ind()`. -/
structure delta_iterator where
  m_p : Nat
  m_val : Nat
  m_bval : Nat
  deriving DecidableEq, Repr

/-- The method `delta_iterator::itr`: the word at `m_p & ~size_t_mask`; `none` when the
address lies outside the vector. -/
def delta_iterator.itr (mem : List Nat) (p : Nat) : Option Nat := mem[p / sizeof_size_t]?

/-- The method `delta_iterator::ind`: `m_p & size_t_mask`. -/
def delta_iterator.ind (p : Nat) : Nat := p % sizeof_size_t

/-- The method `delta_iterator::operator++` over the storage `mem`. -/
def delta_iterator.incr (mem : List Nat) (it : delta_iterator) : Option delta_iterator :=
  -- size_t val = m_val.get();  m_bval += val;
  let val := it.m_val % 256
  let rest := it.m_val / 256
  let b1 := (it.m_bval + val) % SIZE_T_MOD
  -- if (val == 255) { m_p += sizeof(size_t); m_bval += itr(); }
  let p1 := if val = 255 then it.m_p + sizeof_size_t else it.m_p
  let esc : Option Nat := if val = 255 then delta_iterator.itr mem p1 else some 0
  -- m_p++;  val = (ind() != 0) - 1;  m_val.full += val & itr();
  let p2 := p1 + 1
  match esc, delta_iterator.itr mem p2 with
  | some e, some w =>
    some { m_p := p2,
           m_val := if delta_iterator.ind p2 ≠ 0 then rest else (rest + w) % SIZE_T_MOD,
           m_bval := (b1 + e) % SIZE_T_MOD }
  | _, _ => none

/-- The method `delta_queue::begin`: `delta_iterator(&*m_base.begin())`, whose constructor sets
`m_p(ptr(itr)), m_val(*itr), m_bval(0)` and then runs `++*this`. -/
def delta_queue.begin (q : delta_queue) : Option delta_iterator :=
  match q.m_base[0]? with
  | some w => delta_iterator.incr q.m_base { m_p := 0, m_val := w, m_bval := 0 }
  | none => none

/-- The method `delta_queue::end`, as the pointer `m_p` it holds (the only field compared by
`operator!=`): `ptr(&m_base.back()) + (m_size & mask) - size_t_mask`. -/
def delta_queue.end_p (q : delta_queue) : Nat :=
  sizeof_size_t * (q.m_base.length - 1) + q.m_size % sizeof_size_t - size_t_mask

/-- The iterator advanced `k` times with `operator++`. -/
def delta_iterator.advance (mem : List Nat) : Nat → delta_iterator → Option delta_iterator
  | 0, it => some it
  | k + 1, it => (delta_iterator.incr mem it).bind (delta_iterator.advance mem k)

/-- The iterator `begin()` advanced `k` times with `operator++`. -/
def delta_queue.iterAt (q : delta_queue) (k : Nat) : Option delta_iterator :=
  q.begin.bind (delta_iterator.advance q.m_base k)

/-- The loop `for (itr = begin; itr != end; ++itr) out.push_back(*itr)`, cut off after `fuel`
iterations; `none` when the cut-off is hit or a read leaves the vector. -/
def delta_iterator.collect (mem : List Nat) (endp : Nat) : Nat → delta_iterator → Option (List Nat)
  | 0, _ => none
  | fuel + 1, it =>
    if it.m_p = endp then some []
    else
      match delta_iterator.incr mem it with
      | some it1 => (delta_iterator.collect mem endp fuel it1).map (fun l => it.m_bval :: l)
      | none => none

/-- The values met on the way from `begin()` to `end()`. -/
def delta_queue.toList (q : delta_queue) : Option (List Nat) :=
  q.begin.bind (delta_iterator.collect q.m_base q.end_p (q.m_size + 1))

/-- Pushing a list of values in order. -/
def delta_queue.pushAll (q : delta_queue) (vs : List Nat) : delta_queue :=
  vs.foldl delta_queue.push_back q


/-! ### Reference encoding of a gap sequence (used to reason about `delta_queue`) -/

/-- The differences between successive values, the first one taken from `b`. -/
def gapsFrom (b : Nat) : List Nat → List Nat
  | [] => []
  | v :: vs => (v - b) :: gapsFrom v vs

/-- Reference layout of the gaps `gs` when the next byte goes to byte `j` of the current
packing word: the part of the packing word from byte `j` on, and the storage words after it. -/
def senc : Nat → List Nat → Nat × List Nat
  | _, [] => (0, [0])
  | j, g :: gs =>
    let r := senc ((j + 1) % 8) gs
    let b := min g 255
    let esc := if 255 ≤ g then [g - 255] else []
    if j = 7 then (b, esc ++ r.1 :: r.2) else (b + 256 * r.1, esc ++ r.2)


/-- The storage of a queue: the finished words `pre`, the current packing word `p`, the
escape words `es` written since, and the spare zero word. -/
def Laid (q : delta_queue) (pre : List Nat) (p : Nat) (es : List Nat) : Prop :=
  q.m_base = pre ++ p :: (es ++ [0]) ∧ q.m_pos = pre.length ∧ p < 256 ^ (q.m_size % 8)
    ∧ q.m_bval < SIZE_T_MOD

/-! ## imgdb.h: scalar types, signatures, errors -/

/-- The type `imageId` (`unsigned long`, 64 bits). -/
abbrev imageId := Nat

/-- Conversion of an integer value to `int32_t` (two's complement wrap). -/
def toScore (x : Int) : Int := (x + 2147483648) % 4294967296 - 2147483648

/-- Conversion of an integer value to `int64_t` (two's complement wrap). -/
def toDScore (x : Int) : Int :=
  (x + 9223372036854775808) % 18446744073709551616 - 9223372036854775808

/-- Conversion of an integer value to `uint16_t`. -/
def toUInt16 (x : Int) : Nat := (x % 65536).toNat

/-- The constant `ScoreScale`. -/
def ScoreScale : Nat := 20

/-- The constant `ScoreMax = 1 << ScoreScale`. -/
def ScoreMax : Int := 1048576

/-- The function `MakeScore`: `i << ScoreScale`, as a `Score`. -/
def MakeScore (i : Int) : Int := toScore (i * ScoreMax)

/-- The macro `DScSc(x)`: `x >> ScoreScale` on an `int64_t` (arithmetic shift: the floor of the
quotient). -/
def DScSc (x : Int) : Int := x / ScoreMax

/-- Modelled from the spec: the constant `NUM_COEFS` of `haar.h`, which is not among the
sources; the data model has 40 coefficients per channel. -/
def NUM_COEFS : Nat := 40

/-- Modelled from the spec: the constant `NUM_PIXELS` of `haar.h`, which is not among the
sources; the working resolution is 128 by 128. -/
def NUM_PIXELS : Nat := 128

/-- The struct `lumin_native`: `Score v[3]`. -/
structure lumin_native where
  v0 : Int
  v1 : Int
  v2 : Int
  deriving DecidableEq, Repr

/-- The element `v[c]` of a `lumin_native`, for `c < 3`. -/
def lumin_native.v (a : lumin_native) (c : Nat) : Int :=
  match c with
  | 0 => a.v0
  | 1 => a.v1
  | _ => a.v2

/-- The struct `ImgData`. The field `avglf` holds, for each channel, the integer
`lrint(ScoreMax * avglf[c])`: the operations embedded here read the three doubles only through
`avglf2i`. The arrays `sig1`, `sig2`, `sig3` have `NUM_COEFS` elements. -/
structure ImgData where
  id : imageId
  sig1 : List Int
  sig2 : List Int
  sig3 : List Int
  avglf : lumin_native
  width : Int
  height : Int
  deriving DecidableEq, Repr

/-- The value `sizeof(ImgData)`: an 8-byte id, 3 * 40 four-byte coefficients, three doubles and
two four-byte `res_t`. -/
def sizeof_ImgData : Nat := 520

/-- The value `sizeof(imageId)`. -/
def sizeof_imageId : Nat := 8

/-- The element `sig[i]` of a coefficient array (element 0 for an index past the list). -/
def sigAt (sig : List Int) (i : Nat) : Int := sig.getD i 0

/-- The coefficient array of channel `c` of a signature. -/
def ImgData.sig (d : ImgData) (c : Nat) : List Int :=
  match c with
  | 0 => d.sig1
  | 1 => d.sig2
  | _ => d.sig3

/-- The function `image_info::avglf2i` in the fixed-point build:
`avgl.v[c] = lrint(ScoreMax * avglf[c])`, stored into a `Score`. -/
def avglf2i (avglf : lumin_native) : lumin_native :=
  { v0 := toScore avglf.v0, v1 := toScore avglf.v1, v2 := toScore avglf.v2 }

/-- The struct `image_info`; `set` shares storage with `width`, and `mask` with `height`
(both unions of two `uint16_t`). -/
structure image_info where
  id : imageId
  avgl : lumin_native
  width : Nat
  height : Nat
  deriving DecidableEq, Repr

/-- The union member `image_info::set`. -/
def image_info.set (i : image_info) : Nat := i.width

/-- The union member `image_info::mask`. -/
def image_info.mask (i : image_info) : Nat := i.height

/-- The class `SigStruct`: an `image_info` with `index` and `cacheOfs`. The constructor
`SigStruct(size_t ofs)` leaves `index` unassigned, which is `none` here. -/
structure SigStruct where
  info : image_info
  index : Option Nat
  cacheOfs : Nat
  deriving DecidableEq, Repr

/-- The method `SigStruct::init` applied to a fresh `SigStruct(ofs)`. -/
def SigStruct.init (ofs : Nat) (nsig : ImgData) : SigStruct :=
  { info := { id := nsig.id, avgl := avglf2i nsig.avglf,
              width := toUInt16 nsig.width, height := toUInt16 nsig.height },
    index := none, cacheOfs := ofs }

/-- The struct `sim_value`. -/
structure sim_value where
  id : imageId
  score : Int
  width : Nat
  height : Nat
  deriving DecidableEq, Repr

/-- The exception classes of `imgdb.h`; `undefined_behaviour` stands for an execution that
leaves the defined behaviour of C++ (reading the top of an empty queue, an index past an array). -/
inductive Error where
  | io_error
  | data_error
  | memory_error
  | internal_error
  | usage_error
  | param_error
  | image_error
  | duplicate_id
  | invalid_id
  | undefined_behaviour
  deriving DecidableEq, Repr

/-- The function `dbSpaceCommon::is_grayscale`:
`std::abs(avgl.v[1]) + std::abs(avgl.v[2]) < MakeScore(6) / 1000`. -/
def is_grayscale (avgl : lumin_native) : Bool :=
  decide (toScore (toScore |avgl.v1| + toScore |avgl.v2|) < Int.tdiv (MakeScore 6) 1000)

/-! ## imageIdMap: association lists -/

/-- The method `find` of an `imageIdMap`. -/
def imageIdMap_find {T : Type} (m : List (imageId × T)) (id : imageId) : Option T :=
  (m.find? (fun p => p.1 == id)).map Prod.snd

/-- The method `erase` of an `imageIdMap`. -/
def imageIdMap_erase {T : Type} (m : List (imageId × T)) (id : imageId) : List (imageId × T) :=
  m.filter (fun p => !(p.1 == id))

/-- The assignment `m[id] = v` of an `imageIdMap`. -/
def imageIdMap_set {T : Type} (m : List (imageId × T)) (id : imageId) (v : T) :
    List (imageId × T) :=
  if (m.find? (fun p => p.1 == id)).isSome then
    m.map (fun p => if p.1 == id then (id, v) else p)
  else m ++ [(id, v)]

/-! ## imglib.h: bucket_set -/

/-- The class template `bucket_set<B>`: the array `buckets[count_0][count_1][count_2]`, as a
function of the three indices (colour, sign, magnitude). -/
structure bucket_set (B : Type) where
  buckets : Nat → Nat → Nat → B

/-- The constant `bucket_set::count_0` (colours). -/
def bucket_set_count_0 : Nat := 3

/-- The constant `bucket_set::count_1` (coefficient signs). -/
def bucket_set_count_1 : Nat := 2

/-- The constant `bucket_set::count_2` (coefficient magnitudes). -/
def bucket_set_count_2 : Nat := 16384

/-- Applying `f` to the bucket `buckets[c][pn][idx]`. -/
def bucket_set.modify {B : Type} (bs : bucket_set B) (c pn idx : Nat) (f : B → B) : bucket_set B :=
  { buckets := fun c1 p1 i1 =>
      if c1 = c ∧ p1 = pn ∧ i1 = idx then f (bs.buckets c pn idx) else bs.buckets c1 p1 i1 }

/-- The two statements of `bucket_set::add` for one coefficient `x` of colour `c`:
`if (x > 0) buckets[c][0][x].add(id, index); if (x < 0) buckets[c][1][-x].add(id, index);`. -/
def bucket_set.add_coef {B : Type} (addB : B → imageId → Nat → B) (bs : bucket_set B)
    (c : Nat) (x : Int) (id : imageId) (index : Nat) : bucket_set B :=
  if 0 < x then bs.modify c 0 x.toNat (fun b => addB b id index)
  else if x < 0 then bs.modify c 1 (-x).toNat (fun b => addB b id index)
  else bs

/-- One iteration of the loop of `bucket_set::add`. -/
def bucket_set.add_step {B : Type} (addB : B → imageId → Nat → B) (nsig : ImgData) (index : Nat)
    (bs : bucket_set B) (i : Nat) : bucket_set B :=
  let bs1 := bs.add_coef addB 0 (sigAt nsig.sig1 i) nsig.id index
  if is_grayscale (avglf2i nsig.avglf) then bs1
  else
    let bs2 := bs1.add_coef addB 1 (sigAt nsig.sig2 i) nsig.id index
    bs2.add_coef addB 2 (sigAt nsig.sig3 i) nsig.id index

/-- The method `bucket_set<B>::add` (the branch without `FAST_POW_GEERT`), `addB` being
`B::add`. -/
def bucket_set.add {B : Type} (addB : B → imageId → Nat → B) (bs : bucket_set B)
    (nsig : ImgData) (index : Nat) : bucket_set B :=
  (List.range NUM_COEFS).foldl (bucket_set.add_step addB nsig index) bs

/-- The two statements of `bucket_set::remove` for one coefficient. -/
def bucket_set.remove_coef {B : Type} (removeB : B → imageId → B) (bs : bucket_set B)
    (c : Nat) (x : Int) (id : imageId) : bucket_set B :=
  if 0 < x then bs.modify c 0 x.toNat (fun b => removeB b id)
  else if x < 0 then bs.modify c 1 (-x).toNat (fun b => removeB b id)
  else bs

/-- One iteration of the loop body of `bucket_set::remove`. -/
def bucket_set.remove_step {B : Type} (removeB : B → imageId → B) (nsig : ImgData)
    (bs : bucket_set B) (i : Nat) : bucket_set B :=
  let bs1 := bs.remove_coef removeB 0 (sigAt nsig.sig1 i) nsig.id
  if is_grayscale (avglf2i nsig.avglf) then bs1
  else
    let bs2 := bs1.remove_coef removeB 1 (sigAt nsig.sig2 i) nsig.id
    bs2.remove_coef removeB 2 (sigAt nsig.sig3 i) nsig.id

/-- The method `bucket_set<B>::remove`. Its loop is
`for (int i = 0; 0 && i < NUM_COEFS; i++)`: the indices run while `0 && i < NUM_COEFS` holds. -/
def bucket_set.remove {B : Type} (removeB : B → imageId → B) (bs : bucket_set B)
    (nsig : ImgData) : bucket_set B :=
  ((List.range NUM_COEFS).takeWhile (fun i => false && decide (i < NUM_COEFS))).foldl
    (bucket_set.remove_step removeB nsig) bs

/-- The method `bucket_set<B>::at` (the branch without `FAST_POW_GEERT`): the sign index
`pn` and the magnitude `idx` of the bucket of coefficient `coeff`. -/
def bucket_set_at_index (coeff : Int) : Nat × Nat :=
  if 0 < coeff then (0, coeff.toNat) else (1, (-coeff).toNat)

/-- The bucket returned by `bucket_set<B>::at(col, coeff, &idx)`, with `idx`. -/
def bucket_set.at {B : Type} (bs : bucket_set B) (col : Nat) (coeff : Int) : B × Nat :=
  (bs.buckets col (bucket_set_at_index coeff).1 (bucket_set_at_index coeff).2,
   (bucket_set_at_index coeff).2)

/-! ## imglib.h, imgdb.cpp: the two bucket containers -/

/-- The host page size `pageSize = sysconf(_SC_PAGESIZE)`, here 4096 bytes. -/
def pageSize : Nat := 4096

/-- The global `pageImgs = pageSize / sizeof(imageId)`. -/
def pageImgs : Nat := pageSize / sizeof_imageId

/-- The global `pageImgMask = pageMask / sizeof(imageId)`. -/
def pageImgMask : Nat := (pageSize - 1) / sizeof_imageId

/-- Equality of two results of type `Except` is decidable where it is for the two types. -/
instance exceptDecidableEq {ε α : Type} [DecidableEq ε] [DecidableEq α] :
    DecidableEq (Except ε α) := fun a b =>
  match a, b with
  | .ok x, .ok y =>
    if h : x = y then isTrue (by rw [h]) else isFalse (fun e => by injection e with e1; exact h e1)
  | .error x, .error y =>
    if h : x = y then isTrue (by rw [h]) else isFalse (fun e => by injection e with e1; exact h e1)
  | .ok _, .error _ => isFalse (fun e => by injection e)
  | .error _, .ok _ => isFalse (fun e => by injection e)

/-- The global `pageMask = pageSize - 1`. -/
def pageMask : Nat := pageSize - 1

/-- The constant `imageIdIndex_list<is_simple, false>::threshold`. -/
def paged_threshold : Nat := 128

/-- The scratch file behind the paged buckets. Its descriptor `m_fd` is a static member of
`imageIdIndex_list<is_simple, false>`: one unlinked temporary file that all buckets share.
`data j` is the entry at byte offset `j * sizeof(imageId)` and `size` the length of the file in
bytes. The file position of `m_fd` is moved by `resize` only, which truncates the file to the
new position, so that the position is `size`. A file that was never opened (`m_fd == -1`) is the
file of length 0; the bytes `ftruncate` adds are zero. -/
structure bucket_file where
  data : Nat → imageId
  size : Nat

/-- The scratch file `tempfile()` creates. -/
def bucket_file.empty : bucket_file := { data := fun _ => 0, size := 0 }

/-- Copying the entries `xs` into the file from entry `pos` on (a `memcpy` into a page that is
mapped `MAP_SHARED`). -/
def bucket_file.write (f : bucket_file) (pos : Nat) (xs : List imageId) : bucket_file :=
  { f with data := fun j => if pos ≤ j ∧ j < pos + xs.length then xs.getD (j - pos) 0 else f.data j }

/-- The class `imageIdIndex_list<false, false>`, the bucket of normal mode. An element of
`m_pages` is an `imageIdPage`, the pair of the byte offset and the byte length of a chunk of
the scratch file. The member `m_baseofs` is not initialised by the constructor; it is assigned
by `resize` before anything reads it, and is 0 here until then. -/
structure imageIdIndex_list_paged where
  m_pages : List (Nat × Nat)
  m_size : Nat
  m_capacity : Nat
  m_baseofs : Nat
  m_tail : List imageId
  deriving DecidableEq, Repr

/-- The constructor `imageIdIndex_list() : m_size(0), m_capacity(0)`. -/
def imageIdIndex_list_paged.empty : imageIdIndex_list_paged :=
  { m_pages := [], m_size := 0, m_capacity := 0, m_baseofs := 0, m_tail := [] }

/-- The outcome of a method of a paged bucket: the scratch file and the bucket it leaves, and
the exception it raised (`none` on normal return). -/
structure paged_result where
  file : bucket_file
  bucket : imageIdIndex_list_paged
  err : Option Error

/-- The method `size`: `m_size + m_tail.size()`. -/
def imageIdIndex_list_paged.size (b : imageIdIndex_list_paged) : Nat := b.m_size + b.m_tail.length

/-- The method `resize` for `is_simple = false`: the size is rounded up to whole pages, and a
chunk for the missing entries is added at the end of the scratch file. -/
def imageIdIndex_list_paged.resize (b : imageIdIndex_list_paged) (f : bucket_file) (s : Nat) :
    paged_result :=
  -- if (!is_simple) s = (s + pageImgMask) & ~pageImgMask;
  let s1 := (s + pageImgMask) / pageImgs * pageImgs
  -- if (s <= m_capacity) return;
  if s1 ≤ b.m_capacity then { file := f, bucket := b, err := none }
  else
    -- size_t toadd = s - m_capacity;  off_t page = lseek(m_fd, 0, SEEK_CUR);
    let toadd := s1 - b.m_capacity
    let page := f.size
    -- m_baseofs = page & pageMask;  size_t len = toadd * sizeof(imageId);
    -- m_capacity += len / sizeof(imageId);
    let len := toadd * sizeof_imageId
    let b1 := { b with m_baseofs := page % pageSize,
                       m_capacity := b.m_capacity + len / sizeof_imageId }
    -- if (m_baseofs & (sizeof(imageId) - 1)) throw internal_error("Mis-aligned file position.");
    if b1.m_baseofs % sizeof_imageId ≠ 0 then { file := f, bucket := b1, err := some .internal_error }
    -- if (!is_simple && m_baseofs) throw internal_error("Base offset in write mode.");
    else if b1.m_baseofs ≠ 0 then { file := f, bucket := b1, err := some .internal_error }
    else
      -- page &= ~pageMask;  ftruncate(m_fd, lseek(m_fd, len, SEEK_CUR));
      -- m_pages.push_back(imageIdPage(page, len));
      { file := { f with size := f.size + len },
        bucket := { b1 with m_pages := b1.m_pages ++ [(page - page % pageSize, len)] },
        err := none }

/-- The inner loop of `page_out`, on the chunk `page` and the entry count `ofs`:
`while (page.second && m_size > ofs) { ofs += pageImgs; page.first += pageSize;
page.second -= pageSize; }` (`page.second` is a `size_t`). Each round adds `pageImgs` to `ofs`,
so the loop makes at most `m_size` rounds, the `fuel` given by `page_search`. -/
def page_skip (m_size : Nat) : Nat → Nat × Nat → Nat → (Nat × Nat) × Nat
  | 0, page, ofs => (page, ofs)
  | fuel + 1, page, ofs =>
    if page.2 ≠ 0 ∧ ofs < m_size then
      page_skip m_size fuel
        (page.1 + pageSize, (page.2 + SIZE_T_MOD - pageSize) % SIZE_T_MOD) (ofs + pageImgs)
    else (page, ofs)

/-- The loop of `page_out` over the chunks, on the current `page` and `ofs`:
`for (itr = m_pages.begin(); itr != m_pages.end(); ++itr) { page = *itr; while (...) {...}
if (ofs >= m_size) break; }`. It leaves the loop as soon as `ofs` has reached `m_size`, also
when the inner loop has just used up the chunk, `page.first` then being the offset behind the
chunk. -/
def page_search (m_size : Nat) : List (Nat × Nat) → Nat × Nat → Nat → (Nat × Nat) × Nat
  | [], page, ofs => (page, ofs)
  | p :: rest, _, ofs =>
    let r := page_skip m_size m_size p ofs
    if m_size ≤ r.2 then r else page_search m_size rest r.1 r.2

/-- The statements of `page_out` that follow the call of `resize`, `last` being
`m_size & pageImgMask`: the page that is to hold entry `m_size` is looked up and mapped, and as
much of the tail as fits behind the `last` entries it holds is copied into it. The page is
mapped from the shared scratch file at the offset found, whichever bucket that page belongs to;
touching a page behind the end of the file ends the process (`SIGBUS`), which is
`undefined_behaviour` here, as is `m_pages.back()` without a chunk. -/
def imageIdIndex_list_paged.page_copy (b : imageIdIndex_list_paged) (f : bucket_file)
    (last : Nat) : paged_result :=
  -- imageIdPage page = m_pages.back();
  match b.m_pages.getLast? with
  | none => { file := f, bucket := b, err := some .undefined_behaviour }
  | some back =>
    -- if (((size() + pageImgMask) & ~pageImgMask) != m_capacity) { size_t ofs = last; for ... }
    -- else page.first += page.second - pageSize;
    let found : (Nat × Nat) × Nat :=
      if (b.size + pageImgMask) / pageImgs * pageImgs ≠ b.m_capacity then
        page_search b.m_size b.m_pages back last
      else ((back.1 + back.2 - pageSize, back.2), b.m_size)
    -- if (ofs != m_size) throw internal_error("Counted pages badly.");
    if found.2 ≠ b.m_size then { file := f, bucket := b, err := some .internal_error }
    else
      -- ptr = mmap(NULL, pageSize, PROT_READ|PROT_WRITE, MAP_SHARED, m_fd, page.first);
      -- size_t copy = std::min(m_tail.size(), pageImgs - last);
      if 0 < min b.m_tail.length (pageImgs - last) ∧ f.size < found.1.1 + pageSize then
        { file := f, bucket := b, err := some .undefined_behaviour }
      else
        -- memcpy(ptr + last, &m_tail.front(), copy * sizeof(imageId));  m_size += copy;
        -- m_tail.erase(m_tail.begin(), m_tail.begin() + copy);
        { file := f.write (found.1.1 / sizeof_imageId + last)
            (b.m_tail.take (min b.m_tail.length (pageImgs - last))),
          bucket := { b with m_size := b.m_size + min b.m_tail.length (pageImgs - last),
                             m_tail := b.m_tail.drop (min b.m_tail.length (pageImgs - last)) },
          err := none }

/-- The method `page_out`: `size_t last = m_size & pageImgMask; if (!last) resize(size());`
and then the statements of `page_copy`. -/
def imageIdIndex_list_paged.page_out (b : imageIdIndex_list_paged) (f : bucket_file) :
    paged_result :=
  if b.m_size % pageImgs = 0 then
    match (b.resize f b.size).err with
    | some e => { file := (b.resize f b.size).file, bucket := (b.resize f b.size).bucket, err := some e }
    | none => (b.resize f b.size).bucket.page_copy (b.resize f b.size).file (b.m_size % pageImgs)
  else b.page_copy f (b.m_size % pageImgs)

/-- The method `push_back`:
`m_tail.push_back(i); if (m_tail.size() >= threshold && can_page_out()) page_out();`
where `can_page_out()` is true for `is_simple = false`. -/
def imageIdIndex_list_paged.push_back (b : imageIdIndex_list_paged) (f : bucket_file)
    (i : imageId) : paged_result :=
  let b1 := { b with m_tail := b.m_tail ++ [i] }
  if paged_threshold ≤ b1.m_tail.length then b1.page_out f
  else { file := f, bucket := b1, err := none }

/-- The method `clear`: `m_tail.clear(); m_size = 0;`. -/
def imageIdIndex_list_paged.clear (b : imageIdIndex_list_paged) : imageIdIndex_list_paged :=
  { b with m_tail := [], m_size := 0 }

/-- The byte offset in the scratch file of entry `n` of the map `map_all` builds, the chunks of
`m_pages` being mapped one behind the other; `none` behind the last chunk. -/
def chunk_entry : List (Nat × Nat) → Nat → Option Nat
  | [], _ => none
  | pg :: rest, n =>
    if n < pg.2 / sizeof_imageId then some (pg.1 + n * sizeof_imageId)
    else chunk_entry rest (n - pg.2 / sizeof_imageId)

/-- Entry `n` of the map `map_all` builds: the anonymous mapping of `m_capacity` entries is
zero where no chunk is mapped over it. -/
def imageIdIndex_list_paged.entry (b : imageIdIndex_list_paged) (f : bucket_file) (n : Nat) :
    imageId :=
  match chunk_entry b.m_pages n with
  | some ofs => f.data (ofs / sizeof_imageId)
  | none => 0

/-- Storing `v` into entry `n` of the map `map_all` builds: the chunks are mapped `MAP_SHARED`,
so the store goes to the scratch file; outside the chunks it goes to anonymous memory. -/
def imageIdIndex_list_paged.map_write (b : imageIdIndex_list_paged) (f : bucket_file) (n : Nat)
    (v : imageId) : bucket_file :=
  match chunk_entry b.m_pages n with
  | some ofs => f.write (ofs / sizeof_imageId) [v]
  | none => f

/-- The method `imageIdIndex_list<false, false>::map_all(false)`, the call of `remove` and of
the queries: the entries between `begin()` and `end()` of the map it returns. For an empty
bucket and for a bucket without pages the map is default-constructed,
`imageIdIndex_map<false>()`, whose iterators `m_img` and `m_end` are never assigned
(`map_iterator() { }`): `none`. Otherwise the map is `mapret(base, base, base + m_capacity, len)`
over the page chunks in order. -/
def imageIdIndex_list_paged.map_all (b : imageIdIndex_list_paged) (f : bucket_file) :
    Except Error (Option (List imageId)) :=
  -- if (!writable && !size()) return imageIdIndex_map<false>();
  if b.size = 0 then .ok none
  -- if (!writable && m_pages.empty()) return imageIdIndex_map<false>();
  else if b.m_pages.isEmpty then .ok none
  -- if (m_baseofs) throw internal_error("Base offset in write mode.");
  else if b.m_baseofs ≠ 0 then .error .internal_error
  -- imageIdIndex_map<false> mapret(base, (image_id_index*)base, (image_id_index*)base+m_capacity, len);
  else .ok (some ((List.range b.m_capacity).map (b.entry f)))

/-- Replacing the first occurrence of `i` in `l` by `y`. -/
def replaceFirst (l : List imageId) (i y : imageId) : List imageId :=
  match l with
  | [] => []
  | x :: xs => if x = i then y :: xs else x :: replaceFirst xs i y

/-- The method `imageIdIndex_list<false, false>::remove`: the first occurrence of `i` in the
tail, or else in the map of `map_all(false)`, is overwritten by the last entry, which is
dropped. A write through the map goes to the scratch file. With a default-constructed map the
loop compares iterators that were never assigned. -/
def imageIdIndex_list_paged.remove (b : imageIdIndex_list_paged) (f : bucket_file)
    (i : imageId) : paged_result :=
  -- if (!size()) return;
  if b.size = 0 then { file := f, bucket := b, err := none }
  else if i ∈ b.m_tail then
    -- *itr = m_tail.back(); m_tail.pop_back();
    { file := f,
      bucket := { b with m_tail := (replaceFirst b.m_tail i (b.m_tail.getLastD 0)).dropLast },
      err := none }
  else
    match b.map_all f with
    | .error e => { file := f, bucket := b, err := some e }
    | .ok none => { file := f, bucket := b, err := some .undefined_behaviour }
    | .ok (some region) =>
      -- while (mItr != map.end() && *mItr != i) ++mItr;  if (mItr != map.end()) { ... }
      if region.length ≤ region.indexOf i then { file := f, bucket := b, err := none }
      else if b.m_tail ≠ [] then
        -- *mItr = m_tail.back(); m_tail.pop_back();
        { file := b.map_write f (region.indexOf i) (b.m_tail.getLastD 0),
          bucket := { b with m_tail := b.m_tail.dropLast }, err := none }
      else
        -- last = map.end(); --last; *mItr = *last; m_size--;
        { file := b.map_write f (region.indexOf i) (region.getLastD 0),
          bucket := { b with m_size := (b.m_size + SIZE_T_MOD - 1) % SIZE_T_MOD }, err := none }

/-- The ids a bucket of normal mode holds: the `m_size` entries paged out, then the tail. -/
def imageIdIndex_list_paged.contents (b : imageIdIndex_list_paged) (f : bucket_file) :
    List imageId :=
  (List.range b.m_size).map (b.entry f) ++ b.m_tail

/-- The method `bucket_type::add` of `dbSpaceImpl<false>`: the id is stored. The result is the
scratch file, the bucket and the exception raised. -/
def paged_bucket_add (b : imageIdIndex_list_paged) (f : bucket_file) (id : imageId)
    (_index : Nat) : bucket_file × imageIdIndex_list_paged × Option Error :=
  ((b.push_back f id).file, (b.push_back f id).bucket, (b.push_back f id).err)

/-- The method `remove` of the bucket type of `dbSpaceImpl<false>`, with its result as a
triple. -/
def paged_bucket_remove (b : imageIdIndex_list_paged) (f : bucket_file) (id : imageId) :
    bucket_file × imageIdIndex_list_paged × Option Error :=
  ((b.remove f id).file, (b.remove f id).bucket, (b.remove f id).err)

/-- The full iteration of a bucket as `do_query` does it:
`for (idIndexIterator itr(map.begin(), *this); itr != map.end(); ++itr)` over the map of
`map_all(false)`, then `for (idIndexTailIterator itr(bucket.tail().begin(), ...); ...)` over the
tail. Comparing the unassigned iterators of a default-constructed map is undefined. -/
def imageIdIndex_list_paged.iterate (b : imageIdIndex_list_paged) (f : bucket_file) :
    Except Error (List imageId) :=
  match b.map_all f with
  | .error e => .error e
  | .ok none => .error .undefined_behaviour
  | .ok (some region) => .ok (region ++ b.m_tail)

/-- A sequence of `push_back` calls on a bucket, up to the first that raises. -/
def imageIdIndex_list_paged.pushAll (b : imageIdIndex_list_paged) (f : bucket_file) :
    List imageId → paged_result
  | [] => { file := f, bucket := b, err := none }
  | i :: rest =>
    match (b.push_back f i).err with
    | some e => { file := (b.push_back f i).file, bucket := (b.push_back f i).bucket, err := some e }
    | none => (b.push_back f i).bucket.pushAll (b.push_back f i).file rest

/-- The body of the first loop of `rehash` for one bucket:
`size_t size = itr->size(); itr->clear(); itr->resize(size & ~pageImgMask);`. -/
def imageIdIndex_list_paged.rehash_clear (b : imageIdIndex_list_paged) (f : bucket_file) :
    paged_result :=
  b.clear.resize f (b.size / pageImgs * pageImgs)

/-! ### bucket_set over buckets that share the scratch file

The methods of the class template `bucket_set<B>` once more, for a bucket type `B` whose
methods also change a state `F` that all buckets share (the scratch file) and may raise an
exception, which leaves the loop. -/

/-- The two statements of `bucket_set::add` for one coefficient `x` of colour `c`:
`if (x > 0) buckets[c][0][x].add(id, index); if (x < 0) buckets[c][1][-x].add(id, index);`. -/
def bucket_set.add_coef_shared {B F : Type} (addB : B → F → imageId → Nat → F × B × Option Error)
    (st : F × bucket_set B) (c : Nat) (x : Int) (id : imageId) (index : Nat) :
    (F × bucket_set B) × Option Error :=
  if 0 < x then
    ((( addB (st.2.buckets c 0 x.toNat) st.1 id index).1,
      st.2.modify c 0 x.toNat (fun _ => (addB (st.2.buckets c 0 x.toNat) st.1 id index).2.1)),
     (addB (st.2.buckets c 0 x.toNat) st.1 id index).2.2)
  else if x < 0 then
    (((addB (st.2.buckets c 1 (-x).toNat) st.1 id index).1,
      st.2.modify c 1 (-x).toNat (fun _ => (addB (st.2.buckets c 1 (-x).toNat) st.1 id index).2.1)),
     (addB (st.2.buckets c 1 (-x).toNat) st.1 id index).2.2)
  else (st, none)

/-- One iteration of the loop of `bucket_set::add`; nothing is done once an exception was
raised. -/
def bucket_set.add_step_shared {B F : Type} (addB : B → F → imageId → Nat → F × B × Option Error)
    (nsig : ImgData) (index : Nat) (st : (F × bucket_set B) × Option Error) (i : Nat) :
    (F × bucket_set B) × Option Error :=
  match st.2 with
  | some _ => st
  | none =>
    let r1 := bucket_set.add_coef_shared addB st.1 0 (sigAt nsig.sig1 i) nsig.id index
    match r1.2 with
    | some _ => r1
    | none =>
      if is_grayscale (avglf2i nsig.avglf) then r1
      else
        let r2 := bucket_set.add_coef_shared addB r1.1 1 (sigAt nsig.sig2 i) nsig.id index
        match r2.2 with
        | some _ => r2
        | none => bucket_set.add_coef_shared addB r2.1 2 (sigAt nsig.sig3 i) nsig.id index

/-- The method `bucket_set<B>::add` (the branch without `FAST_POW_GEERT`), `addB` being
`B::add`. -/
def bucket_set.add_shared {B F : Type} (addB : B → F → imageId → Nat → F × B × Option Error)
    (st : F × bucket_set B) (nsig : ImgData) (index : Nat) : (F × bucket_set B) × Option Error :=
  (List.range NUM_COEFS).foldl (bucket_set.add_step_shared addB nsig index) (st, none)

/-- The two statements of `bucket_set::remove` for one coefficient. -/
def bucket_set.remove_coef_shared {B F : Type} (removeB : B → F → imageId → F × B × Option Error)
    (st : F × bucket_set B) (c : Nat) (x : Int) (id : imageId) :
    (F × bucket_set B) × Option Error :=
  if 0 < x then
    (((removeB (st.2.buckets c 0 x.toNat) st.1 id).1,
      st.2.modify c 0 x.toNat (fun _ => (removeB (st.2.buckets c 0 x.toNat) st.1 id).2.1)),
     (removeB (st.2.buckets c 0 x.toNat) st.1 id).2.2)
  else if x < 0 then
    (((removeB (st.2.buckets c 1 (-x).toNat) st.1 id).1,
      st.2.modify c 1 (-x).toNat (fun _ => (removeB (st.2.buckets c 1 (-x).toNat) st.1 id).2.1)),
     (removeB (st.2.buckets c 1 (-x).toNat) st.1 id).2.2)
  else (st, none)

/-- One iteration of the loop body of `bucket_set::remove`. -/
def bucket_set.remove_step_shared {B F : Type} (removeB : B → F → imageId → F × B × Option Error)
    (nsig : ImgData) (st : (F × bucket_set B) × Option Error) (i : Nat) :
    (F × bucket_set B) × Option Error :=
  match st.2 with
  | some _ => st
  | none =>
    let r1 := bucket_set.remove_coef_shared removeB st.1 0 (sigAt nsig.sig1 i) nsig.id
    match r1.2 with
    | some _ => r1
    | none =>
      if is_grayscale (avglf2i nsig.avglf) then r1
      else
        let r2 := bucket_set.remove_coef_shared removeB r1.1 1 (sigAt nsig.sig2 i) nsig.id
        match r2.2 with
        | some _ => r2
        | none => bucket_set.remove_coef_shared removeB r2.1 2 (sigAt nsig.sig3 i) nsig.id

/-- The method `bucket_set<B>::remove`. Its loop is
`for (int i = 0; 0 && i < NUM_COEFS; i++)`: the indices run while `0 && i < NUM_COEFS` holds. -/
def bucket_set.remove_shared {B F : Type} (removeB : B → F → imageId → F × B × Option Error)
    (st : F × bucket_set B) (nsig : ImgData) : (F × bucket_set B) × Option Error :=
  ((List.range NUM_COEFS).takeWhile (fun i => false && decide (i < NUM_COEFS))).foldl
    (bucket_set.remove_step_shared removeB nsig) (st, none)

/-- The class `imageIdIndex_list<true, true>` with `USE_DELTA_QUEUE`, the bucket of read-only
mode: two delta queues of catalog indices. -/
structure imageIdIndex_list_simple where
  m_tail : delta_queue
  m_base : delta_queue
  deriving DecidableEq, Repr

/-- A default-constructed `imageIdIndex_list<true, true>`. -/
def imageIdIndex_list_simple.empty_list : imageIdIndex_list_simple :=
  { m_tail := delta_queue.empty, m_base := delta_queue.empty }

/-- The method `empty`: `m_tail.empty() && m_base.empty()`. -/
def imageIdIndex_list_simple.is_empty (b : imageIdIndex_list_simple) : Bool :=
  b.m_tail.m_size == 0 && b.m_base.m_size == 0

/-- The method `size`: `m_tail.size() + m_base.size()`. -/
def imageIdIndex_list_simple.size (b : imageIdIndex_list_simple) : Nat :=
  b.m_tail.m_size + b.m_base.m_size

/-- The method `push_back`: `m_tail.push_back(i.index)`. -/
def imageIdIndex_list_simple.push_back (b : imageIdIndex_list_simple) (index : Nat) :
    imageIdIndex_list_simple :=
  { b with m_tail := b.m_tail.push_back index }

/-- The method `set_base`: nothing when `m_base` is not empty; otherwise the tail becomes the
base, either swapped or copied value by value into a queue of exact capacity (re-pushing the
iterated values, here `toList`), and the tail becomes a new queue. -/
def imageIdIndex_list_simple.set_base (b : imageIdIndex_list_simple) : imageIdIndex_list_simple :=
  if b.m_base.m_size ≠ 0 then b
  else { m_base := b.m_tail, m_tail := b.m_base }

/-- The method `bucket_type::add` of `dbSpaceImpl<true>`: the index is stored. -/
def simple_bucket_add (b : imageIdIndex_list_simple) (_id : imageId) (index : Nat) :
    imageIdIndex_list_simple :=
  b.push_back index

/-- The struct `dbSpaceAlter::bucket_type`: only the size is kept. -/
structure alter_bucket where
  size : Nat
  deriving DecidableEq, Repr

/-- The method `dbSpaceAlter::bucket_type::add`: `size++`. -/
def alter_bucket_add (b : alter_bucket) (_id : imageId) (_index : Nat) : alter_bucket :=
  { size := (b.size + 1) % SIZE_T_MOD }

/-! ## imgdb.cpp: the three database implementations

A mutator returns the state it leaves and the exception it raised (`none` on normal return). -/

/-- The signature cache file `m_sigFile`: the records written so far with their offsets, the
latest first. -/
abbrev SigCache := List (Nat × ImgData)

/-- The method `read_sig_cache`, for a database that has a cache file: the record last written
at `ofs`; a read past the written records is the `io_error` of a short read. -/
def read_sig_cache (cache : SigCache) (ofs : Nat) : Except Error ImgData :=
  match cache.find? (fun p => p.1 == ofs) with
  | some p => .ok p.2
  | none => .error .io_error

/-- The method `write_sig_cache`, for a database that has a cache file. -/
def write_sig_cache (cache : SigCache) (ofs : Nat) (sig : ImgData) : SigCache :=
  (ofs, sig) :: cache

/-! ### dbSpaceImpl<false>: normal mode -/

/-- The class `dbSpaceImpl<false>`. It is always built with a cache file (`with_struct`). The
field `m_fd` is the scratch file of the buckets, the static member `m_fd` of the bucket class. -/
structure dbSpaceImpl_false where
  m_cacheOfs : Nat
  sigCache : SigCache
  m_images : List (imageId × SigStruct)
  m_nextIndex : Nat
  imgbuckets : bucket_set imageIdIndex_list_paged
  m_fd : bucket_file
  m_bucketsValid : Bool

/-- The constructor `dbSpaceImpl<false>(true)`. -/
def dbSpaceImpl_false.create : dbSpaceImpl_false :=
  { m_cacheOfs := 0, sigCache := [], m_images := [], m_nextIndex := 0,
    imgbuckets := { buckets := fun _ _ _ => imageIdIndex_list_paged.empty },
    m_fd := bucket_file.empty,
    m_bucketsValid := true }

/-- The method `dbSpaceImpl<false>::hasImage`. -/
def dbSpaceImpl_false.hasImage (db : dbSpaceImpl_false) (id : imageId) : Bool :=
  (imageIdMap_find db.m_images id).isSome

/-- The method `dbSpaceImpl<false>::getImgCount`. -/
def dbSpaceImpl_false.getImgCount (db : dbSpaceImpl_false) : Nat := db.m_images.length

/-- The method `dbSpaceImpl<false>::getImgIdList`: every image of the map is listed. -/
def dbSpaceImpl_false.getImgIdList (db : dbSpaceImpl_false) : List imageId :=
  db.m_images.map Prod.fst

/-- The method `dbSpaceImpl<false>::addImageData`. An exception of `imgbuckets.add` leaves the
cache record, the map entry and the incremented `m_nextIndex` behind. -/
def dbSpaceImpl_false.addImageData (db : dbSpaceImpl_false) (img : ImgData) :
    dbSpaceImpl_false × Option Error :=
  -- if (hasImage(img->id)) throw duplicate_id("Image already in database.");
  if db.hasImage img.id then (db, some .duplicate_id)
  else
    -- SigStruct *nsig = new SigStruct(get_sig_cache()); nsig->init(img);
    let nsig := SigStruct.init db.m_cacheOfs img
    -- write_sig_cache(nsig->cacheOfs, img); m_images.add_sig(img->id, nsig);
    -- imgbuckets.add(*img, m_nextIndex++);
    ({ db with m_cacheOfs := db.m_cacheOfs + sizeof_ImgData,
               sigCache := write_sig_cache db.sigCache nsig.cacheOfs img,
               m_images := imageIdMap_set db.m_images img.id nsig,
               imgbuckets :=
                 (bucket_set.add_shared paged_bucket_add (db.m_fd, db.imgbuckets) img db.m_nextIndex).1.2,
               m_fd :=
                 (bucket_set.add_shared paged_bucket_add (db.m_fd, db.imgbuckets) img db.m_nextIndex).1.1,
               m_nextIndex := db.m_nextIndex + 1 },
     (bucket_set.add_shared paged_bucket_add (db.m_fd, db.imgbuckets) img db.m_nextIndex).2)

/-- The method `dbSpaceImpl<false>::removeImage`. -/
def dbSpaceImpl_false.removeImage (db : dbSpaceImpl_false) (id : imageId) :
    dbSpaceImpl_false × Option Error :=
  -- SigStruct* isig = find(id).sig();
  match imageIdMap_find db.m_images id with
  | none => (db, some .invalid_id)
  | some isig =>
    -- read_sig_cache(isig->cacheOfs, &nsig);
    match read_sig_cache db.sigCache isig.cacheOfs with
    | .error e => (db, some e)
    | .ok nsig =>
      -- imgbuckets.remove(nsig); m_bucketsValid = false; m_images.erase(id);
      match (bucket_set.remove_shared paged_bucket_remove (db.m_fd, db.imgbuckets) nsig).2 with
      | some e =>
        ({ db with
            imgbuckets :=
              (bucket_set.remove_shared paged_bucket_remove (db.m_fd, db.imgbuckets) nsig).1.2,
            m_fd :=
              (bucket_set.remove_shared paged_bucket_remove (db.m_fd, db.imgbuckets) nsig).1.1 },
         some e)
      | none =>
        ({ db with
            imgbuckets :=
              (bucket_set.remove_shared paged_bucket_remove (db.m_fd, db.imgbuckets) nsig).1.2,
            m_fd :=
              (bucket_set.remove_shared paged_bucket_remove (db.m_fd, db.imgbuckets) nsig).1.1,
            m_bucketsValid := false,
            m_images := imageIdMap_erase db.m_images id }, none)

/-- The buckets of a `bucket_set` in the order of `begin()` to `end()`: the indices of the array
`buckets[count_0][count_1][count_2]`. -/
def bucket_set_indices : List (Nat × Nat × Nat) :=
  (List.range bucket_set_count_0).flatMap (fun c =>
    (List.range bucket_set_count_1).flatMap (fun p =>
      (List.range bucket_set_count_2).map (fun i => (c, p, i))))

/-- One round of the first loop of `dbSpaceImpl<false>::rehash`, on the bucket of the indices
`k`; nothing is done once an exception was raised. -/
def rehash_clear_step (st : (bucket_file × bucket_set imageIdIndex_list_paged) × Option Error)
    (k : Nat × Nat × Nat) : (bucket_file × bucket_set imageIdIndex_list_paged) × Option Error :=
  match st.2 with
  | some _ => st
  | none =>
    (((((st.1.2.buckets k.1 k.2.1 k.2.2).rehash_clear st.1.1).file),
      st.1.2.modify k.1 k.2.1 k.2.2
        (fun _ => ((st.1.2.buckets k.1 k.2.1 k.2.2).rehash_clear st.1.1).bucket)),
     ((st.1.2.buckets k.1 k.2.1 k.2.2).rehash_clear st.1.1).err)

/-- The second loop of `dbSpaceImpl<false>::rehash` over the images `imgs`: each signature is
read from the cache and added to the buckets; it stops at the first exception. -/
def rehash_add (cache : SigCache) :
    List (imageId × SigStruct) → bucket_file × bucket_set imageIdIndex_list_paged →
      (bucket_file × bucket_set imageIdIndex_list_paged) × Option Error
  | [], st => (st, none)
  | p :: rest, st =>
    match read_sig_cache cache p.2.cacheOfs with
    | .error e => (st, some e)
    | .ok dsig =>
      match (bucket_set.add_shared paged_bucket_add st dsig (p.2.index.getD 0)).2 with
      | some e => ((bucket_set.add_shared paged_bucket_add st dsig (p.2.index.getD 0)).1, some e)
      | none =>
        rehash_add cache rest (bucket_set.add_shared paged_bucket_add st dsig (p.2.index.getD 0)).1

/-- The first loop of `dbSpaceImpl<false>::rehash`:
`for (itr = imgbuckets.begin(); itr != imgbuckets.end(); ++itr) { size_t size = itr->size();
itr->clear(); itr->resize(size & ~pageImgMask); }`. -/
def rehash_clear (st : bucket_file × bucket_set imageIdIndex_list_paged) :
    (bucket_file × bucket_set imageIdIndex_list_paged) × Option Error :=
  bucket_set_indices.foldl rehash_clear_step (st, none)

/-- The statements of `dbSpaceImpl<false>::rehash` that follow its first loop, which has left
the scratch file and the buckets `c`. -/
def dbSpaceImpl_false.rehash_rebuild (db : dbSpaceImpl_false)
    (c : (bucket_file × bucket_set imageIdIndex_list_paged) × Option Error) :
    dbSpaceImpl_false × Option Error :=
  match c.2 with
  | some e => ({ db with imgbuckets := c.1.2, m_fd := c.1.1 }, some e)
  | none =>
    -- for (itr = image_begin(); ...) { read_sig_cache(itr.cOfs(), &dsig); imgbuckets.add(dsig, itr.index()); }
    match (rehash_add db.sigCache db.m_images c.1).2 with
    | some e =>
      ({ db with imgbuckets := (rehash_add db.sigCache db.m_images c.1).1.2,
                 m_fd := (rehash_add db.sigCache db.m_images c.1).1.1 }, some e)
    -- m_bucketsValid = true;
    | none =>
      ({ db with imgbuckets := (rehash_add db.sigCache db.m_images c.1).1.2,
                 m_fd := (rehash_add db.sigCache db.m_images c.1).1.1,
                 m_bucketsValid := true }, none)

/-- The method `dbSpaceImpl<false>::rehash`. -/
def dbSpaceImpl_false.rehash (db : dbSpaceImpl_false) : dbSpaceImpl_false × Option Error :=
  db.rehash_rebuild (rehash_clear (db.m_fd, db.imgbuckets))

/-- The method `dbSpaceImpl<false>::setImageRes`. -/
def dbSpaceImpl_false.setImageRes (db : dbSpaceImpl_false) (id : imageId) (width height : Int) :
    dbSpaceImpl_false × Option Error :=
  match imageIdMap_find db.m_images id with
  | none => (db, some .invalid_id)
  | some isig =>
    match read_sig_cache db.sigCache isig.cacheOfs with
    | .error e => (db, some e)
    | .ok sig =>
      ({ db with sigCache :=
          write_sig_cache db.sigCache isig.cacheOfs { sig with width := width, height := height } },
       none)

/-! ### dbSpaceImpl<true>: read-only (simple) mode -/

/-- The class `dbSpaceImpl<true>`; `has_sigFile` is `m_sigFile != -1`. -/
structure dbSpaceImpl_true where
  has_sigFile : Bool
  m_cacheOfs : Nat
  sigCache : SigCache
  m_images : List (imageId × Nat)
  m_nextIndex : Nat
  m_info : List image_info
  imgbuckets : bucket_set imageIdIndex_list_simple
  m_bucketsValid : Bool

/-- The constructor `dbSpaceImpl<true>(with_struct)`. -/
def dbSpaceImpl_true.create (with_struct : Bool) : dbSpaceImpl_true :=
  { has_sigFile := with_struct, m_cacheOfs := 0, sigCache := [], m_images := [],
    m_nextIndex := 0, m_info := [],
    imgbuckets := { buckets := fun _ _ _ => imageIdIndex_list_simple.empty_list },
    m_bucketsValid := true }

/-- The method `dbSpaceImpl<true>::hasImage`. -/
def dbSpaceImpl_true.hasImage (db : dbSpaceImpl_true) (id : imageId) : Bool :=
  (imageIdMap_find db.m_images id).isSome

/-- The method `dbSpaceImpl<true>::getImgCount`. -/
def dbSpaceImpl_true.getImgCount (db : dbSpaceImpl_true) : Nat := db.m_images.length

/-- The method `dbSpaceImpl<true>::getImgIdList`: the entries of `m_info` whose `avgl.v[0]`
is not zero. -/
def dbSpaceImpl_true.getImgIdList (db : dbSpaceImpl_true) : List imageId :=
  (db.m_info.filter (fun e => e.avgl.v0 != 0)).map (fun e => e.id)

/-- The method `dbSpaceImpl<true>::addImageData`. -/
def dbSpaceImpl_true.addImageData (db : dbSpaceImpl_true) (img : ImgData) :
    dbSpaceImpl_true × Option Error :=
  -- if (hasImage(img->id)) throw duplicate_id("Image already in database.");
  if db.hasImage img.id then (db, some .duplicate_id)
  else
    -- size_t ind = m_nextIndex++;
    let ind := db.m_nextIndex
    let db1 := { db with m_nextIndex := db.m_nextIndex + 1 }
    -- if (ind > m_info.size()) throw internal_error("Index incremented too much!");
    if db.m_info.length < ind then (db1, some .internal_error)
    else
      let entry : image_info :=
        { id := img.id, avgl := avglf2i img.avglf,
          width := toUInt16 img.width, height := toUInt16 img.height }
      -- if (ind == m_info.size()) m_info.resize(ind+1);  m_info.at(ind) = ...
      let info := if ind = db.m_info.length then db.m_info ++ [entry] else db.m_info.set ind entry
      -- m_images.add_index(img->id, ind);
      let db2 := { db1 with m_info := info, m_images := imageIdMap_set db.m_images img.id ind }
      if db.has_sigFile then
        -- size_t ofs = get_sig_cache();
        let ofs := db.m_cacheOfs
        let db3 := { db2 with m_cacheOfs := db.m_cacheOfs + sizeof_ImgData }
        -- if (ofs != ind * sizeof(ImgData)) throw internal_error("Index and cache out of sync!");
        if ofs ≠ ind * sizeof_ImgData then (db3, some .internal_error)
        else
          ({ db3 with sigCache := write_sig_cache db.sigCache ofs img,
                      imgbuckets := db.imgbuckets.add simple_bucket_add img ind }, none)
      else
        ({ db2 with imgbuckets := db.imgbuckets.add simple_bucket_add img ind }, none)

/-- The method `dbSpaceImpl<true>::removeImage`:
`m_info[find(id).index()].avgl.v[0] = 0; m_images.erase(id);`. -/
def dbSpaceImpl_true.removeImage (db : dbSpaceImpl_true) (id : imageId) :
    dbSpaceImpl_true × Option Error :=
  match imageIdMap_find db.m_images id with
  | none => (db, some .invalid_id)
  | some ind =>
    ({ db with m_info := db.m_info.modify (fun e => { e with avgl := { e.avgl with v0 := 0 } }) ind,
               m_images := imageIdMap_erase db.m_images id }, none)

/-- The method `dbSpaceImpl<true>::setImageRes`. -/
def dbSpaceImpl_true.setImageRes (db : dbSpaceImpl_true) (id : imageId) (width height : Int) :
    dbSpaceImpl_true × Option Error :=
  match imageIdMap_find db.m_images id with
  | none => (db, some .invalid_id)
  | some ind =>
    ({ db with m_info :=
        db.m_info.modify (fun e => { e with width := toUInt16 width, height := toUInt16 height }) ind },
     none)

/-- The end of `dbSpaceImpl<true>::load`: `set_base()` on every bucket, buckets valid. -/
def dbSpaceImpl_true.load_done (db : dbSpaceImpl_true) : dbSpaceImpl_true :=
  { db with imgbuckets := { buckets := fun c p i => (db.imgbuckets.buckets c p i).set_base },
            m_bucketsValid := true }

/-- The method `dbSpaceImpl<true>::rehash`: `throw usage_error("Invalid for read-only db.")`. -/
def dbSpaceImpl_true.rehash (db : dbSpaceImpl_true) : dbSpaceImpl_true × Option Error :=
  (db, some .usage_error)

/-! ### dbSpaceAlter: alter mode -/

/-- The class `dbSpaceAlter`. The database file `m_f` is represented by the records it holds:
`file_ids` is the image id stored at a byte offset, `file_sigs` the `ImgData` record stored at a
byte offset, and `hdr_count`, `hdr_sigOff`, `hdr_buckets` are the header fields at `m_hdrOff`. -/
structure dbSpaceAlter where
  m_images : List (imageId × Nat)
  file_ids : Nat → Option imageId
  file_sigs : Nat → Option ImgData
  hdr_count : Nat
  hdr_sigOff : Nat
  hdr_buckets : bucket_set alter_bucket
  m_hdrOff : Nat
  m_sigOff : Nat
  m_imgOff : Nat
  m_buckets : bucket_set alter_bucket
  m_deleted : List Nat
  m_rewriteIDs : Bool
  m_readonly : Bool

/-- The method `dbSpaceAlter::hasImage`. -/
def dbSpaceAlter.hasImage (db : dbSpaceAlter) (id : imageId) : Bool :=
  (imageIdMap_find db.m_images id).isSome

/-- The method `dbSpaceAlter::getImgCount`. -/
def dbSpaceAlter.getImgCount (db : dbSpaceAlter) : Nat := db.m_images.length

/-- The method `dbSpaceAlter::getImgIdList`. -/
def dbSpaceAlter.getImgIdList (db : dbSpaceAlter) : List imageId := db.m_images.map Prod.fst

/-- The method `dbSpaceAlter::get_sig`: the record at `m_sigOff + ind * sizeof(ImgData)`. -/
def dbSpaceAlter.get_sig (db : dbSpaceAlter) (ind : Nat) : Option ImgData :=
  db.file_sigs (db.m_sigOff + ind * sizeof_ImgData)

/-- Writing the record `sig` at byte offset `off` of the file. -/
def write_sig_at (f : Nat → Option ImgData) (off : Nat) (sig : ImgData) : Nat → Option ImgData :=
  fun o => if o = off then some sig else f o

/-- Writing the id `id` at byte offset `off` of the file. -/
def write_id_at (f : Nat → Option imageId) (off : Nat) (id : imageId) : Nat → Option imageId :=
  fun o => if o = off then some id else f o

/-- The number `numrel` of signatures `resize_header` relocates, making room for 1024 ids. -/
def resize_numrel : Nat := (1024 * sizeof_imageId + sizeof_ImgData - 1) / sizeof_ImgData

/-- Reading `n` consecutive records from byte offset `off` (`m_f->read(sigs, numrel)`). -/
def read_sigs (f : Nat → Option ImgData) (off : Nat) : Nat → Option (List ImgData)
  | 0 => some []
  | n + 1 =>
    match f off, read_sigs f (off + sizeof_ImgData) n with
    | some s, some rest => some (s :: rest)
    | _, _ => none

/-- Writing consecutive records from byte offset `off` on (`m_f->write(sigs, numrel)`). -/
def write_sigs (f : Nat → Option ImgData) (off : Nat) : List ImgData → Nat → Option ImgData
  | [] => f
  | s :: rest => write_sigs (write_sig_at f off s) (off + sizeof_ImgData) rest

/-- The method `dbSpaceAlter::resize_header`. -/
def dbSpaceAlter.resize_header (db : dbSpaceAlter) : dbSpaceAlter × Option Error :=
  if db.m_readonly then (db, some .usage_error)
  else
    let numrel := resize_numrel
    -- if (m_images.size() < numrel) throw internal_error(...);
    if db.m_images.length < numrel then (db, some .internal_error)
    else
      -- m_f->seekg(m_sigOff); m_f->read(sigs, numrel);
      match read_sigs db.file_sigs db.m_sigOff numrel with
      | none => (db, some .io_error)
      | some sigs =>
        -- off_t writeOff = m_sigOff + m_images.size() * sizeof(ImgData); m_sigOff = m_f->tellg();
        let writeOff := db.m_sigOff + db.m_images.length * sizeof_ImgData
        let sigOff := db.m_sigOff + numrel * sizeof_ImgData
        -- itr->second = (itr->second >= numrel ? itr->second - numrel : itr->second + addrel);
        let addrel := db.m_images.length - numrel
        ({ db with m_sigOff := sigOff,
                   file_sigs := write_sigs db.file_sigs writeOff sigs,
                   m_images := db.m_images.map
                     (fun p => (p.1, if numrel ≤ p.2 then p.2 - numrel else p.2 + addrel)),
                   m_rewriteIDs := true }, none)

/-- The tail of `dbSpaceAlter::addImageData` once the slot `ind` is chosen. -/
def dbSpaceAlter.store (db : dbSpaceAlter) (img : ImgData) (ind : Nat) : dbSpaceAlter :=
  { db with
    -- if (!m_rewriteIDs) { m_f->seekp(m_imgOff + ind * sizeof(imageId)); m_f->write(img->id); }
    file_ids := if db.m_rewriteIDs then db.file_ids
                else write_id_at db.file_ids (db.m_imgOff + ind * sizeof_imageId) img.id,
    -- m_f->seekp(m_sigOff + ind * sizeof(ImgData)); m_f->write(*img);
    file_sigs := write_sig_at db.file_sigs (db.m_sigOff + ind * sizeof_ImgData) img,
    -- m_buckets.add(*img, ind); m_images[img->id] = ind;
    m_buckets := db.m_buckets.add alter_bucket_add img ind,
    m_images := imageIdMap_set db.m_images img.id ind }

/-- The method `dbSpaceAlter::addImageData`. -/
def dbSpaceAlter.addImageData (db : dbSpaceAlter) (img : ImgData) : dbSpaceAlter × Option Error :=
  -- if (m_readonly) throw usage_error("Not possible in imgdata mode.");
  if db.m_readonly then (db, some .usage_error)
  -- if (hasImage(img->id)) throw duplicate_id("Image already in database.");
  else if db.hasImage img.id then (db, some .duplicate_id)
  else
    match db.m_deleted.getLast? with
    | some ind =>
      -- ind = m_deleted.back(); m_deleted.pop_back();
      (({ db with m_deleted := db.m_deleted.dropLast }).store img ind, none)
    | none =>
      let ind := db.m_images.length
      if db.m_sigOff ≤ db.m_imgOff + (ind + 1) * sizeof_imageId then
        -- resize_header(); if (still too small) throw internal_error("resize_header failed!");
        match db.resize_header with
        | (db1, some e) => (db1, some e)
        | (db1, none) =>
          if db1.m_sigOff ≤ db1.m_imgOff + (ind + 1) * sizeof_imageId then (db1, some .internal_error)
          else (db1.store img ind, none)
      else (db.store img ind, none)

/-- The method `dbSpaceAlter::removeImage`. -/
def dbSpaceAlter.removeImage (db : dbSpaceAlter) (id : imageId) : dbSpaceAlter × Option Error :=
  -- if (m_readonly) throw usage_error("Not possible in imgdata mode.");
  if db.m_readonly then (db, some .usage_error)
  else
    -- ImageMap::iterator itr = find(id); m_deleted.push_back(itr->second); m_images.erase(itr);
    match imageIdMap_find db.m_images id with
    | none => (db, some .invalid_id)
    | some ind =>
      ({ db with m_deleted := db.m_deleted ++ [ind], m_images := imageIdMap_erase db.m_images id },
       none)

/-- The state of `dbSpaceAlter` after `load` of the file normal mode writes for an empty
database: a 4-byte version code, the count and the signature offset (`m_hdrOff = 4`), 98304
bucket sizes, then the id table at `m_imgOff` and the signatures at `m_sigOff`. -/
def dbSpaceAlter.load_empty : dbSpaceAlter :=
  { m_images := [], file_ids := fun _ => none, file_sigs := fun _ => none,
    hdr_count := 0, hdr_sigOff := 794636,
    hdr_buckets := { buckets := fun _ _ _ => { size := 0 } },
    m_hdrOff := 4, m_sigOff := 794636, m_imgOff := 786452,
    m_buckets := { buckets := fun _ _ _ => { size := 0 } },
    m_deleted := [], m_rewriteIDs := false, m_readonly := false }

/-! ### Sequences of calls on an alter-mode database -/

/-- A call of `addImageData` or of `removeImage`. -/
inductive AlterOp where
  | add (img : ImgData)
  | remove (id : imageId)

/-- The state left by one call (whether it returned or raised). -/
def dbSpaceAlter.apply (db : dbSpaceAlter) : AlterOp → dbSpaceAlter
  | .add img => (db.addImageData img).1
  | .remove id => (db.removeImage id).1

/-- The state left by a sequence of calls. -/
def dbSpaceAlter.run (db : dbSpaceAlter) (ops : List AlterOp) : dbSpaceAlter :=
  ops.foldl dbSpaceAlter.apply db

/-- The ids added and not removed since, starting from the ids `ids`: an add of an id that is
present and a remove of an id that is absent change nothing. -/
def liveIds (ids : List imageId) : List AlterOp → List imageId
  | [] => ids
  | .add img :: ops => liveIds (if img.id ∈ ids then ids else ids ++ [img.id]) ops
  | .remove id :: ops => liveIds (ids.filter (fun x => x ≠ id)) ops

/-- A well-formed alter-mode database, as `load` builds it from a file written by `save_file`
and as the mutators keep it: writable, one map entry per id, every slot in use or pending
holding a record, the id table of the used and pending slots ending before the signatures, and
a header that left room for at least 17 ids. -/
def dbSpaceAlter.wf (db : dbSpaceAlter) : Prop :=
  db.m_readonly = false ∧
  (db.m_images.map Prod.fst).Nodup ∧
  (∀ k, k < db.m_images.length + db.m_deleted.length →
    (db.file_sigs (db.m_sigOff + k * sizeof_ImgData)).isSome = true) ∧
  db.m_imgOff + sizeof_imageId * (db.m_images.length + db.m_deleted.length) < db.m_sigOff ∧
  db.m_imgOff + 17 * sizeof_imageId ≤ db.m_sigOff

/-! ### Sample signatures -/

/-- The `NUM_COEFS` consecutive coefficients starting at `start`. -/
def coefRun (start : Int) : List Int := (List.range NUM_COEFS).map (fun k => start + (k : Int))

/-- A colour image: luminance 0.5, chrominance 0.1 and 0.1. -/
def sampleA : ImgData :=
  { id := 1, sig1 := coefRun 100, sig2 := coefRun 200, sig3 := coefRun (-339),
    avglf := { v0 := 524288, v1 := 104858, v2 := 104858 }, width := 800, height := 600 }

/-- A second colour image: luminance 1.0, chrominance 0.2 and 0.1. -/
def sampleB : ImgData :=
  { id := 2, sig1 := coefRun 1000, sig2 := coefRun 2000, sig3 := coefRun (-3039),
    avglf := { v0 := 1048576, v1 := 209715, v2 := 104858 }, width := 640, height := 480 }

/-- An image that is black all over: the three averages are zero. -/
def sampleBlack : ImgData :=
  { id := 7, sig1 := coefRun 1, sig2 := coefRun 1, sig3 := coefRun 1,
    avglf := { v0 := 0, v1 := 0, v2 := 0 }, width := 100, height := 100 }

/-- A grayscale image: luminance 0.5, chrominance 0 and 0. -/
def sampleGray : ImgData :=
  { id := 3, sig1 := coefRun 100, sig2 := coefRun 200, sig3 := coefRun (-339),
    avglf := { v0 := 524288, v1 := 0, v2 := 0 }, width := 320, height := 240 }

/-- The normal-mode database that holds `sampleA` and `sampleB`. -/
def sampleDbNormal : dbSpaceImpl_false :=
  ((dbSpaceImpl_false.create.addImageData sampleA).1.addImageData sampleB).1

/-! ### Well-formed signatures, reachable states of normal mode -/

/-- A coefficient array of the data model: `NUM_COEFS` values, none zero, each of magnitude
below `bucket_set::count_2`. -/
def sig_wf (sig : List Int) : Prop :=
  sig.length = NUM_COEFS ∧ ∀ x ∈ sig, x ≠ 0 ∧ x.natAbs < bucket_set_count_2

/-- A signature of the data model: three well-formed coefficient arrays. -/
def ImgData.wf (d : ImgData) : Prop := sig_wf d.sig1 ∧ sig_wf d.sig2 ∧ sig_wf d.sig3

/-- The states of a normal-mode database reachable from a new database by `addImageData` (of
signatures of the data model), `removeImage` and `rehash`, whether the call returns or raises,
`rehash` being called only while every bucket holds fewer than 1152 ids (two pages and a tail:
with its 1152nd id a bucket is given its third page of the scratch file). -/
inductive NormalReachable : dbSpaceImpl_false → Prop where
  | create : NormalReachable dbSpaceImpl_false.create
  | add (db : dbSpaceImpl_false) (img : ImgData) :
      NormalReachable db → img.wf → NormalReachable (db.addImageData img).1
  | remove (db : dbSpaceImpl_false) (id : imageId) :
      NormalReachable db → NormalReachable (db.removeImage id).1
  | rehash (db : dbSpaceImpl_false) : NormalReachable db →
      (∀ c p i, (db.imgbuckets.buckets c p i).size < 2 * pageImgs + paged_threshold) →
      NormalReachable db.rehash.1

/-- The bucket `(c, sig[c][k] < 0, |sig[c][k]|)` of coefficient `x` of channel `c`. -/
def coefBucket (db : dbSpaceImpl_false) (c : Nat) (x : Int) : imageIdIndex_list_paged :=
  db.imgbuckets.buckets c (if x < 0 then 1 else 0) x.natAbs

/-- First half of the bucket invariant: for every image of the catalog, with its signature in
the cache, every `k < NUM_COEFS` and every channel `c` (0 always, 1 and 2 unless the image is
grayscale), the bucket of `sig[c][k]` holds the id of the image. -/
def bucketsCoverCatalog (db : dbSpaceImpl_false) : Prop :=
  ∀ (id : imageId) (ss : SigStruct) (sig : ImgData),
    imageIdMap_find db.m_images id = some ss →
    read_sig_cache db.sigCache ss.cacheOfs = .ok sig →
    ∀ k c, k < NUM_COEFS → c < 3 → (c = 0 ∨ is_grayscale (avglf2i sig.avglf) = false) →
      id ∈ (coefBucket db c (sigAt (sig.sig c) k)).contents db.m_fd

/-- Second half of the bucket invariant: an id held by the bucket `(c, pn, idx)` is the id of an
image of the catalog whose signature has the coefficient of sign `pn` and magnitude `idx` in
channel `c` (channels 1 and 2 only for an image that is not grayscale). -/
def bucketsOnlyFromCatalog (db : dbSpaceImpl_false) : Prop :=
  ∀ (c pn idx : Nat) (id : imageId), id ∈ (db.imgbuckets.buckets c pn idx).contents db.m_fd →
    ∃ (ss : SigStruct) (sig : ImgData),
      imageIdMap_find db.m_images id = some ss ∧
      read_sig_cache db.sigCache ss.cacheOfs = .ok sig ∧
      c < 3 ∧ (c = 0 ∨ is_grayscale (avglf2i sig.avglf) = false) ∧
      ∃ k, k < NUM_COEFS ∧ sigAt (sig.sig c) k ≠ 0 ∧
        pn = (if sigAt (sig.sig c) k < 0 then 1 else 0) ∧ idx = (sigAt (sig.sig c) k).natAbs

/-- The signature `d` puts its id into the bucket `(c, pn, idx)`. -/
def ImgData.hits (d : ImgData) (c pn idx : Nat) : Prop :=
  c < 3 ∧ (c = 0 ∨ is_grayscale (avglf2i d.avglf) = false) ∧
  ∃ k, k < NUM_COEFS ∧ sigAt (d.sig c) k ≠ 0 ∧
    pn = (if sigAt (d.sig c) k < 0 then 1 else 0) ∧ idx = (sigAt (d.sig c) k).natAbs

/-- Consistency of a paged bucket with the scratch file `f`: every chunk is one page of the
file, the chunks are different pages, `m_capacity` counts their entries, of which `m_size` are
in use; the tail is below the threshold at which it is paged out, `m_size` a multiple of it;
and either the bucket has at most two pages or `m_size` lies in its last page (as it does while
a bucket only grows). -/
structure imageIdIndex_list_paged.ok (b : imageIdIndex_list_paged) (f : bucket_file) : Prop where
  pages : ∀ pg, pg ∈ b.m_pages → pg.2 = pageSize ∧ pg.1 % pageSize = 0 ∧ pg.1 + pageSize ≤ f.size
  nodup : (b.m_pages.map Prod.fst).Nodup
  capacity : b.m_capacity = pageImgs * b.m_pages.length
  size_le : b.m_size ≤ b.m_capacity
  size_mod : b.m_size % paged_threshold = 0
  tail_lt : b.m_tail.length < paged_threshold
  last_page : b.m_pages.length ≤ 2 ∨ (b.m_size + pageImgMask) / pageImgs * pageImgs = b.m_capacity
  baseofs : b.m_baseofs = 0

/-- A second image with the id of `sampleA` and other coefficients. -/
def sampleA2 : ImgData :=
  { id := 1, sig1 := coefRun 500, sig2 := coefRun 600, sig3 := coefRun 700,
    avglf := { v0 := 524288, v1 := 104858, v2 := 104858 }, width := 800, height := 600 }

/-- The coefficient `x` of channel `c0` belongs to the bucket `(c, pn, idx)`. -/
def coefHit (c0 : Nat) (x : Int) (c pn idx : Nat) : Prop :=
  c = c0 ∧ x ≠ 0 ∧ pn = (if x < 0 then 1 else 0) ∧ idx = x.natAbs

instance (c0 : Nat) (x : Int) (c pn idx : Nat) : Decidable (coefHit c0 x c pn idx) := by
  unfold coefHit; infer_instance

/-- The ids iteration `i` of the loop of `bucket_set::add` appends to the bucket `(c, pn, idx)`. -/
def stepAdds (nsig : ImgData) (i c pn idx : Nat) : List imageId :=
  (if coefHit 0 (sigAt nsig.sig1 i) c pn idx then [nsig.id] else []) ++
  (if is_grayscale (avglf2i nsig.avglf) then []
   else (if coefHit 1 (sigAt nsig.sig2 i) c pn idx then [nsig.id] else []) ++
        (if coefHit 2 (sigAt nsig.sig3 i) c pn idx then [nsig.id] else []))

/-- The ids the first `n` iterations of `bucket_set::add` append to the bucket `(c, pn, idx)`. -/
def addsUpTo (nsig : ImgData) (c pn idx : Nat) : Nat → List imageId
  | 0 => []
  | n + 1 => addsUpTo nsig c pn idx n ++ stepAdds nsig n c pn idx

/-- Consistency of the buckets of normal mode with their scratch file `f`: the file is a whole
number of pages, every bucket is consistent with it, no page belongs to two buckets, and the
buckets outside the array `buckets[3][2][16384]` are unused. -/
structure AllOk (f : bucket_file) (bs : bucket_set imageIdIndex_list_paged) : Prop where
  aligned : f.size % pageSize = 0
  each : ∀ c p i, (bs.buckets c p i).ok f
  disjoint : ∀ c p i c1 p1 i1 pg pg1, pg ∈ (bs.buckets c p i).m_pages →
    pg1 ∈ (bs.buckets c1 p1 i1).m_pages → pg.1 = pg1.1 → c = c1 ∧ p = p1 ∧ i = i1
  outside : ∀ c p i, ¬ (c < bucket_set_count_0 ∧ p < bucket_set_count_1 ∧ i < bucket_set_count_2) →
    bs.buckets c p i = imageIdIndex_list_paged.empty

/-- The invariant of a normal-mode database: one map entry per id; every image has its
signature, well formed and with its id, in the cache below `m_cacheOfs`; the buckets are
consistent with the scratch file; every image is in the buckets of its coefficients; and, while
the buckets are valid, the buckets hold nothing else. -/
structure NormalInv (db : dbSpaceImpl_false) : Prop where
  nodup : (db.m_images.map Prod.fst).Nodup
  cache : ∀ id ss, (id, ss) ∈ db.m_images → ss.cacheOfs < db.m_cacheOfs ∧
    ∃ sig, read_sig_cache db.sigCache ss.cacheOfs = .ok sig ∧ sig.id = id ∧ sig.wf
  allok : AllOk db.m_fd db.imgbuckets
  cover : ∀ id ss sig, (id, ss) ∈ db.m_images → read_sig_cache db.sigCache ss.cacheOfs = .ok sig →
    ∀ c p i, sig.hits c p i → id ∈ (db.imgbuckets.buckets c p i).contents db.m_fd
  only : db.m_bucketsValid = true → ∀ c p i x,
    x ∈ (db.imgbuckets.buckets c p i).contents db.m_fd →
    ∃ ss sig, (x, ss) ∈ db.m_images ∧ read_sig_cache db.sigCache ss.cacheOfs = .ok sig ∧
      sig.hits c p i

/-! ## imgdb.cpp: queries on a read-only database -/

/-- The flag `dbSpace::flag_sketch`. -/
def flag_sketch : Nat := 0x01

/-- The flag `dbSpace::flag_grayscale`. -/
def flag_grayscale : Nat := 0x02

/-- The flag `dbSpace::flag_uniqueset`. -/
def flag_uniqueset : Nat := 0x08

/-- The flag `dbSpace::flag_nocommon`. -/
def flag_nocommon : Nat := 0x10

/-- The flag `dbSpace::flag_fast`. -/
def flag_fast : Nat := 0x20

/-- The flag `dbSpace::flag_mask`. -/
def flag_mask : Nat := 0x10000000

/-- The test `flags & f` of a flag. -/
def hasFlag (flags f : Nat) : Bool := flags &&& f != 0

/-- The struct `queryArg` (with the fields of `queryOpt` that the query reads); `flags` is the
bit pattern of the `int`. -/
structure queryArg where
  flags : Nat
  mask_and : Nat
  mask_xor : Nat
  sig1 : List Int
  sig2 : List Int
  sig3 : List Int
  avgl : lumin_native
  numres : Nat
  deriving DecidableEq, Repr

/-- The array `sig[c]` of a `queryArg`. -/
def queryArg.sig (q : queryArg) (c : Nat) : List Int :=
  match c with
  | 0 => q.sig1
  | 1 => q.sig2
  | _ => q.sig3

/-- The constructor `queryArg(const ImgData& img, unsigned int numres, int flags)`:
`queryOpt(flags)` clears the masks and `queryFromImgData` copies the signature and sets `avgl`. -/
def queryArg.ofImgData (img : ImgData) (numres flags : Nat) : queryArg :=
  { flags := flags, mask_and := 0, mask_xor := 0,
    sig1 := img.sig1, sig2 := img.sig2, sig3 := img.sig3,
    avgl := avglf2i img.avglf, numres := numres }

/-- The table `weights[sketch][band][c]` of the fixed-point build:
`lrint(weightsf[sketch][band][c] * ScoreMax)` for the single-precision constants of `imglib.h`. -/
def weights (sketch band c : Nat) : Int :=
  match sketch, band, c with
  | 0, 0, 0 => 5242880 | 0, 0, 1 => 20143144 | 0, 0, 2 => 36039556
  | 0, 1, 0 => 870318  | 0, 1, 1 => 1321206  | 0, 1, 2 => 377487
  | 0, 2, 0 => 1059062 | 0, 2, 1 => 461373   | 0, 2, 2 => 471859
  | 0, 3, 0 => 545260  | 0, 3, 1 => 555745   | 0, 3, 2 => 146801
  | 0, 4, 0 => 492831  | 0, 4, 1 => 293601   | 0, 4, 2 => 188744
  | 0, 5, 0 => 314573  | 0, 5, 1 => 146801   | 0, 5, 2 => 283116
  | 1, 0, 0 => 4236247 | 1, 0, 1 => 15875441 | 1, 0, 2 => 23718790
  | 1, 1, 0 => 817889  | 1, 1, 1 => 964690   | 1, 1, 2 => 419430
  | 1, 2, 0 => 482345  | 1, 2, 1 => 555745   | 1, 2, 2 => 660603
  | 1, 3, 0 => 440402  | 1, 3, 1 => 272630   | 1, 3, 2 => 262144
  | 1, 4, 0 => 429916  | 1, 4, 1 => 146801   | 1, 4, 2 => 157286
  | 1, 5, 0 => 335544  | 1, 5, 1 => 73400    | 1, 5, 2 => 398459
  | _, _, _ => 0

/-- The table `imgBin` as `initImgBin` fills it: `max(i, j)` on the 5 by 5 upper-left block of
the `NUM_PIXELS` by `NUM_PIXELS` grid, 5 elsewhere. -/
def imgBin (idx : Nat) : Nat :=
  if idx / NUM_PIXELS < 5 ∧ idx % NUM_PIXELS < 5 then max (idx / NUM_PIXELS) (idx % NUM_PIXELS)
  else 5

/-- The luminance score of one catalog entry, the inner loop of the first phase of `do_query`:
`s += DScSc(((DScore)weights[sketch][0][c]) * std::abs(itr.avgl().v[c] - q.avgl.v[c]))`
for `c < num_colors`. -/
def dc_score (sketch num_colors : Nat) (q : queryArg) (e : image_info) : Int :=
  (List.range num_colors).foldl
    (fun s c =>
      toScore (s + DScSc (toDScore (weights sketch 0 c * toScore |toScore (e.avgl.v c - q.avgl.v c)|))))
    0

/-- The statement `scores[index] -= weight` on every index of `idxs`; an index past the scores
of the catalog entries is undefined behaviour. -/
def scores_sub (weight : Int) : List Nat → List Int → Except Error (List Int)
  | [], scores => .ok scores
  | i :: rest, scores =>
    if i < scores.length then scores_sub weight rest (scores.modify (fun s => toScore (s - weight)) i)
    else .error .undefined_behaviour

/-- The indices a read-only bucket holds, as `do_query` walks them: the mapped base from
`begin()` to `end()`, then the tail. -/
def imageIdIndex_list_simple.indices (b : imageIdIndex_list_simple) : Option (List Nat) :=
  match b.m_base.toList, b.m_tail.toList with
  | some l1, some l2 => some (l1 ++ l2)
  | _, _ => none

/-- The body of the coefficient loops of `do_query` for coefficient `b` of colour `c`, on the
pair `(scale, scores)`. -/
def coef_step (db : dbSpaceImpl_true) (q : queryArg) (sketch : Nat) (st : Int × List Int)
    (bc : Nat × Nat) : Except Error (Int × List Int) :=
  -- bucket_type& bucket = imgbuckets.at(c, q.sig[c][b], &idx);
  let r := db.imgbuckets.at bc.2 (sigAt (q.sig bc.2) bc.1)
  -- if (bucket.empty()) continue;
  if r.1.is_empty then .ok st
  -- if (q.flags & flag_nocommon && bucket.size() > count / 10) continue;
  else if hasFlag q.flags flag_nocommon && decide (db.m_nextIndex / 10 < r.1.size) then .ok st
  else
    -- Score weight = weights[sketch][imgBin[idx]][c];  scale -= weight;
    let weight := weights sketch (imgBin r.2) bc.2
    match r.1.indices with
    | none => .error .undefined_behaviour
    | some idxs =>
      match scores_sub weight idxs st.2 with
      | .error e => .error e
      | .ok scores => .ok (toScore (st.1 - weight), scores)

/-- The pairs `(b, c)` the coefficient loops visit, in order:
`for (b = (flags & flag_fast) ? NUM_COEFS : 0; b < NUM_COEFS; b++) for (c = 0; c < num_colors; c++)`. -/
def coef_pairs (flags num_colors : Nat) : List (Nat × Nat) :=
  let start := if hasFlag flags flag_fast then NUM_COEFS else 0
  (List.range' start (NUM_COEFS - start)).foldr
    (fun b acc => (List.range num_colors).map (fun c => (b, c)) ++ acc) []

/-- Running `coef_step` over a list of pairs. -/
def coef_loop (db : dbSpaceImpl_true) (q : queryArg) (sketch : Nat) :
    List (Nat × Nat) → Int × List Int → Except Error (Int × List Int)
  | [], st => .ok st
  | bc :: rest, st =>
    match coef_step db q sketch st bc with
    | .error e => .error e
    | .ok st1 => coef_loop db q sketch rest st1

/-- The first two phases of `do_query<num_colors>`: the luminance scores of all entries of
`m_info`, then the coefficient loops; the result is `(scale, scores)`. -/
def score_phase (db : dbSpaceImpl_true) (q : queryArg) (num_colors : Nat) :
    Except Error (Int × List Int) :=
  let sketch := if hasFlag q.flags flag_sketch then 1 else 0
  -- AutoCleanArray<Score> scores(count): an entry past m_nextIndex is written out of bounds
  if db.m_nextIndex < db.m_info.length then .error .undefined_behaviour
  else
    coef_loop db q sketch (coef_pairs q.flags num_colors)
      (0, db.m_info.map (dc_score sketch num_colors q))

/-- The method `skip_image` for `is_simple = true`. -/
def skip_image (e : image_info) (q : queryArg) : Bool :=
  (e.avgl.v0 == 0) ||
  (hasFlag q.flags flag_mask && ((e.mask &&& q.mask_and) != q.mask_xor))

/-- The struct `sim_result<true>`: a score and the entry of `m_info` the iterator points to
(`ind` is its position). -/
structure sim_result where
  score : Int
  ind : Nat
  info : image_info
  deriving DecidableEq, Repr

/-- The method `push` of `std::priority_queue<sim_result>`, the queue being the list of its
elements from the top down (largest score first); among equal scores a new element goes below
the ones already there. -/
def pq_push (x : sim_result) : List sim_result → List sim_result
  | [] => [x]
  | y :: ys => if y.score < x.score then x :: y :: ys else y :: pq_push x ys

/-- The local state of the selection loops of `do_query`: the queue `pqResults`, the map `sets`
and the counter `need`. -/
structure SelState where
  pq : List sim_result
  sets : Nat → Nat
  need : Nat

/-- The statement `need += ++sets[k] > 1` (`need` an `unsigned int`, the count a `size_t`). -/
def sets_incr (st : SelState) (k : Nat) : SelState :=
  let cnt := (st.sets k + 1) % SIZE_T_MOD
  { st with sets := fun j => if j = k then cnt else st.sets j,
            need := if 1 < cnt then (st.need + 1) % 4294967296 else st.need }

/-- Pushing the entry `e` of score `s`, with the bookkeeping of `flag_uniqueset`. -/
def sel_push (q : queryArg) (st : SelState) (s : Int) (e : Nat × image_info) : SelState :=
  let st1 := { st with pq := pq_push { score := s, ind := e.1, info := e.2 } st.pq }
  if hasFlag q.flags flag_uniqueset then sets_incr st1 e.2.set else st1

/-- The first selection loop: `while (pqResults.size() < need && itr != image_end())`. It
returns the state and the entries not yet visited. -/
def sel_fill (q : queryArg) (scores : List Int) :
    List (Nat × image_info) → SelState → Except Error (SelState × List (Nat × image_info))
  | [], st => .ok (st, [])
  | e :: es, st =>
    if st.pq.length < st.need then
      if skip_image e.2 q then sel_fill q scores es st
      else
        match scores[e.1]? with
        | none => .error .undefined_behaviour
        | some s => sel_fill q scores es (sel_push q st s e)
    else .ok (st, e :: es)

/-- The loop `while (pqResults.size() > need || sets[top.set()] > 1)` of the second selection
loop: each round takes `need -= sets[top.set()]-- > 1` and pops the top. The test reads the top
of the queue, which is undefined when the queue is empty. -/
def sel_drain : List sim_result → (Nat → Nat) → Nat → Except Error SelState
  | [], _, _ => .error .undefined_behaviour
  | top :: rest, sets, need =>
    if need < (top :: rest).length ∨ 1 < sets top.info.set then
      let cnt := sets top.info.set
      let need1 := if 1 < cnt then (need + 4294967296 - 1) % 4294967296 else need
      let sets1 := fun j => if j = top.info.set then (cnt + SIZE_T_MOD - 1) % SIZE_T_MOD else sets j
      sel_drain rest sets1 need1
    else .ok { pq := top :: rest, sets := sets, need := need }

/-- The second selection loop: `for (; itr != image_end(); ++itr)`. -/
def sel_replace (q : queryArg) (scores : List Int) :
    List (Nat × image_info) → SelState → Except Error SelState
  | [], st => .ok st
  | e :: es, st =>
    match scores[e.1]?, st.pq with
    | none, _ => .error .undefined_behaviour
    -- pqResults.top() on an empty queue
    | some _, [] => .error .undefined_behaviour
    | some s, top :: rest =>
      -- if (scores[itr.index()] < pqResults.top().score)
      if s < top.score then
        if skip_image e.2 q then sel_replace q scores es st
        else if hasFlag q.flags flag_uniqueset then
          let st1 := sel_push q st s e
          match sel_drain st1.pq st1.sets st1.need with
          | .error err => .error err
          | .ok st2 => sel_replace q scores es st2
        else
          -- pqResults.pop(); pqResults.push(...)
          sel_replace q scores es { st with pq := pq_push { score := s, ind := e.1, info := e.2 } rest }
      else sel_replace q scores es st

/-- The entries of a list with their positions, from `n` on. -/
def indexedFrom {α : Type} : Nat → List α → List (Nat × α)
  | _, [] => []
  | n, x :: xs => (n, x) :: indexedFrom (n + 1) xs

/-- The inverted scale of `do_query`:
`if (scale != 0) scale = ((DScore)MakeScore(1)) * MakeScore(1) / scale;`. -/
def invert_scale (scale : Int) : Int :=
  if scale ≠ 0 then toScore (Int.tdiv (toDScore (MakeScore 1 * MakeScore 1)) scale) else scale

/-- The score of a result: `DScSc(((DScore)curResTmp.score) * 100 * scale)`, passed to the
`Score` parameter of the constructor of `sim_value`. -/
def result_score (score scale : Int) : Int :=
  toScore (DScSc (toDScore (toDScore (score * 100) * scale)))

/-- The loop `while (!pqResults.empty())` that empties the queue into `V`, in the order of the
pops (before `std::reverse`). -/
def sel_emit (q : queryArg) (scale : Int) : List sim_result → (Nat → Nat) → List sim_value
  | [], _ => []
  | top :: rest, sets =>
    if hasFlag q.flags flag_uniqueset then
      -- sets[itr.set()]-- < 2
      let cnt := sets top.info.set
      let sets1 := fun j => if j = top.info.set then (cnt + SIZE_T_MOD - 1) % SIZE_T_MOD else sets j
      if cnt < 2 then
        { id := top.info.id, score := result_score top.score scale,
          width := top.info.width, height := top.info.height } :: sel_emit q scale rest sets1
      else sel_emit q scale rest sets1
    else
      { id := top.info.id, score := result_score top.score scale,
        width := top.info.width, height := top.info.height } :: sel_emit q scale rest sets

/-- The selection phase of `do_query`: the two loops over the entries of `m_info`. -/
def select_phase (db : dbSpaceImpl_true) (q : queryArg) (scores : List Int) :
    Except Error SelState :=
  match sel_fill q scores (indexedFrom 0 db.m_info)
      { pq := [], sets := fun _ => 0, need := q.numres % 4294967296 } with
  | .error e => .error e
  | .ok (st, rest) => sel_replace q scores rest st

/-- The method `dbSpaceImpl<true>::do_query<num_colors>`. -/
def dbSpaceImpl_true.do_query (db : dbSpaceImpl_true) (q : queryArg) (num_colors : Nat) :
    Except Error (List sim_value) :=
  -- if (!m_bucketsValid) throw usage_error("Can't query with invalid buckets.");
  if db.m_bucketsValid = false then .error .usage_error
  else
    match score_phase db q num_colors with
    | .error e => .error e
    | .ok (scale, scores) =>
      match select_phase db q scores with
      | .error e => .error e
      | .ok st => .ok (sel_emit q (invert_scale scale) st.pq st.sets).reverse

/-- The method `dbSpaceImpl<true>::queryImg`. -/
def dbSpaceImpl_true.queryImg (db : dbSpaceImpl_true) (q : queryArg) :
    Except Error (List sim_value) :=
  if hasFlag q.flags flag_grayscale || is_grayscale q.avgl then db.do_query q 1
  else db.do_query q 3

/-! ### Sequences of calls on a read-only database -/

/-- A call that changes a read-only database: `addImageData`, `removeImage`, `setImageRes`, or
the end of `load`. -/
inductive ReadOnlyOp where
  | add (img : ImgData)
  | remove (id : imageId)
  | setImageRes (id : imageId) (width height : Int)
  | load_done

/-- The state left by one call (whether it returned or raised). -/
def dbSpaceImpl_true.apply (db : dbSpaceImpl_true) : ReadOnlyOp → dbSpaceImpl_true
  | .add img => (db.addImageData img).1
  | .remove id => (db.removeImage id).1
  | .setImageRes id w h => (db.setImageRes id w h).1
  | .load_done => db.load_done

/-- The state left by a sequence of calls. -/
def dbSpaceImpl_true.run (db : dbSpaceImpl_true) (ops : List ReadOnlyOp) : dbSpaceImpl_true :=
  ops.foldl dbSpaceImpl_true.apply db

/-- The states of a read-only database: those a sequence of calls reaches from a new one. -/
def ReadOnlyReachable (db : dbSpaceImpl_true) : Prop :=
  ∃ (with_struct : Bool) (ops : List ReadOnlyOp), db = (dbSpaceImpl_true.create with_struct).run ops

/-- The invariant linking `m_info` and `m_images`: an entry of `m_info` that is not a tombstone
is the one its id is mapped to. -/
def ReadOnlyInv (db : dbSpaceImpl_true) : Prop :=
  ∀ (i : Nat) (e : image_info), db.m_info[i]? = some e → e.avgl.v0 ≠ 0 →
    imageIdMap_find db.m_images e.id = some i

/-- The property of a queue element: it stands for an entry of the list `info` that the query
does not skip. -/
def fromCatalog (info : List image_info) (q : queryArg) (r : sim_result) : Prop :=
  r.info ∈ info ∧ skip_image r.info q = false

/-- The read-only database that holds `sampleA` and `sampleB`. -/
def sampleDb : dbSpaceImpl_true :=
  (((dbSpaceImpl_true.create false).addImageData sampleA).1.addImageData sampleB).1

/-- A query signature that shares one coefficient (200, channel 1) with `sampleA` and none with
`sampleB`, with the averages of `sampleA`. -/
def sampleQuery : queryArg :=
  { flags := 0, mask_and := 0, mask_xor := 0,
    sig1 := coefRun 5000, sig2 := 200 :: (coefRun 6001).take 39, sig3 := coefRun 7000,
    avgl := { v0 := 524288, v1 := 104858, v2 := 104858 }, numres := 8 }

/-! ## Operations a mode does not support -/

/-- The method `dbSpaceImpl<true>::save_file`: `throw usage_error("Can't save read-only db.")`. -/
def dbSpaceImpl_true.save_file (db : dbSpaceImpl_true) : dbSpaceImpl_true × Option Error :=
  (db, some .usage_error)

/-- The method `dbSpaceAlter::queryImg`: `throw usage_error("Not supported in alter mode.")`. -/
def dbSpaceAlter.queryImg (db : dbSpaceAlter) (_query : queryArg) :
    dbSpaceAlter × Except Error (List sim_value) :=
  (db, .error .usage_error)

/-- The method `dbSpaceAlter::getImgQueryArg`:
`throw usage_error("Not supported in alter mode.")`. -/
def dbSpaceAlter.getImgQueryArg (db : dbSpaceAlter) (_id : imageId) :
    dbSpaceAlter × Except Error queryArg :=
  (db, .error .usage_error)

/-! ## rehash: the buckets built from nothing -/

/-- A bucket set of normal mode with every bucket empty. -/
def emptyBuckets : bucket_set imageIdIndex_list_paged :=
  { buckets := fun _ _ _ => imageIdIndex_list_paged.empty }

/-- The cached signatures of the images of the catalog, in the order of the catalog, each with
the index the catalog iterator reports for it. -/
def dbSpaceImpl_false.cachedSigs (db : dbSpaceImpl_false) : List (ImgData × Nat) :=
  db.m_images.filterMap (fun p =>
    match read_sig_cache db.sigCache p.2.cacheOfs with
    | .ok sig => some (sig, p.2.index.getD 0)
    | .error _ => none)

/-- Calling `bucket_set::add` for every signature of `sigs` in turn, up to the first exception. -/
def addAll : List (ImgData × Nat) → bucket_file × bucket_set imageIdIndex_list_paged →
    (bucket_file × bucket_set imageIdIndex_list_paged) × Option Error
  | [], st => (st, none)
  | s :: rest, st =>
    match (bucket_set.add_shared paged_bucket_add st s.1 s.2).2 with
    | some e => ((bucket_set.add_shared paged_bucket_add st s.1 s.2).1, some e)
    | none => addAll rest (bucket_set.add_shared paged_bucket_add st s.1 s.2).1

/-- Calling `bucket_set::add` on empty buckets, with a new scratch file, for every signature of
`sigs` in turn. -/
def reinsertAll (sigs : List (ImgData × Nat)) :
    (bucket_file × bucket_set imageIdIndex_list_paged) × Option Error :=
  addAll sigs (bucket_file.empty, emptyBuckets)

/-! ## nocommon: which buckets count -/

/-- The bucket the coefficient loops of a query look up for the pair `bc = (b, c)`. -/
def lookedUpBucket (db : dbSpaceImpl_true) (q : queryArg) (bc : Nat × Nat) :
    imageIdIndex_list_simple :=
  (db.imgbuckets.at bc.2 (sigAt (q.sig bc.2) bc.1)).1

/-- A looked-up bucket counts, in the words of the specification: it is not empty and, when the
flag `nocommon` is set, it holds at most 10 % of the `next_index` entries of the catalog. -/
def bucketCounts (db : dbSpaceImpl_true) (q : queryArg) (bc : Nat × Nat) : Prop :=
  (lookedUpBucket db q bc).is_empty = false ∧
  (hasFlag q.flags flag_nocommon = true → 10 * (lookedUpBucket db q bc).size ≤ db.m_nextIndex)

instance (db : dbSpaceImpl_true) (q : queryArg) (bc : Nat × Nat) :
    Decidable (bucketCounts db q bc) := by
  unfold bucketCounts; infer_instance

/-- What a bucket that counts does to `(scale, scores)`, in the words of the specification: the
weight of the coefficient is subtracted from the score of every entry the bucket lists (base,
then tail) and once from the scale. -/
def bucketContribution (db : dbSpaceImpl_true) (q : queryArg) (sketch : Nat)
    (st : Int × List Int) (bc : Nat × Nat) : Except Error (Int × List Int) :=
  let w := weights sketch (imgBin (sigAt (q.sig bc.2) bc.1).natAbs) bc.2
  match (lookedUpBucket db q bc).indices with
  | none => .error .undefined_behaviour
  | some idxs =>
    match scores_sub w idxs st.2 with
    | .error e => .error e
    | .ok scores => .ok (toScore (st.1 - w), scores)

/-! ## Grayscale signatures -/

/-- The number of `k < n` for which the coefficient `sig1[k]` of `nsig` belongs to the bucket
`(0, pn, idx)`. -/
def lumaHits (nsig : ImgData) (pn idx : Nat) (n : Nat) : Nat :=
  ((List.range n).filter (fun k => decide (coefHit 0 (sigAt nsig.sig1 k) 0 pn idx))).length

/-! ## calcSim, calcDiff -/

/-- The constant `std::numeric_limits<int>::max()`. -/
def INT_MAX : Int := 2147483647

/-- The array `sig[c]` of `NUM_COEFS` coefficients after `std::sort(sig[c] + 0, sig[c] + NUM_COEFS)`. -/
def sorted_sig (sig : List Int) : List Int :=
  ((List.range NUM_COEFS).map (sigAt sig)).insertionSort (fun a b => a ≤ b)

/-- The loop `for (int b1 = 0, b2 = 0; b1 < NUM_COEFS || b2 < NUM_COEFS; )` of `calcSim` for
colour `c`, on the pair `(score, scale)`; `s1` and `s2` are the sorted arrays. An index past
`NUM_COEFS` is read out of bounds. The loop needs at most `2 * NUM_COEFS + 1` rounds, which
`fuel` counts; `none` is returned when the rounds are used up. -/
def calcSim_merge (c : Nat) (s1 s2 : List Int) :
    Nat → Nat → Nat → Int × Int → Option (Except Error (Int × Int))
  | 0, _, _, _ => none
  | fuel + 1, b1, b2, st =>
    if ¬ (b1 < NUM_COEFS ∨ b2 < NUM_COEFS) then some (.ok st)
    else if NUM_COEFS < b1 ∨ NUM_COEFS < b2 then some (.error .undefined_behaviour)
    else
      -- int ind1 = b1 == NUM_COEFS ? std::numeric_limits<int>::max() : sig1[c][b1];
      let ind1 := if b1 = NUM_COEFS then INT_MAX else sigAt s1 b1
      let ind2 := if b2 = NUM_COEFS then INT_MAX else sigAt s2 b2
      -- Score weight = weights[0][imgBin[std::abs(ind1 < ind2 ? ind1 : ind2)]][c];
      let weight := weights 0 (imgBin (if ind1 < ind2 then ind1 else ind2).natAbs) c
      -- scale -= weight; if (ind1 == ind2) score -= weight;
      let scale := toScore (st.2 - weight)
      let score := if ind1 = ind2 then toScore (st.1 - weight) else st.1
      -- b1 += ind1 <= ind2; b2 += ind2 <= ind1;
      calcSim_merge c s1 s2 fuel (b1 + if ind1 ≤ ind2 then 1 else 0)
        (b2 + if ind2 ≤ ind1 then 1 else 0) (score, scale)

/-- The loop `for (int c = 0; c < cnum; c++)` of `calcSim` over the colours `cs`. -/
def calcSim_colors (d1 d2 : ImgData) :
    List Nat → Int × Int → Option (Except Error (Int × Int))
  | [], st => some (.ok st)
  | c :: cs, st =>
    match calcSim_merge c (sorted_sig (d1.sig c)) (sorted_sig (d2.sig c))
        (2 * NUM_COEFS + 1) 0 0 st with
    | none => none
    | some (.error e) => some (.error e)
    | some (.ok st1) => calcSim_colors d1 d2 cs st1

/-- The body of `dbSpaceCommon::calcSim` once the two signatures are read. The division by a
`scale` of zero is undefined. -/
def calcSim_sigs (dsig1 dsig2 : ImgData) (ignore_color : Bool) : Option (Except Error Int) :=
  let avgl1 := avglf2i dsig1.avglf
  let avgl2 := avglf2i dsig2.avglf
  -- int cnum = ignore_color || is_grayscale(avgl1) || is_grayscale(avgl2) ? 1 : 3;
  let cnum := if ignore_color || is_grayscale avgl1 || is_grayscale avgl2 then 1 else 3
  -- score += DScSc(2*((DScore)weights[0][0][c]) * std::abs(avgl1.v[c] - avgl2.v[c]));
  let score0 := (List.range cnum).foldl
    (fun s c => toScore (s + DScSc (toDScore
      (toDScore (2 * weights 0 0 c) * toScore |toScore (avgl1.v c - avgl2.v c)|)))) 0
  match calcSim_colors dsig1 dsig2 (List.range cnum) (score0, 0) with
  | none => none
  | some (.error e) => some (.error e)
  | some (.ok (score, scale)) =>
    -- scale = ((DScore) MakeScore(1)) * MakeScore(1) / scale;
    if scale = 0 then some (.error .undefined_behaviour)
    else
      let scale1 := toScore (Int.tdiv (toDScore (MakeScore 1 * MakeScore 1)) scale)
      -- return DScSc(((DScore) score) * 100 * scale);
      some (.ok (result_score score scale1))

/-- The method `dbSpaceCommon::calcSim`; `getImgDataByID` is the virtual method of the mode. -/
def calcSim (getImgDataByID : imageId → Except Error ImgData) (id1 id2 : imageId)
    (ignore_color : Bool) : Option (Except Error Int) :=
  match getImgDataByID id1 with
  | .error e => some (.error e)
  | .ok dsig1 =>
    match getImgDataByID id2 with
    | .error e => some (.error e)
    | .ok dsig2 => calcSim_sigs dsig1 dsig2 ignore_color

/-- The method `dbSpaceCommon::calcDiff`: `MakeScore(100) - calcSim(id1, id2, ignore_color)`. -/
def calcDiff (getImgDataByID : imageId → Except Error ImgData) (id1 id2 : imageId)
    (ignore_color : Bool) : Option (Except Error Int) :=
  match calcSim getImgDataByID id1 id2 ignore_color with
  | none => none
  | some (.error e) => some (.error e)
  | some (.ok s) => some (.ok (toScore (MakeScore 100 - s)))

/-- The method `dbSpaceImpl<false>::getImgDataByID`: `get_sig_from_cache(id)`, which is
`read_sig_cache(find(id).cOfs(), &sig)`. -/
def dbSpaceImpl_false.getImgDataByID (db : dbSpaceImpl_false) (id : imageId) :
    Except Error ImgData :=
  match imageIdMap_find db.m_images id with
  | none => .error .invalid_id
  | some ss => read_sig_cache db.sigCache ss.cacheOfs

/-- The method `dbSpaceImpl<true>::getImgDataByID`: `get_sig_from_cache(id)`, refused without a
cache file; the offset of an entry is `index * sizeof(ImgData)`. -/
def dbSpaceImpl_true.getImgDataByID (db : dbSpaceImpl_true) (id : imageId) :
    Except Error ImgData :=
  -- if (is_simple && m_sigFile == -1) throw usage_error("Not supported in simple mode.");
  if db.has_sigFile = false then .error .usage_error
  else
    match imageIdMap_find db.m_images id with
    | none => .error .invalid_id
    | some ind => read_sig_cache db.sigCache (ind * sizeof_ImgData)

/-- The method `dbSpaceAlter::getImgDataByID`: `get_sig(m_images.find(id)->second)`; the
iterator of an absent id is dereferenced without a test. -/
def dbSpaceAlter.getImgDataByID (db : dbSpaceAlter) (id : imageId) : Except Error ImgData :=
  match imageIdMap_find db.m_images id with
  | none => .error .undefined_behaviour
  | some ind =>
    match db.get_sig ind with
    | none => .error .io_error
    | some sig => .ok sig

/-! ## uniqueset: the bookkeeping of the selection loops -/

/-- The set tags of the elements of a queue. -/
def setTags (pq : List sim_result) : List Nat := pq.map (fun r => r.info.set)

/-- The bookkeeping of `flag_uniqueset` for a result limit `N`: `sets` counts the queue elements
of each set tag, and `need` is `N` plus the number of queue elements beyond the first of their
set tag. -/
structure UniqInv (N : Nat) (st : SelState) : Prop where
  sets_eq : ∀ k, st.sets k = (setTags st.pq).count k
  need_eq : st.need + (setTags st.pq).toFinset.card = N + st.pq.length

/-- A third image, of the width of `sampleA` (the same set tag) and other coefficients. -/
def sampleC : ImgData :=
  { id := 4, sig1 := coefRun 500, sig2 := coefRun 600, sig3 := coefRun 700,
    avglf := { v0 := 734003, v1 := 104858, v2 := 104858 }, width := 800, height := 400 }

/-- The read-only database that holds `sampleA`, `sampleB` and `sampleC`. -/
def sampleDbSets : dbSpaceImpl_true := (sampleDb.addImageData sampleC).1

/-! ## dbSpaceAlter: move_deleted and save_file -/

/-- The value `~imageId()`: all bits set. -/
def imageId_ones : imageId := 18446744073709551615

/-- The loop of `dbSpaceAlter::move_deleted` over the map entries `imgs` from `itr` on, with
`del` the deleted slots from `delItr` on and `n` the value `m_images.size()`. It returns the
entries as the loop leaves them, the deleted slots from `delItr` on at the `break`, the two parts
of the file, and the exception of a failed read. -/
def move_deleted_loop (n sigOff imgOff : Nat) (rewriteIDs : Bool) :
    List (imageId × Nat) → List Nat → (Nat → Option ImgData) → (Nat → Option imageId) →
      List (imageId × Nat) × List Nat × (Nat → Option ImgData) × (Nat → Option imageId) ×
        Option Error
  | [], del, fs, fi =>
    -- while (delItr != m_deleted.end() && *delItr >= m_images.size()) ++delItr;
    -- if (itr == m_images.end() || delItr == m_deleted.end()) break;
    ([], del.dropWhile (fun d => decide (n ≤ d)), fs, fi, none)
  | p :: rest, del, fs, fi =>
    match del.dropWhile (fun d => decide (n ≤ d)) with
    | [] => (p :: rest, [], fs, fi, none)
    | d :: ds =>
      -- if (itr->second < m_images.size()) continue;
      if p.2 < n then
        match move_deleted_loop n sigOff imgOff rewriteIDs rest (d :: ds) fs fi with
        | (imgs, del1, fs1, fi1, e) => (p :: imgs, del1, fs1, fi1, e)
      else
        -- ImgData sig = get_sig(itr->second);
        match fs (sigOff + p.2 * sizeof_ImgData) with
        | none => (p :: rest, d :: ds, fs, fi, some .io_error)
        | some sig =>
          -- itr->second = *delItr++;  m_f->seekp(m_sigOff + itr->second * sizeof(ImgData));
          -- m_f->write(sig);
          let fs1 := write_sig_at fs (sigOff + d * sizeof_ImgData) sig
          -- if (!m_rewriteIDs) { m_f->seekp(m_imgOff + ...); m_f->write(sig.id); }
          let fi1 := if rewriteIDs then fi
                     else write_id_at fi (imgOff + d * sizeof_imageId) sig.id
          match move_deleted_loop n sigOff imgOff rewriteIDs rest ds fs1 fi1 with
          | (imgs, del1, fs2, fi2, e) => ((p.1, d) :: imgs, del1, fs2, fi2, e)

/-- The method `dbSpaceAlter::move_deleted`. -/
def dbSpaceAlter.move_deleted (db : dbSpaceAlter) : dbSpaceAlter × Option Error :=
  -- if (m_readonly) throw usage_error("Not possible in imgdata mode.");
  if db.m_readonly then (db, some .usage_error)
  else
    match move_deleted_loop db.m_images.length db.m_sigOff db.m_imgOff db.m_rewriteIDs
        db.m_images db.m_deleted db.file_sigs db.file_ids with
    | (imgs, _, fs, fi, some e) =>
      ({ db with m_images := imgs, file_sigs := fs, file_ids := fi }, some e)
    | (imgs, del, fs, fi, none) =>
      -- if (delItr != m_deleted.end()) throw data_error("Not all deleted entries purged.");
      if del ≠ [] then ({ db with m_images := imgs, file_sigs := fs, file_ids := fi },
        some .data_error)
      -- m_deleted.clear();
      else ({ db with m_images := imgs, file_sigs := fs, file_ids := fi, m_deleted := [] }, none)

/-- The loop of `save_file` that fills the vector `ids`: an index past the vector is
`data_error("Invalid index on save.")`, a slot already filled is
`data_error("Duplicate index on save.")`. -/
def fill_ids : List (imageId × Nat) → List imageId → Except Error (List imageId)
  | [], ids => .ok ids
  | p :: rest, ids =>
    if ids.length ≤ p.2 then .error .data_error
    else if ids.getD p.2 imageId_ones ≠ imageId_ones then .error .data_error
    else fill_ids rest (ids.set p.2 p.1)

/-- Writing consecutive ids from byte offset `off` on (`m_f->write(&ids.front(), ids.size())`). -/
def write_ids (f : Nat → Option imageId) (off : Nat) : List imageId → Nat → Option imageId
  | [] => f
  | x :: rest => write_ids (write_id_at f off x) (off + sizeof_imageId) rest

/-- The method `dbSpaceAlter::save_file`, for the open database file and its own name (or no
name). -/
def dbSpaceAlter.save_file (db : dbSpaceAlter) : dbSpaceAlter × Option Error :=
  -- if (m_readonly) throw usage_error("Not possible in imgdata mode.");
  if db.m_readonly then (db, some .usage_error)
  else
    -- if (!m_deleted.empty()) move_deleted();
    match (if db.m_deleted ≠ [] then db.move_deleted else (db, none)) with
    | (db1, some e) => (db1, some e)
    | (db1, none) =>
      -- if (m_rewriteIDs) { ... m_f->seekp(m_imgOff); m_f->write(&ids.front(), ids.size()); }
      match (if db1.m_rewriteIDs then
              match fill_ids db1.m_images (List.replicate db1.m_images.length imageId_ones) with
              | .error e => (db1, some e)
              | .ok ids =>
                ({ db1 with file_ids := write_ids db1.file_ids db1.m_imgOff ids,
                            m_rewriteIDs := false }, none)
             else (db1, none)) with
      | (db2, some e) => (db2, some e)
      | (db2, none) =>
        -- m_f->seekp(m_hdrOff); m_f->write<count_t>(m_images.size()); m_f->write(m_sigOff);
        -- m_f->write(m_buckets);
        ({ db2 with hdr_count := db2.m_images.length, hdr_sigOff := db2.m_sigOff,
                    hdr_buckets := db2.m_buckets }, none)

/-! ### What an alter-mode database holds -/

/-- The signature record of the image `id`: the record in the slot its id is mapped to. -/
def dbSpaceAlter.sigOf (db : dbSpaceAlter) (id : imageId) : Option ImgData :=
  match imageIdMap_find db.m_images id with
  | none => none
  | some k => db.get_sig k

/-- The signature each id was last added with and not removed since, starting from `cur`: an add
of an id that is present and a remove of an absent id change nothing. -/
def liveSig (cur : imageId → Option ImgData) : List AlterOp → imageId → Option ImgData
  | [] => cur
  | .add img :: ops =>
    liveSig (fun x => if (cur img.id).isSome then cur x
                      else if x = img.id then some img else cur x) ops
  | .remove id :: ops => liveSig (fun x => if x = id then none else cur x) ops

/-- The invariant of an alter-mode database: it is well formed; the slots in use and the
deleted slots are pairwise different and lie below `size + deleted` (so that together they are
the slots `0 .. size + deleted - 1`); the record in the slot of an image carries the id of the
image; and unless the id table is to be rewritten, the entry of that slot in the id table is the
id of the image. -/
structure AlterInv (db : dbSpaceAlter) : Prop where
  wf : db.wf
  slots_nodup : (db.m_images.map Prod.snd ++ db.m_deleted).Nodup
  slots_lt : ∀ k, k ∈ db.m_images.map Prod.snd ++ db.m_deleted →
    k < db.m_images.length + db.m_deleted.length
  recs : ∀ id k, (id, k) ∈ db.m_images → ∃ sig, db.get_sig k = some sig ∧ sig.id = id
  ids : db.m_rewriteIDs = false → ∀ id k, (id, k) ∈ db.m_images →
    db.file_ids (db.m_imgOff + k * sizeof_imageId) = some id

/-! ### A family of example images -/

/-- The example image number `i`: id `100 + i`, coefficients running from `50 * i + 1`. -/
def sampleN (i : Nat) : ImgData :=
  { id := 100 + i, sig1 := coefRun (50 * i + 1), sig2 := coefRun (50 * i + 2001),
    sig3 := coefRun (50 * i + 4001),
    avglf := { v0 := 524288, v1 := 104858, v2 := 104858 }, width := 800, height := 600 }

/-- The alter-mode database to which the example images 0 to 16 were added, starting from the
database file of an empty database. -/
def sampleDbAlter17 : dbSpaceAlter :=
  dbSpaceAlter.load_empty.run ((List.range 17).map (fun i => AlterOp.add (sampleN i)))

/-! ### Two buckets of normal mode that are filled side by side -/

/-- Pushing each id of `ids` on the bucket `a` and then on the bucket `b`, as `bucket_set::add`
does for images whose signatures have a coefficient of each of the two buckets; up to the first
exception. The result is the scratch file, the two buckets and the exception. -/
def push_both (f : bucket_file) (a b : imageIdIndex_list_paged) :
    List imageId → bucket_file × imageIdIndex_list_paged × imageIdIndex_list_paged × Option Error
  | [] => (f, a, b, none)
  | i :: rest =>
    match (a.push_back f i).err with
    | some e => ((a.push_back f i).file, (a.push_back f i).bucket, b, some e)
    | none =>
      match (b.push_back (a.push_back f i).file i).err with
      | some e =>
        ((b.push_back (a.push_back f i).file i).file, (a.push_back f i).bucket,
          (b.push_back (a.push_back f i).file i).bucket, some e)
      | none =>
        push_both (b.push_back (a.push_back f i).file i).file (a.push_back f i).bucket
          (b.push_back (a.push_back f i).file i).bucket rest

/-- Two new buckets with a new scratch file, after the ids 1 to 1152 were pushed on both. -/
def twoBuckets :
    bucket_file × imageIdIndex_list_paged × imageIdIndex_list_paged × Option Error :=
  push_both bucket_file.empty imageIdIndex_list_paged.empty imageIdIndex_list_paged.empty
    (List.range' 1 1152)

/-- What `rehash` does to the buckets of `twoBuckets`: the body of its first loop on each of
the two, then the ids 1 to 1152 pushed on both once more. -/
def twoBucketsRehashed :
    bucket_file × imageIdIndex_list_paged × imageIdIndex_list_paged × Option Error :=
  push_both (twoBuckets.2.2.1.rehash_clear (twoBuckets.2.1.rehash_clear twoBuckets.1).file).file
    (twoBuckets.2.1.rehash_clear twoBuckets.1).bucket
    (twoBuckets.2.2.1.rehash_clear (twoBuckets.2.1.rehash_clear twoBuckets.1).file).bucket
    (List.range' 1 1152)

/-- The file `f` after blocks of 128 consecutive ids were copied into it one after the other:
a block `(pos, s)` is the ids `s` to `s + 127`, copied to the entries from `pos` on. -/
def bucket_file.write_blocks (f : bucket_file) : List (Nat × Nat) → bucket_file
  | [] => f
  | w :: rest => (f.write w.1 (List.range' w.2 127 ++ [w.2 + 127])).write_blocks rest

/-! ### imgdb.cpp: dbSpaceImpl<false>::save_file -/

/-- The value `sizeof(count_t)`, `count_t` being `size_t`. -/
def sizeof_count_t : Nat := 8

/-- The value `sizeof(offset_t)`, `offset_t` being `off_t`. -/
def sizeof_offset_t : Nat := 8

/-- The function `bucket_set::count`: `count_0 * count_1 * count_2`. -/
def bucket_set_count : Nat := bucket_set_count_0 * bucket_set_count_1 * bucket_set_count_2

/-- The database file `dbSpaceImpl<false>::save_file` writes: the values written and the byte
offset at which each part starts (the version code is at offset 0). -/
structure db_file where
  count_off : Nat
  count : Nat
  firstOff_off : Nat
  firstOff : Nat
  buckets_off : Nat
  bucket_sizes : Nat → Nat → Nat → Nat
  ids_off : Nat
  ids : List imageId
  sigs_off : Nat
  sigs : List ImgData

/-- The last loop of `save_file`: the signature of every image is read from the cache and
written; a failed read ends the save with its exception. -/
def save_sigs (cache : SigCache) : List (imageId × SigStruct) → Except Error (List ImgData)
  | [] => .ok []
  | p :: rest =>
    -- read_sig_cache(it.cOfs(), &dsig); f.write(dsig);
    match read_sig_cache cache p.2.cacheOfs with
    | .error e => .error e
    | .ok dsig =>
      match save_sigs cache rest with
      | .error e => .error e
      | .ok l => .ok (dsig :: l)

/-- The method `dbSpaceImpl<false>::save_file`. -/
def dbSpaceImpl_false.save_file (db : dbSpaceImpl_false) : Except Error db_file :=
  -- f.write<int32_t>(SRZ_V_CODE);
  let pos0 := 4
  -- f.write<count_t>(m_images.size());
  let pos1 := pos0 + sizeof_count_t
  -- off_t firstOff = f.tellp();
  -- firstOff += m_images.size() * sizeof(imageId);
  -- firstOff += imgbuckets.count() * sizeof(count_t);
  let firstOff0 := pos1 + db.m_images.length * sizeof_imageId + bucket_set_count * sizeof_count_t
  -- firstOff = (firstOff + 1024 * sizeof(imageId));
  let firstOff := firstOff0 + 1024 * sizeof_imageId
  -- f.write<offset_t>(firstOff);
  let pos2 := pos1 + sizeof_offset_t
  -- for (...) f.write<count_t>(itr->size());
  let pos3 := pos2 + bucket_set_count * sizeof_count_t
  -- for (...) f.write<imageId>(it.id());   f.seekp(firstOff);
  match save_sigs db.sigCache db.m_images with
  | .error e => .error e
  | .ok sigs =>
    .ok { count_off := pos0, count := db.m_images.length,
          firstOff_off := pos1, firstOff := firstOff,
          buckets_off := pos2, bucket_sizes := fun c p i => (db.imgbuckets.buckets c p i).size,
          ids_off := pos3, ids := db.m_images.map Prod.fst,
          sigs_off := firstOff, sigs := sigs }

/-- The byte offset at which the id table of a database file ends. -/
def db_file.ids_end (f : db_file) : Nat := f.ids_off + f.ids.length * sizeof_imageId

/-! ## iqdb.cpp: dupe_map -/

/-- The class `dupe_map`: the map from image id to its group (`dupe_list*`, here the position
of the group in `m_groups`, a `std::list` whose elements keep their address) and the list of
groups `m_groups`. -/
structure dupe_map where
  entries : List (imageId × Nat)
  m_groups : List (List imageId)
  deriving DecidableEq, Repr

/-- A default-constructed `dupe_map`. -/
def dupe_map.empty : dupe_map := { entries := [], m_groups := [] }

/-- The group a `dupe_list*` points to. -/
def dupe_map.group (m : dupe_map) (g : Nat) : List imageId := m.m_groups.getD g []

/-- The method `dupe_map::insert`:
`group->push_back(one); return base_type::insert(std::make_pair(one, group)).first;`
(`insert` of a map leaves an entry that is present as it is). -/
def dupe_map.insert (m : dupe_map) (one : imageId) (group : Nat) : dupe_map :=
  { entries := if (imageIdMap_find m.entries one).isSome then m.entries
               else m.entries ++ [(one, group)],
    m_groups := m.m_groups.set group (m.group group ++ [one]) }

/-- The loop of `dupe_map::link` over the members of `gfrom`:
`itr = find(*lItr); if (itr == end()) throw internal_error(...); itr->second = gto;`. -/
def dupe_relink (gto : Nat) : List imageId → List (imageId × Nat) →
    List (imageId × Nat) × Option Error
  | [], es => (es, none)
  | x :: xs, es =>
    match imageIdMap_find es x with
    | none => (es, some .internal_error)
    | some _ => dupe_relink gto xs (imageIdMap_set es x gto)

/-- The method `dupe_map::link` from the test `if (itrOne == end())` after the swap on. -/
def dupe_map.link_found (m : dupe_map) (one two : imageId) (itrOne itrTwo : Option Nat) :
    dupe_map × Option Error :=
  match itrOne, itrTwo with
  | none, _ =>
    -- dupe_list* group = &*m_groups.insert(m_groups.end(), dupe_list());
    -- insert(one, group); insert(two, group);
    let m1 : dupe_map := { m with m_groups := m.m_groups ++ [[]] }
    let group := m.m_groups.length
    ((m1.insert one group).insert two group, none)
  | some g1, none =>
    -- if (itrOne->second->empty()) throw ...; insert(two, itrOne->second);
    if m.group g1 = [] then (m, some .internal_error)
    else (m.insert two g1, none)
  | some g1, some g2 =>
    if g1 = g2 then
      -- if (itrOne->second->empty()) throw ...; return;
      if m.group g1 = [] then (m, some .internal_error) else (m, none)
    else
      -- dupe_list* gfrom = itrTwo->second; dupe_list* gto = itrOne->second;
      -- if (gfrom->empty() || gto->empty()) throw ...;
      if m.group g2 = [] ∨ m.group g1 = [] then (m, some .internal_error)
      else
        match dupe_relink g1 (m.group g2) m.entries with
        | (es, some e) => ({ m with entries := es }, some e)
        | (es, none) =>
          -- gto->splice(gto->end(), *gfrom);
          let m2 : dupe_map :=
            { entries := es,
              m_groups := (m.m_groups.set g1 (m.group g1 ++ m.group g2)).set g2 [] }
          -- if (!gfrom->empty() || gto->empty()) throw ...;
          if m2.group g2 ≠ [] ∨ m2.group g1 = [] then (m2, some .internal_error)
          else (m2, none)

/-- The method `dupe_map::link`. -/
def dupe_map.link (m : dupe_map) (one two : imageId) : dupe_map × Option Error :=
  -- if (one == two) return;
  if one = two then (m, none)
  else
    -- iterator itrOne = find(one); iterator itrTwo = find(two);
    let itrOne := imageIdMap_find m.entries one
    let itrTwo := imageIdMap_find m.entries two
    -- if (itrOne == end()) { std::swap(one, two); std::swap(itrOne, itrTwo); }
    if itrOne.isNone then m.link_found two one itrTwo itrOne
    else m.link_found one two itrOne itrTwo

/-- A sequence of `link` calls; an exception ends it. -/
def dupe_map.links : dupe_map → List (imageId × imageId) → dupe_map × Option Error
  | m, [] => (m, none)
  | m, p :: ps =>
    match m.link p.1 p.2 with
    | (m1, none) => dupe_map.links m1 ps
    | (m1, some e) => (m1, some e)

/-- The pairs of different ids among the linked pairs. -/
def linkedPair (pairs : List (imageId × imageId)) (x y : imageId) : Prop :=
  (x, y) ∈ pairs ∧ x ≠ y

/-- An id that occurs in a linked pair of different ids. -/
def linkedId (pairs : List (imageId × imageId)) (x : imageId) : Prop :=
  ∃ y, linkedPair pairs x y ∨ linkedPair pairs y x

/-- The invariant of a `dupe_map` with respect to the relation `R` of the pairs linked so far:
the map and the groups agree, a group has no id twice, a group that is not empty has two
members or more, and two ids have the same group exactly as the pairs of `R` connect them. -/
structure DupeInv (m : dupe_map) (R : imageId → imageId → Prop) : Prop where
  mem_group : ∀ x g, imageIdMap_find m.entries x = some g →
    g < m.m_groups.length ∧ x ∈ m.group g
  group_mem : ∀ g x, x ∈ m.group g → imageIdMap_find m.entries x = some g
  group_nodup : ∀ g, (m.group g).Nodup
  group_size : ∀ g, m.group g ≠ [] → 2 ≤ (m.group g).length
  sound : ∀ x y g, imageIdMap_find m.entries x = some g →
    imageIdMap_find m.entries y = some g → Relation.EqvGen R x y
  complete : ∀ a b, R a b →
    ∃ g, imageIdMap_find m.entries a = some g ∧ imageIdMap_find m.entries b = some g
  linked : ∀ x g, imageIdMap_find m.entries x = some g → ∃ y, R x y ∨ R y x

/-! ## iqdb.cpp: min_sim -/

/-- The sum of the squares of the scores `c`. -/
def sq_sum (c : List Int) : Int := (c.map (fun x => x * x)).sum

/-- The loop of `min_sim` over the entries still to be walked (the list is walked from its end,
so `walk` is in reverse order), with the counters `cnt`, `sum` and `sqsum`. The argument `dterm`
stands for the double-precision term `lrint((double)stddev_frac * sqrt(sqd/cnt) / ScoreMax)` as
a function of `stddev_frac` and `sqd/cnt`; nothing is assumed about it. -/
def min_sim_loop (dterm : Int → Int → Int) (min_sqd stddev_frac : Int) :
    List sim_value → Nat → Int → Int → Int
  | [], _, _, _ => -1
  | v :: walk, cnt, sum, sqsum =>
    -- if (itr->score < 0) continue;
    if v.score < 0 then min_sim_loop dterm min_sqd stddev_frac walk cnt sum sqsum
    else
      -- cnt++; sum += itr->score; sqsum += (imgdb::DScore)itr->score * itr->score;
      let cnt1 := cnt + 1
      let sum1 := toDScore (sum + v.score)
      let sqsum1 := toDScore (sqsum + toDScore (v.score * v.score))
      -- if (cnt < 2) continue;
      if cnt1 < 2 then min_sim_loop dterm min_sqd stddev_frac walk cnt1 sum1 sqsum1
      else
        -- imgdb::DScore avg = sum / cnt; imgdb::DScore sqd = sqsum - sum * avg;
        let avg := Int.tdiv sum1 cnt1
        let sqd := toDScore (sqsum1 - toDScore (sum1 * avg))
        -- if (sqd > min_sqd * cnt) return avg + lrint(...);
        if toDScore (min_sqd * cnt1) < sqd then
          toScore (avg + dterm stddev_frac (Int.tdiv sqd cnt1))
        else min_sim_loop dterm min_sqd stddev_frac walk cnt1 sum1 sqsum1

/-- The function `min_sim` of `iqdb.cpp` (the `INTMATH` branch) on the scores of a result
list. -/
def min_sim (dterm : Int → Int → Int) (sim : List sim_value) (min_stddev stddev_frac : Int) :
    Int :=
  -- imgdb::DScore min_sqd = (imgdb::DScore)min_stddev * min_stddev;
  let min_sqd := toDScore (min_stddev * min_stddev)
  -- if (sim.size() < 2) return -1;
  if sim.length < 2 then -1
  else min_sim_loop dterm min_sqd stddev_frac sim.reverse 0 0 0

/-- The whole part of the square root of `q`, bit by bit from bit `k - 1` down. -/
def isqrt_bits : Nat → Nat → Nat → Nat
  | 0, r, _ => r
  | k + 1, r, q => if (r + 2 ^ k) * (r + 2 ^ k) ≤ q then isqrt_bits k (r + 2 ^ k) q
                   else isqrt_bits k r q

/-- The double-precision term of `min_sim` where it is exact: for `q` a perfect square whose
root times `stddev_frac` is below 2^53, `sqrt`, the product and the division by `ScoreMax` (a
power of two) are exact and `lrint` rounds the quotient to the nearest integer, ties to even. -/
def dterm_exact (stddev_frac q : Int) : Int :=
  let n := stddev_frac * (isqrt_bits 32 0 (Int.toNat q) : Nat)
  let d := n / ScoreMax
  let r := n % ScoreMax
  if 2 * r < ScoreMax then d
  else if ScoreMax < 2 * r then d + 1
  else if d % 2 = 0 then d else d + 1

/-! ### The specification of min_sim -/

/-- The test of the standard deviation of the counted scores `c` against `min_stddev` in fixed
point: `cnt` times the variance, with the average truncated to a whole unit, against `cnt`
times the square of `min_stddev`. -/
def stddev_exceeds (c : List Int) (min_stddev : Int) : Prop :=
  min_stddev * min_stddev * c.length < sq_sum c - c.sum * (c.sum / c.length)

instance (c : List Int) (min_stddev : Int) : Decidable (stddev_exceeds c min_stddev) := by
  unfold stddev_exceeds
  exact inferInstance

/-- The threshold for the counted scores `c`: their average plus `stddev_frac` times their
standard deviation, as a `Score`. -/
def stddev_threshold (dterm : Int → Int → Int) (stddev_frac : Int) (c : List Int) : Int :=
  toScore (c.sum / c.length
    + dterm stddev_frac ((sq_sum c - c.sum * (c.sum / c.length)) / c.length))

/-- The specification of `min_sim` in the words of the claim: the list is walked from its least
similar entry (`walk` is in that order), the scores that `counts` accepts are collected in `c`,
and at the first point with two counted scores or more whose standard deviation exceeds
`min_stddev` the threshold is returned; -1 if there is no such point. -/
def min_sim_walk (counts : Int → Bool) (dterm : Int → Int → Int) (min_stddev stddev_frac : Int)
    (c : List Int) : List sim_value → Int
  | [] => -1
  | v :: walk =>
    if counts v.score then
      if 2 ≤ (c ++ [v.score]).length ∧ stddev_exceeds (c ++ [v.score]) min_stddev then
        stddev_threshold dterm stddev_frac (c ++ [v.score])
      else min_sim_walk counts dterm min_stddev stddev_frac (c ++ [v.score]) walk
    else min_sim_walk counts dterm min_stddev stddev_frac c walk

/-- The specification of `min_sim`: -1 for a list of fewer than two entries, else the walk from
the end of the list. -/
def min_sim_spec (counts : Int → Bool) (dterm : Int → Int → Int) (sim : List sim_value)
    (min_stddev stddev_frac : Int) : Int :=
  if sim.length < 2 then -1
  else min_sim_walk counts dterm min_stddev stddev_frac [] sim.reverse

/-! ## resizer.h, resizer.cpp: get_image_info -/

/-- The enum `image_types` of `resizer.h`. -/
inductive image_types where
  | IMG_UNKNOWN
  | IMG_JPEG
  | IMG_PNG
  | IMG_GIF
  | IMG_BMP
  deriving DecidableEq, Repr

/-- The struct `image_info` of `resizer.h` (not the one of `imgdb.h`). -/
structure resizer_image_info where
  width : Nat
  height : Nat
  mime_type : String
  type : image_types
  deriving DecidableEq, Repr

/-- What a call of `get_jpeg_info` or `get_image_info` leaves: the value returned, the `info`
structure, and the offsets from the start of the buffer of the bytes it read, in order. -/
structure info_call where
  ret : Int
  info : resizer_image_info
  reads : List Nat
  deriving DecidableEq, Repr

/-- The SOF markers of the `switch` of `get_jpeg_info`. -/
def is_sof_marker (b : Nat) : Bool :=
  b == 0xc0 || b == 0xc1 || b == 0xc2 || b == 0xc3 || b == 0xc5 || b == 0xc6 || b == 0xc7 ||
  b == 0xc9 || b == 0xca || b == 0xcb || b == 0xcd || b == 0xce || b == 0xcf || b == 0xf7

/-- The function `get_jpeg_info`. The memory from the start of the buffer on is `mem` (the
buffer is its first bytes; what lies behind it is memory that does not belong to the buffer),
`off` is the offset the pointer `data` has reached and `length` the length left. Each pass of
the `while (1)` loop uses one unit of `fuel`; `none` is a loop cut short. -/
def get_jpeg_info (mem : Nat → Nat) :
    Nat → Nat → Nat → resizer_image_info → List Nat → Option info_call
  | 0, _, _, _, _ => none
  | fuel + 1, off, length, info, reads =>
    -- if (length < 2) return -2;
    if length < 2 then some { ret := -2, info := info, reads := reads }
    else
      -- if (data[0] != 0xff || data[1] < 0xc0) return 0;
      let reads1 := reads ++ (if mem off ≠ 0xff then [off] else [off, off + 1])
      if mem off ≠ 0xff ∨ mem (off + 1) < 0xc0 then
        some { ret := 0, info := info, reads := reads1 }
      -- if (data[1] >= 0xd0 && data[1] <= 0xd7) { data += 2; length -= 2; continue; }
      else if 0xd0 ≤ mem (off + 1) ∧ mem (off + 1) ≤ 0xd7 then
        get_jpeg_info mem fuel (off + 2) (length - 2) info reads1
      else if is_sof_marker (mem (off + 1)) then
        -- if (length < 9) return 9 - length;
        if length < 9 then some { ret := 9 - (length : Int), info := info, reads := reads1 }
        else
          -- info->height = ntohs(*(uint16_t*)((data+5)));
          -- info->width  = ntohs(*(uint16_t*)((data+7)));
          some { ret := 0,
                 info := { height := mem (off + 5) * 256 + mem (off + 6),
                           width := mem (off + 7) * 256 + mem (off + 8),
                           type := .IMG_JPEG, mime_type := "image/jpeg" },
                 reads := reads1 ++ [off + 5, off + 6, off + 7, off + 8] }
      else
        -- size_t blen = length < 2 ? 2 : ntohs(*(uint16_t*)((data+2)));
        let blen := if length < 2 then 2 else mem (off + 2) * 256 + mem (off + 3)
        let reads2 := reads1 ++ (if length < 2 then [] else [off + 2, off + 3])
        -- if (length < blen + 4) return blen + 4 - length;
        if length < blen + 4 then
          some { ret := ((blen + 4 - length : Nat) : Int), info := info, reads := reads2 }
        else
          -- data += blen + 2; length -= blen + 2;
          get_jpeg_info mem fuel (off + (blen + 2)) (length - (blen + 2)) info reads2

/-- The bytes of the PNG signature `"\x89PNG\x0D\x0A\x1A\x0A"`. -/
def png_signature : List Nat := [0x89, 0x50, 0x4e, 0x47, 0x0d, 0x0a, 0x1a, 0x0a]

/-- The bytes of `"\0\0\0\x0dIHDR"`. -/
def png_ihdr : List Nat := [0, 0, 0, 0x0d, 0x49, 0x48, 0x44, 0x52]

/-- The `n` bytes of memory from offset `off` on. -/
def mem_bytes (mem : Nat → Nat) (off n : Nat) : List Nat := (List.range n).map (fun i => mem (off + i))

/-- The function `get_le_16` at offset `off`. -/
def get_le_16 (mem : Nat → Nat) (off : Nat) : Nat := mem off + mem (off + 1) * 256

/-- The function `get_le_32` at offset `off`. -/
def get_le_32 (mem : Nat → Nat) (off : Nat) : Nat :=
  mem off + mem (off + 1) * 256 + mem (off + 2) * 65536 + mem (off + 3) * 16777216

/-- The function `get_image_info` on the buffer of `length` bytes at the start of `mem`; the
value it returns is a `size_t`, so that the `int` of `get_jpeg_info` is converted. A `memcmp`
of `n` bytes counts as reading all `n`. -/
def get_image_info (mem : Nat → Nat) (length : Nat) (info : resizer_image_info) :
    Option info_call :=
  -- info->type = IMG_UNKNOWN; info->mime_type = "application/octet-stream";
  let info0 := { info with type := .IMG_UNKNOWN, mime_type := "application/octet-stream" }
  -- if (length < 10) return 10 - length;
  if length < 10 then some { ret := 10 - (length : Int), info := info0, reads := [] }
  else
    let r0 := if mem 0 = 0xff then [0, 1] else [0]
    -- if (data[0] == 0xff && data[1] == 0xd8) { data += 2; length -= 2; return get_jpeg_info(...); }
    if mem 0 = 0xff ∧ mem 1 = 0xd8 then
      match get_jpeg_info mem (length - 2 + 1) 2 (length - 2) info0 r0 with
      | none => none
      | some r => some { r with ret := r.ret % (SIZE_T_MOD : Int) }
    -- else if (!memcmp(data, "\x89PNG\x0D\x0A\x1A\x0A", 8))
    else
      let r1 := r0 ++ List.range 8
      if mem_bytes mem 0 8 = png_signature then
        -- data += 8; length -= 8; if (length < 16) return 16 - length;
        if length - 8 < 16 then
          some { ret := 16 - ((length - 8 : Nat) : Int), info := info0, reads := r1 }
        -- if (memcmp(data, "\0\0\0\x0dIHDR", 8)) return 0;
        else if mem_bytes mem 8 8 ≠ png_ihdr then
          some { ret := 0, info := info0, reads := r1 ++ List.range' 8 8 }
        else
          -- info->width = ntohl(*(uint32_t*)((data+8))); info->height = ntohl(... (data+12));
          some { ret := 0,
                 info := { width := mem 16 * 16777216 + mem 17 * 65536 + mem 18 * 256 + mem 19,
                           height := mem 20 * 16777216 + mem 21 * 65536 + mem 22 * 256 + mem 23,
                           type := .IMG_PNG, mime_type := "image/png" },
                 reads := r1 ++ List.range' 8 8 ++ List.range' 16 8 }
      -- else if (!memcmp(data, "GIF", 3))
      else
        let r2 := r1 ++ List.range 3
        if mem_bytes mem 0 3 = [0x47, 0x49, 0x46] then
          -- data += 6; length -= 6; info->width = get_le_16(data); info->height = get_le_16(data+2);
          some { ret := 0,
                 info := { width := get_le_16 mem 6, height := get_le_16 mem 8,
                           type := .IMG_GIF, mime_type := "image/gif" },
                 reads := r2 ++ [6, 7, 8, 9] }
        -- else if (data[0] == 'B' && data[1] == 'M')
        else
          let r3 := r2 ++ (if mem 0 = 0x42 then [0, 1] else [0])
          if mem 0 = 0x42 ∧ mem 1 = 0x4d then
            -- if (length < 26) return 26 - length;
            if length < 26 then some { ret := 26 - (length : Int), info := info0, reads := r3 }
            -- data += 14; length -= 14; if (get_le_32(data) != 40) return 0;
            else if get_le_32 mem 14 ≠ 40 then
              some { ret := 0, info := info0, reads := r3 ++ List.range' 14 4 }
            else
              -- info->width = get_le_32(data + 4); info->width = get_le_32(data + 8);
              some { ret := 0,
                     info := { info0 with width := get_le_32 mem 22, type := .IMG_BMP,
                                          mime_type := "image/bmp" },
                     reads := r3 ++ List.range' 14 4 ++ List.range' 18 4 ++ List.range' 22 4 }
          else some { ret := 0, info := info0, reads := r3 }

/-- The memory that holds the bytes `bs` followed by zero bytes. -/
def mem_of (bs : List Nat) : Nat → Nat := fun i => bs.getD i 0

/-- An `image_info` before the call. -/
def info_unset : resizer_image_info :=
  { width := 0, height := 0, mime_type := "", type := .IMG_UNKNOWN }

/-! ### imgdb.cpp: getImageWidth, getImageHeight, dbSpaceAlter::setImageRes -/

/-- The method `dbSpaceImpl<false>::getImageWidth`: `find(id).width()`, the `width` of the
`SigStruct` of the image. -/
def dbSpaceImpl_false.getImageWidth (db : dbSpaceImpl_false) (id : imageId) : Except Error Int :=
  match imageIdMap_find db.m_images id with
  | none => .error .invalid_id
  | some ss => .ok ss.info.width

/-- The method `dbSpaceImpl<false>::getImageHeight`: `find(id).height()`. -/
def dbSpaceImpl_false.getImageHeight (db : dbSpaceImpl_false) (id : imageId) :
    Except Error Int :=
  match imageIdMap_find db.m_images id with
  | none => .error .invalid_id
  | some ss => .ok ss.info.height

/-- The method `dbSpaceImpl<true>::getImageWidth`: `find(id).width()`, the `width` of the
entry of `m_info` at the index of the image. -/
def dbSpaceImpl_true.getImageWidth (db : dbSpaceImpl_true) (id : imageId) : Except Error Int :=
  match imageIdMap_find db.m_images id with
  | none => .error .invalid_id
  | some ind =>
    match db.m_info[ind]? with
    | none => .error .undefined_behaviour
    | some e => .ok e.width

/-- The method `dbSpaceImpl<true>::getImageHeight`: `find(id).height()`. -/
def dbSpaceImpl_true.getImageHeight (db : dbSpaceImpl_true) (id : imageId) : Except Error Int :=
  match imageIdMap_find db.m_images id with
  | none => .error .invalid_id
  | some ind =>
    match db.m_info[ind]? with
    | none => .error .undefined_behaviour
    | some e => .ok e.height

/-- The method `dbSpaceAlter::getImageWidth`: `get_sig(find(id)->second).width`. -/
def dbSpaceAlter.getImageWidth (db : dbSpaceAlter) (id : imageId) : Except Error Int :=
  match imageIdMap_find db.m_images id with
  | none => .error .invalid_id
  | some ind =>
    match db.get_sig ind with
    | none => .error .io_error
    | some sig => .ok sig.width

/-- The method `dbSpaceAlter::getImageHeight`: `get_sig(find(id)->second).height`. -/
def dbSpaceAlter.getImageHeight (db : dbSpaceAlter) (id : imageId) : Except Error Int :=
  match imageIdMap_find db.m_images id with
  | none => .error .invalid_id
  | some ind =>
    match db.get_sig ind with
    | none => .error .io_error
    | some sig => .ok sig.height

/-- The method `dbSpaceAlter::setImageRes`. -/
def dbSpaceAlter.setImageRes (db : dbSpaceAlter) (id : imageId) (width height : Int) :
    dbSpaceAlter × Option Error :=
  -- if (m_readonly) throw usage_error("Not possible in imgdata mode.");
  if db.m_readonly then (db, some .usage_error)
  else
    -- size_t ind = find(id)->second;
    match imageIdMap_find db.m_images id with
    | none => (db, some .invalid_id)
    | some ind =>
      -- ImgData sig = get_sig(ind); m_f->seekg(m_sigOff + ind * sizeof(ImgData)); m_f->read(&sig);
      match db.get_sig ind with
      | none => (db, some .io_error)
      | some sig =>
        -- sig.width = width; sig.height = height; m_f->seekp(...); m_f->write(sig);
        ({ db with file_sigs := write_sig_at db.file_sigs (db.m_sigOff + ind * sizeof_ImgData)
                     { sig with width := width, height := height } }, none)

/-! ### The selection of a query without `uniqueset` -/

/-- The number of colour channels `queryImg` passes to `do_query`. -/
def query_colors (q : queryArg) : Nat :=
  if hasFlag q.flags flag_grayscale || is_grayscale q.avgl then 1 else 3

/-- The entries among `es` that a query does not skip. -/
def notSkipped (q : queryArg) (es : List (Nat × image_info)) : List (Nat × image_info) :=
  es.filter (fun e => !skip_image e.2 q)

/-- The queue `pq` during the first selection loop, the entries `done` having been visited: the
queue is ordered (largest score at the top) and holds exactly the visited entries that are not
skipped, each with its distance `f`. -/
structure FillInv (f : image_info → Int) (q : queryArg) (done : List (Nat × image_info))
    (pq : List sim_result) : Prop where
  sorted : pq.Pairwise (fun a b => b.score ≤ a.score)
  from_done : ∀ r, r ∈ pq →
    (r.ind, r.info) ∈ done ∧ skip_image r.info q = false ∧ r.score = f r.info
  nodup : (pq.map (fun r => r.ind)).Nodup
  all_in : ∀ e, e ∈ done → skip_image e.2 q = false → e.1 ∈ pq.map (fun r => r.ind)
  length : pq.length = (notSkipped q done).length

/-- The queue `pq` during the second selection loop, the entries `done` having been visited:
the queue is ordered, holds `N` visited entries that are not skipped, each with its distance
`f`, and no visited entry that is not skipped and not in the queue has a smaller distance than
an entry of the queue. -/
structure SelInv (f : image_info → Int) (q : queryArg) (N : Nat)
    (done : List (Nat × image_info)) (pq : List sim_result) : Prop where
  sorted : pq.Pairwise (fun a b => b.score ≤ a.score)
  from_done : ∀ r, r ∈ pq →
    (r.ind, r.info) ∈ done ∧ skip_image r.info q = false ∧ r.score = f r.info
  nodup : (pq.map (fun r => r.ind)).Nodup
  excluded : ∀ e, e ∈ done → skip_image e.2 q = false → e.1 ∉ pq.map (fun r => r.ind) →
    ∀ r, r ∈ pq → r.score ≤ f e.2
  length : pq.length = min N (notSkipped q done).length

/-! # Theorems -/

/-! ### delta_queue: lemmas -/

theorem senc_fst_lt (gs : List Nat) : ∀ j, j < 8 → (senc j gs).1 < 256 ^ (8 - j) := by
  induction gs with
  | nil => intro j _; simp [senc]
  | cons g gs ih =>
    intro j hj
    have h1 := ih ((j + 1) % 8) (Nat.mod_lt _ (by decide))
    have hb : min g 255 ≤ 255 := Nat.min_le_right _ _
    simp only [senc]
    by_cases h7 : j = 7
    · subst h7; simp
    · simp only [h7, if_false]
      have hj' : j < 7 := by omega
      interval_cases j <;> simp at h1 ⊢ <;> omega

theorem senc_snd_ne_nil (gs : List Nat) : ∀ j, (senc j gs).2 ≠ [] := by
  induction gs with
  | nil => intro j; simp [senc]
  | cons g gs ih =>
    intro j
    have := ih ((j + 1) % 8)
    simp only [senc]
    split <;> simp [this]

theorem drop_cons_getElem? {α : Type} {mem : List α} {n : Nat} {x : α} {xs : List α}
    (h : mem.drop n = x :: xs) : mem[n]? = some x ∧ mem.drop (n + 1) = xs := by
  constructor
  · have := congrArg (fun l => l[0]?) h
    simpa [List.getElem?_drop] using this
  · have := congrArg (fun l => l.drop 1) h
    simpa [List.drop_drop, Nat.add_comm] using this

theorem incr_m_p_lt {mem : List Nat} {it it1 : delta_iterator}
    (h : delta_iterator.incr mem it = some it1) : it.m_p < it1.m_p := by
  unfold delta_iterator.incr at h
  simp only at h
  split at h
  · injection h with h; subst h; simp only [sizeof_size_t]; split <;> omega
  · exact absurd h (by simp)

/-- One `operator++` over storage laid out as `senc` prescribes consumes one gap. -/
theorem incr_senc_cons (mem : List Nat) (w j g b : Nat) (gs : List Nat) (hj : j < 8)
    (hmem : mem.drop (w + 1) = (senc j (g :: gs)).2) (hb : b + g < SIZE_T_MOD) :
    ∃ w1, delta_iterator.incr mem ⟨8 * w + j, (senc j (g :: gs)).1, b⟩
        = some ⟨8 * w1 + (j + 1) % 8, (senc ((j + 1) % 8) gs).1, b + g⟩
      ∧ mem.drop (w1 + 1) = (senc ((j + 1) % 8) gs).2 := by
  have hr := senc_fst_lt gs ((j + 1) % 8) (Nat.mod_lt _ (by decide))
  obtain ⟨x, xs, hx⟩ := List.exists_cons_of_ne_nil (senc_snd_ne_nil gs ((j + 1) % 8))
  have hM : SIZE_T_MOD = 18446744073709551616 := by decide
  rw [hM] at hb
  by_cases hg : 255 ≤ g <;> by_cases h7 : j = 7
  · -- escape, last byte of the packing word
    subst h7
    have hmin : min g 255 = 255 := by omega
    simp only [senc, hg, if_true, hmin, List.singleton_append] at hmem ⊢
    obtain ⟨he, hmem1⟩ := drop_cons_getElem? hmem
    obtain ⟨hp, hmem2⟩ := drop_cons_getElem? hmem1
    refine ⟨w + 2, ?_, hmem2⟩
    have e1 : (8 * w + 7 + 8) / 8 = w + 1 := by omega
    have e2 : (8 * w + 7 + 8 + 1) / 8 = w + 1 + 1 := by omega
    have e3 : (8 * w + 7 + 8 + 1) % 8 = 0 := by omega
    have hlt : (senc 0 gs).1 < 18446744073709551616 := by simpa using hr
    simp only [delta_iterator.incr, delta_iterator.itr, delta_iterator.ind, sizeof_size_t, hM,
      if_true, e1, e2, e3, he, hp]
    simp
    refine ⟨by omega, hlt, ?_⟩
    rw [Nat.mod_eq_of_lt (by omega)]; omega
  · -- escape, not the last byte
    have hmin : min g 255 = 255 := by omega
    simp only [senc, hg, h7, if_true, if_false, hmin, List.singleton_append] at hmem ⊢
    obtain ⟨he, hmem1⟩ := drop_cons_getElem? hmem
    rw [hx] at hmem1
    obtain ⟨hp, _⟩ := drop_cons_getElem? hmem1
    rw [← hx] at hmem1
    refine ⟨w + 1, ?_, hmem1⟩
    have e0 : (j + 1) % 8 = j + 1 := by omega
    have e1 : (8 * w + j + 8) / 8 = w + 1 := by omega
    have e2 : (8 * w + j + 8 + 1) / 8 = w + 1 := by omega
    have e3 : (8 * w + j + 8 + 1) % 8 ≠ 0 := by omega
    have e4 : (255 + 256 * (senc ((j + 1) % 8) gs).1) % 256 = 255 := by omega
    have e5 : (255 + 256 * (senc ((j + 1) % 8) gs).1) / 256 = (senc ((j + 1) % 8) gs).1 := by omega
    simp only [delta_iterator.incr, delta_iterator.itr, delta_iterator.ind, sizeof_size_t, hM,
      if_true, e1, e2, e3, e4, e5, he]
    have hq : mem[w + 1 + 1]? = some x := hp
    simp [hq, e0]
    refine ⟨by omega, fun h => absurd h e3, ?_⟩
    rw [Nat.mod_eq_of_lt (by omega)]; omega
  · -- small gap, last byte of the packing word
    subst h7
    have hmin : min g 255 = g := by omega
    simp only [senc, hg, if_true, if_false, hmin, List.nil_append] at hmem ⊢
    obtain ⟨hp, hmem1⟩ := drop_cons_getElem? hmem
    refine ⟨w + 1, ?_, hmem1⟩
    have e2 : (8 * w + 7 + 1) / 8 = w + 1 := by omega
    have e3 : (8 * w + 7 + 1) % 8 = 0 := by omega
    have e4 : g % 256 = g := by omega
    have e5 : g / 256 = 0 := by omega
    have e6 : ¬ g = 255 := by omega
    have hlt : (senc 0 gs).1 < 18446744073709551616 := by simpa using hr
    simp only [delta_iterator.incr, delta_iterator.itr, delta_iterator.ind, sizeof_size_t, hM,
      if_true, if_false, e2, e3, e4, e5, e6, hp]
    simp
    exact ⟨by omega, hlt, by omega⟩
  · -- small gap, not the last byte
    have hmin : min g 255 = g := by omega
    simp only [senc, hg, h7, if_true, if_false, hmin, List.nil_append] at hmem ⊢
    rw [hx] at hmem
    obtain ⟨hp, _⟩ := drop_cons_getElem? hmem
    rw [← hx] at hmem
    refine ⟨w, ?_, hmem⟩
    have e0 : (j + 1) % 8 = j + 1 := by omega
    have e2 : (8 * w + j + 1) / 8 = w := by omega
    have e3 : (8 * w + j + 1) % 8 ≠ 0 := by omega
    have e4 : (g + 256 * (senc ((j + 1) % 8) gs).1) % 256 = g := by omega
    have e5 : (g + 256 * (senc ((j + 1) % 8) gs).1) / 256 = (senc ((j + 1) % 8) gs).1 := by omega
    have e6 : ¬ g = 255 := by omega
    have e7 : mem[w]? ≠ none := by
      intro h
      have h1 := List.getElem?_eq_none_iff.mp h
      have h2 : mem[w + 1]? = none := List.getElem?_eq_none_iff.mpr (by omega)
      rw [hp] at h2; exact absurd h2 (by simp)
    obtain ⟨y, hy⟩ := Option.ne_none_iff_exists'.mp e7
    simp only [delta_iterator.incr, delta_iterator.itr, delta_iterator.ind, sizeof_size_t, hM,
      if_true, if_false, e2, e3, e4, e5, e6, hy]
    simp [e0]
    omega

/-- The `operator++` that follows the last gap reads a zero byte and stops at `end()`. -/
theorem incr_senc_nil (mem : List Nat) (w j b : Nat) (hj : j < 8)
    (hmem : mem.drop (w + 1) = [0]) (hb : b < SIZE_T_MOD) :
    delta_iterator.incr mem ⟨8 * w + j, 0, b⟩ = some ⟨8 * w + j + 1, 0, b⟩ := by
  have hM : SIZE_T_MOD = 18446744073709551616 := by decide
  rw [hM] at hb
  obtain ⟨hp, _⟩ := drop_cons_getElem? hmem
  have e7 : mem[w]? ≠ none := by
    intro h
    have h1 := List.getElem?_eq_none_iff.mp h
    have h2 : mem[w + 1]? = none := List.getElem?_eq_none_iff.mpr (by omega)
    rw [hp] at h2; exact absurd h2 (by simp)
  obtain ⟨y, hy⟩ := Option.ne_none_iff_exists'.mp e7
  by_cases h7 : j = 7
  · subst h7
    have e2 : (8 * w + 7 + 1) / 8 = w + 1 := by omega
    simp [delta_iterator.incr, delta_iterator.itr, delta_iterator.ind, sizeof_size_t, hM, e2, hp]
    omega
  · have e2 : (8 * w + j + 1) / 8 = w := by omega
    simp [delta_iterator.incr, delta_iterator.itr, delta_iterator.ind, sizeof_size_t, hM, e2, hy]
    omega

theorem advance_succ_of_incr {mem : List Nat} {it it1 : delta_iterator} (k : Nat)
    (h : delta_iterator.incr mem it = some it1) :
    delta_iterator.advance mem (k + 1) it = delta_iterator.advance mem k it1 := by
  simp [delta_iterator.advance, h]

/-- Running the iterator over storage laid out by `senc`: after `k + 1` increments it shows
the sum of the first `k + 1` gaps, and after the last one it holds the `end()` pointer. -/
theorem advance_senc (gs : List Nat) : ∀ (mem : List Nat) (w j b : Nat), j < 8 →
    mem.drop (w + 1) = (senc j gs).2 → b + gs.sum < SIZE_T_MOD →
    ∀ k, k ≤ gs.length →
      ∃ it, delta_iterator.advance mem (k + 1) ⟨8 * w + j, (senc j gs).1, b⟩ = some it
        ∧ (k < gs.length → it.m_bval = b + (gs.take (k + 1)).sum)
        ∧ (k = gs.length → it.m_p = 8 * (mem.length - 2) + (j + gs.length) % 8 + 1) := by
  induction gs with
  | nil =>
    intro mem w j b hj hmem hb k hk
    simp only [senc] at hmem
    have hk0 : k = 0 := by simpa using hk
    subst hk0
    have hlen : mem.length = w + 2 := by
      have := congrArg List.length hmem
      simp at this; omega
    refine ⟨⟨8 * w + j + 1, 0, b⟩, ?_, by simp, ?_⟩
    · have h0 : (senc j []).1 = 0 := by simp [senc]
      rw [h0, advance_succ_of_incr 0 (incr_senc_nil mem w j b hj hmem (by simpa using hb))]
      simp [delta_iterator.advance]
    · intro _
      simp only [hlen, List.length_nil]
      have : (j + 0) % 8 = j := by omega
      omega
  | cons g gs ih =>
    intro mem w j b hj hmem hb k hk
    simp only [List.sum_cons] at hb
    obtain ⟨w1, hstep, hmem1⟩ := incr_senc_cons mem w j g b gs hj hmem (by omega)
    rw [advance_succ_of_incr k hstep]
    cases k with
    | zero =>
      refine ⟨_, rfl, ?_, by simp⟩
      intro _; simp
    | succ k =>
      have hk' : k ≤ gs.length := by simpa using hk
      obtain ⟨it, hit, hval, hend⟩ :=
        ih mem w1 ((j + 1) % 8) (b + g) (Nat.mod_lt _ (by decide)) hmem1 (by omega) k hk'
      refine ⟨it, hit, ?_, ?_⟩
      · intro hlt
        have := hval (by simpa using hlt)
        rw [this]; simp [List.take, Nat.add_assoc]
      · intro he
        have := hend (by simpa using he)
        rw [this]; simp only [List.length_cons]
        have : ((j + 1) % 8 + gs.length) % 8 = (j + (gs.length + 1)) % 8 := by omega
        omega

theorem set_length_append_cons {α : Type} (l : List α) (x y : α) (r : List α) :
    (l ++ x :: r).set l.length y = l ++ y :: r := by
  induction l with
  | nil => rfl
  | cons a l ih => simp [ih]

theorem getD_length_append_cons {α : Type} (l : List α) (x d : α) (r : List α) :
    (l ++ x :: r).getD l.length d = x := by
  induction l with
  | nil => rfl
  | cons a l ih => simpa using ih

theorem delta_value_put_eq (p v j : Nat) (hj : j < 8) (hp : p < 256 ^ j) (hv : v ≤ 255) :
    delta_value_put p v j = p + v * 256 ^ j := by
  unfold delta_value_put
  have h256 : (256 : Nat) ^ j = 2 ^ (8 * j) := by
    rw [show (256 : Nat) = 2 ^ 8 by norm_num, ← pow_mul]
  have hv' : v % 256 = v := Nat.mod_eq_of_lt (by omega)
  rw [hv', Nat.shiftLeft_eq, Nat.or_comm, h256, Nat.mul_comm v, ← Nat.mul_add_lt_is_or (by rw [← h256]; exact hp)]
  have hb : 2 ^ (8 * j) * v + p < SIZE_T_MOD := by
    rw [← h256]
    have hM : SIZE_T_MOD = 256 ^ 8 := by decide
    rw [hM]
    have : (256 : Nat) ^ j * (v + 1) ≤ 256 ^ 7 * 256 := by
      apply Nat.mul_le_mul
      · exact Nat.pow_le_pow_right (by norm_num) (by omega)
      · omega
    have h8 : (256 : Nat) ^ 8 = 256 ^ 7 * 256 := by norm_num
    rw [h8]
    have : 256 ^ j * (v + 1) = 256 ^ j * v + 256 ^ j := by ring
    omega
  rw [Nat.mod_eq_of_lt hb]; ring

theorem laid_empty : Laid delta_queue.empty [] 0 [] := by
  refine ⟨rfl, rfl, by simp [delta_queue.empty], by decide⟩

theorem push_back_laid (q : delta_queue) (pre : List Nat) (p : Nat) (es : List Nat) (v : Nat)
    (hl : Laid q pre p es) (hle : q.m_bval ≤ v) (hv : v < SIZE_T_MOD) :
    (q.push_back v).m_bval = v ∧ (q.push_back v).m_size = q.m_size + 1 ∧
    (if q.m_size % 8 = 7 then
      Laid (q.push_back v)
        (pre ++ (p + min (v - q.m_bval) 255 * 256 ^ 7)
          :: (es ++ if 255 ≤ v - q.m_bval then [v - q.m_bval - 255] else [])) 0 []
     else
      Laid (q.push_back v) pre (p + min (v - q.m_bval) 255 * 256 ^ (q.m_size % 8))
        (es ++ if 255 ≤ v - q.m_bval then [v - q.m_bval - 255] else [])) := by
  obtain ⟨hbase, hpos, hp, hb⟩ := hl
  have hM : SIZE_T_MOD = 18446744073709551616 := by decide
  rw [hM] at hv hb
  have hv1 : (v + SIZE_T_MOD - q.m_bval) % SIZE_T_MOD = v - q.m_bval := by
    rw [hM]; omega
  have hbv : (q.m_bval + (v - q.m_bval)) % SIZE_T_MOD = v := by
    rw [hM]; omega
  have hj : q.m_size % 8 < 8 := Nat.mod_lt _ (by decide)
  have hlen : q.m_base.length - 1 = (pre ++ p :: es).length := by
    rw [hbase]; simp
  have hbase' : q.m_base = (pre ++ p :: es) ++ [0] := by rw [hbase]; simp
  have hmin : min (v - q.m_bval) 255 ≤ 255 := Nat.min_le_right _ _
  have hput := delta_value_put_eq p (min (v - q.m_bval) 255) (q.m_size % 8) hj hp hmin
  have hv2 : (if 255 ≤ v - q.m_bval then 255 else v - q.m_bval) = min (v - q.m_bval) 255 := by
    split <;> omega
  -- the storage after the escape word, if any, has been written
  have hb1 : (if 255 ≤ v - q.m_bval then q.m_base.set (q.m_base.length - 1) (v - q.m_bval - 255) ++ [0]
        else q.m_base)
      = pre ++ p :: ((es ++ if 255 ≤ v - q.m_bval then [v - q.m_bval - 255] else []) ++ [0]) := by
    split
    · rw [hlen, hbase', set_length_append_cons]; simp
    · rw [hbase]; simp
  unfold delta_queue.push_back
  simp only [hv1, hbv, hb1, hv2, hpos, sizeof_size_t, set_length_append_cons,
    getD_length_append_cons, hput]
  by_cases h7 : q.m_size % 8 = 7
  · have h0 : (q.m_size + 1) % 8 = 0 := by omega
    simp only [h0, h7, if_true]
    refine ⟨trivial, trivial, ?_, ?_, ?_, ?_⟩
    · simp
    · simp; omega
    · simp [h0]
    · simpa using hv
  · have h0 : (q.m_size + 1) % 8 ≠ 0 := by omega
    have h1 : (q.m_size + 1) % 8 = q.m_size % 8 + 1 := by omega
    simp only [h0, h7, if_false]
    refine ⟨trivial, trivial, rfl, rfl, ?_, ?_⟩
    · simp only [h1]
      have : (256 : Nat) ^ (q.m_size % 8 + 1) = 256 ^ (q.m_size % 8) * 256 := by ring
      rw [this]
      have : min (v - q.m_bval) 255 * 256 ^ (q.m_size % 8) ≤ 255 * 256 ^ (q.m_size % 8) :=
        Nat.mul_le_mul_right _ hmin
      omega
    · simpa using hv

theorem pushAll_laid (vs : List Nat) : ∀ (q : delta_queue) (pre : List Nat) (p : Nat) (es : List Nat),
    Laid q pre p es → List.Chain (· ≤ ·) q.m_bval vs → (∀ v ∈ vs, v < SIZE_T_MOD) →
    (q.pushAll vs).m_base
        = pre ++ (p + 256 ^ (q.m_size % 8) * (senc (q.m_size % 8) (gapsFrom q.m_bval vs)).1)
            :: (es ++ (senc (q.m_size % 8) (gapsFrom q.m_bval vs)).2)
      ∧ (q.pushAll vs).m_size = q.m_size + vs.length := by
  induction vs with
  | nil =>
    intro q pre p es hl _ _
    simp [delta_queue.pushAll, gapsFrom, senc, hl.1]
  | cons v vs ih =>
    intro q pre p es hl hc hb
    have hle : q.m_bval ≤ v := (List.chain_cons.mp hc).1
    have hc' := (List.chain_cons.mp hc).2
    have hv : v < SIZE_T_MOD := hb v (by simp)
    obtain ⟨hbv, hsz, hl'⟩ := push_back_laid q pre p es v hl hle hv
    have hpush : q.pushAll (v :: vs) = (q.push_back v).pushAll vs := rfl
    rw [hpush]
    by_cases h7 : q.m_size % 8 = 7
    · rw [if_pos h7] at hl'
      have h0 : (q.push_back v).m_size % 8 = 0 := by rw [hsz]; omega
      obtain ⟨h1, h2⟩ := ih (q.push_back v) _ 0 [] hl' (by rw [hbv]; exact hc')
        (fun x hx => hb x (by simp [hx]))
      rw [h1, h2, h0, hbv, hsz]
      refine ⟨?_, by simp; omega⟩
      simp only [gapsFrom, senc, h7, if_true]
      simp
      ring
    · rw [if_neg h7] at hl'
      have h0 : (q.push_back v).m_size % 8 = q.m_size % 8 + 1 := by rw [hsz]; omega
      have h0' : (q.m_size % 8 + 1) % 8 = q.m_size % 8 + 1 := by omega
      obtain ⟨h1, h2⟩ := ih (q.push_back v) _ _ _ hl' (by rw [hbv]; exact hc')
        (fun x hx => hb x (by simp [hx]))
      rw [h1, h2, h0, hbv, hsz]
      refine ⟨?_, by simp; omega⟩
      simp only [gapsFrom, senc, h7, if_false, h0']
      simp
      ring

theorem gapsFrom_length (vs : List Nat) : ∀ b, (gapsFrom b vs).length = vs.length := by
  induction vs with
  | nil => intro b; rfl
  | cons v vs ih => intro b; simp [gapsFrom, ih]

theorem gapsFrom_take_sum (vs : List Nat) : ∀ b, List.Chain (· ≤ ·) b vs →
    ∀ k (h : k < vs.length), b + ((gapsFrom b vs).take (k + 1)).sum = vs[k] := by
  induction vs with
  | nil => intro b _ k h; simp at h
  | cons v vs ih =>
    intro b hc k h
    have hle : b ≤ v := (List.chain_cons.mp hc).1
    have hc' := (List.chain_cons.mp hc).2
    cases k with
    | zero => simp [gapsFrom]; omega
    | succ k =>
      have := ih v hc' k (by simpa using h)
      simp only [gapsFrom, List.take_succ_cons, List.sum_cons, List.getElem_cons_succ]
      omega

theorem gapsFrom_sum_lt (vs : List Nat) (M : Nat) : ∀ b, List.Chain (· ≤ ·) b vs →
    (∀ v ∈ vs, v < M) → b < M → b + (gapsFrom b vs).sum < M := by
  induction vs with
  | nil => intro b _ _ hb; simpa [gapsFrom] using hb
  | cons v vs ih =>
    intro b hc hv hb
    have hle : b ≤ v := (List.chain_cons.mp hc).1
    have hc' := (List.chain_cons.mp hc).2
    have := ih v hc' (fun x hx => hv x (by simp [hx])) (hv v (by simp))
    simp only [gapsFrom, List.sum_cons]
    omega

theorem advance_add (mem : List Nat) (a d : Nat) : ∀ it,
    delta_iterator.advance mem (a + d) it
      = (delta_iterator.advance mem a it).bind (delta_iterator.advance mem d) := by
  induction a with
  | zero => intro it; simp [delta_iterator.advance]
  | succ a ih =>
    intro it
    rw [Nat.succ_add]
    simp only [delta_iterator.advance]
    cases h : delta_iterator.incr mem it with
    | none => simp
    | some it1 => simp [ih]

theorem advance_m_p_le (mem : List Nat) (d : Nat) : ∀ it it1,
    delta_iterator.advance mem d it = some it1 → it.m_p + d ≤ it1.m_p := by
  induction d with
  | zero => intro it it1 h; simp [delta_iterator.advance] at h; subst h; simp
  | succ d ih =>
    intro it it1 h
    simp only [delta_iterator.advance] at h
    cases h1 : delta_iterator.incr mem it with
    | none => simp [h1] at h
    | some it2 =>
      simp [h1] at h
      have := ih it2 it1 h
      have := incr_m_p_lt h1
      omega

/-- Values pushed in non-decreasing order are read back in order, and `end()` is reached after
exactly `size()` increments. -/
theorem delta_queue_iterate_chain (vs : List Nat) (hc : List.Chain (· ≤ ·) 0 vs)
    (hb : ∀ v ∈ vs, v < SIZE_T_MOD) :
    (delta_queue.empty.pushAll vs).size = vs.length ∧
    ∀ k, k ≤ vs.length → ∃ it, (delta_queue.empty.pushAll vs).iterAt k = some it ∧
        (it.m_p = (delta_queue.empty.pushAll vs).end_p ↔ k = vs.length) ∧
        (∀ h : k < vs.length, it.m_bval = vs[k]) := by
  have hl := pushAll_laid vs delta_queue.empty [] 0 [] laid_empty hc hb
  have hz : delta_queue.empty.m_size = 0 := rfl
  have hbz : delta_queue.empty.m_bval = 0 := rfl
  rw [hz, hbz] at hl
  simp only [Nat.zero_mod, pow_zero, one_mul, zero_add, List.nil_append] at hl
  obtain ⟨hbase, hsize⟩ := hl
  set q := delta_queue.empty.pushAll vs with hq
  set gs := gapsFrom 0 vs with hgs
  have hglen : gs.length = vs.length := gapsFrom_length vs 0
  have hsum : 0 + gs.sum < SIZE_T_MOD := gapsFrom_sum_lt vs _ 0 hc hb (by decide)
  have hdrop : q.m_base.drop (0 + 1) = (senc 0 gs).2 := by rw [hbase]; simp
  have hrun := advance_senc gs q.m_base 0 0 0 (by decide) hdrop hsum
  have hbegin : ∀ k, q.iterAt k = delta_iterator.advance q.m_base (k + 1) ⟨0, (senc 0 gs).1, 0⟩ := by
    intro k
    simp [delta_queue.iterAt, delta_queue.begin, hbase, delta_iterator.advance]
  have hlen2 : 2 ≤ q.m_base.length := by
    rw [hbase]
    have := senc_snd_ne_nil gs 0
    cases h : (senc 0 gs).2 with
    | nil => exact absurd h this
    | cons x xs => simp
  obtain ⟨itE, hitE, _, hpE⟩ := hrun gs.length (le_refl _)
  have hendp : itE.m_p = q.end_p := by
    rw [hpE rfl]
    simp only [delta_queue.end_p, sizeof_size_t, size_t_mask, hsize, hglen]
    omega
  refine ⟨hsize, ?_⟩
  intro k hk
  obtain ⟨it, hit, hval, hp⟩ := hrun k (by omega)
  refine ⟨it, by rw [hbegin]; simpa using hit, ?_, ?_⟩
  · constructor
    · intro hpk
      by_contra hne
      have hlt : k < vs.length := by omega
      obtain ⟨d, hd⟩ : ∃ d, gs.length + 1 = (k + 1) + (d + 1) := ⟨gs.length - k - 1, by omega⟩
      have h2 := hitE
      rw [hd, advance_add] at h2
      simp only [Nat.mul_zero, Nat.zero_add] at hit
      simp only [Nat.mul_zero, Nat.zero_add, hit, Option.some_bind] at h2
      have := advance_m_p_le _ _ _ _ h2
      omega
    · intro hke
      subst hke
      have : it = itE := by
        have h1 := hit
        rw [← hglen] at h1
        rw [hitE] at h1
        exact (Option.some.inj h1).symm
      rw [this, hendp]
  · intro h
    have h1 := hval (by omega)
    have h2 := gapsFrom_take_sum vs 0 hc k h
    rw [h1]; exact h2

theorem iterAt_succ (q : delta_queue) (k : Nat) :
    q.iterAt (k + 1) = (q.iterAt k).bind (delta_iterator.incr q.m_base) := by
  unfold delta_queue.iterAt
  cases hb : q.begin with
  | none => simp
  | some it =>
    simp only [Option.some_bind]
    rw [advance_add q.m_base k 1 it]
    cases delta_iterator.advance q.m_base k it with
    | none => simp
    | some it1 =>
      simp only [Option.some_bind, delta_iterator.advance]
      cases delta_iterator.incr q.m_base it1 <;> simp

/-- The loop from `begin()` to `end()` over values pushed in non-decreasing order returns them. -/
theorem delta_queue_toList_pushAll (vs : List Nat) (hc : List.Chain (· ≤ ·) 0 vs)
    (hb : ∀ v ∈ vs, v < SIZE_T_MOD) :
    (delta_queue.empty.pushAll vs).toList = some vs := by
  obtain ⟨hsize, hrun⟩ := delta_queue_iterate_chain vs hc hb
  set q := delta_queue.empty.pushAll vs with hq
  have key : ∀ d k, k + d = vs.length → ∀ it, q.iterAt k = some it →
      delta_iterator.collect q.m_base q.end_p (d + 1) it = some (vs.drop k) := by
    intro d
    induction d with
    | zero =>
      intro k hk it hit
      obtain ⟨it', hit', hp, _⟩ := hrun k (by omega)
      rw [hit] at hit'
      have : it = it' := Option.some.inj hit'
      subst this
      have hpe := hp.mpr (by omega)
      simp [delta_iterator.collect, hpe, ← hk]
    | succ d ih =>
      intro k hk it hit
      obtain ⟨it', hit', hp, hv⟩ := hrun k (by omega)
      rw [hit] at hit'
      have : it = it' := Option.some.inj hit'
      subst this
      have hne : it.m_p ≠ q.end_p := fun h => by have := hp.mp h; omega
      obtain ⟨it1, hit1, _, _⟩ := hrun (k + 1) (by omega)
      have hstep : delta_iterator.incr q.m_base it = some it1 := by
        have := iterAt_succ q k
        rw [hit, hit1] at this
        simpa using this.symm
      have hklt : k < vs.length := by omega
      rw [delta_iterator.collect, if_neg hne, hstep]
      simp only [ih (k + 1) (by omega) it1 hit1, Option.map_some']
      rw [hv hklt]
      rw [List.drop_eq_getElem_cons hklt]
  obtain ⟨it0, hit0, _, _⟩ := hrun 0 (by omega)
  have hb0 : q.begin = some it0 := by
    simpa [delta_queue.iterAt, delta_iterator.advance] using hit0
  unfold delta_queue.toList
  rw [hb0]
  simp only [Option.some_bind]
  have := key vs.length 0 (by omega) it0 hit0
  rw [show q.m_size = vs.length from hsize]
  simpa using this

theorem chain_of_sorted_lt (vs : List Nat) (hs : vs.Sorted (· < ·)) : List.Chain (· ≤ ·) 0 vs := by
  rw [List.chain_iff_pairwise]
  rw [List.pairwise_cons]
  exact ⟨fun _ _ => Nat.zero_le _, List.Pairwise.imp (fun h => Nat.le_of_lt h) hs⟩

/-! ### C4 -/

/-- C4. For every strictly increasing sequence of `size_t` values appended with `push_back` to an
empty `delta_queue` (every prefix of such a sequence, the empty one included, is one as well):
`begin()` advanced `k` times equals `end()` exactly when `k` is `size()`, which is the number of
values pushed, and dereferencing after `k` increments gives the `k`-th pushed value. -/
theorem delta_queue_iterate_pushed (vs : List Nat) (hs : vs.Sorted (· < ·))
    (hb : ∀ v ∈ vs, v < SIZE_T_MOD) :
    (delta_queue.empty.pushAll vs).size = vs.length ∧
    ∀ k, k ≤ vs.length → ∃ it, (delta_queue.empty.pushAll vs).iterAt k = some it ∧
        (it.m_p = (delta_queue.empty.pushAll vs).end_p ↔ k = vs.length) ∧
        (∀ h : k < vs.length, it.m_bval = vs[k]) :=
  delta_queue_iterate_chain vs (chain_of_sorted_lt vs hs) hb

/-- C4 at the values 3, 300, 301, 70000 (two gaps below 255, two escapes). -/
theorem delta_queue_iterate_pushed_witness :
    (delta_queue.empty.pushAll [3, 300, 301, 70000]).size = 4 ∧
    ∀ k, k ≤ 4 → ∃ it, (delta_queue.empty.pushAll [3, 300, 301, 70000]).iterAt k = some it ∧
        (it.m_p = (delta_queue.empty.pushAll [3, 300, 301, 70000]).end_p ↔ k = 4) ∧
        (∀ h : k < 4, it.m_bval = [3, 300, 301, 70000][k]) :=
  delta_queue_iterate_pushed [3, 300, 301, 70000] (by decide) (by decide)

/-! ### imageIdMap: lemmas -/

theorem imageIdMap_find_isSome_iff {T : Type} (m : List (imageId × T)) (id : imageId) :
    (imageIdMap_find m id).isSome = true ↔ id ∈ m.map Prod.fst := by
  unfold imageIdMap_find
  induction m with
  | nil => simp
  | cons p m ih =>
    by_cases h : p.1 = id
    · simp [List.find?, h]
    · have hb : (p.1 == id) = false := by simpa using h
      simp only [List.find?, hb, List.map_cons, List.mem_cons]
      rw [ih]
      constructor
      · intro h1; exact Or.inr h1
      · intro h1
        rcases h1 with h1 | h1
        · exact absurd h1.symm h
        · exact h1

theorem imageIdMap_find_eq_none_iff {T : Type} (m : List (imageId × T)) (id : imageId) :
    imageIdMap_find m id = none ↔ id ∉ m.map Prod.fst := by
  rw [← imageIdMap_find_isSome_iff]
  cases imageIdMap_find m id <;> simp

theorem imageIdMap_set_keys_of_absent {T : Type} (m : List (imageId × T)) (id : imageId) (v : T)
    (h : id ∉ m.map Prod.fst) :
    (imageIdMap_set m id v).map Prod.fst = m.map Prod.fst ++ [id] := by
  have h1 : imageIdMap_find m id = none := (imageIdMap_find_eq_none_iff m id).mpr h
  unfold imageIdMap_find at h1
  unfold imageIdMap_set
  cases hf : m.find? (fun p => p.1 == id) with
  | none => simp
  | some p => rw [hf] at h1; simp at h1

theorem imageIdMap_set_length_of_absent {T : Type} (m : List (imageId × T)) (id : imageId) (v : T)
    (h : id ∉ m.map Prod.fst) : (imageIdMap_set m id v).length = m.length + 1 := by
  have := congrArg List.length (imageIdMap_set_keys_of_absent m id v h)
  simpa using this

theorem imageIdMap_erase_keys {T : Type} (m : List (imageId × T)) (id : imageId) :
    (imageIdMap_erase m id).map Prod.fst = (m.map Prod.fst).filter (fun x => x ≠ id) := by
  unfold imageIdMap_erase
  induction m with
  | nil => rfl
  | cons p m ih =>
    by_cases h : p.1 = id
    · simp [List.filter, h, ih]
    · have hb : (p.1 == id) = false := by simpa using h
      simp [List.filter, hb, h, ih]

theorem imageIdMap_erase_length_of_mem {T : Type} (m : List (imageId × T)) (id : imageId)
    (hnd : (m.map Prod.fst).Nodup) (h : id ∈ m.map Prod.fst) :
    (imageIdMap_erase m id).length + 1 = m.length := by
  unfold imageIdMap_erase
  induction m with
  | nil => simp at h
  | cons p m ih =>
    simp only [List.map_cons, List.nodup_cons] at hnd
    by_cases hp : p.1 = id
    · have hnot : id ∉ m.map Prod.fst := hp ▸ hnd.1
      have hfil : m.filter (fun q => !(q.1 == id)) = m := by
        apply List.filter_eq_self.mpr
        intro q hq
        have : q.1 ≠ id := fun e => hnot (e ▸ List.mem_map_of_mem Prod.fst hq)
        simpa using this
      simp [List.filter, hp, hfil]
    · have hb : (p.1 == id) = false := by simpa using hp
      have hmem : id ∈ m.map Prod.fst := by
        simp only [List.map_cons, List.mem_cons] at h
        rcases h with h | h
        · exact absurd h.symm hp
        · exact h
      have := ih hnd.2 hmem
      simp [List.filter, hb]
      omega

theorem imageIdMap_find_some_mem {T : Type} (m : List (imageId × T)) (id : imageId) (v : T)
    (h : imageIdMap_find m id = some v) : (id, v) ∈ m := by
  unfold imageIdMap_find at h
  cases hf : m.find? (fun p => p.1 == id) with
  | none => rw [hf] at h; simp at h
  | some p =>
    rw [hf] at h
    simp at h
    have h1 := List.find?_some hf
    have h2 := List.mem_of_find?_eq_some hf
    have : p = (id, v) := by
      cases p with
      | mk a b => simp at h1 h; rw [h1, h]
    rw [← this]; exact h2

theorem imageIdMap_find_of_mem_nodup {T : Type} (m : List (imageId × T)) (id : imageId) (v : T)
    (hnd : (m.map Prod.fst).Nodup) (h : (id, v) ∈ m) : imageIdMap_find m id = some v := by
  unfold imageIdMap_find
  induction m with
  | nil => simp at h
  | cons p m ih =>
    simp only [List.map_cons, List.nodup_cons] at hnd
    simp only [List.mem_cons] at h
    rcases h with h | h
    · subst h; simp [List.find?]
    · have hne : p.1 ≠ id := by
        intro e
        apply hnd.1
        rw [e]
        exact List.mem_map_of_mem Prod.fst h
      have hb : (p.1 == id) = false := by simpa using hne
      simp only [List.find?, hb]
      exact ih hnd.2 h

/-! ### dbSpaceAlter: adds and removes -/

theorem read_sigs_isSome (f : Nat → Option ImgData) (n : Nat) : ∀ off,
    (∀ k, k < n → (f (off + k * sizeof_ImgData)).isSome = true) →
    ∃ l, read_sigs f off n = some l ∧ l.length = n := by
  induction n with
  | zero => intro off _; exact ⟨[], rfl, rfl⟩
  | succ n ih =>
    intro off h
    have h0 := h 0 (by omega)
    simp only [Nat.zero_mul, Nat.add_zero] at h0
    obtain ⟨s, hs⟩ := Option.isSome_iff_exists.mp h0
    obtain ⟨l, hl, hlen⟩ := ih (off + sizeof_ImgData) (fun k hk => by
      have := h (k + 1) (by omega)
      rw [show off + (k + 1) * sizeof_ImgData = off + sizeof_ImgData + k * sizeof_ImgData by ring] at this
      exact this)
    exact ⟨s :: l, by simp [read_sigs, hs, hl], by simp [hlen]⟩

theorem write_sigs_isSome_of_isSome (l : List ImgData) : ∀ (f : Nat → Option ImgData) (off o : Nat),
    (f o).isSome = true → (write_sigs f off l o).isSome = true := by
  induction l with
  | nil => intro f off o h; exact h
  | cons s l ih =>
    intro f off o h
    apply ih
    unfold write_sig_at
    split <;> simp [h]

theorem write_sigs_isSome_written (l : List ImgData) : ∀ (f : Nat → Option ImgData) (off k : Nat),
    k < l.length → (write_sigs f off l (off + k * sizeof_ImgData)).isSome = true := by
  induction l with
  | nil => intro f off k hk; simp at hk
  | cons s l ih =>
    intro f off k hk
    cases k with
    | zero =>
      simp only [Nat.zero_mul, Nat.add_zero, write_sigs]
      apply write_sigs_isSome_of_isSome
      simp [write_sig_at]
    | succ k =>
      simp only [write_sigs]
      have := ih (write_sig_at f off s) (off + sizeof_ImgData) k (by simpa using hk)
      rw [show off + (k + 1) * sizeof_ImgData = off + sizeof_ImgData + k * sizeof_ImgData by ring]
      exact this

theorem alter_hasImage_iff (db : dbSpaceAlter) (id : imageId) :
    db.hasImage id = true ↔ id ∈ db.getImgIdList :=
  imageIdMap_find_isSome_iff db.m_images id

theorem alter_store_spec (db : dbSpaceAlter) (img : ImgData) (ind : Nat)
    (h : img.id ∉ db.m_images.map Prod.fst) :
    (db.store img ind).getImgIdList = db.getImgIdList ++ [img.id] ∧
    (db.store img ind).m_images.length = db.m_images.length + 1 ∧
    (db.store img ind).m_readonly = db.m_readonly ∧
    (db.store img ind).m_deleted = db.m_deleted ∧
    (db.store img ind).m_sigOff = db.m_sigOff ∧
    (db.store img ind).m_imgOff = db.m_imgOff ∧
    (db.store img ind).file_sigs = write_sig_at db.file_sigs (db.m_sigOff + ind * sizeof_ImgData) img := by
  refine ⟨?_, ?_, rfl, rfl, rfl, rfl, rfl⟩
  · exact imageIdMap_set_keys_of_absent db.m_images img.id ind h
  · exact imageIdMap_set_length_of_absent db.m_images img.id ind h

theorem write_sig_at_isSome (f : Nat → Option ImgData) (off : Nat) (s : ImgData) (o : Nat)
    (h : (f o).isSome = true ∨ o = off) : (write_sig_at f off s o).isSome = true := by
  unfold write_sig_at
  split
  · rfl
  · rcases h with h | h
    · exact h
    · contradiction

theorem alter_store_wf (d : dbSpaceAlter) (img : ImgData) (ind : Nat)
    (hro : d.m_readonly = false) (hnd : (d.m_images.map Prod.fst).Nodup)
    (habs : img.id ∉ d.m_images.map Prod.fst)
    (hrec : ∀ k, k < d.m_images.length + 1 + d.m_deleted.length → k ≠ ind →
      (d.file_sigs (d.m_sigOff + k * sizeof_ImgData)).isSome = true)
    (hj1 : d.m_imgOff + sizeof_imageId * (d.m_images.length + 1 + d.m_deleted.length) < d.m_sigOff)
    (hj2 : d.m_imgOff + 17 * sizeof_imageId ≤ d.m_sigOff) :
    (d.store img ind).wf ∧ (d.store img ind).getImgIdList = d.getImgIdList ++ [img.id] := by
  obtain ⟨hk, hl, hr, hd, hs, hi, hf⟩ := alter_store_spec d img ind habs
  refine ⟨⟨?_, ?_, ?_, ?_, ?_⟩, hk⟩
  · rw [hr]; exact hro
  · change ((d.store img ind).getImgIdList).Nodup
    rw [hk]
    exact List.Nodup.append hnd (List.nodup_singleton _)
      (List.disjoint_singleton.mpr (show img.id ∉ d.getImgIdList from habs))
  · intro k hk'
    rw [hl, hd] at hk'
    rw [hs, hf]
    apply write_sig_at_isSome
    by_cases hki : k = ind
    · right; rw [hki]
    · left; exact hrec k hk' hki
  · rw [hl, hd, hs, hi]; exact hj1
  · rw [hs, hi]; exact hj2

/-- In a well-formed alter-mode database, `addImageData` with an absent id returns normally,
appends the id to the map and keeps the database well formed. -/
theorem alter_add_fresh (db : dbSpaceAlter) (img : ImgData) (hwf : db.wf)
    (h : db.hasImage img.id = false) :
    (db.addImageData img).2 = none ∧ (db.addImageData img).1.wf ∧
    (db.addImageData img).1.getImgIdList = db.getImgIdList ++ [img.id] := by
  obtain ⟨hro, hnd, hrec, hj1, hj2⟩ := hwf
  have habs : img.id ∉ db.m_images.map Prod.fst := by
    intro hm
    have := (alter_hasImage_iff db img.id).mpr hm
    rw [h] at this; exact absurd this (by simp)
  have hsz : sizeof_imageId = 8 := rfl
  have hsd : sizeof_ImgData = 520 := rfl
  have hrn : resize_numrel = 16 := by decide
  cases hdel : db.m_deleted.getLast? with
  | some ind =>
    have hne : db.m_deleted ≠ [] := by
      intro e; rw [e] at hdel; simp at hdel
    have hdl : db.m_deleted.dropLast.length + 1 = db.m_deleted.length := by
      rw [List.length_dropLast]
      have := List.length_pos.mpr hne
      omega
    have hres : db.addImageData img
        = (({ db with m_deleted := db.m_deleted.dropLast } : dbSpaceAlter).store img ind, none) := by
      unfold dbSpaceAlter.addImageData
      simp only [hro, h, Bool.false_eq_true, if_false, hdel]
    rw [hres]
    obtain ⟨hw, hids⟩ := alter_store_wf ({ db with m_deleted := db.m_deleted.dropLast } : dbSpaceAlter)
      img ind hro hnd habs
      (fun k hk _ => hrec k (by
        have e : ({ db with m_deleted := db.m_deleted.dropLast } : dbSpaceAlter).m_deleted.length
            = db.m_deleted.dropLast.length := rfl
        have e2 : ({ db with m_deleted := db.m_deleted.dropLast } : dbSpaceAlter).m_images.length
            = db.m_images.length := rfl
        rw [e, e2] at hk; omega))
      (by
        show db.m_imgOff + sizeof_imageId * (db.m_images.length + 1 + db.m_deleted.dropLast.length)
          < db.m_sigOff
        rw [show db.m_images.length + 1 + db.m_deleted.dropLast.length
          = db.m_images.length + db.m_deleted.length by omega]
        exact hj1)
      hj2
    exact ⟨rfl, hw, hids⟩
  | none =>
    have hdn : db.m_deleted = [] := by
      cases hd : db.m_deleted with
      | nil => rfl
      | cons a l => rw [hd] at hdel; simp at hdel
    simp only [hdn, List.length_nil, Nat.add_zero] at hrec hj1
    by_cases hfull : db.m_sigOff ≤ db.m_imgOff + (db.m_images.length + 1) * sizeof_imageId
    · -- the header is full: resize_header runs first
      have h16 : ¬ db.m_images.length < resize_numrel := by
        rw [hrn]; rw [hsz] at hfull hj2; omega
      obtain ⟨sigs, hsigs, hslen⟩ := read_sigs_isSome db.file_sigs resize_numrel db.m_sigOff
        (fun k hk => hrec k (by omega))
      obtain ⟨db1, hdb1⟩ : ∃ db1 : dbSpaceAlter, db1 =
          { db with m_sigOff := db.m_sigOff + resize_numrel * sizeof_ImgData,
                    file_sigs := write_sigs db.file_sigs
                      (db.m_sigOff + db.m_images.length * sizeof_ImgData) sigs,
                    m_images := db.m_images.map
                      (fun p => (p.1, if resize_numrel ≤ p.2 then p.2 - resize_numrel
                                      else p.2 + (db.m_images.length - resize_numrel))),
                    m_rewriteIDs := true } := ⟨_, rfl⟩
      have hres : db.resize_header = (db1, none) := by
        unfold dbSpaceAlter.resize_header
        simp only [hro, Bool.false_eq_true, if_false, h16, hsigs, hdb1]
      have hso : db1.m_sigOff = db.m_sigOff + resize_numrel * sizeof_ImgData := by rw [hdb1]
      have hio : db1.m_imgOff = db.m_imgOff := by rw [hdb1]
      have hd1 : db1.m_deleted = [] := by rw [hdb1]; exact hdn
      have hro1 : db1.m_readonly = false := by rw [hdb1]; exact hro
      have hfs : db1.file_sigs = write_sigs db.file_sigs
          (db.m_sigOff + db.m_images.length * sizeof_ImgData) sigs := by rw [hdb1]
      have hkeys1 : db1.m_images.map Prod.fst = db.m_images.map Prod.fst := by
        rw [hdb1]; simp [List.map_map, Function.comp_def]
      have hlen1 : db1.m_images.length = db.m_images.length := by rw [hdb1]; simp
      have hpass : ¬ (db1.m_sigOff ≤ db1.m_imgOff + (db.m_images.length + 1) * sizeof_imageId) := by
        rw [hso, hio, hrn, hsd, hsz]; rw [hsz] at hj1; omega
      have hadd : db.addImageData img = (db1.store img db.m_images.length, none) := by
        unfold dbSpaceAlter.addImageData
        simp only [hro, h, Bool.false_eq_true, if_false, hdel, hfull, if_true, hres, hpass]
      rw [hadd]
      obtain ⟨hw, hids⟩ := alter_store_wf db1 img db.m_images.length hro1
        (by rw [hkeys1]; exact hnd) (by rw [hkeys1]; exact habs)
        (by
          intro k hk hne
          rw [hlen1, hd1] at hk
          simp only [List.length_nil, Nat.add_zero] at hk
          rw [hso, hfs]
          by_cases hold : k + resize_numrel < db.m_images.length
          · apply write_sigs_isSome_of_isSome
            have := hrec (k + resize_numrel) hold
            rw [show db.m_sigOff + resize_numrel * sizeof_ImgData + k * sizeof_ImgData
              = db.m_sigOff + (k + resize_numrel) * sizeof_ImgData by ring]
            exact this
          · have hw := write_sigs_isSome_written sigs db.file_sigs
              (db.m_sigOff + db.m_images.length * sizeof_ImgData)
              (k + resize_numrel - db.m_images.length) (by omega)
            have harith : db.m_sigOff + resize_numrel * sizeof_ImgData + k * sizeof_ImgData
                = db.m_sigOff + db.m_images.length * sizeof_ImgData
                  + (k + resize_numrel - db.m_images.length) * sizeof_ImgData := by
              rw [hsd]; omega
            rw [harith]
            exact hw)
        (by rw [hlen1, hd1, hso, hio, hrn, hsd, hsz]; rw [hsz] at hj1
            simp only [List.length_nil]; omega)
        (by rw [hso, hio]; omega)
      refine ⟨rfl, hw, ?_⟩
      rw [hids]; unfold dbSpaceAlter.getImgIdList; rw [hkeys1]
    · have hadd : db.addImageData img = (db.store img db.m_images.length, none) := by
        unfold dbSpaceAlter.addImageData
        simp only [hro, h, Bool.false_eq_true, if_false, hdel, hfull]
      rw [hadd]
      obtain ⟨hw, hids⟩ := alter_store_wf db img db.m_images.length hro hnd habs
        (by
          intro k hk hne
          rw [hdn] at hk
          simp only [List.length_nil, Nat.add_zero] at hk
          exact hrec k (by omega))
        (by rw [hdn]; simp only [List.length_nil, Nat.add_zero]; rw [hsz] at hfull ⊢; omega)
        hj2
      exact ⟨rfl, hw, hids⟩

theorem alter_add_dup (db : dbSpaceAlter) (img : ImgData) (hro : db.m_readonly = false)
    (h : db.hasImage img.id = true) : db.addImageData img = (db, some .duplicate_id) := by
  unfold dbSpaceAlter.addImageData
  simp [hro, h]

theorem alter_remove_absent (db : dbSpaceAlter) (id : imageId) (hro : db.m_readonly = false)
    (h : db.hasImage id = false) : db.removeImage id = (db, some .invalid_id) := by
  unfold dbSpaceAlter.removeImage
  unfold dbSpaceAlter.hasImage at h
  cases hf : imageIdMap_find db.m_images id with
  | none => simp [hro]
  | some v => rw [hf] at h; simp at h

theorem alter_remove_present (db : dbSpaceAlter) (id : imageId) (hwf : db.wf)
    (h : db.hasImage id = true) :
    (db.removeImage id).2 = none ∧ (db.removeImage id).1.wf ∧
    (db.removeImage id).1.getImgIdList = db.getImgIdList.filter (fun x => x ≠ id) := by
  obtain ⟨hro, hnd, hrec, hj1, hj2⟩ := hwf
  have hmem : id ∈ db.m_images.map Prod.fst := (alter_hasImage_iff db id).mp h
  unfold dbSpaceAlter.hasImage at h
  obtain ⟨ind, hind⟩ := Option.isSome_iff_exists.mp h
  have hres : db.removeImage id
      = ({ db with m_deleted := db.m_deleted ++ [ind],
                   m_images := imageIdMap_erase db.m_images id }, none) := by
    unfold dbSpaceAlter.removeImage
    simp only [hro, Bool.false_eq_true, if_false, hind]
  rw [hres]
  have hkeys := imageIdMap_erase_keys db.m_images id
  have hlen := imageIdMap_erase_length_of_mem db.m_images id hnd hmem
  refine ⟨rfl, ⟨hro, ?_, ?_, ?_, hj2⟩, hkeys⟩
  · show ((imageIdMap_erase db.m_images id).map Prod.fst).Nodup
    rw [hkeys]
    exact List.Nodup.filter _ hnd
  · intro k hk
    apply hrec
    have e : (imageIdMap_erase db.m_images id).length + (db.m_deleted ++ [ind]).length
        = db.m_images.length + db.m_deleted.length := by
      rw [List.length_append]; simp only [List.length_singleton]; omega
    have hk' : k < (imageIdMap_erase db.m_images id).length + (db.m_deleted ++ [ind]).length := hk
    omega
  · show db.m_imgOff + sizeof_imageId
        * ((imageIdMap_erase db.m_images id).length + (db.m_deleted ++ [ind]).length) < db.m_sigOff
    have e : (imageIdMap_erase db.m_images id).length + (db.m_deleted ++ [ind]).length
        = db.m_images.length + db.m_deleted.length := by
      rw [List.length_append]; simp only [List.length_singleton]; omega
    rw [e]; exact hj1

theorem load_empty_wf : dbSpaceAlter.load_empty.wf := by
  refine ⟨rfl, ?_, ?_, ?_, ?_⟩
  · simp [dbSpaceAlter.load_empty]
  · intro k hk
    simp [dbSpaceAlter.load_empty] at hk
  · decide
  · decide

/-! ### C5 -/

/-- C5. In alter mode, after any sequence of `addImageData` and `removeImage` calls on a
well-formed database (an add of an id that is present and a remove of an id that is absent are
rejected and change nothing), `getImgIdList` holds exactly the ids added and not removed since,
each once, and `getImgCount` is their number. -/
theorem alter_ids_after_calls (db : dbSpaceAlter) (ops : List AlterOp) (hwf : db.wf) :
    (db.run ops).getImgIdList.Perm (liveIds db.getImgIdList ops) ∧
    (db.run ops).getImgIdList.Nodup ∧
    (db.run ops).getImgCount = (liveIds db.getImgIdList ops).length := by
  have key : ∀ (ops : List AlterOp) (db : dbSpaceAlter), db.wf →
      (db.run ops).wf ∧ (db.run ops).getImgIdList = liveIds db.getImgIdList ops := by
    intro ops
    induction ops with
    | nil => intro db hwf; exact ⟨hwf, rfl⟩
    | cons op ops ih =>
      intro db hwf
      have hrun : db.run (op :: ops) = (db.apply op).run ops := rfl
      rw [hrun]
      cases op with
      | add img =>
        by_cases hp : db.hasImage img.id = true
        · have hm : img.id ∈ db.getImgIdList := (alter_hasImage_iff db img.id).mp hp
          have hst : db.apply (.add img) = db := by
            show (db.addImageData img).1 = db
            rw [alter_add_dup db img hwf.1 hp]
          rw [hst]
          obtain ⟨h1, h2⟩ := ih db hwf
          refine ⟨h1, ?_⟩
          rw [h2]; simp only [liveIds, hm, if_true]
        · have hp' : db.hasImage img.id = false := by simpa using hp
          have hm : img.id ∉ db.getImgIdList := fun hm => hp ((alter_hasImage_iff db img.id).mpr hm)
          obtain ⟨_, hw, hids⟩ := alter_add_fresh db img hwf hp'
          obtain ⟨h1, h2⟩ := ih (db.apply (.add img)) hw
          refine ⟨h1, ?_⟩
          rw [h2]
          show liveIds (db.addImageData img).1.getImgIdList ops = _
          rw [hids]; simp only [liveIds, hm, if_false]
      | remove id =>
        by_cases hp : db.hasImage id = true
        · obtain ⟨_, hw, hids⟩ := alter_remove_present db id hwf hp
          obtain ⟨h1, h2⟩ := ih (db.apply (.remove id)) hw
          refine ⟨h1, ?_⟩
          rw [h2]
          show liveIds (db.removeImage id).1.getImgIdList ops = _
          rw [hids]; simp only [liveIds]
        · have hp' : db.hasImage id = false := by simpa using hp
          have hm : id ∉ db.getImgIdList := fun hm => hp ((alter_hasImage_iff db id).mpr hm)
          have hst : db.apply (.remove id) = db := by
            show (db.removeImage id).1 = db
            rw [alter_remove_absent db id hwf.1 hp']
          rw [hst]
          obtain ⟨h1, h2⟩ := ih db hwf
          refine ⟨h1, ?_⟩
          rw [h2]; simp only [liveIds]
          congr 1
          symm
          apply List.filter_eq_self.mpr
          intro x hx
          have : x ≠ id := fun e => hm (e ▸ hx)
          simpa using this
  obtain ⟨hw, hids⟩ := key ops db hwf
  refine ⟨by rw [hids], hw.2.1, ?_⟩
  unfold dbSpaceAlter.getImgCount
  rw [← hids]
  simp [dbSpaceAlter.getImgIdList]

/-! ### C5: an instance -/

/-- C5 on the database `load` builds for a new file: add 1, add 2, add 1 again (rejected),
remove 1, remove 9 (rejected), add 7. -/
theorem alter_ids_after_calls_witness :
    (dbSpaceAlter.load_empty.run
        [.add sampleA, .add sampleB, .add sampleA, .remove 1, .remove 9, .add sampleBlack]).getImgIdList.Perm
      (liveIds dbSpaceAlter.load_empty.getImgIdList
        [.add sampleA, .add sampleB, .add sampleA, .remove 1, .remove 9, .add sampleBlack]) ∧
    (dbSpaceAlter.load_empty.run
        [.add sampleA, .add sampleB, .add sampleA, .remove 1, .remove 9, .add sampleBlack]).getImgIdList.Nodup ∧
    (dbSpaceAlter.load_empty.run
        [.add sampleA, .add sampleB, .add sampleA, .remove 1, .remove 9, .add sampleBlack]).getImgCount
      = (liveIds dbSpaceAlter.load_empty.getImgIdList
        [.add sampleA, .add sampleB, .add sampleA, .remove 1, .remove 9, .add sampleBlack]).length :=
  alter_ids_after_calls dbSpaceAlter.load_empty _
    ⟨rfl, List.nodup_nil, fun k hk => absurd hk (Nat.not_lt_zero k), by decide, by decide⟩

/-! ### C6 -/

/-- C6. In normal, read-only and alter mode, `addImageData` with an id that is present raises
`duplicate_id` and leaves the state it was called on: catalog, id map, `next_index`, buckets and
signature store are those of before. -/
theorem addImageData_duplicate_unchanged (dbn : dbSpaceImpl_false) (dbr : dbSpaceImpl_true)
    (dba : dbSpaceAlter) (img : ImgData)
    (hn : dbn.hasImage img.id = true) (hr : dbr.hasImage img.id = true)
    (ha : dba.hasImage img.id = true) (hmode : dba.m_readonly = false) :
    dbn.addImageData img = (dbn, some Error.duplicate_id) ∧
    dbr.addImageData img = (dbr, some Error.duplicate_id) ∧
    dba.addImageData img = (dba, some Error.duplicate_id) := by
  refine ⟨?_, ?_, ?_⟩
  · unfold dbSpaceImpl_false.addImageData
    rw [if_pos hn]
  · unfold dbSpaceImpl_true.addImageData
    rw [if_pos hr]
  · unfold dbSpaceAlter.addImageData
    rw [hmode]
    simp only [Bool.false_eq_true, if_false]
    rw [if_pos ha]

/-- C6 on the three databases that hold the one image `sampleA`. -/
theorem addImageData_duplicate_unchanged_witness :
    (dbSpaceImpl_false.create.addImageData sampleA).1.addImageData sampleA
      = ((dbSpaceImpl_false.create.addImageData sampleA).1, some Error.duplicate_id) ∧
    ((dbSpaceImpl_true.create true).addImageData sampleA).1.addImageData sampleA
      = (((dbSpaceImpl_true.create true).addImageData sampleA).1, some Error.duplicate_id) ∧
    (dbSpaceAlter.load_empty.addImageData sampleA).1.addImageData sampleA
      = ((dbSpaceAlter.load_empty.addImageData sampleA).1, some Error.duplicate_id) :=
  addImageData_duplicate_unchanged _ _ _ sampleA (by decide) (by decide) (by decide) (by decide)

/-! ### C8 -/

theorem normal_hasImage_iff (db : dbSpaceImpl_false) (id : imageId) :
    db.hasImage id = true ↔ id ∈ db.getImgIdList :=
  imageIdMap_find_isSome_iff db.m_images id

/-- C8, the failing case. A read-only database to which a black image (id 7, zero luminance
average) was added: `hasImage(7)` is true and `getImgIdList()` is empty. -/
theorem readonly_hasImage_not_listed :
    ((dbSpaceImpl_true.create false).addImageData sampleBlack).2 = none ∧
    ((dbSpaceImpl_true.create false).addImageData sampleBlack).1.hasImage 7 = true ∧
    ((dbSpaceImpl_true.create false).addImageData sampleBlack).1.getImgIdList = [] := by
  decide

/-! ### Paged buckets and the scratch file -/

theorem pageSize_eq : pageSize = 4096 := rfl

theorem pageImgs_eq : pageImgs = 512 := by decide

theorem pageImgMask_eq : pageImgMask = 511 := by decide

theorem paged_threshold_eq : paged_threshold = 128 := rfl

theorem sizeof_imageId_eq : sizeof_imageId = 8 := rfl

theorem chunk_entry_one_page : ∀ (pages : List (Nat × Nat)) (n : Nat),
    (∀ pg, pg ∈ pages → pg.2 = pageSize) →
    chunk_entry pages n = (pages[n / pageImgs]?).map (fun pg => pg.1 + n % pageImgs * sizeof_imageId) := by
  intro pages
  induction pages with
  | nil => intro n _; simp [chunk_entry]
  | cons pg rest ih =>
    intro n h
    have hpg : pg.2 = 4096 := h pg (List.mem_cons_self _ _)
    unfold chunk_entry
    rw [hpg, sizeof_imageId_eq, pageImgs_eq]
    by_cases hn : n < 4096 / 8
    · rw [if_pos hn]
      have h0 : n / 512 = 0 := by omega
      have h1 : n % 512 = n := by omega
      rw [h0, h1]
      simp
    · rw [if_neg hn]
      rw [ih (n - 4096 / 8) (fun q hq => h q (List.mem_cons_of_mem _ hq))]
      rw [sizeof_imageId_eq, pageImgs_eq]
      have h0 : n / 512 = (n - 4096 / 8) / 512 + 1 := by omega
      have h1 : (n - 4096 / 8) % 512 = n % 512 := by omega
      rw [h0, h1, List.getElem?_cons_succ]

/-- Entry `n` of a bucket whose chunks are single pages: entry `n % pageImgs` of the page
number `n / pageImgs`. -/
theorem paged_entry_one_page (b : imageIdIndex_list_paged) (f : bucket_file) (n : Nat)
    (h : ∀ pg, pg ∈ b.m_pages → pg.2 = pageSize) (pg : Nat × Nat)
    (hpg : b.m_pages[n / pageImgs]? = some pg) :
    b.entry f n = f.data (pg.1 / sizeof_imageId + n % pageImgs) := by
  unfold imageIdIndex_list_paged.entry
  rw [chunk_entry_one_page b.m_pages n h, hpg]
  simp only [Option.map_some']
  rw [sizeof_imageId_eq]
  congr 1
  omega

theorem bucket_file_write_data_in (f : bucket_file) (pos : Nat) (xs : List imageId) (j : Nat)
    (h : j < xs.length) : (f.write pos xs).data (pos + j) = xs.getD j 0 := by
  unfold bucket_file.write
  simp only
  rw [if_pos ⟨by omega, by omega⟩]
  congr 1
  omega

theorem bucket_file_write_data_out (f : bucket_file) (pos : Nat) (xs : List imageId) (j : Nat)
    (h : j < pos ∨ pos + xs.length ≤ j) : (f.write pos xs).data j = f.data j := by
  unfold bucket_file.write
  simp only
  rw [if_neg (by omega)]

theorem paged_empty_ok (f : bucket_file) : imageIdIndex_list_paged.empty.ok f where
  pages := by intro pg h; simp [imageIdIndex_list_paged.empty] at h
  nodup := List.nodup_nil
  capacity := rfl
  size_le := Nat.le_refl _
  size_mod := rfl
  tail_lt := by decide
  last_page := Or.inl (by decide)
  baseofs := rfl

theorem paged_resize_noop (b : imageIdIndex_list_paged) (f : bucket_file) (s : Nat)
    (h : (s + 511) / 512 * 512 ≤ b.m_capacity) :
    b.resize f s = { file := f, bucket := b, err := none } := by
  unfold imageIdIndex_list_paged.resize
  simp only [pageImgs_eq, pageImgMask_eq]
  rw [if_pos h]

theorem paged_resize_grow (b : imageIdIndex_list_paged) (f : bucket_file) (s : Nat)
    (h : b.m_capacity < (s + 511) / 512 * 512) (ha : f.size % pageSize = 0) :
    b.resize f s =
      { file := { f with size := f.size + ((s + 511) / 512 * 512 - b.m_capacity) * 8 },
        bucket := { b with m_baseofs := 0, m_capacity := (s + 511) / 512 * 512,
                           m_pages := b.m_pages ++
                             [(f.size, ((s + 511) / 512 * 512 - b.m_capacity) * 8)] },
        err := none } := by
  unfold imageIdIndex_list_paged.resize
  simp only [pageImgs_eq, pageImgMask_eq, sizeof_imageId_eq]
  rw [if_neg (by omega)]
  rw [pageSize_eq] at ha
  simp only [pageSize_eq, ha]
  have e2 : b.m_capacity + ((s + 511) / 512 * 512 - b.m_capacity) = (s + 511) / 512 * 512 := by
    omega
  simp [e2]

theorem page_skip_done (m fuel : Nat) (p : Nat × Nat) (ofs : Nat) (h : m ≤ ofs) :
    page_skip m fuel p ofs = (p, ofs) := by
  cases fuel with
  | zero => rfl
  | succ k =>
    unfold page_skip
    rw [if_neg (by omega)]

theorem page_search_first (m : Nat) (p : Nat × Nat) (rest : List (Nat × Nat)) (back : Nat × Nat)
    (ofs : Nat) (h : m ≤ ofs) : page_search m (p :: rest) back ofs = (p, ofs) := by
  unfold page_search
  simp only [page_skip_done m m p ofs h]
  rw [if_pos h]

/-- Copying a tail of `threshold` entries into the page of entry `m_size`, for a bucket of
single pages in which `m_size` lies in the last page or which has no more than two pages. -/
theorem paged_page_copy_spec (b : imageIdIndex_list_paged) (f : bucket_file)
    (hpages : ∀ pg, pg ∈ b.m_pages → pg.2 = pageSize ∧ pg.1 % pageSize = 0 ∧ pg.1 + pageSize ≤ f.size)
    (hcap : b.m_capacity = pageImgs * b.m_pages.length)
    (hmod : b.m_size % paged_threshold = 0)
    (htail : b.m_tail.length = paged_threshold)
    (hfit : b.m_size + paged_threshold ≤ b.m_capacity)
    (hlast : b.m_pages.length ≤ 2 ∨
      (b.m_size + paged_threshold + pageImgMask) / pageImgs * pageImgs = b.m_capacity) :
    ∃ pg, b.m_pages[b.m_size / pageImgs]? = some pg ∧
      b.page_copy f (b.m_size % pageImgs) =
        { file := f.write (pg.1 / sizeof_imageId + b.m_size % pageImgs) b.m_tail,
          bucket := { b with m_size := b.m_size + paged_threshold, m_tail := [] },
          err := none } := by
  simp only [pageImgs_eq, pageImgMask_eq, paged_threshold_eq, pageSize_eq, sizeof_imageId_eq] at *
  have hidx : b.m_size / 512 < b.m_pages.length := by omega
  obtain ⟨pg, hpg⟩ : ∃ pg, b.m_pages[b.m_size / 512]? = some pg :=
    ⟨b.m_pages[b.m_size / 512], List.getElem?_eq_getElem hidx⟩
  have hpgm : pg ∈ b.m_pages := List.mem_iff_getElem?.mpr ⟨_, hpg⟩
  obtain ⟨hp2, hp1, hp3⟩ := hpages pg hpgm
  refine ⟨pg, hpg, ?_⟩
  have hne : b.m_pages ≠ [] := by
    intro e; rw [e] at hidx; simp at hidx
  obtain ⟨back, hback⟩ : ∃ back, b.m_pages.getLast? = some back := by
    cases hb : b.m_pages.getLast? with
    | none => exact absurd (List.getLast?_eq_none_iff.mp hb) hne
    | some v => exact ⟨v, rfl⟩
  have hcopy : min b.m_tail.length (512 - b.m_size % 512) = 128 := by omega
  have hfound : (if (b.size + 511) / 512 * 512 ≠ b.m_capacity then
        page_search b.m_size b.m_pages back (b.m_size % 512)
      else ((back.1 + back.2 - 4096, back.2), b.m_size)) = ((pg.1, pg.2), b.m_size) := by
    have hsz : b.size = b.m_size + 128 := by
      unfold imageIdIndex_list_paged.size; rw [htail]
    rw [hsz]
    by_cases hc : (b.m_size + 128 + 511) / 512 * 512 = b.m_capacity
    · rw [if_neg (by simpa using hc)]
      have hbk : back = pg := by
        rw [List.getLast?_eq_getElem?] at hback
        have e : b.m_pages.length - 1 = b.m_size / 512 := by omega
        rw [e, hpg] at hback
        injection hback with hback
        exact hback.symm
      rw [hbk]
      have : pg.1 + pg.2 - 4096 = pg.1 := by omega
      rw [this]
    · rw [if_pos hc]
      have hP : b.m_pages.length ≤ 2 := by
        rcases hlast with h | h
        · exact h
        · exact absurd h hc
      have hsmall : b.m_size < 512 := by omega
      have h0 : b.m_size / 512 = 0 := by omega
      have hl : b.m_size % 512 = b.m_size := by omega
      rw [h0] at hpg
      cases hpgs : b.m_pages with
      | nil => exact absurd hpgs hne
      | cons p0 rest =>
        rw [hpgs] at hpg
        simp only [List.getElem?_cons_zero, Option.some.injEq] at hpg
        rw [hl, page_search_first _ _ _ _ _ (Nat.le_refl _), hpg]
  unfold imageIdIndex_list_paged.page_copy
  simp only [pageImgs_eq, pageImgMask_eq, pageSize_eq, sizeof_imageId_eq, hback, hfound, hcopy]
  rw [if_neg (by simp), if_neg (by omega)]
  have ht1 : b.m_tail.take 128 = b.m_tail := List.take_of_length_le (by omega)
  have ht2 : b.m_tail.drop 128 = [] := List.drop_of_length_le (by omega)
  rw [ht1, ht2]

/-- The result of `push_back` on a consistent bucket, spelled out: the id goes to the tail, or
the tail with the id is written into the page of entry `m_size`, which is a new page at the
end of the scratch file when the pages of the bucket are full. -/
theorem paged_push_back_eq (b : imageIdIndex_list_paged) (f : bucket_file) (x : imageId)
    (hb : b.ok f) (ha : f.size % pageSize = 0) :
    (b.m_tail.length + 1 < paged_threshold ∧
      b.push_back f x = { file := f, bucket := { b with m_tail := b.m_tail ++ [x] }, err := none }) ∨
    (b.m_tail.length + 1 = paged_threshold ∧
      ∃ (pgs : List (Nat × Nat)) (f1 : bucket_file) (pg : Nat × Nat),
        ((pgs = b.m_pages ∧ f1 = f) ∨
          (pgs = b.m_pages ++ [(f.size, pageSize)] ∧
            f1 = { f with size := f.size + pageSize })) ∧
        pgs[b.m_size / pageImgs]? = some pg ∧
        b.m_size + paged_threshold ≤ pageImgs * pgs.length ∧
        (pgs.length ≤ 2 ∨
          (b.m_size + paged_threshold + pageImgMask) / pageImgs * pageImgs = pageImgs * pgs.length) ∧
        b.push_back f x =
          { file := f1.write (pg.1 / sizeof_imageId + b.m_size % pageImgs) (b.m_tail ++ [x]),
            bucket := { m_pages := pgs, m_size := b.m_size + paged_threshold,
                        m_capacity := pageImgs * pgs.length, m_baseofs := 0, m_tail := [] },
            err := none }) := by
  have hpages := hb.pages
  have hcap := hb.capacity
  have hsl := hb.size_le
  have hmod := hb.size_mod
  have htl := hb.tail_lt
  have hlp := hb.last_page
  have hbo := hb.baseofs
  simp only [pageImgs_eq, pageImgMask_eq, paged_threshold_eq, pageSize_eq, sizeof_imageId_eq] at *
  unfold imageIdIndex_list_paged.push_back
  simp only [paged_threshold_eq, List.length_append, List.length_singleton]
  by_cases ht : 128 ≤ b.m_tail.length + 1
  · right
    have ht1 : b.m_tail.length + 1 = 128 := by omega
    refine ⟨ht1, ?_⟩
    rw [if_pos ht]
    unfold imageIdIndex_list_paged.page_out
    simp only [pageImgs_eq]
    have hsz : ({ b with m_tail := b.m_tail ++ [x] } : imageIdIndex_list_paged).size
        = b.m_size + 128 := by
      unfold imageIdIndex_list_paged.size
      simp only [List.length_append, List.length_singleton]
      omega
    by_cases hl : b.m_size % 512 = 0
    · rw [if_pos hl, hsz]
      by_cases hg : b.m_capacity < (b.m_size + 128 + 511) / 512 * 512
      · -- the pages are full: a new page
        have hct : b.m_capacity = b.m_size := by omega
        rw [paged_resize_grow ({ b with m_tail := b.m_tail ++ [x] } : imageIdIndex_list_paged) f
          (b.m_size + 128) hg (by rw [pageSize_eq]; exact ha)]
        simp only
        have hlen : ((b.m_size + 128 + 511) / 512 * 512 - b.m_capacity) * 8 = 4096 := by omega
        have hc2 : (b.m_size + 128 + 511) / 512 * 512 = 512 * (b.m_pages ++ [(f.size, 4096)]).length := by
          rw [List.length_append, List.length_singleton]; omega
        rw [hlen]
        obtain ⟨pg, hpg, hcopy⟩ := paged_page_copy_spec
          ({ b with m_tail := b.m_tail ++ [x], m_baseofs := 0,
                    m_capacity := (b.m_size + 128 + 511) / 512 * 512,
                    m_pages := b.m_pages ++ [(f.size, 4096)] } : imageIdIndex_list_paged)
          { f with size := f.size + 4096 }
          (by
            intro q hq
            simp only [pageSize_eq]
            rcases List.mem_append.mp hq with hq | hq
            · obtain ⟨h1, h2, h3⟩ := hpages q hq
              exact ⟨h1, h2, by show q.1 + 4096 ≤ f.size + 4096; omega⟩
            · rw [List.mem_singleton] at hq
              subst hq
              exact ⟨rfl, ha, Nat.le_refl _⟩)
          (by simp only [pageImgs_eq]; exact hc2)
          (by simp only [paged_threshold_eq]; exact hmod)
          (by simp only [paged_threshold_eq, List.length_append, List.length_singleton]; exact ht1)
          (by simp only [paged_threshold_eq]; show b.m_size + 128 ≤ (b.m_size + 128 + 511) / 512 * 512; omega)
          (by right; simp only [pageImgs_eq, pageImgMask_eq, paged_threshold_eq])
        simp only [pageImgs_eq, paged_threshold_eq, sizeof_imageId_eq] at hpg hcopy
        refine ⟨b.m_pages ++ [(f.size, 4096)], { f with size := f.size + 4096 }, pg,
          Or.inr ⟨rfl, rfl⟩, hpg, ?_, ?_, ?_⟩
        · rw [← hc2]; omega
        · right; exact hc2
        · rw [hcopy, hc2]
      · -- room is left in the pages
        rw [paged_resize_noop ({ b with m_tail := b.m_tail ++ [x] } : imageIdIndex_list_paged) f
          (b.m_size + 128) (by show (b.m_size + 128 + 511) / 512 * 512 ≤ b.m_capacity; omega)]
        simp only
        obtain ⟨pg, hpg, hcopy⟩ := paged_page_copy_spec
          ({ b with m_tail := b.m_tail ++ [x] } : imageIdIndex_list_paged) f
          (by simp only [pageSize_eq]; exact hpages)
          (by simp only [pageImgs_eq]; exact hcap)
          (by simp only [paged_threshold_eq]; exact hmod)
          (by simp only [paged_threshold_eq, List.length_append, List.length_singleton]; exact ht1)
          (by simp only [paged_threshold_eq]; show b.m_size + 128 ≤ b.m_capacity; omega)
          (by
            simp only [pageImgs_eq, pageImgMask_eq, paged_threshold_eq]
            rcases hlp with h | h
            · exact Or.inl h
            · exfalso; omega)
        simp only [pageImgs_eq, paged_threshold_eq, sizeof_imageId_eq] at hpg hcopy
        refine ⟨b.m_pages, f, pg, Or.inl ⟨rfl, rfl⟩, hpg, by omega, ?_, ?_⟩
        · rcases hlp with h | h
          · exact Or.inl h
          · exfalso; omega
        · rw [hcopy, ← hcap, hbo]
    · rw [if_neg hl]
      obtain ⟨pg, hpg, hcopy⟩ := paged_page_copy_spec
        ({ b with m_tail := b.m_tail ++ [x] } : imageIdIndex_list_paged) f
        (by simp only [pageSize_eq]; exact hpages)
        (by simp only [pageImgs_eq]; exact hcap)
        (by simp only [paged_threshold_eq]; exact hmod)
        (by simp only [paged_threshold_eq, List.length_append, List.length_singleton]; exact ht1)
        (by simp only [paged_threshold_eq]; show b.m_size + 128 ≤ b.m_capacity; omega)
        (by
          simp only [pageImgs_eq, pageImgMask_eq, paged_threshold_eq]
          rcases hlp with h | h
          · exact Or.inl h
          · right; show (b.m_size + 128 + 511) / 512 * 512 = b.m_capacity; omega)
      simp only [pageImgs_eq, paged_threshold_eq, sizeof_imageId_eq] at hpg hcopy
      refine ⟨b.m_pages, f, pg, Or.inl ⟨rfl, rfl⟩, hpg, by omega, ?_, ?_⟩
      · rcases hlp with h | h
        · exact Or.inl h
        · right; omega
      · rw [hcopy, ← hcap, hbo]
  · left
    refine ⟨by omega, ?_⟩
    rw [if_neg ht]

theorem paged_pages_grow (b : imageIdIndex_list_paged) (f f1 : bucket_file)
    (pgs : List (Nat × Nat)) (hb : b.ok f) (ha : f.size % pageSize = 0)
    (hopt : (pgs = b.m_pages ∧ f1 = f) ∨
      (pgs = b.m_pages ++ [(f.size, pageSize)] ∧ f1 = { f with size := f.size + pageSize })) :
    (∀ q, q ∈ pgs → q.2 = pageSize ∧ q.1 % pageSize = 0 ∧ q.1 + pageSize ≤ f1.size) ∧
    (pgs.map Prod.fst).Nodup ∧ f1.size % pageSize = 0 ∧ f.size ≤ f1.size ∧ f1.data = f.data ∧
    (∀ q, q ∈ pgs → q ∈ b.m_pages ∨ (q.1 = f.size ∧ f.size + pageSize ≤ f1.size)) ∧
    (∀ q, q ∈ b.m_pages → q ∈ pgs) ∧
    (∀ (n : Nat) (q : Nat × Nat), b.m_pages[n]? = some q → pgs[n]? = some q) := by
  rcases hopt with ⟨e1, e2⟩ | ⟨e1, e2⟩
  · subst e1; subst e2
    exact ⟨hb.pages, hb.nodup, ha, Nat.le_refl _, rfl, fun q hq => Or.inl hq, fun q hq => hq,
      fun n q h => h⟩
  · subst e1; subst e2
    rw [pageSize_eq] at ha
    have hp := hb.pages
    simp only [pageSize_eq] at hp ⊢
    refine ⟨?_, ?_, ?_, ?_, by first | rfl | trivial, ?_, ?_, ?_⟩
    · intro q hq
      rcases List.mem_append.mp hq with hq | hq
      · obtain ⟨h1, h2, h3⟩ := hp q hq
        exact ⟨h1, h2, by show q.1 + 4096 ≤ f.size + 4096; omega⟩
      · rw [List.mem_singleton] at hq
        subst hq
        exact ⟨rfl, ha, Nat.le_refl _⟩
    · rw [List.map_append]
      refine List.Nodup.append hb.nodup (List.nodup_singleton _) ?_
      rw [List.map_singleton, List.disjoint_singleton]
      intro hm
      obtain ⟨q, hq, e⟩ := List.mem_map.mp hm
      have := (hp q hq).2.2
      have e' : q.1 = f.size := e
      omega
    · show (f.size + 4096) % 4096 = 0
      omega
    · show f.size ≤ f.size + 4096
      omega
    · intro q hq
      rcases List.mem_append.mp hq with hq | hq
      · exact Or.inl hq
      · rw [List.mem_singleton] at hq
        subst hq
        exact Or.inr ⟨rfl, Nat.le_refl _⟩
    · intro q hq
      exact List.mem_append_left _ hq
    · intro n q h
      have hn : n < b.m_pages.length := by
        by_contra hc
        rw [List.getElem?_eq_none (by omega)] at h
        exact absurd h (by simp)
      rw [List.getElem?_append_left hn]
      exact h

/-- Two pages of a list of pages with different offsets: their entries are different entries of
the file. -/
theorem paged_pages_apart (pgs : List (Nat × Nat)) (hn : (pgs.map Prod.fst).Nodup)
    (hal : ∀ q, q ∈ pgs → q.1 % pageSize = 0) (i j : Nat) (p q : Nat × Nat)
    (hp : pgs[i]? = some p) (hq : pgs[j]? = some q) (hij : i ≠ j) (a c : Nat)
    (ha : a < pageImgs) (hc : c < pageImgs) :
    p.1 / sizeof_imageId + a ≠ q.1 / sizeof_imageId + c := by
  have hne : p.1 ≠ q.1 := by
    intro e
    apply hij
    have hi : i < (pgs.map Prod.fst).length := by
      rw [List.length_map]
      by_contra hc2
      rw [List.getElem?_eq_none (by omega)] at hp
      exact absurd hp (by simp)
    apply List.getElem?_inj hi hn
    rw [List.getElem?_map, List.getElem?_map, hp, hq]
    simp [e]
  have h1 := hal p (List.mem_iff_getElem?.mpr ⟨_, hp⟩)
  have h2 := hal q (List.mem_iff_getElem?.mpr ⟨_, hq⟩)
  simp only [pageSize_eq, pageImgs_eq, sizeof_imageId_eq] at *
  omega

/-- The state a page-out leaves: the bucket is consistent, it holds what it held and the new
id, and the file is changed inside the pages of the bucket only. -/
theorem paged_written_spec (b : imageIdIndex_list_paged) (f f1 : bucket_file) (x : imageId)
    (pgs : List (Nat × Nat)) (pg : Nat × Nat)
    (hb : b.ok f) (ha : f.size % pageSize = 0)
    (hopt : (pgs = b.m_pages ∧ f1 = f) ∨
      (pgs = b.m_pages ++ [(f.size, pageSize)] ∧ f1 = { f with size := f.size + pageSize }))
    (hpg : pgs[b.m_size / pageImgs]? = some pg)
    (hfit : b.m_size + paged_threshold ≤ pageImgs * pgs.length)
    (hl : pgs.length ≤ 2 ∨
      (b.m_size + paged_threshold + pageImgMask) / pageImgs * pageImgs = pageImgs * pgs.length)
    (ht : b.m_tail.length + 1 = paged_threshold)
    (f2 : bucket_file) (b2 : imageIdIndex_list_paged)
    (hf2 : f2 = f1.write (pg.1 / sizeof_imageId + b.m_size % pageImgs) (b.m_tail ++ [x]))
    (hb2 : b2 = { m_pages := pgs, m_size := b.m_size + paged_threshold,
                  m_capacity := pageImgs * pgs.length, m_baseofs := 0, m_tail := [] }) :
    b2.ok f2 ∧ f2.size % pageSize = 0 ∧ f.size ≤ f2.size ∧
    b2.contents f2 = b.contents f ++ [x] ∧
    (∀ q, q ∈ b2.m_pages → q ∈ b.m_pages ∨ (q.1 = f.size ∧ f.size + pageSize ≤ f2.size)) ∧
    (∀ q, q ∈ b.m_pages → q ∈ b2.m_pages) ∧
    (∀ j, (∀ q, q ∈ b2.m_pages →
        ¬ (q.1 / sizeof_imageId ≤ j ∧ j < q.1 / sizeof_imageId + pageImgs)) →
      f2.data j = f.data j) := by
  obtain ⟨gp, gn, gal, gle, gdata, gnew, gold, gpre⟩ := paged_pages_grow b f f1 pgs hb ha hopt
  have hsz2 : f2.size = f1.size := by rw [hf2]; rfl
  have hmod := hb.size_mod
  have hP := hb.pages
  have hcap := hb.capacity
  have hsl := hb.size_le
  have hpgm : pg ∈ pgs := List.mem_iff_getElem?.mpr ⟨_, hpg⟩
  subst hb2
  simp only [pageImgs_eq, pageImgMask_eq, paged_threshold_eq, pageSize_eq, sizeof_imageId_eq] at *
  have hlen : (b.m_tail ++ [x]).length = 128 := by
    rw [List.length_append, List.length_singleton]; exact ht
  refine ⟨?_, by rw [hsz2]; exact gal, by rw [hsz2]; exact gle, ?_, ?_, gold, ?_⟩
  · constructor
    · intro q hq
      simp only [pageSize_eq]
      rw [hsz2]
      exact gp q hq
    · exact gn
    · simp only [pageImgs_eq]
    · exact hfit
    · simp only [paged_threshold_eq]; show (b.m_size + 128) % 128 = 0; omega
    · simp only [paged_threshold_eq]; show 0 < 128; omega
    · simp only [pageImgs_eq, pageImgMask_eq]; exact hl
    · rfl
  · -- contents
    unfold imageIdIndex_list_paged.contents
    simp only [List.append_nil]
    rw [List.range_add, List.map_append, List.map_map, List.append_assoc]
    congr 1
    · -- the entries below `m_size` are untouched
      apply List.map_congr_left
      intro n hn
      have hn1 : n < b.m_size := List.mem_range.mp hn
      have hidx : n / 512 < b.m_pages.length := by omega
      obtain ⟨q0, hq⟩ : ∃ q0, b.m_pages[n / 512]? = some q0 :=
        ⟨b.m_pages[n / 512], List.getElem?_eq_getElem hidx⟩
      have hq2 := gpre _ _ hq
      rw [paged_entry_one_page _ f2 n (by
            intro q hq; simp only [pageSize_eq]; exact (gp q hq).1) _ (by
            simp only [pageImgs_eq]; exact hq2),
          paged_entry_one_page b f n (by
            intro q hq; simp only [pageSize_eq]; exact (hP q hq).1) _ (by
            simp only [pageImgs_eq]; exact hq)]
      simp only [pageImgs_eq, sizeof_imageId_eq]
      rw [hf2, bucket_file_write_data_out, gdata]
      rw [hlen]
      by_cases hsame : n / 512 = b.m_size / 512
      · left
        rw [hsame] at hq2
        rw [hq2] at hpg
        injection hpg with hpg
        rw [hpg]
        omega
      · have hap := paged_pages_apart pgs gn (fun q hq => by
            simp only [pageSize_eq]; exact (gp q hq).2.1) _ _ _ _ hq2 hpg hsame
        simp only [pageImgs_eq, sizeof_imageId_eq] at hap
        by_contra hc
        have hin : pg.1 / 8 + b.m_size % 512 ≤ q0.1 / 8 + n % 512 ∧
            q0.1 / 8 + n % 512 < pg.1 / 8 + b.m_size % 512 + 128 := by omega
        exact hap (n % 512)
          (q0.1 / 8 + n % 512 - pg.1 / 8) (by omega) (by omega) (by omega)
    · -- the entries from `m_size` on are the tail
      apply List.ext_getElem
      · rw [List.length_map, List.length_range, hlen]
      · intro k h1 h2
        rw [List.getElem_map, List.getElem_range]
        simp only [Function.comp]
        have hk : k < 128 := by rw [List.length_map, List.length_range] at h1; exact h1
        have hdiv : (b.m_size + k) / 512 = b.m_size / 512 := by omega
        rw [paged_entry_one_page _ f2 (b.m_size + k) (by
              intro q hq; simp only [pageSize_eq]; exact (gp q hq).1) pg (by
              simp only [pageImgs_eq]; rw [hdiv]; exact hpg)]
        simp only [pageImgs_eq, sizeof_imageId_eq]
        have hmodk : (b.m_size + k) % 512 = b.m_size % 512 + k := by omega
        rw [hmodk, hf2, ← Nat.add_assoc, bucket_file_write_data_in _ _ _ _ (by rw [hlen]; exact hk)]
        rw [List.getD_eq_getElem _ _ h2]
  · intro q hq
    rcases gnew q hq with h | ⟨h1, h2⟩
    · exact Or.inl h
    · exact Or.inr ⟨h1, by rw [hsz2]; exact h2⟩
  · intro j hj
    rw [hf2, bucket_file_write_data_out, gdata]
    rw [hlen]
    have := hj pg hpgm
    have h1 := (gp pg hpgm).2.1
    omega

/-- The effect of `push_back` on a bucket that is consistent with the scratch file: it returns
normally, the bucket stays consistent and holds what it held followed by the new id; a page it
is given is a new page at the end of the file, and the file is changed inside the pages of the
bucket only. -/
theorem paged_push_back_spec (b : imageIdIndex_list_paged) (f : bucket_file) (x : imageId)
    (hb : b.ok f) (ha : f.size % pageSize = 0) :
    (b.push_back f x).err = none ∧
    (b.push_back f x).bucket.ok (b.push_back f x).file ∧
    (b.push_back f x).file.size % pageSize = 0 ∧
    f.size ≤ (b.push_back f x).file.size ∧
    (b.push_back f x).bucket.contents (b.push_back f x).file = b.contents f ++ [x] ∧
    (∀ q, q ∈ (b.push_back f x).bucket.m_pages →
      q ∈ b.m_pages ∨ (q.1 = f.size ∧ f.size + pageSize ≤ (b.push_back f x).file.size)) ∧
    (∀ q, q ∈ b.m_pages → q ∈ (b.push_back f x).bucket.m_pages) ∧
    (∀ j, (∀ q, q ∈ (b.push_back f x).bucket.m_pages →
        ¬ (q.1 / sizeof_imageId ≤ j ∧ j < q.1 / sizeof_imageId + pageImgs)) →
      (b.push_back f x).file.data j = f.data j) := by
  rcases paged_push_back_eq b f x hb ha with ⟨ht, he⟩ | ⟨ht, pgs, f1, pg, hopt, hpg, hfit, hl, he⟩
  · rw [he]
    refine ⟨rfl, ?_, ha, Nat.le_refl _, ?_, fun q hq => Or.inl hq, fun q hq => hq,
      fun j _ => rfl⟩
    · exact { pages := hb.pages, nodup := hb.nodup, capacity := hb.capacity,
              size_le := hb.size_le, size_mod := hb.size_mod,
              tail_lt := by
                show (b.m_tail ++ [x]).length < paged_threshold
                rw [List.length_append, List.length_singleton]; exact ht,
              last_page := hb.last_page, baseofs := hb.baseofs }
    · unfold imageIdIndex_list_paged.contents
      simp only [List.append_assoc]
      rfl
  · rw [he]
    exact ⟨rfl, paged_written_spec b f f1 x pgs pg hb ha hopt hpg hfit hl ht _ _ rfl rfl⟩

/-- A bucket whose pages a change of the scratch file has left alone stays consistent and holds
what it held. -/
theorem paged_ok_frame (b : imageIdIndex_list_paged) (f f1 : bucket_file) (h : b.ok f)
    (hsz : f.size ≤ f1.size)
    (hdata : ∀ q, q ∈ b.m_pages → ∀ k, k < pageImgs →
      f1.data (q.1 / sizeof_imageId + k) = f.data (q.1 / sizeof_imageId + k)) :
    b.ok f1 ∧ b.contents f1 = b.contents f := by
  constructor
  · exact { pages := fun q hq => ⟨(h.pages q hq).1, (h.pages q hq).2.1,
                Nat.le_trans (h.pages q hq).2.2 hsz⟩,
            nodup := h.nodup, capacity := h.capacity, size_le := h.size_le,
            size_mod := h.size_mod, tail_lt := h.tail_lt, last_page := h.last_page,
            baseofs := h.baseofs }
  · unfold imageIdIndex_list_paged.contents
    congr 1
    apply List.map_congr_left
    intro n hn
    have hn1 : n < b.m_size := List.mem_range.mp hn
    have hcap := h.capacity
    have hsl := h.size_le
    have hidx : n / pageImgs < b.m_pages.length := by
      rw [pageImgs_eq] at hcap ⊢
      omega
    obtain ⟨q0, hq⟩ : ∃ q0, b.m_pages[n / pageImgs]? = some q0 :=
      ⟨b.m_pages[n / pageImgs], List.getElem?_eq_getElem hidx⟩
    rw [paged_entry_one_page b f1 n (fun q hq => (h.pages q hq).1) q0 hq,
        paged_entry_one_page b f n (fun q hq => (h.pages q hq).1) q0 hq]
    exact hdata q0 (List.mem_iff_getElem?.mpr ⟨_, hq⟩) _ (by
      rw [pageImgs_eq]; omega)

/-! ### bucket_set::add on the buckets of normal mode -/

/-- The effect of `push_back` on the bucket `(c0, pn, k)` of a consistent bucket set: the call
returns normally, the bucket set stays consistent with the scratch file, the bucket holds the
new id behind what it held, and every other bucket holds what it held. -/
theorem paged_set_push (f : bucket_file) (bs : bucket_set imageIdIndex_list_paged)
    (hok : AllOk f bs) (c0 pn k : Nat) (id : imageId)
    (hin : c0 < bucket_set_count_0 ∧ pn < bucket_set_count_1 ∧ k < bucket_set_count_2) :
    ((bs.buckets c0 pn k).push_back f id).err = none ∧
    AllOk ((bs.buckets c0 pn k).push_back f id).file
      (bs.modify c0 pn k (fun _ => ((bs.buckets c0 pn k).push_back f id).bucket)) ∧
    ∀ c p i,
      ((bs.modify c0 pn k (fun _ => ((bs.buckets c0 pn k).push_back f id).bucket)).buckets
          c p i).contents ((bs.buckets c0 pn k).push_back f id).file
        = (bs.buckets c p i).contents f ++ (if c = c0 ∧ p = pn ∧ i = k then [id] else []) := by
  obtain ⟨herr, hrok, hal, hsz, hcont, hnew, hold, hframe⟩ :=
    paged_push_back_spec (bs.buckets c0 pn k) f id (hok.each c0 pn k) hok.aligned
  generalize (bs.buckets c0 pn k).push_back f id = r at *
  have hother : ∀ c p i, ¬ (c = c0 ∧ p = pn ∧ i = k) →
      (bs.buckets c p i).ok r.file ∧
      (bs.buckets c p i).contents r.file = (bs.buckets c p i).contents f := by
    intro c p i hne
    apply paged_ok_frame _ f r.file (hok.each c p i) hsz
    intro q hq j hj
    apply hframe
    intro q1 hq1 hc
    have hqp := (hok.each c p i).pages q hq
    rcases hnew q1 hq1 with h | ⟨h1, h2⟩
    · have hq1p := (hok.each c0 pn k).pages q1 h
      have hne1 : q1.1 ≠ q.1 := by
        intro e
        have := hok.disjoint c0 pn k c p i q1 q h hq e
        exact hne ⟨this.1.symm, this.2.1.symm, this.2.2.symm⟩
      simp only [pageSize_eq, pageImgs_eq, sizeof_imageId_eq] at *
      omega
    · simp only [pageSize_eq, pageImgs_eq, sizeof_imageId_eq] at *
      omega
  refine ⟨herr, ?_, ?_⟩
  · constructor
    · exact hal
    · intro c p i
      show (if c = c0 ∧ p = pn ∧ i = k then r.bucket else bs.buckets c p i).ok r.file
      by_cases hm : c = c0 ∧ p = pn ∧ i = k
      · rw [if_pos hm]; exact hrok
      · rw [if_neg hm]; exact (hother c p i hm).1
    · intro c p i c1 p1 i1 pg pg1 hpg hpg1 e
      have hpg' : pg ∈ (if c = c0 ∧ p = pn ∧ i = k then r.bucket else bs.buckets c p i).m_pages := hpg
      have hpg1' : pg1 ∈ (if c1 = c0 ∧ p1 = pn ∧ i1 = k then r.bucket
          else bs.buckets c1 p1 i1).m_pages := hpg1
      by_cases hm : c = c0 ∧ p = pn ∧ i = k
      · by_cases hm1 : c1 = c0 ∧ p1 = pn ∧ i1 = k
        · exact ⟨hm.1.trans hm1.1.symm, hm.2.1.trans hm1.2.1.symm, hm.2.2.trans hm1.2.2.symm⟩
        · rw [if_pos hm] at hpg'
          rw [if_neg hm1] at hpg1'
          have hq1 := (hok.each c1 p1 i1).pages pg1 hpg1'
          rcases hnew pg hpg' with h | ⟨h1, h2⟩
          · have := hok.disjoint c0 pn k c1 p1 i1 pg pg1 h hpg1' e
            exact ⟨hm.1.trans this.1, hm.2.1.trans this.2.1, hm.2.2.trans this.2.2⟩
          · exfalso
            simp only [pageSize_eq] at *
            omega
      · rw [if_neg hm] at hpg'
        by_cases hm1 : c1 = c0 ∧ p1 = pn ∧ i1 = k
        · rw [if_pos hm1] at hpg1'
          have hq := (hok.each c p i).pages pg hpg'
          rcases hnew pg1 hpg1' with h | ⟨h1, h2⟩
          · have := hok.disjoint c p i c0 pn k pg pg1 hpg' h e
            exact ⟨this.1.trans hm1.1.symm, this.2.1.trans hm1.2.1.symm,
              this.2.2.trans hm1.2.2.symm⟩
          · exfalso
            simp only [pageSize_eq] at *
            omega
        · rw [if_neg hm1] at hpg1'
          exact hok.disjoint c p i c1 p1 i1 pg pg1 hpg' hpg1' e
    · intro c p i hout
      show (if c = c0 ∧ p = pn ∧ i = k then r.bucket else bs.buckets c p i) = _
      rw [if_neg (by
        rintro ⟨e1, e2, e3⟩
        apply hout
        rw [e1, e2, e3]; exact hin)]
      exact hok.outside c p i hout
  · intro c p i
    show (if c = c0 ∧ p = pn ∧ i = k then r.bucket else bs.buckets c p i).contents r.file = _
    by_cases hm : c = c0 ∧ p = pn ∧ i = k
    · rw [if_pos hm, if_pos hm, hcont]
      obtain ⟨e1, e2, e3⟩ := hm
      rw [e1, e2, e3]
    · rw [if_neg hm, if_neg hm, List.append_nil]
      exact (hother c p i hm).2

theorem add_coef_paged (f : bucket_file) (bs : bucket_set imageIdIndex_list_paged)
    (hok : AllOk f bs) (c0 : Nat) (x : Int) (id : imageId) (index : Nat)
    (hc : c0 < bucket_set_count_0) (hx : x.natAbs < bucket_set_count_2) :
    (bucket_set.add_coef_shared paged_bucket_add (f, bs) c0 x id index).2 = none ∧
    AllOk (bucket_set.add_coef_shared paged_bucket_add (f, bs) c0 x id index).1.1
      (bucket_set.add_coef_shared paged_bucket_add (f, bs) c0 x id index).1.2 ∧
    ∀ c p i,
      ((bucket_set.add_coef_shared paged_bucket_add (f, bs) c0 x id index).1.2.buckets
          c p i).contents (bucket_set.add_coef_shared paged_bucket_add (f, bs) c0 x id index).1.1
        = (bs.buckets c p i).contents f ++ (if coefHit c0 x c p i then [id] else []) := by
  have hmod : ∀ (pn k : Nat), pn = (if x < 0 then 1 else 0) → k = x.natAbs → x ≠ 0 →
      ((bs.buckets c0 pn k).push_back f id).err = none ∧
      AllOk ((bs.buckets c0 pn k).push_back f id).file
        (bs.modify c0 pn k (fun _ => ((bs.buckets c0 pn k).push_back f id).bucket)) ∧
      ∀ c p i,
        ((bs.modify c0 pn k (fun _ => ((bs.buckets c0 pn k).push_back f id).bucket)).buckets
            c p i).contents ((bs.buckets c0 pn k).push_back f id).file
          = (bs.buckets c p i).contents f ++ (if coefHit c0 x c p i then [id] else []) := by
    intro pn k hpn hk hx0
    have hpn2 : pn < bucket_set_count_1 := by
      rw [hpn]; split <;> decide
    obtain ⟨h1, h2, h3⟩ := paged_set_push f bs hok c0 pn k id ⟨hc, hpn2, by rw [hk]; exact hx⟩
    refine ⟨h1, h2, ?_⟩
    intro c p i
    rw [h3]
    congr 1
    by_cases hm : c = c0 ∧ p = pn ∧ i = k
    · have hh : coefHit c0 x c p i := ⟨hm.1, hx0, by rw [hm.2.1, hpn], by rw [hm.2.2, hk]⟩
      rw [if_pos hm, if_pos hh]
    · have hh : ¬ coefHit c0 x c p i := by
        intro hh
        apply hm
        exact ⟨hh.1, by rw [hh.2.2.1, hpn], by rw [hh.2.2.2, hk]⟩
      rw [if_neg hm, if_neg hh]
  unfold bucket_set.add_coef_shared paged_bucket_add
  by_cases hpos : 0 < x
  · rw [if_pos hpos]
    exact hmod 0 x.toNat (by rw [if_neg (by omega)]) (by omega) (by omega)
  · rw [if_neg hpos]
    by_cases hneg : x < 0
    · rw [if_pos hneg]
      exact hmod 1 (-x).toNat (by rw [if_pos hneg]) (by omega) (by omega)
    · rw [if_neg hneg]
      have hx0 : x = 0 := by omega
      refine ⟨rfl, hok, ?_⟩
      intro c p i
      have hh : ¬ coefHit c0 x c p i := fun hh => hh.2.1 hx0
      rw [if_neg hh]; simp

theorem sig_wf_natAbs (sig : List Int) (h : sig_wf sig) (k : Nat) :
    (sigAt sig k).natAbs < bucket_set_count_2 := by
  unfold sigAt
  by_cases hk : k < sig.length
  · rw [List.getD_eq_getElem _ _ hk]
    exact (h.2 _ (List.getElem_mem hk)).2
  · rw [List.getD_eq_default _ _ (by omega)]
    decide

theorem add_step_paged (f : bucket_file) (bs : bucket_set imageIdIndex_list_paged)
    (hok : AllOk f bs) (nsig : ImgData) (hw : nsig.wf) (index n : Nat) :
    (bucket_set.add_step_shared paged_bucket_add nsig index ((f, bs), none) n).2 = none ∧
    AllOk (bucket_set.add_step_shared paged_bucket_add nsig index ((f, bs), none) n).1.1
      (bucket_set.add_step_shared paged_bucket_add nsig index ((f, bs), none) n).1.2 ∧
    ∀ c p i,
      ((bucket_set.add_step_shared paged_bucket_add nsig index ((f, bs), none) n).1.2.buckets
          c p i).contents
          (bucket_set.add_step_shared paged_bucket_add nsig index ((f, bs), none) n).1.1
        = (bs.buckets c p i).contents f ++ stepAdds nsig n c p i := by
  unfold bucket_set.add_step_shared stepAdds
  simp only
  obtain ⟨e1, ok1, c1⟩ := add_coef_paged f bs hok 0 (sigAt nsig.sig1 n) nsig.id index
    (by decide) (sig_wf_natAbs _ hw.1 n)
  generalize bucket_set.add_coef_shared paged_bucket_add (f, bs) 0 (sigAt nsig.sig1 n) nsig.id index
    = r1 at *
  obtain ⟨⟨f1, bs1⟩, err1⟩ := r1
  simp only at e1 ok1 c1
  subst e1
  simp only
  by_cases hg : is_grayscale (avglf2i nsig.avglf) = true
  · simp only [hg, if_true]
    refine ⟨by first | rfl | trivial, ok1, ?_⟩
    intro c p i
    rw [c1]; simp
  · simp only [hg, Bool.false_eq_true, if_false]
    obtain ⟨e2, ok2, c2⟩ := add_coef_paged f1 bs1 ok1 1 (sigAt nsig.sig2 n) nsig.id index
      (by decide) (sig_wf_natAbs _ hw.2.1 n)
    generalize bucket_set.add_coef_shared paged_bucket_add (f1, bs1) 1 (sigAt nsig.sig2 n) nsig.id
      index = r2 at *
    obtain ⟨⟨f2, bs2⟩, err2⟩ := r2
    simp only at e2 ok2 c2
    subst e2
    simp only
    obtain ⟨e3, ok3, c3⟩ := add_coef_paged f2 bs2 ok2 2 (sigAt nsig.sig3 n) nsig.id index
      (by decide) (sig_wf_natAbs _ hw.2.2 n)
    refine ⟨e3, ok3, ?_⟩
    intro c p i
    rw [c3, c2, c1]; simp [List.append_assoc]

theorem add_paged_upto (nsig : ImgData) (hw : nsig.wf) (index : Nat) (n : Nat) :
    ∀ (f : bucket_file) (bs : bucket_set imageIdIndex_list_paged), AllOk f bs →
    ((List.range n).foldl (bucket_set.add_step_shared paged_bucket_add nsig index)
      ((f, bs), none)).2 = none ∧
    AllOk ((List.range n).foldl (bucket_set.add_step_shared paged_bucket_add nsig index)
        ((f, bs), none)).1.1
      ((List.range n).foldl (bucket_set.add_step_shared paged_bucket_add nsig index)
        ((f, bs), none)).1.2 ∧
    ∀ c p i, (((List.range n).foldl (bucket_set.add_step_shared paged_bucket_add nsig index)
        ((f, bs), none)).1.2.buckets c p i).contents
        ((List.range n).foldl (bucket_set.add_step_shared paged_bucket_add nsig index)
          ((f, bs), none)).1.1
      = (bs.buckets c p i).contents f ++ addsUpTo nsig c p i n := by
  induction n with
  | zero => intro f bs hok; exact ⟨rfl, hok, fun c p i => by simp [addsUpTo]⟩
  | succ n ih =>
    intro f bs hok
    obtain ⟨e1, ok1, c1⟩ := ih f bs hok
    rw [List.range_succ, List.foldl_append]
    simp only [List.foldl_cons, List.foldl_nil]
    generalize (List.range n).foldl (bucket_set.add_step_shared paged_bucket_add nsig index)
      ((f, bs), none) = r1 at *
    obtain ⟨⟨f1, bs1⟩, err1⟩ := r1
    simp only at e1 ok1 c1
    subst e1
    obtain ⟨e2, ok2, c2⟩ := add_step_paged f1 bs1 ok1 nsig hw index n
    refine ⟨e2, ok2, ?_⟩
    intro c p i
    rw [c2, c1]; simp [addsUpTo, List.append_assoc]

/-- The effect of `bucket_set::add` on the contents of the buckets of normal mode: it returns
normally, the buckets stay consistent with the scratch file, and each bucket holds what it held
followed by the id once for each coefficient of the signature that belongs to it. -/
theorem add_paged_contents (f : bucket_file) (bs : bucket_set imageIdIndex_list_paged)
    (hok : AllOk f bs) (nsig : ImgData) (hw : nsig.wf) (index : Nat) :
    (bucket_set.add_shared paged_bucket_add (f, bs) nsig index).2 = none ∧
    AllOk (bucket_set.add_shared paged_bucket_add (f, bs) nsig index).1.1
      (bucket_set.add_shared paged_bucket_add (f, bs) nsig index).1.2 ∧
    ∀ c p i, ((bucket_set.add_shared paged_bucket_add (f, bs) nsig index).1.2.buckets
        c p i).contents (bucket_set.add_shared paged_bucket_add (f, bs) nsig index).1.1
      = (bs.buckets c p i).contents f ++ addsUpTo nsig c p i NUM_COEFS :=
  add_paged_upto nsig hw index NUM_COEFS f bs hok

theorem mem_stepAdds (nsig : ImgData) (n c p i : Nat) (x : imageId) :
    x ∈ stepAdds nsig n c p i ↔
      x = nsig.id ∧ (coefHit 0 (sigAt nsig.sig1 n) c p i ∨
        (is_grayscale (avglf2i nsig.avglf) = false ∧
          (coefHit 1 (sigAt nsig.sig2 n) c p i ∨ coefHit 2 (sigAt nsig.sig3 n) c p i))) := by
  unfold stepAdds
  by_cases hg : is_grayscale (avglf2i nsig.avglf) = true
  · simp only [hg, if_true, List.append_nil, Bool.true_eq_false, false_and, or_false]
    split <;> simp [*]
  · have hg2 : is_grayscale (avglf2i nsig.avglf) = false := by simpa using hg
    simp only [hg2, Bool.false_eq_true, if_false, true_and, List.mem_append]
    by_cases h0 : coefHit 0 (sigAt nsig.sig1 n) c p i <;>
    by_cases h1 : coefHit 1 (sigAt nsig.sig2 n) c p i <;>
    by_cases h2 : coefHit 2 (sigAt nsig.sig3 n) c p i <;>
    simp [h0, h1, h2]

theorem mem_addsUpTo (nsig : ImgData) (c p i : Nat) (x : imageId) (n : Nat) :
    x ∈ addsUpTo nsig c p i n ↔ ∃ k, k < n ∧ x ∈ stepAdds nsig k c p i := by
  induction n with
  | zero => simp [addsUpTo]
  | succ n ih =>
    simp only [addsUpTo, List.mem_append, ih]
    constructor
    · rintro (⟨k, hk, hx⟩ | hx)
      · exact ⟨k, by omega, hx⟩
      · exact ⟨n, by omega, hx⟩
    · rintro ⟨k, hk, hx⟩
      by_cases hkn : k = n
      · right; rw [← hkn]; exact hx
      · left; exact ⟨k, by omega, hx⟩

/-- An id is appended by `bucket_set::add` to exactly the buckets of the coefficients of the
signature. -/
theorem mem_addsUpTo_iff_hits (nsig : ImgData) (c p i : Nat) (x : imageId) :
    x ∈ addsUpTo nsig c p i NUM_COEFS ↔ x = nsig.id ∧ nsig.hits c p i := by
  rw [mem_addsUpTo]
  constructor
  · rintro ⟨k, hk, hx⟩
    rw [mem_stepAdds] at hx
    obtain ⟨hid, hh⟩ := hx
    refine ⟨hid, ?_⟩
    rcases hh with h0 | ⟨hg, h1 | h2⟩
    · obtain ⟨e, hx0, hp, hi⟩ := h0
      subst e
      exact ⟨by decide, Or.inl rfl, k, hk, hx0, hp, hi⟩
    · obtain ⟨e, hx0, hp, hi⟩ := h1
      subst e
      exact ⟨by decide, Or.inr hg, k, hk, hx0, hp, hi⟩
    · obtain ⟨e, hx0, hp, hi⟩ := h2
      subst e
      exact ⟨by decide, Or.inr hg, k, hk, hx0, hp, hi⟩
  · rintro ⟨hid, hc, hgr, k, hk, hx0, hp, hi⟩
    refine ⟨k, hk, ?_⟩
    rw [mem_stepAdds]
    refine ⟨hid, ?_⟩
    have hc3 : c = 0 ∨ c = 1 ∨ c = 2 := by omega
    rcases hc3 with e | e | e
    · subst e; left; exact ⟨rfl, hx0, hp, hi⟩
    · subst e
      rcases hgr with e0 | hg
      · exact absurd e0 (by decide)
      · right; exact ⟨hg, Or.inl ⟨rfl, hx0, hp, hi⟩⟩
    · subst e
      rcases hgr with e0 | hg
      · exact absurd e0 (by decide)
      · right; exact ⟨hg, Or.inr ⟨rfl, hx0, hp, hi⟩⟩


/-! ### Normal mode: the invariant -/

theorem imageIdMap_set_of_absent {T : Type} (m : List (imageId × T)) (id : imageId) (v : T)
    (h : id ∉ m.map Prod.fst) : imageIdMap_set m id v = m ++ [(id, v)] := by
  have h1 : imageIdMap_find m id = none := (imageIdMap_find_eq_none_iff m id).mpr h
  unfold imageIdMap_find at h1
  unfold imageIdMap_set
  cases hf : m.find? (fun p => p.1 == id) with
  | none => simp
  | some p => rw [hf] at h1; simp at h1

theorem imageIdMap_erase_set_of_absent {T : Type} (m : List (imageId × T)) (id : imageId) (v : T)
    (h : id ∉ m.map Prod.fst) : imageIdMap_erase (imageIdMap_set m id v) id = m := by
  rw [imageIdMap_set_of_absent m id v h]
  unfold imageIdMap_erase
  rw [List.filter_append]
  have h1 : m.filter (fun p => !(p.1 == id)) = m := by
    apply List.filter_eq_self.mpr
    intro q hq
    have : q.1 ≠ id := fun e => h (e ▸ List.mem_map_of_mem Prod.fst hq)
    simpa using this
  rw [h1]; simp

theorem imageIdMap_find_set_self {T : Type} (m : List (imageId × T)) (id : imageId) (v : T)
    (h : id ∉ m.map Prod.fst) : imageIdMap_find (imageIdMap_set m id v) id = some v := by
  rw [imageIdMap_set_of_absent m id v h]
  have h1 : imageIdMap_find m id = none := (imageIdMap_find_eq_none_iff m id).mpr h
  unfold imageIdMap_find at h1 ⊢
  rw [List.find?_append]
  cases hf : m.find? (fun p => p.1 == id) with
  | none => simp [List.find?]
  | some p => rw [hf] at h1; simp at h1

theorem read_write_sig_cache_same (cache : SigCache) (ofs : Nat) (sig : ImgData) :
    read_sig_cache (write_sig_cache cache ofs sig) ofs = .ok sig := by
  simp [read_sig_cache, write_sig_cache, List.find?]

theorem read_write_sig_cache_other (cache : SigCache) (ofs o : Nat) (sig : ImgData) (h : o ≠ ofs) :
    read_sig_cache (write_sig_cache cache ofs sig) o = read_sig_cache cache o := by
  have hb : (ofs == o) = false := by
    simp only [beq_eq_false_iff_ne]; exact fun e => h e.symm
  simp [read_sig_cache, write_sig_cache, List.find?, hb]

theorem bucket_set_remove_eq {B : Type} (removeB : B → imageId → B) (bs : bucket_set B)
    (nsig : ImgData) : bs.remove removeB nsig = bs := by
  unfold bucket_set.remove
  have : (List.range NUM_COEFS).takeWhile (fun i => false && decide (i < NUM_COEFS)) = [] := by
    decide
  rw [this]; rfl

/-- The loop of `bucket_set::remove` runs no round: the buckets and the scratch file are left
as they are. -/
theorem bucket_set_remove_shared_eq {B F : Type}
    (removeB : B → F → imageId → F × B × Option Error) (st : F × bucket_set B) (nsig : ImgData) :
    bucket_set.remove_shared removeB st nsig = (st, none) := by
  unfold bucket_set.remove_shared
  have : (List.range NUM_COEFS).takeWhile (fun i => false && decide (i < NUM_COEFS)) = [] := by
    decide
  rw [this]; rfl

theorem emptyBuckets_ok : AllOk bucket_file.empty emptyBuckets where
  aligned := rfl
  each := fun _ _ _ => paged_empty_ok _
  disjoint := by
    intro c p i c1 p1 i1 pg pg1 h
    simp [emptyBuckets, imageIdIndex_list_paged.empty] at h
  outside := fun _ _ _ _ => rfl

theorem normalInv_create : NormalInv dbSpaceImpl_false.create where
  nodup := List.nodup_nil
  cache := by intro id ss h; simp [dbSpaceImpl_false.create] at h
  allok := emptyBuckets_ok
  cover := by intro id ss sig h; simp [dbSpaceImpl_false.create] at h
  only := by
    intro _ c p i x hx
    simp [dbSpaceImpl_false.create, imageIdIndex_list_paged.contents,
      imageIdIndex_list_paged.empty] at hx

theorem normal_add_fresh_state (db : dbSpaceImpl_false) (img : ImgData)
    (h : db.hasImage img.id = false) :
    db.addImageData img =
      ({ db with m_cacheOfs := db.m_cacheOfs + sizeof_ImgData,
                 sigCache := write_sig_cache db.sigCache db.m_cacheOfs img,
                 m_images := imageIdMap_set db.m_images img.id (SigStruct.init db.m_cacheOfs img),
                 imgbuckets :=
                   (bucket_set.add_shared paged_bucket_add (db.m_fd, db.imgbuckets) img
                     db.m_nextIndex).1.2,
                 m_fd :=
                   (bucket_set.add_shared paged_bucket_add (db.m_fd, db.imgbuckets) img
                     db.m_nextIndex).1.1,
                 m_nextIndex := db.m_nextIndex + 1 },
       (bucket_set.add_shared paged_bucket_add (db.m_fd, db.imgbuckets) img db.m_nextIndex).2) := by
  unfold dbSpaceImpl_false.addImageData
  simp [h, SigStruct.init]

theorem normalInv_add (db : dbSpaceImpl_false) (img : ImgData) (hinv : NormalInv db)
    (hw : img.wf) :
    NormalInv (db.addImageData img).1 ∧
    (db.hasImage img.id = false → (db.addImageData img).2 = none) := by
  by_cases hp : db.hasImage img.id = true
  · have : db.addImageData img = (db, some .duplicate_id) := by
      unfold dbSpaceImpl_false.addImageData; rw [if_pos hp]
    rw [this]
    exact ⟨hinv, fun h => by rw [hp] at h; exact absurd h (by simp)⟩
  · have hp2 : db.hasImage img.id = false := by simpa using hp
    have habs : img.id ∉ db.m_images.map Prod.fst :=
      fun hm => hp ((normal_hasImage_iff db img.id).mpr hm)
    rw [normal_add_fresh_state db img hp2]
    have hset := imageIdMap_set_of_absent db.m_images img.id (SigStruct.init db.m_cacheOfs img) habs
    obtain ⟨aerr, aok, acont⟩ :=
      add_paged_contents db.m_fd db.imgbuckets hinv.allok img hw db.m_nextIndex
    generalize bucket_set.add_shared paged_bucket_add (db.m_fd, db.imgbuckets) img db.m_nextIndex
      = r at *
    have hmem : ∀ id ss, (id, ss) ∈ imageIdMap_set db.m_images img.id (SigStruct.init db.m_cacheOfs img)
        → (id, ss) ∈ db.m_images ∨ (id = img.id ∧ ss = SigStruct.init db.m_cacheOfs img) := by
      intro id ss hm
      rw [hset] at hm
      simp only [List.mem_append, List.mem_singleton, Prod.mk.injEq] at hm
      exact hm
    have hread : ∀ id ss, (id, ss) ∈ db.m_images →
        read_sig_cache (write_sig_cache db.sigCache db.m_cacheOfs img) ss.cacheOfs
          = read_sig_cache db.sigCache ss.cacheOfs := by
      intro id ss hm
      exact read_write_sig_cache_other _ _ _ _ (by have := (hinv.cache id ss hm).1; omega)
    have hsd : 0 < sizeof_ImgData := by decide
    refine ⟨?_, fun _ => aerr⟩
    constructor
    · show ((imageIdMap_set db.m_images img.id (SigStruct.init db.m_cacheOfs img)).map Prod.fst).Nodup
      rw [imageIdMap_set_keys_of_absent _ _ _ habs]
      exact List.Nodup.append hinv.nodup (List.nodup_singleton _) (List.disjoint_singleton.mpr habs)
    · intro id ss hm
      show ss.cacheOfs < db.m_cacheOfs + sizeof_ImgData ∧
        ∃ sig, read_sig_cache (write_sig_cache db.sigCache db.m_cacheOfs img) ss.cacheOfs = .ok sig
          ∧ sig.id = id ∧ sig.wf
      rcases hmem id ss hm with h1 | ⟨h1, h2⟩
      · obtain ⟨hlt, sig, hs, hid, hwf⟩ := hinv.cache id ss h1
        exact ⟨by omega, sig, by rw [hread id ss h1]; exact hs, hid, hwf⟩
      · subst h2
        refine ⟨?_, img, read_write_sig_cache_same _ _ _, h1.symm, hw⟩
        show db.m_cacheOfs < db.m_cacheOfs + sizeof_ImgData
        omega
    · exact aok
    · intro id ss sig hm hr c p i hh
      show id ∈ (r.1.2.buckets c p i).contents r.1.1
      rw [acont, List.mem_append]
      have hr1 : read_sig_cache (write_sig_cache db.sigCache db.m_cacheOfs img) ss.cacheOfs = .ok sig := hr
      rcases hmem id ss hm with h1 | ⟨h1, h2⟩
      · left
        rw [hread id ss h1] at hr1
        exact hinv.cover id ss sig h1 hr1 c p i hh
      · right
        subst h2
        have e : read_sig_cache (write_sig_cache db.sigCache db.m_cacheOfs img) db.m_cacheOfs = .ok sig := hr1
        rw [read_write_sig_cache_same] at e
        have e2 : img = sig := by injection e
        subst e2
        exact (mem_addsUpTo_iff_hits img c p i id).mpr ⟨h1, hh⟩
    · intro hv c p i x hx
      have hx1 : x ∈ (r.1.2.buckets c p i).contents r.1.1 := hx
      rw [acont, List.mem_append] at hx1
      show ∃ ss sig, (x, ss) ∈ imageIdMap_set db.m_images img.id (SigStruct.init db.m_cacheOfs img)
        ∧ read_sig_cache (write_sig_cache db.sigCache db.m_cacheOfs img) ss.cacheOfs = .ok sig
        ∧ sig.hits c p i
      rcases hx1 with h1 | h1
      · obtain ⟨ss, sig, hm, hr, hh⟩ := hinv.only hv c p i x h1
        refine ⟨ss, sig, ?_, by rw [hread x ss hm]; exact hr, hh⟩
        rw [hset]; exact List.mem_append_left _ hm
      · obtain ⟨hid, hh⟩ := (mem_addsUpTo_iff_hits img c p i x).mp h1
        refine ⟨SigStruct.init db.m_cacheOfs img, img, ?_, read_write_sig_cache_same _ _ _, hh⟩
        rw [hset, hid]; exact List.mem_append_right _ (List.mem_singleton_self _)

/-- What `removeImage` does to an image that is present with its signature in the cache: it
returns normally, the id leaves the map, the buckets are marked invalid, and the buckets and
their scratch file are left as they are. -/
theorem normal_remove_state (db : dbSpaceImpl_false) (id : imageId) (isig : SigStruct)
    (nsig : ImgData) (hf : imageIdMap_find db.m_images id = some isig)
    (hr : read_sig_cache db.sigCache isig.cacheOfs = .ok nsig) :
    db.removeImage id =
      ({ db with m_bucketsValid := false, m_images := imageIdMap_erase db.m_images id }, none) := by
  unfold dbSpaceImpl_false.removeImage
  simp only [hf, hr, bucket_set_remove_shared_eq]

theorem normalInv_remove (db : dbSpaceImpl_false) (id : imageId) (hinv : NormalInv db) :
    NormalInv (db.removeImage id).1 := by
  cases hf : imageIdMap_find db.m_images id with
  | none =>
    have : db.removeImage id = (db, some .invalid_id) := by
      unfold dbSpaceImpl_false.removeImage; simp only [hf]
    rw [this]; exact hinv
  | some isig =>
    cases hr : read_sig_cache db.sigCache isig.cacheOfs with
    | error e =>
      have : db.removeImage id = (db, some e) := by
        unfold dbSpaceImpl_false.removeImage; simp only [hf, hr]
      rw [this]; exact hinv
    | ok nsig =>
      rw [normal_remove_state db id isig nsig hf hr]
      have hsub : ∀ x ss, (x, ss) ∈ imageIdMap_erase db.m_images id → (x, ss) ∈ db.m_images := by
        intro x ss hm
        unfold imageIdMap_erase at hm
        exact (List.mem_filter.mp hm).1
      constructor
      · show ((imageIdMap_erase db.m_images id).map Prod.fst).Nodup
        rw [imageIdMap_erase_keys]
        exact List.Nodup.filter _ hinv.nodup
      · intro x ss hm
        exact hinv.cache x ss (hsub x ss hm)
      · exact hinv.allok
      · intro x ss sig hm hrd c p i hh
        exact hinv.cover x ss sig (hsub x ss hm) hrd c p i hh
      · intro hv
        exact absurd hv (by simp)

/-! ### Normal mode: rehash while the buckets are small -/

/-- The body of the first loop of `rehash` on a consistent bucket: nothing is added to the
scratch file, the bucket is cleared. -/
theorem paged_rehash_clear_eq (b : imageIdIndex_list_paged) (f : bucket_file) (hb : b.ok f) :
    b.rehash_clear f = { file := f, bucket := b.clear, err := none } := by
  unfold imageIdIndex_list_paged.rehash_clear
  apply paged_resize_noop
  have h1 := hb.capacity
  have h2 := hb.size_le
  have h3 := hb.size_mod
  have h4 := hb.tail_lt
  simp only [pageImgs_eq, paged_threshold_eq] at *
  show (b.size / 512 * 512 + 511) / 512 * 512 ≤ b.m_capacity
  unfold imageIdIndex_list_paged.size
  omega

theorem paged_clear_ok (b : imageIdIndex_list_paged) (f : bucket_file) (hb : b.ok f)
    (hc : b.m_capacity ≤ 2 * pageImgs) : b.clear.ok f ∧ b.clear.contents f = [] := by
  constructor
  · exact { pages := hb.pages, nodup := hb.nodup, capacity := hb.capacity,
            size_le := Nat.zero_le _, size_mod := rfl,
            tail_lt := by show ([] : List imageId).length < paged_threshold; decide,
            last_page := by
              left
              have h1 := hb.capacity
              have h2 : b.clear.m_pages = b.m_pages := rfl
              rw [h2]
              rw [pageImgs_eq] at h1 hc
              omega,
            baseofs := hb.baseofs }
  · rfl

/-- The first loop of `rehash` over the buckets `l`, none of which has more than two pages:
every bucket of `l` is cleared, the scratch file is left as it is. -/
theorem rehash_clear_spec (f : bucket_file) (l : List (Nat × Nat × Nat)) :
    ∀ bs : bucket_set imageIdIndex_list_paged, AllOk f bs →
    (∀ c p i, (bs.buckets c p i).m_capacity ≤ 2 * pageImgs) →
    ∃ bs1, l.foldl rehash_clear_step ((f, bs), none) = ((f, bs1), none) ∧ AllOk f bs1 ∧
      (∀ c p i, (bs1.buckets c p i).m_capacity ≤ 2 * pageImgs) ∧
      (∀ c p i, (c, p, i) ∈ l → (bs1.buckets c p i).contents f = []) ∧
      (∀ c p i, bs.buckets c p i = imageIdIndex_list_paged.empty →
        bs1.buckets c p i = imageIdIndex_list_paged.empty) ∧
      (∀ c p i, (bs.buckets c p i).contents f = [] → (bs1.buckets c p i).contents f = []) := by
  induction l with
  | nil =>
    intro bs hok hcap
    exact ⟨bs, rfl, hok, hcap, fun c p i h => absurd h (List.not_mem_nil _), fun c p i h => h,
      fun c p i h => h⟩
  | cons k rest ih =>
    intro bs hok hcap
    obtain ⟨c0, p0, i0⟩ := k
    have hstep : rehash_clear_step ((f, bs), none) (c0, p0, i0)
        = ((f, bs.modify c0 p0 i0 (fun _ => (bs.buckets c0 p0 i0).clear)), none) := by
      unfold rehash_clear_step
      simp only [paged_rehash_clear_eq _ f (hok.each c0 p0 i0)]
    have hbk : ∀ c p i, (bs.modify c0 p0 i0 (fun _ => (bs.buckets c0 p0 i0).clear)).buckets c p i
        = if c = c0 ∧ p = p0 ∧ i = i0 then (bs.buckets c0 p0 i0).clear else bs.buckets c p i :=
      fun c p i => rfl
    have hok1 : AllOk f (bs.modify c0 p0 i0 (fun _ => (bs.buckets c0 p0 i0).clear)) := by
      constructor
      · exact hok.aligned
      · intro c p i
        rw [hbk]
        split
        · exact (paged_clear_ok _ f (hok.each c0 p0 i0) (hcap c0 p0 i0)).1
        · exact hok.each c p i
      · intro c p i c1 p1 i1 pg pg1 hpg hpg1 e
        rw [hbk] at hpg hpg1
        have h1 : pg ∈ (bs.buckets c p i).m_pages := by
          split at hpg
          · rename_i hm
            obtain ⟨e1, e2, e3⟩ := hm
            rw [e1, e2, e3]; exact hpg
          · exact hpg
        have h2 : pg1 ∈ (bs.buckets c1 p1 i1).m_pages := by
          split at hpg1
          · rename_i hm
            obtain ⟨e1, e2, e3⟩ := hm
            rw [e1, e2, e3]; exact hpg1
          · exact hpg1
        exact hok.disjoint c p i c1 p1 i1 pg pg1 h1 h2 e
      · intro c p i hout
        rw [hbk]
        split
        · rename_i hm
          obtain ⟨e1, e2, e3⟩ := hm
          rw [← e1, ← e2, ← e3, hok.outside c p i hout]
          rfl
        · exact hok.outside c p i hout
    have hcap1 : ∀ c p i,
        ((bs.modify c0 p0 i0 (fun _ => (bs.buckets c0 p0 i0).clear)).buckets c p i).m_capacity
          ≤ 2 * pageImgs := by
      intro c p i
      rw [hbk]
      split
      · exact hcap c0 p0 i0
      · exact hcap c p i
    obtain ⟨bs1, hf, hok2, hcap2, hin, hemp, hnil⟩ := ih _ hok1 hcap1
    refine ⟨bs1, ?_, hok2, hcap2, ?_, ?_, ?_⟩
    · rw [List.foldl_cons, hstep]; exact hf
    · intro c p i hm
      rcases List.mem_cons.mp hm with e | hm
      · apply hnil
        rw [hbk]
        injection e with e1 e2
        injection e2 with e2 e3
        rw [if_pos ⟨e1, e2, e3⟩]
        rfl
      · exact hin c p i hm
    · intro c p i he
      apply hemp
      rw [hbk]
      split
      · rename_i hm
        obtain ⟨e1, e2, e3⟩ := hm
        rw [← e1, ← e2, ← e3, he]
        rfl
      · exact he
    · intro c p i he
      apply hnil
      rw [hbk]
      split
      · rfl
      · exact he

theorem mem_bucket_set_indices (c p i : Nat) :
    (c, p, i) ∈ bucket_set_indices ↔
      c < bucket_set_count_0 ∧ p < bucket_set_count_1 ∧ i < bucket_set_count_2 := by
  unfold bucket_set_indices
  generalize bucket_set_count_0 = n0
  generalize bucket_set_count_1 = n1
  generalize bucket_set_count_2 = n2
  rw [List.mem_flatMap]
  constructor
  · rintro ⟨a, ha, h⟩
    rw [List.mem_flatMap] at h
    obtain ⟨b, hb, h⟩ := h
    rw [List.mem_map] at h
    obtain ⟨d, hd, e⟩ := h
    injection e with e1 e2
    injection e2 with e2 e3
    rw [← e1, ← e2, ← e3]
    exact ⟨List.mem_range.mp ha, List.mem_range.mp hb, List.mem_range.mp hd⟩
  · rintro ⟨h1, h2, h3⟩
    refine ⟨c, List.mem_range.mpr h1, ?_⟩
    rw [List.mem_flatMap]
    refine ⟨p, List.mem_range.mpr h2, ?_⟩
    rw [List.mem_map]
    exact ⟨i, List.mem_range.mpr h3, rfl⟩

theorem addAll_cons (s : ImgData × Nat) (rest : List (ImgData × Nat))
    (st : bucket_file × bucket_set imageIdIndex_list_paged) :
    addAll (s :: rest) st =
      match (bucket_set.add_shared paged_bucket_add st s.1 s.2).2 with
      | some e => ((bucket_set.add_shared paged_bucket_add st s.1 s.2).1, some e)
      | none => addAll rest (bucket_set.add_shared paged_bucket_add st s.1 s.2).1 := rfl

theorem rehash_add_cons (cache : SigCache) (p : imageId × SigStruct)
    (rest : List (imageId × SigStruct)) (st : bucket_file × bucket_set imageIdIndex_list_paged)
    (dsig : ImgData) (h : read_sig_cache cache p.2.cacheOfs = .ok dsig) :
    rehash_add cache (p :: rest) st =
      match (bucket_set.add_shared paged_bucket_add st dsig (p.2.index.getD 0)).2 with
      | some e => ((bucket_set.add_shared paged_bucket_add st dsig (p.2.index.getD 0)).1, some e)
      | none =>
        rehash_add cache rest (bucket_set.add_shared paged_bucket_add st dsig (p.2.index.getD 0)).1 := by
  show (match read_sig_cache cache p.2.cacheOfs with
    | .error e => (st, some e)
    | .ok dsig =>
      match (bucket_set.add_shared paged_bucket_add st dsig (p.2.index.getD 0)).2 with
      | some e => ((bucket_set.add_shared paged_bucket_add st dsig (p.2.index.getD 0)).1, some e)
      | none =>
        rehash_add cache rest
          (bucket_set.add_shared paged_bucket_add st dsig (p.2.index.getD 0)).1) = _
  rw [h]

/-- Calling `bucket_set::add` for signatures of the data model in turn: the calls return
normally and each bucket holds what it held followed by the ids added to it. -/
theorem addAll_contents (sigs : List (ImgData × Nat)) :
    ∀ (f : bucket_file) (bs : bucket_set imageIdIndex_list_paged), AllOk f bs →
    (∀ s, s ∈ sigs → s.1.wf) →
    (addAll sigs (f, bs)).2 = none ∧
    AllOk (addAll sigs (f, bs)).1.1 (addAll sigs (f, bs)).1.2 ∧
    ∀ c p i, ((addAll sigs (f, bs)).1.2.buckets c p i).contents (addAll sigs (f, bs)).1.1
      = (bs.buckets c p i).contents f ++ sigs.flatMap (fun s => addsUpTo s.1 c p i NUM_COEFS) := by
  induction sigs with
  | nil =>
    intro f bs hok _
    refine ⟨rfl, hok, fun c p i => ?_⟩
    show (bs.buckets c p i).contents f = (bs.buckets c p i).contents f ++ []
    rw [List.append_nil]
  | cons s rest ih =>
    intro f bs hok hw
    obtain ⟨aerr, aok, acont⟩ :=
      add_paged_contents f bs hok s.1 (hw s (List.mem_cons_self _ _)) s.2
    rw [addAll_cons]
    generalize bucket_set.add_shared paged_bucket_add (f, bs) s.1 s.2 = r at *
    obtain ⟨⟨f1, bs1⟩, err1⟩ := r
    simp only at aerr aok acont
    subst aerr
    simp only
    obtain ⟨rerr, rok, rcont⟩ := ih f1 bs1 aok (fun q hq => hw q (List.mem_cons_of_mem _ hq))
    refine ⟨rerr, rok, ?_⟩
    intro c p i
    rw [rcont, acont, List.flatMap_cons, List.append_assoc]

/-- The second loop of `rehash` is `bucket_set::add` for the cached signatures in turn. -/
theorem rehash_add_eq_addAll (cache : SigCache) (imgs : List (imageId × SigStruct)) :
    ∀ st : bucket_file × bucket_set imageIdIndex_list_paged,
    (∀ p, p ∈ imgs → ∃ sig, read_sig_cache cache p.2.cacheOfs = .ok sig) →
    rehash_add cache imgs st
      = addAll (imgs.filterMap (fun p =>
            match read_sig_cache cache p.2.cacheOfs with
            | .ok sig => some (sig, p.2.index.getD 0)
            | .error _ => none)) st := by
  induction imgs with
  | nil => intro st _; rfl
  | cons p rest ih =>
    intro st hread
    obtain ⟨sig, hsig⟩ := hread p (List.mem_cons_self _ _)
    rw [List.filterMap_cons, hsig]
    simp only
    rw [rehash_add_cons cache p rest st sig hsig, addAll_cons]
    simp only
    cases he : (bucket_set.add_shared paged_bucket_add st sig (p.2.index.getD 0)).2 with
    | some e => rfl
    | none =>
      simp only
      exact ih _ (fun q hq => hread q (List.mem_cons_of_mem _ hq))

theorem cachedSigs_wf (db : dbSpaceImpl_false) (hinv : NormalInv db) :
    ∀ s, s ∈ db.cachedSigs → s.1.wf := by
  intro s hs
  unfold dbSpaceImpl_false.cachedSigs at hs
  obtain ⟨p, hp, e⟩ := List.mem_filterMap.mp hs
  obtain ⟨_, sig, hsig, _, hwf⟩ := hinv.cache p.1 p.2 hp
  rw [hsig] at e
  simp only [Option.some.injEq] at e
  rw [← e]
  exact hwf

/-- What `rehash` does while no bucket has more than two pages: the first loop clears every
bucket and leaves the scratch file as it is, the second is `bucket_set::add` for the cached
signature of every image of the catalog; no exception is raised and the buckets are marked
valid. -/
theorem normal_rehash_state (db : dbSpaceImpl_false) (hinv : NormalInv db)
    (hcap : ∀ c p i, (db.imgbuckets.buckets c p i).m_capacity ≤ 2 * pageImgs) :
    ∃ bs0, AllOk db.m_fd bs0 ∧ (∀ c p i, (bs0.buckets c p i).contents db.m_fd = []) ∧
      (addAll db.cachedSigs (db.m_fd, bs0)).2 = none ∧
      db.rehash = ({ db with imgbuckets := (addAll db.cachedSigs (db.m_fd, bs0)).1.2,
                             m_fd := (addAll db.cachedSigs (db.m_fd, bs0)).1.1,
                             m_bucketsValid := true }, none) := by
  obtain ⟨bs0, hfold, hok0, _, hin, hemp, _⟩ :=
    rehash_clear_spec db.m_fd bucket_set_indices db.imgbuckets hinv.allok hcap
  have hnil : ∀ c p i, (bs0.buckets c p i).contents db.m_fd = [] := by
    intro c p i
    by_cases hr : c < bucket_set_count_0 ∧ p < bucket_set_count_1 ∧ i < bucket_set_count_2
    · exact hin c p i ((mem_bucket_set_indices c p i).mpr hr)
    · rw [hemp c p i (hinv.allok.outside c p i hr)]
      rfl
  obtain ⟨aerr, _, _⟩ := addAll_contents db.cachedSigs db.m_fd bs0 hok0 (cachedSigs_wf db hinv)
  refine ⟨bs0, hok0, hnil, aerr, ?_⟩
  have hadd : rehash_add db.sigCache db.m_images (db.m_fd, bs0)
      = addAll db.cachedSigs (db.m_fd, bs0) :=
    rehash_add_eq_addAll db.sigCache db.m_images (db.m_fd, bs0) (fun p hp => by
      obtain ⟨_, sig, hs, _, _⟩ := hinv.cache p.1 p.2 hp
      exact ⟨sig, hs⟩)
  have hfold2 : rehash_clear (db.m_fd, db.imgbuckets) = ((db.m_fd, bs0), none) := hfold
  unfold dbSpaceImpl_false.rehash
  rw [hfold2]
  unfold dbSpaceImpl_false.rehash_rebuild
  simp only
  rw [hadd]
  simp only [aerr]

theorem flatMap_cachedSigs_mem (db : dbSpaceImpl_false) (hinv : NormalInv db) (c p i : Nat)
    (x : imageId) :
    x ∈ db.cachedSigs.flatMap (fun s => addsUpTo s.1 c p i NUM_COEFS) ↔
      ∃ ss sig, (x, ss) ∈ db.m_images ∧ read_sig_cache db.sigCache ss.cacheOfs = .ok sig ∧
        sig.hits c p i := by
  rw [List.mem_flatMap]
  constructor
  · rintro ⟨s, hs, hx⟩
    unfold dbSpaceImpl_false.cachedSigs at hs
    obtain ⟨q, hq, e⟩ := List.mem_filterMap.mp hs
    obtain ⟨_, sig, hsig, hid, _⟩ := hinv.cache q.1 q.2 hq
    rw [hsig] at e
    simp only [Option.some.injEq] at e
    rw [← e] at hx
    obtain ⟨hxid, hh⟩ := (mem_addsUpTo_iff_hits sig c p i x).mp hx
    refine ⟨q.2, sig, ?_, hsig, hh⟩
    rw [hxid, hid]
    exact hq
  · rintro ⟨ss, sig, hm, hr, hh⟩
    obtain ⟨_, s2, hs2, hid, _⟩ := hinv.cache x ss hm
    rw [hr] at hs2
    have e : sig = s2 := by injection hs2
    subst e
    refine ⟨(sig, ss.index.getD 0), ?_, ?_⟩
    · unfold dbSpaceImpl_false.cachedSigs
      apply List.mem_filterMap.mpr
      refine ⟨(x, ss), hm, ?_⟩
      simp only [hr]
    · exact (mem_addsUpTo_iff_hits sig c p i x).mpr ⟨hid.symm, hh⟩

theorem normalInv_rehash (db : dbSpaceImpl_false) (hinv : NormalInv db)
    (hcap : ∀ c p i, (db.imgbuckets.buckets c p i).m_capacity ≤ 2 * pageImgs) :
    NormalInv db.rehash.1 ∧ db.rehash.2 = none ∧ db.rehash.1.m_bucketsValid = true ∧
    ∀ c p i, (db.rehash.1.imgbuckets.buckets c p i).contents db.rehash.1.m_fd
      = db.cachedSigs.flatMap (fun s => addsUpTo s.1 c p i NUM_COEFS) := by
  obtain ⟨bs0, hok0, hnil, aerr, hres⟩ := normal_rehash_state db hinv hcap
  obtain ⟨_, aok, acont⟩ :=
    addAll_contents db.cachedSigs db.m_fd bs0 hok0 (cachedSigs_wf db hinv)
  rw [hres]
  generalize addAll db.cachedSigs (db.m_fd, bs0) = r at *
  have hcont : ∀ c p i, (r.1.2.buckets c p i).contents r.1.1
      = db.cachedSigs.flatMap (fun s => addsUpTo s.1 c p i NUM_COEFS) := by
    intro c p i
    rw [acont, hnil, List.nil_append]
  refine ⟨?_, rfl, rfl, hcont⟩
  constructor
  · exact hinv.nodup
  · exact hinv.cache
  · exact aok
  · intro id ss sig hm hrd c p i hh
    show id ∈ (r.1.2.buckets c p i).contents r.1.1
    rw [hcont, flatMap_cachedSigs_mem db hinv]
    exact ⟨ss, sig, hm, hrd, hh⟩
  · intro _ c p i x hx
    have hx1 : x ∈ (r.1.2.buckets c p i).contents r.1.1 := hx
    rw [hcont, flatMap_cachedSigs_mem db hinv] at hx1
    exact hx1

/-- A consistent bucket that holds fewer than 1152 ids has no more than two pages. -/
theorem paged_capacity_of_size (b : imageIdIndex_list_paged) (f : bucket_file) (hb : b.ok f)
    (hs : b.size < 2 * pageImgs + paged_threshold) : b.m_capacity ≤ 2 * pageImgs := by
  have h1 := hb.capacity
  have h2 := hb.size_mod
  have h3 := hb.last_page
  unfold imageIdIndex_list_paged.size at hs
  simp only [pageImgs_eq, pageImgMask_eq, paged_threshold_eq] at *
  rcases h3 with h | h
  · omega
  · omega

theorem normalInv_of_reachable (db : dbSpaceImpl_false) (h : NormalReachable db) : NormalInv db := by
  induction h with
  | create => exact normalInv_create
  | add db img _ hw ih => exact (normalInv_add db img ih hw).1
  | remove db id _ ih => exact normalInv_remove db id ih
  | rehash db _ hcap ih =>
    exact (normalInv_rehash db ih (fun c p i =>
      paged_capacity_of_size _ db.m_fd (ih.allok.each c p i) (hcap c p i))).1

/-! ### Normal mode: the two halves of the bucket invariant -/

theorem sig_wf_sigAt (sig : List Int) (h : sig_wf sig) (k : Nat) (hk : k < NUM_COEFS) :
    sigAt sig k ≠ 0 := by
  obtain ⟨hl, hall⟩ := h
  have hk2 : k < sig.length := by rw [hl]; exact hk
  have hmem : sigAt sig k ∈ sig := by
    unfold sigAt
    rw [List.getD_eq_getElem _ _ hk2]
    exact List.getElem_mem hk2
  exact (hall _ hmem).1

theorem ImgData_wf_sig (d : ImgData) (h : d.wf) (c : Nat) : sig_wf (d.sig c) := by
  unfold ImgData.sig
  split
  · exact h.1
  · exact h.2.1
  · exact h.2.2

theorem normalInv_cover (db : dbSpaceImpl_false) (hinv : NormalInv db) : bucketsCoverCatalog db := by
  intro id ss sig hf hr k c hk hc hg
  have hm := imageIdMap_find_some_mem db.m_images id ss hf
  obtain ⟨_, s2, hs2, _, hwf⟩ := hinv.cache id ss hm
  rw [hr] at hs2
  have e : sig = s2 := by injection hs2
  subst e
  exact hinv.cover id ss sig hm hr c _ _
    ⟨hc, hg, k, hk, sig_wf_sigAt _ (ImgData_wf_sig sig hwf c) k hk, rfl, rfl⟩

theorem normalInv_only (db : dbSpaceImpl_false) (hinv : NormalInv db)
    (hv : db.m_bucketsValid = true) : bucketsOnlyFromCatalog db := by
  intro c pn idx id hx
  obtain ⟨ss, sig, hm, hr, hh⟩ := hinv.only hv c pn idx id hx
  exact ⟨ss, sig, imageIdMap_find_of_mem_nodup db.m_images id ss hinv.nodup hm, hr, hh.1, hh.2.1,
    hh.2.2⟩

/-! ### C9 -/

theorem sampleA_wf : sampleA.wf := by
  refine ⟨⟨rfl, ?_⟩, ⟨rfl, ?_⟩, ⟨rfl, ?_⟩⟩ <;> decide

theorem sampleA2_wf : sampleA2.wf := by
  refine ⟨⟨rfl, ?_⟩, ⟨rfl, ?_⟩, ⟨rfl, ?_⟩⟩ <;> decide

set_option maxRecDepth 100000 in
/-- C9 as stated fails. After `addImageData(sampleA)`, `removeImage(1)` and
`addImageData(sampleA2)` (the id 1 again, with other coefficients) the bucket of the
coefficient 100 of channel 0 still holds the id 1, which the signature of image 1 no longer
has: the second half of the invariant is false in this reachable state. -/
theorem normal_buckets_stale_after_remove :
    NormalReachable
      ((((dbSpaceImpl_false.create.addImageData sampleA).1.removeImage 1).1).addImageData sampleA2).1 ∧
    ¬ bucketsOnlyFromCatalog
      ((((dbSpaceImpl_false.create.addImageData sampleA).1.removeImage 1).1).addImageData sampleA2).1 := by
  refine ⟨NormalReachable.add _ _ (NormalReachable.remove _ _
    (NormalReachable.add _ _ NormalReachable.create sampleA_wf)) sampleA2_wf, ?_⟩
  intro h
  obtain ⟨ss, sig, hf, hr, _, _, k, hk, _, _, hi⟩ := h 0 0 100 1 (by decide)
  have hf2 : imageIdMap_find
      ((((dbSpaceImpl_false.create.addImageData sampleA).1.removeImage 1).1).addImageData sampleA2).1.m_images 1
      = some (SigStruct.init 520 sampleA2) := by decide
  rw [hf2] at hf
  have e : SigStruct.init 520 sampleA2 = ss := by injection hf
  subst e
  have hr2 : read_sig_cache
      ((((dbSpaceImpl_false.create.addImageData sampleA).1.removeImage 1).1).addImageData sampleA2).1.sigCache
      (SigStruct.init 520 sampleA2).cacheOfs = .ok sampleA2 := rfl
  rw [hr2] at hr
  have e2 : sampleA2 = sig := by injection hr
  subst e2
  have hall : ∀ k, k < NUM_COEFS → 100 ≠ (sigAt (sampleA2.sig 0) k).natAbs := by decide
  exact hall k hk hi

/-- C9, amended. In every state of a normal-mode database reachable from a new database by
`addImageData`, `removeImage` and `rehash` (`rehash` being called only while every bucket holds
fewer than 1152 ids), every image of the catalog is in the bucket of each coefficient of its
signature (channel 0 always, channels 1 and 2 unless it is grayscale); in every such state
whose buckets are valid (no `removeImage` since the last `rehash`), an id held by a bucket
belongs to an image of the catalog whose signature has that coefficient; and a `removeImage`
that returns leaves the buckets and their scratch file as they are, so that they keep the
entries of the removed image, and marks the buckets invalid. -/
theorem normal_buckets_invariant (db : dbSpaceImpl_false) (h : NormalReachable db) :
    bucketsCoverCatalog db ∧ (db.m_bucketsValid = true → bucketsOnlyFromCatalog db) ∧
    (∀ id, (db.removeImage id).2 = none →
      (db.removeImage id).1.imgbuckets = db.imgbuckets ∧
      (db.removeImage id).1.m_fd = db.m_fd ∧
      (db.removeImage id).1.m_bucketsValid = false) := by
  have hinv := normalInv_of_reachable db h
  refine ⟨normalInv_cover db hinv, fun hv => normalInv_only db hinv hv, ?_⟩
  intro id hret
  cases hf : imageIdMap_find db.m_images id with
  | none =>
    have e : db.removeImage id = (db, some .invalid_id) := by
      unfold dbSpaceImpl_false.removeImage; simp only [hf]
    rw [e] at hret
    exact absurd hret (by simp)
  | some isig =>
    cases hr : read_sig_cache db.sigCache isig.cacheOfs with
    | error e =>
      have e1 : db.removeImage id = (db, some e) := by
        unfold dbSpaceImpl_false.removeImage; simp only [hf, hr]
      rw [e1] at hret
      exact absurd hret (by simp)
    | ok nsig =>
      rw [normal_remove_state db id isig nsig hf hr]
      exact ⟨rfl, rfl, rfl⟩

/-- C9, amended, on the database that holds `sampleA` and `sampleB` after a `rehash` of the new
database. -/
theorem normal_buckets_invariant_witness :
    bucketsCoverCatalog
      ((dbSpaceImpl_false.create.rehash.1.addImageData sampleA).1.addImageData sampleB).1 ∧
    (((dbSpaceImpl_false.create.rehash.1.addImageData sampleA).1.addImageData sampleB).1.m_bucketsValid
        = true →
      bucketsOnlyFromCatalog
        ((dbSpaceImpl_false.create.rehash.1.addImageData sampleA).1.addImageData sampleB).1) ∧
    (∀ id,
      (((dbSpaceImpl_false.create.rehash.1.addImageData sampleA).1.addImageData sampleB).1.removeImage
        id).2 = none →
      (((dbSpaceImpl_false.create.rehash.1.addImageData sampleA).1.addImageData sampleB).1.removeImage
          id).1.imgbuckets
        = ((dbSpaceImpl_false.create.rehash.1.addImageData sampleA).1.addImageData sampleB).1.imgbuckets ∧
      (((dbSpaceImpl_false.create.rehash.1.addImageData sampleA).1.addImageData sampleB).1.removeImage
          id).1.m_fd
        = ((dbSpaceImpl_false.create.rehash.1.addImageData sampleA).1.addImageData sampleB).1.m_fd ∧
      (((dbSpaceImpl_false.create.rehash.1.addImageData sampleA).1.addImageData sampleB).1.removeImage
          id).1.m_bucketsValid = false) :=
  normal_buckets_invariant _
    (NormalReachable.add _ _ (NormalReachable.add _ _
      (NormalReachable.rehash _ NormalReachable.create
        (fun _ _ _ => by show 0 < 2 * pageImgs + paged_threshold; decide)) sampleA_wf)
      (by refine ⟨⟨rfl, ?_⟩, ⟨rfl, ?_⟩, ⟨rfl, ?_⟩⟩ <;> decide))

/-! ### C10 -/

/-- C10 as stated fails. On the new database, `addImageData(sampleA)` followed by
`removeImage(1)` restores the catalog, but the bucket of the coefficient 100 of channel 0, empty
before, holds the id 1 afterwards. -/
theorem normal_remove_keeps_bucket_entries :
    dbSpaceImpl_false.create.hasImage sampleA.id = false ∧
    ((dbSpaceImpl_false.create.addImageData sampleA).1.removeImage sampleA.id).1.m_images
      = dbSpaceImpl_false.create.m_images ∧
    (dbSpaceImpl_false.create.imgbuckets.buckets 0 0 100).contents dbSpaceImpl_false.create.m_fd
      = [] ∧
    (((dbSpaceImpl_false.create.addImageData sampleA).1.removeImage sampleA.id).1.imgbuckets.buckets
      0 0 100).contents ((dbSpaceImpl_false.create.addImageData sampleA).1.removeImage sampleA.id).1.m_fd
      = [1] := by
  decide

/-- C10, amended. In normal mode, for every state reachable from a new database by
`addImageData`, `removeImage` and `rehash` (`rehash` being called only while every bucket holds
fewer than 1152 ids) and every signature of the data model whose id is absent, `addImageData(x)`
followed by `removeImage(x.id)` returns normally and restores the catalog; the buckets and
their scratch file are left as the add made them, so that the id stays in the bucket of every
coefficient of the signature, and they are marked invalid (queries are refused until
`rehash`). -/
theorem normal_remove_after_add (db : dbSpaceImpl_false) (img : ImgData)
    (hreach : NormalReachable db) (hw : img.wf) (h : db.hasImage img.id = false) :
    (db.addImageData img).2 = none ∧
    ((db.addImageData img).1.removeImage img.id).2 = none ∧
    ((db.addImageData img).1.removeImage img.id).1.m_images = db.m_images ∧
    ((db.addImageData img).1.removeImage img.id).1.imgbuckets = (db.addImageData img).1.imgbuckets ∧
    ((db.addImageData img).1.removeImage img.id).1.m_fd = (db.addImageData img).1.m_fd ∧
    ((db.addImageData img).1.removeImage img.id).1.m_bucketsValid = false ∧
    ∀ k c, k < NUM_COEFS → c < 3 → (c = 0 ∨ is_grayscale (avglf2i img.avglf) = false) →
      img.id ∈ (coefBucket ((db.addImageData img).1.removeImage img.id).1 c
        (sigAt (img.sig c) k)).contents ((db.addImageData img).1.removeImage img.id).1.m_fd := by
  have hinv := normalInv_of_reachable db hreach
  have habs : img.id ∉ db.m_images.map Prod.fst := by
    intro hm
    have := (normal_hasImage_iff db img.id).mpr hm
    rw [h] at this; exact absurd this (by simp)
  obtain ⟨hinv1, herr⟩ := normalInv_add db img hinv hw
  have hcov := normalInv_cover _ hinv1
  have hadd := normal_add_fresh_state db img h
  have hfind : imageIdMap_find (db.addImageData img).1.m_images img.id
      = some (SigStruct.init db.m_cacheOfs img) := by
    rw [hadd]; exact imageIdMap_find_set_self _ _ _ habs
  have hread : read_sig_cache (db.addImageData img).1.sigCache
      (SigStruct.init db.m_cacheOfs img).cacheOfs = .ok img := by
    rw [hadd]; exact read_write_sig_cache_same _ _ _
  have hcov2 := hcov img.id (SigStruct.init db.m_cacheOfs img) img hfind hread
  have hmi : imageIdMap_erase (db.addImageData img).1.m_images img.id = db.m_images := by
    rw [hadd]
    exact imageIdMap_erase_set_of_absent _ _ _ habs
  rw [normal_remove_state (db.addImageData img).1 img.id _ img hfind hread]
  exact ⟨herr h, rfl, hmi, rfl, rfl, rfl, fun k c hk hc hg => hcov2 k c hk hc hg⟩

/-- C10, amended, on the new database and `sampleA`. -/
theorem normal_remove_after_add_witness :
    (dbSpaceImpl_false.create.addImageData sampleA).2 = none ∧
    ((dbSpaceImpl_false.create.addImageData sampleA).1.removeImage sampleA.id).2 = none ∧
    ((dbSpaceImpl_false.create.addImageData sampleA).1.removeImage sampleA.id).1.m_images
      = dbSpaceImpl_false.create.m_images ∧
    ((dbSpaceImpl_false.create.addImageData sampleA).1.removeImage sampleA.id).1.imgbuckets
      = (dbSpaceImpl_false.create.addImageData sampleA).1.imgbuckets ∧
    ((dbSpaceImpl_false.create.addImageData sampleA).1.removeImage sampleA.id).1.m_fd
      = (dbSpaceImpl_false.create.addImageData sampleA).1.m_fd ∧
    ((dbSpaceImpl_false.create.addImageData sampleA).1.removeImage sampleA.id).1.m_bucketsValid = false ∧
    ∀ k c, k < NUM_COEFS → c < 3 → (c = 0 ∨ is_grayscale (avglf2i sampleA.avglf) = false) →
      sampleA.id ∈ (coefBucket ((dbSpaceImpl_false.create.addImageData sampleA).1.removeImage
        sampleA.id).1 c (sigAt (sampleA.sig c) k)).contents
          ((dbSpaceImpl_false.create.addImageData sampleA).1.removeImage sampleA.id).1.m_fd :=
  normal_remove_after_add dbSpaceImpl_false.create sampleA NormalReachable.create sampleA_wf
    (by decide)

/-! ### C1, C2, C3: the code at the failing inputs -/

set_option maxRecDepth 100000 in
/-- C1, the failing case. On the read-only database that holds `sampleA` and `sampleB`, a query
with the result limit 0 does not return the empty list: the second selection loop reads
`pqResults.top()` of the empty queue, which is undefined. -/
theorem queryImg_limit_zero_undefined :
    sampleDb.queryImg (queryArg.ofImgData sampleA 0 0) = .error .undefined_behaviour := by
  rfl

set_option maxRecDepth 100000 in
/-- C2, the failing case. On the read-only database that holds `sampleA` and `sampleB`, the
query `sampleQuery` (limit 8, no flag) returns image 1 with score 104857597 followed by image 2
with the larger score 983731220: the distance of image 2, scaled by the one contributing weight,
does not fit the 32 bits of `Score`. -/
theorem queryImg_scores_not_descending :
    sampleDb.queryImg sampleQuery
      = .ok [{ id := 1, score := 104857597, width := 800, height := 600 },
             { id := 2, score := 983731220, width := 640, height := 480 }] ∧
    (104857597 : Int) < 983731220 := by
  refine ⟨rfl, by decide⟩

set_option maxRecDepth 100000 in
/-- C3, the failing case. A read-only database whose only image is the black image `sampleBlack`
(40 distinct non-zero coefficients per channel, zero averages): the image is present, and the
query with its own signature returns no result. -/
theorem queryImg_self_black_empty :
    ((dbSpaceImpl_true.create false).addImageData sampleBlack).1.hasImage sampleBlack.id = true ∧
    ((dbSpaceImpl_true.create false).addImageData sampleBlack).1.queryImg
      (queryArg.ofImgData sampleBlack 8 0) = .ok [] := by
  refine ⟨rfl, rfl⟩

/-! ### Read-only mode: the invariant of `m_info` and `m_images` -/

theorem imageIdMap_find_append {T : Type} (m : List (imageId × T)) (id x : imageId) (v : T) :
    imageIdMap_find (m ++ [(id, v)]) x
      = match imageIdMap_find m x with
        | some w => some w
        | none => if id = x then some v else none := by
  unfold imageIdMap_find
  rw [List.find?_append]
  cases hf : m.find? (fun p => p.1 == x) with
  | some p => simp
  | none =>
    by_cases h : id = x
    · simp [List.find?, h]
    · have hb : (id == x) = false := by simpa using h
      simp [List.find?, hb, h]

theorem imageIdMap_find_set_other {T : Type} (m : List (imageId × T)) (id x : imageId) (v : T)
    (h : x ≠ id) : imageIdMap_find (imageIdMap_set m id v) x = imageIdMap_find m x := by
  have hmap : (m.map (fun p => if p.1 == id then (id, v) else p)).find? (fun p => p.1 == x)
      = m.find? (fun p => p.1 == x) := by
    induction m with
    | nil => rfl
    | cons p m ih =>
      by_cases hp : p.1 = id
      · have h1 : (id == x) = false := by simpa using fun e => h e.symm
        have h2 : (p.1 == x) = false := by rw [hp]; exact h1
        simp only [List.map_cons, hp, beq_self_eq_true, if_true, List.find?, h1, h2]
        exact ih
      · have h1 : (p.1 == id) = false := by simpa using hp
        simp only [List.map_cons, h1, Bool.false_eq_true, if_false, List.find?]
        cases (p.1 == x)
        · exact ih
        · rfl
  unfold imageIdMap_set
  split
  · unfold imageIdMap_find
    rw [hmap]
  · rw [imageIdMap_find_append]
    have : ¬ id = x := fun e => h e.symm
    cases imageIdMap_find m x <;> simp [this]

theorem imageIdMap_find_set_same {T : Type} (m : List (imageId × T)) (id : imageId) (v : T) :
    imageIdMap_find (imageIdMap_set m id v) id = some v := by
  unfold imageIdMap_set
  split
  · rename_i hs
    unfold imageIdMap_find
    induction m with
    | nil => simp at hs
    | cons p m ih =>
      by_cases hp : p.1 = id
      · simp [List.find?, hp]
      · have h1 : (p.1 == id) = false := by simpa using hp
        simp only [List.find?, h1] at hs
        simp only [List.map_cons, h1, Bool.false_eq_true, if_false, List.find?]
        exact ih hs
  · rename_i hs
    rw [imageIdMap_find_append]
    have : imageIdMap_find m id = none := by
      unfold imageIdMap_find
      cases hf : m.find? (fun p => p.1 == id) with
      | none => rfl
      | some p => rw [hf] at hs; simp at hs
    rw [this]; simp

theorem imageIdMap_find_erase_same {T : Type} (m : List (imageId × T)) (id : imageId) :
    imageIdMap_find (imageIdMap_erase m id) id = none := by
  rw [imageIdMap_find_eq_none_iff, imageIdMap_erase_keys]
  intro h
  have := (List.mem_filter.mp h).2
  simp at this

theorem imageIdMap_find_erase_other {T : Type} (m : List (imageId × T)) (id x : imageId)
    (h : x ≠ id) : imageIdMap_find (imageIdMap_erase m id) x = imageIdMap_find m x := by
  unfold imageIdMap_find imageIdMap_erase
  congr 1
  induction m with
  | nil => rfl
  | cons p m ih =>
    by_cases hp : p.1 = id
    · have h1 : (id == x) = false := by simpa using fun e => h e.symm
      have h2 : (p.1 == x) = false := by rw [hp]; exact h1
      simp only [List.filter, hp, beq_self_eq_true, Bool.not_true, List.find?, h1, h2]
      exact ih
    · have h1 : (p.1 == id) = false := by simpa using hp
      simp only [List.filter, h1, Bool.not_false, List.find?]
      cases (p.1 == x)
      · exact ih
      · rfl

theorem readOnlyInv_insert (db : dbSpaceImpl_true) (id : imageId) (entry : image_info)
    (hid : entry.id = id) (hnone : imageIdMap_find db.m_images id = none)
    (hinv : ReadOnlyInv db) (i : Nat) (e : image_info)
    (he : (if db.m_nextIndex = db.m_info.length then db.m_info ++ [entry]
            else db.m_info.set db.m_nextIndex entry)[i]? = some e)
    (hv : e.avgl.v0 ≠ 0) :
    imageIdMap_find (imageIdMap_set db.m_images id db.m_nextIndex) e.id = some i := by
  have hold : ∀ e1, db.m_info[i]? = some e1 → e1.avgl.v0 ≠ 0 →
      imageIdMap_find (imageIdMap_set db.m_images id db.m_nextIndex) e1.id = some i := by
    intro e1 h1 h2
    have hfind := hinv i e1 h1 h2
    have hne : e1.id ≠ id := by
      intro e2; rw [e2, hnone] at hfind; simp at hfind
    rw [imageIdMap_find_set_other _ _ _ _ hne]; exact hfind
  by_cases hat : db.m_nextIndex = db.m_info.length
  · rw [if_pos hat] at he
    rw [List.getElem?_append] at he
    by_cases hi : i < db.m_info.length
    · rw [if_pos hi] at he
      exact hold e he hv
    · rw [if_neg hi] at he
      have hi0 : i = db.m_info.length := by
        by_contra hne
        have : [entry][i - db.m_info.length]? = none := by
          apply List.getElem?_eq_none_iff.mpr
          simp only [List.length_singleton]; omega
        rw [this] at he; simp at he
      rw [hi0, Nat.sub_self] at he
      simp only [List.getElem?_cons_zero, Option.some.injEq] at he
      rw [← he, hi0, ← hat, hid]
      exact imageIdMap_find_set_same _ _ _
  · rw [if_neg hat] at he
    rw [List.getElem?_set] at he
    by_cases hi : db.m_nextIndex = i
    · rw [if_pos hi] at he
      split at he
      · simp only [Option.some.injEq] at he
        rw [← he, ← hi, hid]
        exact imageIdMap_find_set_same _ _ _
      · simp at he
    · rw [if_neg hi] at he
      exact hold e he hv

theorem readOnlyInv_add (db : dbSpaceImpl_true) (img : ImgData) (hinv : ReadOnlyInv db) :
    ReadOnlyInv (db.addImageData img).1 ∧
    ∀ x, x ≠ img.id → (db.addImageData img).1.hasImage x = db.hasImage x := by
  unfold dbSpaceImpl_true.addImageData
  by_cases hp : db.hasImage img.id = true
  · rw [if_pos hp]; exact ⟨hinv, fun _ _ => rfl⟩
  · rw [if_neg hp]
    simp only
    by_cases hlen : db.m_info.length < db.m_nextIndex
    · rw [if_pos hlen]; exact ⟨hinv, fun _ _ => rfl⟩
    · rw [if_neg hlen]
      have hnone : imageIdMap_find db.m_images img.id = none := by
        unfold dbSpaceImpl_true.hasImage at hp
        cases hf : imageIdMap_find db.m_images img.id with
        | none => rfl
        | some v => rw [hf] at hp; simp at hp
      have key := readOnlyInv_insert db img.id
        { id := img.id, avgl := avglf2i img.avglf,
          width := toUInt16 img.width, height := toUInt16 img.height } rfl hnone hinv
      have hother : ∀ x, x ≠ img.id →
          (imageIdMap_find (imageIdMap_set db.m_images img.id db.m_nextIndex) x).isSome
            = (imageIdMap_find db.m_images x).isSome := by
        intro x hx
        rw [imageIdMap_find_set_other _ _ _ _ hx]
      by_cases hsf : db.has_sigFile = true
      · rw [if_pos hsf]
        by_cases hofs : db.m_cacheOfs ≠ db.m_nextIndex * sizeof_ImgData
        · rw [if_pos hofs]; exact ⟨key, hother⟩
        · rw [if_neg hofs]; exact ⟨key, hother⟩
      · rw [if_neg hsf]; exact ⟨key, hother⟩

theorem readOnly_remove_state (db : dbSpaceImpl_true) (id : imageId) (ind : Nat)
    (h : imageIdMap_find db.m_images id = some ind) :
    db.removeImage id =
      ({ db with m_info := db.m_info.modify
                   (fun e => { e with avgl := { e.avgl with v0 := 0 } }) ind,
                 m_images := imageIdMap_erase db.m_images id }, none) := by
  unfold dbSpaceImpl_true.removeImage
  rw [h]

theorem readOnlyInv_remove (db : dbSpaceImpl_true) (id : imageId) (hinv : ReadOnlyInv db) :
    ReadOnlyInv (db.removeImage id).1 ∧
    (∀ x, db.hasImage x = false → (db.removeImage id).1.hasImage x = false) ∧
    ((db.removeImage id).2 = none → (db.removeImage id).1.hasImage id = false) := by
  cases hf : imageIdMap_find db.m_images id with
  | none =>
    have : db.removeImage id = (db, some .invalid_id) := by
      unfold dbSpaceImpl_true.removeImage; rw [hf]
    rw [this]
    exact ⟨hinv, fun _ h => h, fun h => by simp at h⟩
  | some ind =>
    rw [readOnly_remove_state db id ind hf]
    refine ⟨?_, ?_, ?_⟩
    · intro i e he hv
      have he1 : (db.m_info.modify (fun e => { e with avgl := { e.avgl with v0 := 0 } }) ind)[i]?
          = some e := he
      rw [List.getElem?_modify] at he1
      cases ho : db.m_info[i]? with
      | none => rw [ho] at he1; simp at he1
      | some e0 =>
        rw [ho] at he1
        simp only [Option.map_eq_map, Option.map_some', Option.some.injEq] at he1
        by_cases hi : ind = i
        · rw [if_pos hi] at he1
          rw [← he1] at hv
          exact absurd rfl hv
        · rw [if_neg hi] at he1
          subst he1
          have hfind := hinv i e0 ho hv
          have hne : e0.id ≠ id := by
            intro e2
            rw [e2, hf] at hfind
            exact hi (Option.some.inj hfind)
          show imageIdMap_find (imageIdMap_erase db.m_images id) e0.id = some i
          rw [imageIdMap_find_erase_other _ _ _ hne]; exact hfind
    · intro x hx
      show (imageIdMap_find (imageIdMap_erase db.m_images id) x).isSome = false
      by_cases hxi : x = id
      · rw [hxi, imageIdMap_find_erase_same]; rfl
      · rw [imageIdMap_find_erase_other _ _ _ hxi]; exact hx
    · intro _
      show (imageIdMap_find (imageIdMap_erase db.m_images id) id).isSome = false
      rw [imageIdMap_find_erase_same]; rfl

theorem readOnlyInv_setImageRes (db : dbSpaceImpl_true) (id : imageId) (w h : Int)
    (hinv : ReadOnlyInv db) :
    ReadOnlyInv (db.setImageRes id w h).1 ∧
    ∀ x, (db.setImageRes id w h).1.hasImage x = db.hasImage x := by
  unfold dbSpaceImpl_true.setImageRes
  cases hf : imageIdMap_find db.m_images id with
  | none => exact ⟨hinv, fun _ => rfl⟩
  | some ind =>
    refine ⟨?_, fun _ => rfl⟩
    intro i e he hv
    have he1 : (db.m_info.modify
        (fun e => { e with width := toUInt16 w, height := toUInt16 h }) ind)[i]? = some e := he
    rw [List.getElem?_modify] at he1
    cases ho : db.m_info[i]? with
    | none => rw [ho] at he1; simp at he1
    | some e0 =>
      rw [ho] at he1
      simp only [Option.map_eq_map, Option.map_some', Option.some.injEq] at he1
      by_cases hi : ind = i
      · rw [if_pos hi] at he1
        subst he1
        exact hinv i e0 ho hv
      · rw [if_neg hi] at he1
        subst he1
        exact hinv i e0 ho hv

theorem readOnlyInv_apply (db : dbSpaceImpl_true) (op : ReadOnlyOp) (hinv : ReadOnlyInv db) :
    ReadOnlyInv (db.apply op) := by
  cases op with
  | add img => exact (readOnlyInv_add db img hinv).1
  | remove id => exact (readOnlyInv_remove db id hinv).1
  | setImageRes id w h => exact (readOnlyInv_setImageRes db id w h hinv).1
  | load_done => exact hinv

theorem readOnlyInv_run (ops : List ReadOnlyOp) : ∀ db : dbSpaceImpl_true, ReadOnlyInv db →
    ReadOnlyInv (db.run ops) := by
  induction ops with
  | nil => intro db h; exact h
  | cons op ops ih => intro db h; exact ih (db.apply op) (readOnlyInv_apply db op h)

theorem readOnlyInv_of_reachable (db : dbSpaceImpl_true) (h : ReadOnlyReachable db) :
    ReadOnlyInv db := by
  obtain ⟨ws, ops, hdb⟩ := h
  rw [hdb]
  apply readOnlyInv_run
  intro i e he
  simp [dbSpaceImpl_true.create] at he

/-- Calls other than an add of `id` keep `id` absent. -/
theorem readOnly_absent_run (id : imageId) (ops : List ReadOnlyOp)
    (hno : ∀ op, op ∈ ops → ∀ img, op = ReadOnlyOp.add img → img.id ≠ id) :
    ∀ db : dbSpaceImpl_true, ReadOnlyInv db → db.hasImage id = false →
      (db.run ops).hasImage id = false := by
  induction ops with
  | nil => intro db _ h; exact h
  | cons op ops ih =>
    intro db hinv habs
    have hinv1 := readOnlyInv_apply db op hinv
    apply ih (fun o ho img he => hno o (List.mem_cons_of_mem _ ho) img he) (db.apply op) hinv1
    cases op with
    | add img =>
      have hne : img.id ≠ id := hno _ (List.mem_cons_self _ _) img rfl
      show (db.addImageData img).1.hasImage id = false
      rw [(readOnlyInv_add db img hinv).2 id (fun e => hne e.symm)]; exact habs
    | remove x => exact (readOnlyInv_remove db x hinv).2.1 id habs
    | setImageRes x w h =>
      show (db.setImageRes x w h).1.hasImage id = false
      rw [(readOnlyInv_setImageRes db x w h hinv).2 id]; exact habs
    | load_done => exact habs

/-- In the states of a read-only database reached by calls, `m_images` maps every id to a
position of `m_info`: the subscript of `removeImage` and `setImageRes` is in range. -/
theorem readOnly_index_in_range (db : dbSpaceImpl_true) (h : ReadOnlyReachable db)
    (id : imageId) (i : Nat) (hf : imageIdMap_find db.m_images id = some i) :
    i < db.m_info.length := by
  obtain ⟨ws, ops, hdb⟩ := h
  have hgen : ∀ (ops : List ReadOnlyOp) (d : dbSpaceImpl_true),
      (∀ x j, imageIdMap_find d.m_images x = some j → j < d.m_info.length) →
      ∀ x j, imageIdMap_find (d.run ops).m_images x = some j → j < (d.run ops).m_info.length := by
    intro ops
    induction ops with
    | nil => intro d hd; exact hd
    | cons op ops ih =>
      intro d hd
      apply ih (d.apply op)
      cases op with
      | add img =>
        show ∀ x j, imageIdMap_find (d.addImageData img).1.m_images x = some j →
          j < (d.addImageData img).1.m_info.length
        unfold dbSpaceImpl_true.addImageData
        by_cases hp : d.hasImage img.id = true
        · rw [if_pos hp]; exact hd
        · rw [if_neg hp]
          simp only
          by_cases hlen : d.m_info.length < d.m_nextIndex
          · rw [if_pos hlen]; exact hd
          · rw [if_neg hlen]
            have key : ∀ (entry : image_info) x j,
                imageIdMap_find (imageIdMap_set d.m_images img.id d.m_nextIndex) x = some j →
                j < (if d.m_nextIndex = d.m_info.length then d.m_info ++ [entry]
                      else d.m_info.set d.m_nextIndex entry).length := by
              intro entry x j hx
              have hlen2 : d.m_info.length ≤ (if d.m_nextIndex = d.m_info.length
                  then d.m_info ++ [entry] else d.m_info.set d.m_nextIndex entry).length := by
                split
                · simp
                · simp
              by_cases hxi : x = img.id
              · rw [hxi, imageIdMap_find_set_same] at hx
                have hj : d.m_nextIndex = j := Option.some.inj hx
                rw [← hj]
                split
                · rename_i heq
                  rw [List.length_append, List.length_singleton]; omega
                · rename_i hne
                  rw [List.length_set]; omega
              · rw [imageIdMap_find_set_other _ _ _ _ hxi] at hx
                exact Nat.lt_of_lt_of_le (hd x j hx) hlen2
            by_cases hsf : d.has_sigFile = true
            · rw [if_pos hsf]
              by_cases hofs : d.m_cacheOfs ≠ d.m_nextIndex * sizeof_ImgData
              · rw [if_pos hofs]; exact key _
              · rw [if_neg hofs]; exact key _
            · rw [if_neg hsf]; exact key _
      | remove y =>
        show ∀ x j, imageIdMap_find (d.removeImage y).1.m_images x = some j →
          j < (d.removeImage y).1.m_info.length
        cases hy : imageIdMap_find d.m_images y with
        | none =>
          have : d.removeImage y = (d, some .invalid_id) := by
            unfold dbSpaceImpl_true.removeImage; rw [hy]
          rw [this]; exact hd
        | some ind =>
          rw [readOnly_remove_state d y ind hy]
          intro x j hx
          have hx1 : imageIdMap_find (imageIdMap_erase d.m_images y) x = some j := hx
          show j < (d.m_info.modify _ ind).length
          rw [List.length_modify]
          by_cases hxy : x = y
          · rw [hxy, imageIdMap_find_erase_same] at hx1; simp at hx1
          · rw [imageIdMap_find_erase_other _ _ _ hxy] at hx1
            exact hd x j hx1
      | setImageRes y w h =>
        show ∀ x j, imageIdMap_find (d.setImageRes y w h).1.m_images x = some j →
          j < (d.setImageRes y w h).1.m_info.length
        unfold dbSpaceImpl_true.setImageRes
        cases hy : imageIdMap_find d.m_images y with
        | none => exact hd
        | some ind =>
          intro x j hx
          show j < (d.m_info.modify _ ind).length
          rw [List.length_modify]
          exact hd x j hx
      | load_done => exact hd
  rw [hdb] at hf ⊢
  apply hgen ops _ _ id i hf
  intro x j hx
  simp [dbSpaceImpl_true.create, imageIdMap_find] at hx

/-! ### Read-only mode: where the results of a query come from -/

theorem mem_pq_push (x y : sim_result) (l : List sim_result) :
    y ∈ pq_push x l ↔ y = x ∨ y ∈ l := by
  induction l with
  | nil => simp [pq_push]
  | cons z zs ih =>
    unfold pq_push
    split
    · simp
    · simp only [List.mem_cons, ih]
      tauto

theorem sets_incr_pq (st : SelState) (k : Nat) : (sets_incr st k).pq = st.pq := rfl

theorem sel_push_pq (q : queryArg) (st : SelState) (s : Int) (e : Nat × image_info) :
    (sel_push q st s e).pq = pq_push { score := s, ind := e.1, info := e.2 } st.pq := by
  unfold sel_push
  simp only
  split
  · rfl
  · rfl

theorem sel_push_fromCatalog (info : List image_info) (q : queryArg) (st : SelState) (s : Int)
    (e : Nat × image_info) (hst : ∀ r, r ∈ st.pq → fromCatalog info q r)
    (he : e.2 ∈ info) (hsk : skip_image e.2 q = false) :
    ∀ r, r ∈ (sel_push q st s e).pq → fromCatalog info q r := by
  intro r hr
  rw [sel_push_pq, mem_pq_push] at hr
  rcases hr with h | h
  · rw [h]; exact ⟨he, hsk⟩
  · exact hst r h

theorem sel_fill_fromCatalog (info : List image_info) (q : queryArg) (scores : List Int) :
    ∀ (es : List (Nat × image_info)) (st st1 : SelState) (rest : List (Nat × image_info)),
      (∀ e, e ∈ es → e.2 ∈ info) → (∀ r, r ∈ st.pq → fromCatalog info q r) →
      sel_fill q scores es st = .ok (st1, rest) →
      (∀ r, r ∈ st1.pq → fromCatalog info q r) ∧ (∀ e, e ∈ rest → e.2 ∈ info) := by
  intro es
  induction es with
  | nil =>
    intro st st1 rest _ hst h
    simp only [sel_fill, Except.ok.injEq, Prod.mk.injEq] at h
    rw [← h.1, ← h.2]
    exact ⟨hst, fun e he => by simp at he⟩
  | cons e es ih =>
    intro st st1 rest hes hst h
    have hes1 : ∀ x, x ∈ es → x.2 ∈ info := fun x hx => hes x (List.mem_cons_of_mem _ hx)
    unfold sel_fill at h
    by_cases hn : st.pq.length < st.need
    · rw [if_pos hn] at h
      cases hsk : skip_image e.2 q with
      | true =>
        rw [hsk] at h
        exact ih st st1 rest hes1 hst h
      | false =>
        rw [hsk] at h
        simp only [Bool.false_eq_true, if_false] at h
        cases hs : scores[e.1]? with
        | none => rw [hs] at h; simp at h
        | some s =>
          rw [hs] at h
          exact ih _ st1 rest hes1
            (sel_push_fromCatalog info q st s e hst (hes e (List.mem_cons_self _ _)) hsk) h
    · rw [if_neg hn] at h
      simp only [Except.ok.injEq, Prod.mk.injEq] at h
      rw [← h.1, ← h.2]
      exact ⟨hst, hes⟩

theorem sel_drain_subset : ∀ (pq : List sim_result) (sets : Nat → Nat) (need : Nat)
    (st : SelState), sel_drain pq sets need = .ok st → ∀ r, r ∈ st.pq → r ∈ pq := by
  intro pq
  induction pq with
  | nil => intro sets need st h; simp [sel_drain] at h
  | cons top rest ih =>
    intro sets need st h r hr
    unfold sel_drain at h
    split at h
    · exact List.mem_cons_of_mem _ (ih _ _ st h r hr)
    · simp only [Except.ok.injEq] at h
      rw [← h] at hr
      exact hr

theorem sel_replace_fromCatalog (info : List image_info) (q : queryArg) (scores : List Int) :
    ∀ (es : List (Nat × image_info)) (st st1 : SelState),
      (∀ e, e ∈ es → e.2 ∈ info) → (∀ r, r ∈ st.pq → fromCatalog info q r) →
      sel_replace q scores es st = .ok st1 →
      ∀ r, r ∈ st1.pq → fromCatalog info q r := by
  intro es
  induction es with
  | nil =>
    intro st st1 _ hst h
    simp only [sel_replace, Except.ok.injEq] at h
    rw [← h]; exact hst
  | cons e es ih =>
    intro st st1 hes hst h
    have hes1 : ∀ x, x ∈ es → x.2 ∈ info := fun x hx => hes x (List.mem_cons_of_mem _ hx)
    have he : e.2 ∈ info := hes e (List.mem_cons_self _ _)
    unfold sel_replace at h
    cases hs : scores[e.1]? with
    | none => rw [hs] at h; simp at h
    | some s =>
      rw [hs] at h
      cases hpq : st.pq with
      | nil => rw [hpq] at h; simp at h
      | cons top rest =>
        rw [hpq] at h
        simp only at h
        by_cases hlt : s < top.score
        · rw [if_pos hlt] at h
          cases hsk : skip_image e.2 q with
          | true =>
            rw [hsk] at h
            exact ih st st1 hes1 hst h
          | false =>
            rw [hsk] at h
            simp only [Bool.false_eq_true, if_false] at h
            by_cases hu : hasFlag q.flags flag_uniqueset = true
            · rw [if_pos hu] at h
              cases hd : sel_drain (sel_push q st s e).pq (sel_push q st s e).sets
                  (sel_push q st s e).need with
              | error err => rw [hd] at h; simp at h
              | ok st2 =>
                rw [hd] at h
                apply ih st2 st1 hes1 _ h
                intro r hr
                exact sel_push_fromCatalog info q st s e hst he hsk r
                  (sel_drain_subset _ _ _ st2 hd r hr)
            · rw [if_neg hu] at h
              apply ih _ st1 hes1 _ h
              intro r hr
              have hr1 : r ∈ pq_push { score := s, ind := e.1, info := e.2 } rest := hr
              rw [mem_pq_push] at hr1
              rcases hr1 with h1 | h1
              · rw [h1]; exact ⟨he, hsk⟩
              · apply hst; rw [hpq]; exact List.mem_cons_of_mem _ h1
        · rw [if_neg hlt] at h
          exact ih st st1 hes1 hst h

theorem sel_emit_ids (q : queryArg) (scale : Int) :
    ∀ (pq : List sim_result) (sets : Nat → Nat) (v : sim_value),
      v ∈ sel_emit q scale pq sets → ∃ r, r ∈ pq ∧ v.id = r.info.id := by
  intro pq
  induction pq with
  | nil => intro sets v h; simp [sel_emit] at h
  | cons top rest ih =>
    intro sets v h
    unfold sel_emit at h
    split at h
    · simp only at h
      split at h
      · rcases List.mem_cons.mp h with h1 | h1
        · exact ⟨top, List.mem_cons_self _ _, by rw [h1]⟩
        · obtain ⟨r, hr, hv⟩ := ih _ v h1
          exact ⟨r, List.mem_cons_of_mem _ hr, hv⟩
      · obtain ⟨r, hr, hv⟩ := ih _ v h
        exact ⟨r, List.mem_cons_of_mem _ hr, hv⟩
    · rcases List.mem_cons.mp h with h1 | h1
      · exact ⟨top, List.mem_cons_self _ _, by rw [h1]⟩
      · obtain ⟨r, hr, hv⟩ := ih _ v h1
        exact ⟨r, List.mem_cons_of_mem _ hr, hv⟩

theorem mem_indexedFrom {α : Type} : ∀ (l : List α) (n : Nat) (e : Nat × α),
    e ∈ indexedFrom n l → e.2 ∈ l := by
  intro l
  induction l with
  | nil => intro n e h; simp [indexedFrom] at h
  | cons x xs ih =>
    intro n e h
    unfold indexedFrom at h
    rcases List.mem_cons.mp h with h1 | h1
    · rw [h1]; exact List.mem_cons_self _ _
    · exact List.mem_cons_of_mem _ (ih (n + 1) e h1)

theorem skip_image_false_live (e : image_info) (q : queryArg) (h : skip_image e q = false) :
    e.avgl.v0 ≠ 0 := by
  unfold skip_image at h
  intro h0
  rw [h0] at h
  simp at h

/-- Every result of `do_query` carries the id of an entry of `m_info` that is not a tombstone. -/
theorem do_query_results_live (db : dbSpaceImpl_true) (q : queryArg) (nc : Nat)
    (V : List sim_value) (h : db.do_query q nc = .ok V) (v : sim_value) (hv : v ∈ V) :
    ∃ e, e ∈ db.m_info ∧ e.avgl.v0 ≠ 0 ∧ v.id = e.id := by
  unfold dbSpaceImpl_true.do_query at h
  split at h
  · simp at h
  · cases hsc : score_phase db q nc with
    | error err => rw [hsc] at h; simp at h
    | ok p =>
      obtain ⟨scale, scores⟩ := p
      rw [hsc] at h
      simp only at h
      cases hsel : select_phase db q scores with
      | error err => rw [hsel] at h; simp at h
      | ok st =>
        rw [hsel] at h
        simp only [Except.ok.injEq] at h
        rw [← h, List.mem_reverse] at hv
        obtain ⟨r, hr, hid⟩ := sel_emit_ids q _ _ _ v hv
        have hall : ∀ r, r ∈ st.pq → fromCatalog db.m_info q r := by
          unfold select_phase at hsel
          cases hf : sel_fill q scores (indexedFrom 0 db.m_info)
              { pq := [], sets := fun _ => 0, need := q.numres % 4294967296 } with
          | error err => rw [hf] at hsel; simp at hsel
          | ok p1 =>
            obtain ⟨st0, rest⟩ := p1
            rw [hf] at hsel
            simp only at hsel
            have h1 := sel_fill_fromCatalog db.m_info q scores _ _ st0 rest
              (fun e he => mem_indexedFrom _ _ e he) (fun r hr => by simp at hr) hf
            exact sel_replace_fromCatalog db.m_info q scores rest st0 st h1.2 h1.1 hsel
        exact ⟨r.info, (hall r hr).1, skip_image_false_live _ q (hall r hr).2, hid⟩

/-- On a database that satisfies the invariant, every result of `queryImg` carries an id that
`hasImage` finds. -/
theorem queryImg_results_present (db : dbSpaceImpl_true) (hinv : ReadOnlyInv db) (q : queryArg)
    (V : List sim_value) (h : db.queryImg q = .ok V) (v : sim_value) (hv : v ∈ V) :
    db.hasImage v.id = true := by
  have hex : ∃ e, e ∈ db.m_info ∧ e.avgl.v0 ≠ 0 ∧ v.id = e.id := by
    unfold dbSpaceImpl_true.queryImg at h
    split at h
    · exact do_query_results_live db q 1 V h v hv
    · exact do_query_results_live db q 3 V h v hv
  obtain ⟨e, he, hlive, hid⟩ := hex
  obtain ⟨i, hi⟩ := List.getElem?_of_mem he
  have := hinv i e hi hlive
  unfold dbSpaceImpl_true.hasImage
  rw [hid, this]; rfl

/-- C7: in read-only mode, in a state reached from a new database by calls, once
`removeImage id` has returned without an error, and whatever calls follow (adds of other ids,
removals, `setImageRes`, the end of a load) as long as none of them adds `id` again, no result
of `queryImg`, for any query, has the id `id`. -/
theorem readonly_removed_never_returned (db : dbSpaceImpl_true) (hreach : ReadOnlyReachable db)
    (id : imageId) (hrem : (db.removeImage id).2 = none)
    (ops : List ReadOnlyOp)
    (hno : ∀ op, op ∈ ops → ∀ img, op = ReadOnlyOp.add img → img.id ≠ id)
    (q : queryArg) (V : List sim_value)
    (hq : ((db.removeImage id).1.run ops).queryImg q = .ok V) :
    ∀ v, v ∈ V → v.id ≠ id := by
  intro v hv hid
  have hinv := readOnlyInv_of_reachable db hreach
  have hrm := readOnlyInv_remove db id hinv
  have habs := readOnly_absent_run id ops hno (db.removeImage id).1 hrm.1 (hrm.2.2 hrem)
  have hpres := queryImg_results_present _ (readOnlyInv_run ops _ hrm.1) q V hq v hv
  rw [hid, habs] at hpres
  exact Bool.noConfusion hpres

set_option maxRecDepth 100000 in
/-- The theorem `readonly_removed_never_returned` at the database of `sampleA` and `sampleB`:
after the removal of id 1, an add of `sampleBlack`, a `setImageRes` and the end of a load,
`sampleQuery` returns the entry of id 2 only. -/
theorem readonly_removed_never_returned_witness :
    ((sampleDb.removeImage 1).1.run
        [.add sampleBlack, .setImageRes 2 320 200, .load_done]).queryImg sampleQuery
      = .ok [{ id := 2, score := 983731220, width := 320, height := 200 }] ∧
    ∀ v, v ∈ [({ id := 2, score := 983731220, width := 320, height := 200 } : sim_value)] →
      v.id ≠ 1 :=
  ⟨rfl,
   readonly_removed_never_returned sampleDb ⟨false, [.add sampleA, .add sampleB], rfl⟩ 1 rfl
     [.add sampleBlack, .setImageRes 2 320 200, .load_done]
     (by
       intro op hop img he
       simp only [List.mem_cons, List.mem_singleton, List.not_mem_nil, or_false] at hop
       rcases hop with h | h | h
       · rw [h] at he
         injection he with he
         rw [← he]
         decide
       · rw [h] at he; exact ReadOnlyOp.noConfusion he
       · rw [h] at he; exact ReadOnlyOp.noConfusion he)
     sampleQuery _ rfl⟩

/-! ### C14: operations a mode does not support -/

/-- C14. An operation a mode does not support raises `usage_error` and leaves the database as it
was: `save_file` and `rehash` on a read-only (simple) database, `queryImg` and `getImgQueryArg`
on an alter-mode database. -/
theorem unsupported_raises_usage_error :
    (∀ db : dbSpaceImpl_true, db.save_file = (db, some Error.usage_error)) ∧
    (∀ db : dbSpaceImpl_true, db.rehash = (db, some Error.usage_error)) ∧
    (∀ (db : dbSpaceAlter) (q : queryArg), db.queryImg q = (db, .error Error.usage_error)) ∧
    (∀ (db : dbSpaceAlter) (id : imageId),
      db.getImgQueryArg id = (db, .error Error.usage_error)) :=
  ⟨fun _ => rfl, fun _ => rfl, fun _ _ => rfl, fun _ _ => rfl⟩

/-! ### C20: bucket_set::at -/

/-- C20 as stated fails at the coefficient 0: `at(c, 0)` takes the branch of the coefficients
that are not positive and returns the bucket of sign index 1, not 0. The bucket set of the
example holds in each bucket its own sign index. -/
theorem bucket_at_zero_sign :
    bucket_set_at_index 0 = (1, 0) ∧
    (bucket_set.at ({ buckets := fun _ pn _ => pn } : bucket_set Nat) 2 0).1 = 1 ∧
    ({ buckets := fun _ pn _ => pn } : bucket_set Nat).buckets 2 0 0 = 0 := by
  decide

/-- C20, amended. For every colour `c` and every coefficient `coeff` other than 0 with
`|coeff| <= 16383`, `at(c, coeff)` returns the bucket of sign index 1 if `coeff < 0` and 0
if `coeff > 0`, of magnitude `|coeff|` (inside the array), and reports `|coeff|` as index. -/
theorem bucket_at_nonzero {B : Type} (bs : bucket_set B) (c : Nat) (coeff : Int)
    (hb : coeff.natAbs ≤ 16383) (hne : coeff ≠ 0) :
    bs.at c coeff = (bs.buckets c (if coeff < 0 then 1 else 0) coeff.natAbs, coeff.natAbs) ∧
    coeff.natAbs < bucket_set_count_2 := by
  refine ⟨?_, ?_⟩
  · unfold bucket_set.at bucket_set_at_index
    by_cases hpos : 0 < coeff
    · have hneg : ¬ coeff < 0 := by omega
      have h1 : coeff.toNat = coeff.natAbs := by omega
      simp only [if_pos hpos, if_neg hneg, h1]
    · have hneg : coeff < 0 := by omega
      have h1 : (-coeff).toNat = coeff.natAbs := by omega
      simp only [if_neg hpos, if_pos hneg, h1]
  · unfold bucket_set_count_2
    omega

/-- C20, amended, at the coefficient -339 of colour 2: the bucket of sign index 1 and
magnitude 339. -/
theorem bucket_at_nonzero_witness :
    (-339 : Int).natAbs ≤ 16383 ∧ (-339 : Int) ≠ 0 ∧
    bucket_set.at emptyBuckets 2 (-339) = (emptyBuckets.buckets 2 1 339, 339) ∧
    (-339 : Int).natAbs < bucket_set_count_2 :=
  ⟨by decide, by decide, (bucket_at_nonzero emptyBuckets 2 (-339) (by decide) (by decide)).1,
    (bucket_at_nonzero emptyBuckets 2 (-339) (by decide) (by decide)).2⟩

/-! ### C17: the flag `fast` -/

theorem coef_pairs_foldr_mem (nc : Nat) (l : List Nat) (b c : Nat) :
    (b, c) ∈ l.foldr (fun b acc => (List.range nc).map (fun c => (b, c)) ++ acc) []
      ↔ b ∈ l ∧ c < nc := by
  induction l with
  | nil => simp
  | cons x xs ih =>
    simp only [List.foldr_cons, List.mem_append, List.mem_map, List.mem_range, Prod.mk.injEq,
      ih, List.mem_cons]
    constructor
    · rintro (⟨a, ha, hx, hc⟩ | ⟨h1, h2⟩)
      · exact ⟨Or.inl hx.symm, hc ▸ ha⟩
      · exact ⟨Or.inr h1, h2⟩
    · rintro ⟨h1 | h1, h2⟩
      · exact Or.inl ⟨c, h2, h1.symm, rfl⟩
      · exact Or.inr ⟨h1, h2⟩

theorem coef_pairs_fast (flags nc : Nat) (h : hasFlag flags flag_fast = true) :
    coef_pairs flags nc = [] := by
  unfold coef_pairs
  simp [h]

set_option maxRecDepth 100000 in
/-- C17 as stated fails. With the flag `fast` the coefficient loops start at `NUM_COEFS` and
visit no pair at all, not the pairs of `k = 0`: the query with the signature of `sampleA` on
the database of `sampleA` and `sampleB` leaves the scale at 0 and the score of `sampleA` at its
luminance term 0, although the first coefficient of every channel of the query is in a bucket
that lists `sampleA`. -/
theorem fast_looks_up_nothing :
    coef_pairs flag_fast 3 = [] ∧
    score_phase sampleDb (queryArg.ofImgData sampleA 8 flag_fast) 3 = .ok (0, [0, 4635742]) ∧
    (lookedUpBucket sampleDb (queryArg.ofImgData sampleA 8 flag_fast) (0, 0)).indices
      = some [0] := by
  refine ⟨rfl, rfl, rfl⟩

/-- C17, amended. The coefficient loops of a query visit the pair `(k, c)` exactly when the flag
`fast` is not set, `k < NUM_COEFS` and `c` is an active channel; with the flag `fast` they visit
no pair, so that the scores are the luminance terms and the scale stays 0. -/
theorem fast_flag_coefficients (db : dbSpaceImpl_true) (q : queryArg) (nc : Nat) :
    (∀ k c, (k, c) ∈ coef_pairs q.flags nc ↔
      (hasFlag q.flags flag_fast = false ∧ k < NUM_COEFS ∧ c < nc)) ∧
    (hasFlag q.flags flag_fast = true → db.m_info.length ≤ db.m_nextIndex →
      score_phase db q nc
        = .ok (0, db.m_info.map (dc_score (if hasFlag q.flags flag_sketch then 1 else 0) nc q))) := by
  constructor
  · intro k c
    by_cases h : hasFlag q.flags flag_fast = true
    · rw [coef_pairs_fast _ _ h]
      simp [h]
    · have h2 : hasFlag q.flags flag_fast = false := by simpa using h
      unfold coef_pairs
      simp only [h2, Bool.false_eq_true, if_false, Nat.sub_zero]
      rw [coef_pairs_foldr_mem, List.mem_range']
      constructor
      · rintro ⟨⟨i, hi, hk⟩, hc⟩
        exact ⟨trivial, by omega, hc⟩
      · rintro ⟨_, hk, hc⟩
        exact ⟨⟨k, hk, by omega⟩, hc⟩
  · intro h hlen
    unfold score_phase
    simp only
    rw [if_neg (by omega), coef_pairs_fast _ _ h]
    rfl

set_option maxRecDepth 100000 in
/-- C17, amended, at the query with the signature of `sampleA` and the flag `fast` on the
database of `sampleA` and `sampleB`: no pair is visited, the scale is 0 and the scores are the
luminance terms 0 and 4635742; and without the flag the pair `(39, 2)` is visited. -/
theorem fast_flag_coefficients_witness :
    hasFlag (queryArg.ofImgData sampleA 8 flag_fast).flags flag_fast = true ∧
    sampleDb.m_info.length ≤ sampleDb.m_nextIndex ∧
    (∀ k c, (k, c) ∈ coef_pairs (queryArg.ofImgData sampleA 8 flag_fast).flags 3 ↔
      (hasFlag (queryArg.ofImgData sampleA 8 flag_fast).flags flag_fast = false ∧
        k < NUM_COEFS ∧ c < 3)) ∧
    score_phase sampleDb (queryArg.ofImgData sampleA 8 flag_fast) 3 = .ok (0, [0, 4635742]) ∧
    (39, 2) ∈ coef_pairs (queryArg.ofImgData sampleA 8 0).flags 3 :=
  ⟨rfl, by decide,
    (fast_flag_coefficients sampleDb (queryArg.ofImgData sampleA 8 flag_fast) 3).1,
    (fast_flag_coefficients sampleDb (queryArg.ofImgData sampleA 8 flag_fast) 3).2 rfl
      (by decide),
    ((fast_flag_coefficients sampleDb (queryArg.ofImgData sampleA 8 0) 3).1 39 2).2
      ⟨rfl, by decide, by decide⟩⟩

/-! ### C12: the index of a new image -/

/-- In read-only mode a successful `addImageData` maps the id to the value of `m_nextIndex`
before the call, stores the entry at that position of `m_info`, and increases `m_nextIndex` by
one. -/
theorem readonly_add_index (db : dbSpaceImpl_true) (img : ImgData)
    (h : (db.addImageData img).2 = none) :
    imageIdMap_find (db.addImageData img).1.m_images img.id = some db.m_nextIndex ∧
    (db.addImageData img).1.m_nextIndex = db.m_nextIndex + 1 ∧
    ((db.addImageData img).1.m_info[db.m_nextIndex]?).map (fun e => e.id) = some img.id := by
  unfold dbSpaceImpl_true.addImageData at h ⊢
  by_cases hp : db.hasImage img.id = true
  · rw [if_pos hp] at h; simp at h
  · rw [if_neg hp] at h ⊢
    simp only at h ⊢
    by_cases hlen : db.m_info.length < db.m_nextIndex
    · rw [if_pos hlen] at h; simp at h
    · rw [if_neg hlen] at h ⊢
      have hinfo : ∀ entry : image_info,
          ((if db.m_nextIndex = db.m_info.length then db.m_info ++ [entry]
            else db.m_info.set db.m_nextIndex entry)[db.m_nextIndex]?).map (fun e => e.id)
            = some entry.id := by
        intro entry
        by_cases hat : db.m_nextIndex = db.m_info.length
        · rw [if_pos hat, hat, List.getElem?_append_right (Nat.le_refl _), Nat.sub_self]
          rfl
        · rw [if_neg hat, List.getElem?_set]
          rw [if_pos rfl, if_pos (by omega)]
          rfl
      by_cases hsf : db.has_sigFile = true
      · rw [if_pos hsf] at h ⊢
        by_cases hofs : db.m_cacheOfs ≠ db.m_nextIndex * sizeof_ImgData
        · rw [if_pos hofs] at h; simp at h
        · rw [if_neg hofs]
          exact ⟨imageIdMap_find_set_same _ _ _, rfl, hinfo _⟩
      · rw [if_neg hsf]
        exact ⟨imageIdMap_find_set_same _ _ _, rfl, hinfo _⟩

/-- C12, the failing case. In normal mode `addImageData` of `sampleA` to a new database returns
normally and moves `m_nextIndex` from 0 to 1, but the `SigStruct` of the image has no index:
the constructor `SigStruct(ofs)` and `init` do not assign `index`, and `addImageData` passes the
counter to the buckets only, which store the id. -/
theorem normal_add_leaves_index_unset :
    (dbSpaceImpl_false.create.addImageData sampleA).2 = none ∧
    dbSpaceImpl_false.create.m_nextIndex = 0 ∧
    (dbSpaceImpl_false.create.addImageData sampleA).1.m_nextIndex = 1 ∧
    (imageIdMap_find (dbSpaceImpl_false.create.addImageData sampleA).1.m_images sampleA.id).map
      (fun s => s.index) = some none := by
  decide

/-! ### C18: grayscale signatures -/

theorem modify_buckets {B : Type} (bs : bucket_set B) (c0 pn k : Nat) (f : B → B)
    (c p i : Nat) :
    (bs.modify c0 pn k f).buckets c p i
      = if c = c0 ∧ p = pn ∧ i = k then f (bs.buckets c p i) else bs.buckets c p i := by
  unfold bucket_set.modify
  simp only
  by_cases h : c = c0 ∧ p = pn ∧ i = k
  · obtain ⟨h1, h2, h3⟩ := h
    subst h1; subst h2; subst h3
    simp
  · rw [if_neg h, if_neg h]

/-- The bucket `(c, p, i)` after the statements of `bucket_set::add` for one coefficient. -/
theorem add_coef_buckets {B : Type} (addB : B → imageId → Nat → B) (bs : bucket_set B)
    (c0 : Nat) (x : Int) (id : imageId) (index : Nat) (c p i : Nat) :
    (bs.add_coef addB c0 x id index).buckets c p i
      = if coefHit c0 x c p i then addB (bs.buckets c p i) id index else bs.buckets c p i := by
  unfold bucket_set.add_coef coefHit
  by_cases hpos : 0 < x
  · rw [if_pos hpos, modify_buckets]
    have hneg : ¬ x < 0 := by omega
    have h1 : x.toNat = x.natAbs := by omega
    have hx : x ≠ 0 := by omega
    simp only [if_neg hneg, h1, hx, ne_eq, not_false_eq_true, true_and]
  · rw [if_neg hpos]
    by_cases hneg : x < 0
    · rw [if_pos hneg, modify_buckets]
      have h1 : (-x).toNat = x.natAbs := by omega
      have hx : x ≠ 0 := by omega
      simp only [if_pos hneg, h1, hx, ne_eq, not_false_eq_true, true_and]
    · rw [if_neg hneg]
      have hx : x = 0 := by omega
      simp [hx]

theorem add_gray_upto {B : Type} (addB : B → imageId → Nat → B) (nsig : ImgData) (index : Nat)
    (hg : is_grayscale (avglf2i nsig.avglf) = true) (n : Nat) :
    ∀ (bs : bucket_set B) (c p i : Nat),
      (((List.range n).foldl (bucket_set.add_step addB nsig index) bs).buckets c p i)
        = if c = 0 then (fun b => addB b nsig.id index)^[lumaHits nsig p i n] (bs.buckets c p i)
          else bs.buckets c p i := by
  induction n with
  | zero =>
    intro bs c p i
    simp [lumaHits]
  | succ n ih =>
    intro bs c p i
    rw [List.range_succ, List.foldl_append]
    simp only [List.foldl_cons, List.foldl_nil]
    have hstep : ∀ (b0 : bucket_set B) (k : Nat), bucket_set.add_step addB nsig index b0 k
        = b0.add_coef addB 0 (sigAt nsig.sig1 k) nsig.id index := by
      intro b0 k
      unfold bucket_set.add_step
      simp only [hg, if_true]
    rw [hstep, add_coef_buckets, ih]
    have hl : lumaHits nsig p i (n + 1)
        = lumaHits nsig p i n + (if coefHit 0 (sigAt nsig.sig1 n) 0 p i then 1 else 0) := by
      unfold lumaHits
      rw [List.range_succ, List.filter_append, List.length_append]
      by_cases hh : coefHit 0 (sigAt nsig.sig1 n) 0 p i
      · simp [hh]
      · simp [hh]
    by_cases hc : c = 0
    · subst hc
      simp only [if_true]
      by_cases hh : coefHit 0 (sigAt nsig.sig1 n) 0 p i
      · rw [if_pos hh, hl, if_pos hh, Function.iterate_succ_apply']
      · rw [if_neg hh, hl, if_neg hh, Nat.add_zero]
    · rw [if_neg hc]
      have : ¬ coefHit 0 (sigAt nsig.sig1 n) c p i := fun hh => hc hh.1
      rw [if_neg this, if_neg hc]

/-- C18. For a signature that `is_grayscale` classifies as grayscale, `bucket_set::add` leaves
every bucket of the channels 1 and 2 as it was and applies the `add` of the bucket type to the
bucket `(0, pn, idx)` once for each `k < NUM_COEFS` whose coefficient `sig1[k]` is not zero and
has that sign and magnitude; and `queryImg` with a query whose averages are grayscale runs
`do_query<1>`, whose coefficient loops visit channel 0 only and whose luminance term is the
term of channel 0. -/
theorem grayscale_channel_zero_only {B : Type} (addB : B → imageId → Nat → B)
    (bs : bucket_set B) (nsig : ImgData) (index : Nat)
    (hg : is_grayscale (avglf2i nsig.avglf) = true) :
    (∀ c p i, c ≠ 0 → (bs.add addB nsig index).buckets c p i = bs.buckets c p i) ∧
    (∀ p i, (bs.add addB nsig index).buckets 0 p i
      = (fun b => addB b nsig.id index)^[lumaHits nsig p i NUM_COEFS] (bs.buckets 0 p i)) ∧
    (∀ (db : dbSpaceImpl_true) (q : queryArg), is_grayscale q.avgl = true →
      db.queryImg q = db.do_query q 1 ∧
      (∀ bc, bc ∈ coef_pairs q.flags 1 → bc.2 = 0) ∧
      ∀ (sketch : Nat) (e : image_info), dc_score sketch 1 q e
        = toScore (0 + DScSc (toDScore
            (weights sketch 0 0 * toScore |toScore (e.avgl.v 0 - q.avgl.v 0)|)))) := by
  refine ⟨?_, ?_, ?_⟩
  · intro c p i hc
    unfold bucket_set.add
    rw [add_gray_upto addB nsig index hg, if_neg hc]
  · intro p i
    unfold bucket_set.add
    rw [add_gray_upto addB nsig index hg, if_pos rfl]
  · intro db q hq
    refine ⟨?_, ?_, ?_⟩
    · unfold dbSpaceImpl_true.queryImg
      simp [hq]
    · intro bc hbc
      obtain ⟨b, c⟩ := bc
      unfold coef_pairs at hbc
      simp only at hbc
      rw [coef_pairs_foldr_mem] at hbc
      have := hbc.2
      show c = 0
      omega
    · intro sketch e
      rfl

/-- C18 at the grayscale signature `sampleGray`, added to the empty buckets of read-only mode. -/
theorem grayscale_channel_zero_only_witness :
    (∀ c p i, c ≠ 0 →
      ((dbSpaceImpl_true.create false).imgbuckets.add simple_bucket_add sampleGray 0).buckets c p i
        = (dbSpaceImpl_true.create false).imgbuckets.buckets c p i) ∧
    (∀ p i,
      ((dbSpaceImpl_true.create false).imgbuckets.add simple_bucket_add sampleGray 0).buckets 0 p i
      = (fun b => simple_bucket_add b sampleGray.id 0)^[lumaHits sampleGray p i NUM_COEFS]
          ((dbSpaceImpl_true.create false).imgbuckets.buckets 0 p i)) ∧
    (∀ (db : dbSpaceImpl_true) (q : queryArg), is_grayscale q.avgl = true →
      db.queryImg q = db.do_query q 1 ∧
      (∀ bc, bc ∈ coef_pairs q.flags 1 → bc.2 = 0) ∧
      ∀ (sketch : Nat) (e : image_info), dc_score sketch 1 q e
        = toScore (0 + DScSc (toDScore
            (weights sketch 0 0 * toScore |toScore (e.avgl.v 0 - q.avgl.v 0)|)))) :=
  grayscale_channel_zero_only simple_bucket_add (dbSpaceImpl_true.create false).imgbuckets
    sampleGray 0 (by decide)

theorem add_coef_shared_other {B F : Type} (addB : B → F → imageId → Nat → F × B × Option Error)
    (st : F × bucket_set B) (c0 : Nat) (x : Int) (id : imageId) (index : Nat) (c p i : Nat)
    (hc : c ≠ c0) :
    (bucket_set.add_coef_shared addB st c0 x id index).1.2.buckets c p i = st.2.buckets c p i := by
  unfold bucket_set.add_coef_shared
  by_cases hpos : 0 < x
  · rw [if_pos hpos]
    simp only
    rw [modify_buckets, if_neg (fun h => hc h.1)]
  · rw [if_neg hpos]
    by_cases hneg : x < 0
    · rw [if_pos hneg]
      simp only
      rw [modify_buckets, if_neg (fun h => hc h.1)]
    · rw [if_neg hneg]

/-- In normal mode, where the `add` of a bucket also writes the scratch file: for a grayscale
signature `bucket_set::add` leaves every bucket of the channels 1 and 2 as it was. -/
theorem grayscale_add_shared {B F : Type} (addB : B → F → imageId → Nat → F × B × Option Error)
    (nsig : ImgData) (index : Nat) (hg : is_grayscale (avglf2i nsig.avglf) = true)
    (st : F × bucket_set B) (c p i : Nat) (hc : c ≠ 0) :
    (bucket_set.add_shared addB st nsig index).1.2.buckets c p i = st.2.buckets c p i := by
  have hstep : ∀ (s : (F × bucket_set B) × Option Error) (k : Nat),
      (bucket_set.add_step_shared addB nsig index s k).1.2.buckets c p i = s.1.2.buckets c p i := by
    intro s k
    unfold bucket_set.add_step_shared
    split
    · rfl
    · simp only [hg, if_true]
      split <;> exact add_coef_shared_other addB s.1 0 _ nsig.id index c p i hc
  have hall : ∀ (n : Nat) (s : (F × bucket_set B) × Option Error),
      ((List.range n).foldl (bucket_set.add_step_shared addB nsig index) s).1.2.buckets c p i
        = s.1.2.buckets c p i := by
    intro n
    induction n with
    | zero => intro s; rfl
    | succ n ih =>
      intro s
      rw [List.range_succ, List.foldl_append]
      show (bucket_set.add_step_shared addB nsig index _ n).1.2.buckets c p i = _
      rw [hstep, ih]
  exact hall NUM_COEFS (st, none)

/-! ### C16: the flag `nocommon` -/

theorem at_index_snd (coeff : Int) : (bucket_set_at_index coeff).2 = coeff.natAbs := by
  unfold bucket_set_at_index
  split
  · show coeff.toNat = coeff.natAbs
    omega
  · show (-coeff).toNat = coeff.natAbs
    omega

theorem weights_pos (sketch band c : Nat) (hs : sketch < 2) (hb : band < 6) (hc : c < 3) :
    0 < weights sketch band c ∧ weights sketch band c < 2147483648 := by
  interval_cases sketch <;> interval_cases band <;> interval_cases c <;> decide

theorem imgBin_lt (idx : Nat) : imgBin idx < 6 := by
  unfold imgBin
  split
  · rename_i h
    omega
  · omega

theorem calcSim_merge_comm (c : Nat) (s1 s2 : List Int) (fuel : Nat) :
    ∀ (b1 b2 : Nat) (st : Int × Int),
      calcSim_merge c s1 s2 fuel b1 b2 st = calcSim_merge c s2 s1 fuel b2 b1 st := by
  induction fuel with
  | zero => intro b1 b2 st; rfl
  | succ n ih =>
    intro b1 b2 st
    unfold calcSim_merge
    by_cases h1 : b1 < NUM_COEFS ∨ b2 < NUM_COEFS
    · have h1s : b2 < NUM_COEFS ∨ b1 < NUM_COEFS := h1.symm
      rw [if_neg (not_not.mpr h1), if_neg (not_not.mpr h1s)]
      by_cases h2 : NUM_COEFS < b1 ∨ NUM_COEFS < b2
      · rw [if_pos h2, if_pos h2.symm]
      · have h2s : ¬ (NUM_COEFS < b2 ∨ NUM_COEFS < b1) := fun h => h2 h.symm
        rw [if_neg h2, if_neg h2s]
        simp only
        rw [ih]
        have hmin : ∀ x y : Int, (if x < y then x else y) = (if y < x then y else x) := by
          intro x y
          by_cases hxy : x < y
          · rw [if_pos hxy, if_neg (by omega)]
          · rw [if_neg hxy]
            by_cases hyx : y < x
            · rw [if_pos hyx]
            · rw [if_neg hyx]; omega
        have heq : ∀ x y : Int, (x = y) = (y = x) := by
          intro x y; exact propext ⟨Eq.symm, Eq.symm⟩
        rw [hmin (if b1 = NUM_COEFS then INT_MAX else sigAt s1 b1)
          (if b2 = NUM_COEFS then INT_MAX else sigAt s2 b2)]
        simp only [heq (if b1 = NUM_COEFS then INT_MAX else sigAt s1 b1)
          (if b2 = NUM_COEFS then INT_MAX else sigAt s2 b2)]
    · have h1s : ¬ (b2 < NUM_COEFS ∨ b1 < NUM_COEFS) := fun h => h1 h.symm
      rw [if_pos h1, if_pos h1s]

theorem calcSim_colors_comm (d1 d2 : ImgData) (cs : List Nat) :
    ∀ st : Int × Int, calcSim_colors d1 d2 cs st = calcSim_colors d2 d1 cs st := by
  induction cs with
  | nil => intro st; rfl
  | cons c cs ih =>
    intro st
    rw [calcSim_colors, calcSim_colors, calcSim_merge_comm]
    generalize calcSim_merge c (sorted_sig (d2.sig c)) (sorted_sig (d1.sig c))
        (2 * NUM_COEFS + 1) 0 0 st = r
    cases r with
    | none => rfl
    | some r =>
      cases r with
      | error e => rfl
      | ok st1 => exact ih st1

theorem abs_toScore_sub_comm (a b : Int) : |toScore (a - b)| = |toScore (b - a)| := by
  unfold toScore
  rw [abs_eq_abs]
  by_cases h : (a - b + 2147483648) % 4294967296 = 0
  · left
    have h2 : (b - a + 2147483648) % 4294967296 = 0 := by omega
    omega
  · right
    omega

theorem calcSim_sigs_comm (d1 d2 : ImgData) (ic : Bool) :
    calcSim_sigs d1 d2 ic = calcSim_sigs d2 d1 ic := by
  unfold calcSim_sigs
  simp only
  have hc : (ic || is_grayscale (avglf2i d1.avglf) || is_grayscale (avglf2i d2.avglf))
      = (ic || is_grayscale (avglf2i d2.avglf) || is_grayscale (avglf2i d1.avglf)) := by
    cases ic <;> cases is_grayscale (avglf2i d1.avglf) <;>
      cases is_grayscale (avglf2i d2.avglf) <;> rfl
  rw [hc, calcSim_colors_comm]
  have hf : (fun (s : Int) (c : Nat) => toScore (s + DScSc (toDScore
        (toDScore (2 * weights 0 0 c) *
          toScore |toScore ((avglf2i d1.avglf).v c - (avglf2i d2.avglf).v c)|))))
      = (fun (s : Int) (c : Nat) => toScore (s + DScSc (toDScore
        (toDScore (2 * weights 0 0 c) *
          toScore |toScore ((avglf2i d2.avglf).v c - (avglf2i d1.avglf).v c)|)))) := by
    funext s c
    rw [abs_toScore_sub_comm]
  rw [hf]

/-- The rounds of the merge loop never run out: from `b1, b2 <= NUM_COEFS + 1`, a fuel of at
least 1 and at least `2 * NUM_COEFS + 1 - (b1 + b2)` gives a result. -/
theorem ite_one_zero_le (p : Prop) [Decidable p] : (if p then 1 else 0 : Nat) ≤ 1 := by
  split <;> omega

theorem calcSim_merge_isSome (c : Nat) (s1 s2 : List Int) (fuel : Nat) :
    ∀ (b1 b2 : Nat) (st : Int × Int), b1 ≤ NUM_COEFS + 1 → b2 ≤ NUM_COEFS + 1 →
      1 ≤ fuel → 2 * NUM_COEFS + 1 ≤ fuel + (b1 + b2) →
      (calcSim_merge c s1 s2 fuel b1 b2 st).isSome = true := by
  induction fuel with
  | zero =>
    intro b1 b2 st h1 h2 h0 h3
    omega
  | succ n ih =>
    intro b1 b2 st h1 h2 h0 h3
    unfold calcSim_merge
    by_cases hl : b1 < NUM_COEFS ∨ b2 < NUM_COEFS
    · rw [if_neg (not_not.mpr hl)]
      by_cases hu : NUM_COEFS < b1 ∨ NUM_COEFS < b2
      · rw [if_pos hu]; rfl
      · rw [if_neg hu]
        simp only
        have hb1 : b1 ≤ NUM_COEFS := by omega
        have hb2 : b2 ≤ NUM_COEFS := by omega
        generalize (if b1 = NUM_COEFS then INT_MAX else sigAt s1 b1) = x
        generalize (if b2 = NUM_COEFS then INT_MAX else sigAt s2 b2) = y
        have i1 := ite_one_zero_le (x ≤ y)
        have i2 := ite_one_zero_le (y ≤ x)
        have hsum : 1 ≤ (if x ≤ y then 1 else 0) + (if y ≤ x then 1 else 0) := by
          by_cases hle : x ≤ y
          · rw [if_pos hle]
            omega
          · rw [if_neg hle]
            have hle2 : y ≤ x := by omega
            rw [if_pos hle2]
        apply ih
        · omega
        · omega
        · omega
        · omega
    · rw [if_pos hl]; rfl

theorem calcSim_comm_of (get : imageId → Except Error ImgData) (a b : imageId) (ic : Bool)
    (herr : ∀ e1 e2, get a = .error e1 → get b = .error e2 → e1 = e2) :
    calcSim get a b ic = calcSim get b a ic := by
  unfold calcSim
  cases ha : get a with
  | error e1 =>
    cases hb : get b with
    | error e2 => simp only; rw [herr e1 e2 ha hb]
    | ok d2 => rfl
  | ok d1 =>
    cases hb : get b with
    | error e2 => rfl
    | ok d2 => simp only; exact calcSim_sigs_comm d1 d2 ic

theorem calcDiff_comm_of (get : imageId → Except Error ImgData) (a b : imageId) (ic : Bool)
    (herr : ∀ e1 e2, get a = .error e1 → get b = .error e2 → e1 = e2) :
    calcDiff get a b ic = calcDiff get b a ic := by
  unfold calcDiff
  rw [calcSim_comm_of get a b ic herr]

theorem calcSim_colors_isSome (d1 d2 : ImgData) (cs : List Nat) :
    ∀ st : Int × Int, (calcSim_colors d1 d2 cs st).isSome = true := by
  induction cs with
  | nil => intro st; rfl
  | cons c cs ih =>
    intro st
    rw [calcSim_colors]
    have h := calcSim_merge_isSome c (sorted_sig (d1.sig c)) (sorted_sig (d2.sig c))
      (2 * NUM_COEFS + 1) 0 0 st (by omega) (by omega) (by omega) (by omega)
    generalize calcSim_merge c (sorted_sig (d1.sig c)) (sorted_sig (d2.sig c))
        (2 * NUM_COEFS + 1) 0 0 st = r at h
    cases r with
    | none => simp at h
    | some r =>
      cases r with
      | error e => rfl
      | ok st1 => exact ih st1

/-- The embedding of `calcSim` always gives a result: the rounds of the merge loops suffice. -/
theorem calcSim_sigs_isSome (d1 d2 : ImgData) (ic : Bool) :
    (calcSim_sigs d1 d2 ic).isSome = true := by
  unfold calcSim_sigs
  simp only
  generalize hr : calcSim_colors d1 d2 _ _ = r
  have h := calcSim_colors_isSome d1 d2 _ _ ▸ congrArg Option.isSome hr
  cases r with
  | none => simp at h
  | some r =>
    cases r with
    | error e => rfl
    | ok st1 =>
      obtain ⟨score, scale⟩ := st1
      simp only
      split <;> rfl

theorem read_sig_cache_error (cache : SigCache) (ofs : Nat) (e : Error)
    (h : read_sig_cache cache ofs = .error e) : e = Error.io_error := by
  unfold read_sig_cache at h
  split at h
  · simp at h
  · simp only [Except.error.injEq] at h
    exact h.symm

/-- C19. In each of the three modes, for every two ids present in the database and every value
of `ignore_color`, `calcSim(a, b, ignore_color)` equals `calcSim(b, a, ignore_color)` and
`calcDiff(a, b, ignore_color)` equals `calcDiff(b, a, ignore_color)` (the same score, or the
same failure when a signature cannot be read). -/
theorem calcDiff_symmetric (a b : imageId) (ic : Bool) :
    (∀ db : dbSpaceImpl_false, db.hasImage a = true → db.hasImage b = true →
      calcSim db.getImgDataByID a b ic = calcSim db.getImgDataByID b a ic ∧
      calcDiff db.getImgDataByID a b ic = calcDiff db.getImgDataByID b a ic) ∧
    (∀ db : dbSpaceImpl_true, db.hasImage a = true → db.hasImage b = true →
      calcSim db.getImgDataByID a b ic = calcSim db.getImgDataByID b a ic ∧
      calcDiff db.getImgDataByID a b ic = calcDiff db.getImgDataByID b a ic) ∧
    (∀ db : dbSpaceAlter, db.hasImage a = true → db.hasImage b = true →
      calcSim db.getImgDataByID a b ic = calcSim db.getImgDataByID b a ic ∧
      calcDiff db.getImgDataByID a b ic = calcDiff db.getImgDataByID b a ic) := by
  refine ⟨?_, ?_, ?_⟩
  · intro db ha hb
    have herr : ∀ x e, db.hasImage x = true → db.getImgDataByID x = .error e →
        e = Error.io_error := by
      intro x e hx he
      unfold dbSpaceImpl_false.getImgDataByID at he
      unfold dbSpaceImpl_false.hasImage at hx
      cases hf : imageIdMap_find db.m_images x with
      | none => rw [hf] at hx; simp at hx
      | some ss => rw [hf] at he; exact read_sig_cache_error _ _ e he
    have h : ∀ e1 e2, db.getImgDataByID a = .error e1 → db.getImgDataByID b = .error e2 →
        e1 = e2 := fun e1 e2 h1 h2 => (herr a e1 ha h1).trans (herr b e2 hb h2).symm
    exact ⟨calcSim_comm_of _ a b ic h, calcDiff_comm_of _ a b ic h⟩
  · intro db ha hb
    have herr : ∀ x e, db.hasImage x = true → db.getImgDataByID x = .error e →
        e = (if db.has_sigFile = false then Error.usage_error else Error.io_error) := by
      intro x e hx he
      unfold dbSpaceImpl_true.getImgDataByID at he
      unfold dbSpaceImpl_true.hasImage at hx
      by_cases hs : db.has_sigFile = false
      · rw [if_pos hs] at he ⊢
        simp only [Except.error.injEq] at he
        exact he.symm
      · rw [if_neg hs] at he ⊢
        cases hf : imageIdMap_find db.m_images x with
        | none => rw [hf] at hx; simp at hx
        | some ind => rw [hf] at he; exact read_sig_cache_error _ _ e he
    have h : ∀ e1 e2, db.getImgDataByID a = .error e1 → db.getImgDataByID b = .error e2 →
        e1 = e2 := fun e1 e2 h1 h2 => (herr a e1 ha h1).trans (herr b e2 hb h2).symm
    exact ⟨calcSim_comm_of _ a b ic h, calcDiff_comm_of _ a b ic h⟩
  · intro db ha hb
    have herr : ∀ x e, db.hasImage x = true → db.getImgDataByID x = .error e →
        e = Error.io_error := by
      intro x e hx he
      unfold dbSpaceAlter.getImgDataByID at he
      unfold dbSpaceAlter.hasImage at hx
      cases hf : imageIdMap_find db.m_images x with
      | none => rw [hf] at hx; simp at hx
      | some ind =>
        rw [hf] at he
        simp only at he
        cases hg : db.get_sig ind with
        | none => rw [hg] at he; simp only [Except.error.injEq] at he; exact he.symm
        | some sig => rw [hg] at he; simp at he
    have h : ∀ e1 e2, db.getImgDataByID a = .error e1 → db.getImgDataByID b = .error e2 →
        e1 = e2 := fun e1 e2 h1 h2 => (herr a e1 ha h1).trans (herr b e2 hb h2).symm
    exact ⟨calcSim_comm_of _ a b ic h, calcDiff_comm_of _ a b ic h⟩

set_option maxRecDepth 8000 in
/-- C19 on the normal-mode database of `sampleA` (id 1) and `sampleB` (id 2), with
`ignore_color`: both ids are present and the similarity is -20041500 (in units of 2^-20) in
either order. -/
theorem calcDiff_symmetric_witness :
    sampleDbNormal.hasImage 1 = true ∧ sampleDbNormal.hasImage 2 = true ∧
    calcSim sampleDbNormal.getImgDataByID 1 2 true = some (.ok (-20041500)) ∧
    (calcSim sampleDbNormal.getImgDataByID 1 2 true
        = calcSim sampleDbNormal.getImgDataByID 2 1 true ∧
      calcDiff sampleDbNormal.getImgDataByID 1 2 true
        = calcDiff sampleDbNormal.getImgDataByID 2 1 true) :=
  ⟨rfl, rfl, rfl, (calcDiff_symmetric 1 2 true).1 sampleDbNormal rfl rfl⟩

/-! ### C11: rehash -/

theorem cachedSigs_ids (db : dbSpaceImpl_false) (hinv : NormalInv db) :
    db.cachedSigs.map (fun s => s.1.id) = db.getImgIdList := by
  unfold dbSpaceImpl_false.cachedSigs dbSpaceImpl_false.getImgIdList
  have hc := hinv.cache
  generalize db.m_images = l at hc
  induction l with
  | nil => rfl
  | cons p rest ih =>
    obtain ⟨_, sig, hs, hid, _⟩ := hc p.1 p.2 (List.mem_cons_self _ _)
    rw [List.filterMap_cons, hs]
    simp only [List.map_cons]
    rw [ih (fun id ss hm => hc id ss (List.mem_cons_of_mem _ hm)), hid]

/-- Where `rehash` does rebuild the buckets: in every reachable state in which every bucket
holds fewer than 1152 ids, `rehash` returns normally and marks the buckets valid, and every
bucket then holds exactly the ids (the same list) that `bucket_set::add` on empty buckets with
a new scratch file gives for the cached signatures of the images of the catalog; every id a
bucket holds is the id of an image of the catalog. -/
theorem rehash_rebuilds_small_buckets (db : dbSpaceImpl_false) (h : NormalReachable db)
    (hs : ∀ c p i, (db.imgbuckets.buckets c p i).size < 2 * pageImgs + paged_threshold) :
    db.rehash.2 = none ∧ db.rehash.1.m_bucketsValid = true ∧
    db.cachedSigs.map (fun s => s.1.id) = db.getImgIdList ∧
    (reinsertAll db.cachedSigs).2 = none ∧
    (∀ c p i, (db.rehash.1.imgbuckets.buckets c p i).contents db.rehash.1.m_fd
      = ((reinsertAll db.cachedSigs).1.2.buckets c p i).contents (reinsertAll db.cachedSigs).1.1) ∧
    (∀ c p i x, x ∈ (db.rehash.1.imgbuckets.buckets c p i).contents db.rehash.1.m_fd →
      db.rehash.1.hasImage x = true) := by
  have hinv := normalInv_of_reachable db h
  obtain ⟨hinv2, hnone, hvalid, hcont⟩ := normalInv_rehash db hinv (fun c p i =>
    paged_capacity_of_size _ db.m_fd (hinv.allok.each c p i) (hs c p i))
  obtain ⟨rerr, _, rcont⟩ := addAll_contents db.cachedSigs bucket_file.empty emptyBuckets
    emptyBuckets_ok (cachedSigs_wf db hinv)
  refine ⟨hnone, hvalid, cachedSigs_ids db hinv, rerr, ?_, ?_⟩
  · intro c p i
    rw [hcont]
    unfold reinsertAll
    rw [rcont]
    rfl
  · intro c p i x hx
    obtain ⟨ss, sig, hm, _, _⟩ := hinv2.only hvalid c p i x hx
    rw [normal_hasImage_iff]
    exact List.mem_map.mpr ⟨(x, ss), hm, rfl⟩

/-! #### The two buckets of the failing case, block by block -/

theorem paged_push_back_short (b : imageIdIndex_list_paged) (f : bucket_file) (x : imageId)
    (h : b.m_tail.length + 1 < paged_threshold) :
    b.push_back f x = { file := f, bucket := { b with m_tail := b.m_tail ++ [x] }, err := none } := by
  unfold imageIdIndex_list_paged.push_back
  simp only [List.length_append, List.length_singleton]
  rw [if_neg (by omega)]

/-- A `push_back` that fills the tail of a bucket whose pages are full: `resize` adds a page at
the end of the scratch file and the tail is copied into it. -/
theorem paged_push_back_grow_any (b : imageIdIndex_list_paged) (f : bucket_file) (x : imageId)
    (ht : b.m_tail.length + 1 = 128) (hs : b.m_size % 512 = 0) (hc : b.m_capacity = b.m_size)
    (ha : f.size % 4096 = 0) :
    b.push_back f x =
      { file := ({ f with size := f.size + 4096 } : bucket_file).write (f.size / 8) (b.m_tail ++ [x]),
        bucket := { m_pages := b.m_pages ++ [(f.size, 4096)], m_size := b.m_size + 128,
                    m_capacity := b.m_size + 512, m_baseofs := 0, m_tail := [] },
        err := none } := by
  unfold imageIdIndex_list_paged.push_back
  simp only [List.length_append, List.length_singleton, paged_threshold_eq]
  rw [if_pos (by omega)]
  unfold imageIdIndex_list_paged.page_out
  simp only [pageImgs_eq]
  rw [if_pos hs]
  have hg : ({ b with m_tail := b.m_tail ++ [x] } : imageIdIndex_list_paged).m_capacity
      < (({ b with m_tail := b.m_tail ++ [x] } : imageIdIndex_list_paged).size + 511) / 512 * 512 := by
    show b.m_capacity < (b.m_size + (b.m_tail ++ [x]).length + 511) / 512 * 512
    rw [List.length_append, List.length_singleton, hc]
    omega
  rw [paged_resize_grow _ f _ hg (by rw [pageSize_eq]; exact ha)]
  simp only
  have e1 : (({ b with m_tail := b.m_tail ++ [x] } : imageIdIndex_list_paged).size + 511) / 512 * 512
      = b.m_size + 512 := by
    show (b.m_size + (b.m_tail ++ [x]).length + 511) / 512 * 512 = b.m_size + 512
    rw [List.length_append, List.length_singleton]
    omega
  rw [e1]
  have e2 : (b.m_size + 512 - b.m_capacity) * 8 = 4096 := by omega
  simp only [e2]
  unfold imageIdIndex_list_paged.page_copy
  simp only [List.getLast?_concat,
    imageIdIndex_list_paged.size, pageImgMask_eq, pageImgs_eq, pageSize_eq, sizeof_imageId_eq,
    List.length_append, List.length_singleton, hs]
  have e3 : (b.m_size + (b.m_tail.length + 1) + 511) / 512 * 512 = b.m_size + 512 := by omega
  have e4 : min (b.m_tail.length + 1) (512 - 0) = b.m_tail.length + 1 := by omega
  simp only [e3, e4, ne_eq, not_true_eq_false, if_false, ite_false]
  rw [if_neg (by omega)]
  have e5 : (b.m_tail ++ [x]).length = b.m_tail.length + 1 := by simp
  rw [← e5, List.take_length, List.drop_length]
  simp only [Nat.add_sub_cancel, Nat.add_zero, e5, ht]

/-- A `push_back` that fills the tail of a bucket that has room in its pages: the tail is copied
to the page `page_out` finds, at the offset `pos` of the scratch file. -/
theorem paged_push_back_found_any (b : imageIdIndex_list_paged) (f : bucket_file) (x : imageId)
    (back : Nat × Nat) (pos len : Nat)
    (ht : b.m_tail.length + 1 = 128) (hs : b.m_size % 128 = 0)
    (hc : (b.m_size + 128 + 511) / 512 * 512 ≤ b.m_capacity)
    (hback : b.m_pages.getLast? = some back)
    (hfound : (if (b.m_size + 128 + 511) / 512 * 512 ≠ b.m_capacity
        then page_search b.m_size b.m_pages back (b.m_size % 512)
        else ((back.1 + back.2 - 4096, back.2), b.m_size)) = ((pos, len), b.m_size))
    (hfit : pos + 4096 ≤ f.size) :
    b.push_back f x =
      { file := f.write (pos / 8 + b.m_size % 512) (b.m_tail ++ [x]),
        bucket := { b with m_size := b.m_size + 128, m_tail := [] },
        err := none } := by
  unfold imageIdIndex_list_paged.push_back
  simp only [List.length_append, List.length_singleton, paged_threshold_eq]
  rw [if_pos (by omega)]
  have hcopy : ({ b with m_tail := b.m_tail ++ [x] } : imageIdIndex_list_paged).page_copy f
      (b.m_size % 512) =
      { file := f.write (pos / 8 + b.m_size % 512) (b.m_tail ++ [x]),
        bucket := { b with m_size := b.m_size + 128, m_tail := [] },
        err := none } := by
    unfold imageIdIndex_list_paged.page_copy
    simp only [hback, imageIdIndex_list_paged.size, pageImgMask_eq, pageImgs_eq, pageSize_eq,
      sizeof_imageId_eq, List.length_append, List.length_singleton, ht, hfound]
    have e4 : min 128 (512 - b.m_size % 512) = 128 := by omega
    simp only [e4, ne_eq, not_true_eq_false, if_false, ite_false]
    rw [if_neg (by omega)]
    have e5 : (b.m_tail ++ [x]).length = 128 := by simp [ht]
    rw [← e5, List.take_length, List.drop_length]
  unfold imageIdIndex_list_paged.page_out
  simp only [pageImgs_eq]
  by_cases h0 : b.m_size % 512 = 0
  · rw [if_pos h0]
    have hn : ((({ b with m_tail := b.m_tail ++ [x] } : imageIdIndex_list_paged).size + 511)
        / 512 * 512) ≤ ({ b with m_tail := b.m_tail ++ [x] } : imageIdIndex_list_paged).m_capacity := by
      show (b.m_size + (b.m_tail ++ [x]).length + 511) / 512 * 512 ≤ b.m_capacity
      rw [List.length_append, List.length_singleton, ht]
      exact hc
    rw [paged_resize_noop _ f _ hn]
    simp only
    exact hcopy
  · rw [if_neg h0]
    exact hcopy

theorem push_both_cons (f : bucket_file) (a b : imageIdIndex_list_paged) (i : imageId)
    (rest : List imageId) (ra rb : paged_result)
    (ha : a.push_back f i = ra) (hea : ra.err = none)
    (hb : b.push_back ra.file i = rb) (heb : rb.err = none) :
    push_both f a b (i :: rest) = push_both rb.file ra.bucket rb.bucket rest := by
  subst ha
  subst hb
  rw [push_both]
  simp only [hea, heb]

/-- Pushing on two buckets a block of ids that ends with the `push_back` that fills their
tails. -/
theorem push_both_block (f : bucket_file) : ∀ (xs : List imageId) (a b : imageIdIndex_list_paged)
    (x : imageId) (rest : List imageId) (ra rb : paged_result),
    a.m_tail.length + xs.length + 1 ≤ paged_threshold →
    b.m_tail.length + xs.length + 1 ≤ paged_threshold →
    ({ a with m_tail := a.m_tail ++ xs } : imageIdIndex_list_paged).push_back f x = ra →
    ra.err = none →
    ({ b with m_tail := b.m_tail ++ xs } : imageIdIndex_list_paged).push_back ra.file x = rb →
    rb.err = none →
    push_both f a b (xs ++ x :: rest) = push_both rb.file ra.bucket rb.bucket rest := by
  intro xs
  induction xs with
  | nil =>
    intro a b x rest ra rb _ _ hra hea hrb heb
    rw [List.append_nil] at hra hrb
    exact push_both_cons f a b x rest ra rb hra hea hrb heb
  | cons y ys ih =>
    intro a b x rest ra rb hla hlb hra hea hrb heb
    rw [List.length_cons] at hla hlb
    rw [List.cons_append]
    rw [push_both_cons f a b y (ys ++ x :: rest) _ _
      (paged_push_back_short a f y (by omega)) rfl
      (paged_push_back_short b f y (by omega)) rfl]
    apply ih _ _ x rest ra rb
    · simp only [List.length_append, List.length_singleton]; omega
    · simp only [List.length_append, List.length_singleton]; omega
    · simp only [List.append_assoc, List.singleton_append]; exact hra
    · exact hea
    · simp only [List.append_assoc, List.singleton_append]; exact hrb
    · exact heb

theorem range_block (s n : Nat) :
    List.range' s (n + 128) = List.range' s 127 ++ (s + 127) :: List.range' (s + 128) n := by
  have e : n + 128 = (n + 1) + 127 := by omega
  rw [e, ← List.range'_append_1, List.range'_succ (s + 127) n 1]


theorem write_blocks_snoc (f : bucket_file) : ∀ (l : List (Nat × Nat)) (pos s : Nat),
    (f.write_blocks l).write pos (List.range' s 127 ++ [s + 127]) = f.write_blocks (l ++ [(pos, s)]) := by
  intro l
  induction l generalizing f with
  | nil => intro pos s; rfl
  | cons w rest ih =>
    intro pos s
    show ((f.write w.1 (List.range' w.2 127 ++ [w.2 + 127])).write_blocks rest).write pos _ = _
    rw [ih]
    rfl

/-- The `push_back` of the id `s + 127` on a bucket whose tail holds the ids `s` to `s + 126` and
whose pages are full: a page is added at the end of the scratch file for the block. -/
theorem paged_push_back_grow (b : imageIdIndex_list_paged) (W : bucket_file) (S : Nat)
    (l : List (Nat × Nat)) (s : Nat)
    (ht : b.m_tail = List.range' s 127) (hs : b.m_size % 512 = 0) (hc : b.m_capacity = b.m_size)
    (ha : S % 4096 = 0) :
    b.push_back { W.write_blocks l with size := S } (s + 127) =
      { file := { W.write_blocks (l ++ [(S / 8, s)]) with size := S + 4096 },
        bucket := { m_pages := b.m_pages ++ [(S, 4096)], m_size := b.m_size + 128,
                    m_capacity := b.m_size + 512, m_baseofs := 0, m_tail := [] },
        err := none } := by
  rw [← write_blocks_snoc, ← ht]
  exact paged_push_back_grow_any b { W.write_blocks l with size := S } (s + 127)
    (by rw [ht]; simp) hs hc ha

/-- The `push_back` of the id `s + 127` on a bucket whose tail holds the ids `s` to `s + 126` and
whose pages have room: the block is copied to the page `page_out` finds, at the byte offset
`pos` of the scratch file. -/
theorem paged_push_back_found (b : imageIdIndex_list_paged) (W : bucket_file) (S : Nat)
    (l : List (Nat × Nat)) (s : Nat) (back : Nat × Nat) (pos len : Nat)
    (ht : b.m_tail = List.range' s 127) (hs : b.m_size % 128 = 0)
    (hc : (b.m_size + 128 + 511) / 512 * 512 ≤ b.m_capacity)
    (hback : b.m_pages.getLast? = some back)
    (hfound : (if (b.m_size + 128 + 511) / 512 * 512 ≠ b.m_capacity
        then page_search b.m_size b.m_pages back (b.m_size % 512)
        else ((back.1 + back.2 - 4096, back.2), b.m_size)) = ((pos, len), b.m_size))
    (hfit : pos + 4096 ≤ S) :
    b.push_back { W.write_blocks l with size := S } (s + 127) =
      { file := { W.write_blocks (l ++ [(pos / 8 + b.m_size % 512, s)]) with size := S },
        bucket := { b with m_size := b.m_size + 128, m_tail := [] },
        err := none } := by
  rw [← write_blocks_snoc, ← ht]
  exact paged_push_back_found_any b { W.write_blocks l with size := S } (s + 127) back pos len
    (by rw [ht]; simp) hs hc hback hfound hfit

/-- Pushing the ids `s` to `s + 127` on two buckets with empty tails, the last of them filling
the tails. -/
theorem push_both_range_block (f : bucket_file) (a b : imageIdIndex_list_paged) (s n : Nat)
    (ra rb : paged_result) (hta : a.m_tail = []) (htb : b.m_tail = [])
    (hra : ({ a with m_tail := List.range' s 127 } : imageIdIndex_list_paged).push_back f (s + 127)
      = ra) (hea : ra.err = none)
    (hrb : ({ b with m_tail := List.range' s 127 } : imageIdIndex_list_paged).push_back ra.file
      (s + 127) = rb) (heb : rb.err = none) :
    push_both f a b (List.range' s (n + 128))
      = push_both rb.file ra.bucket rb.bucket (List.range' (s + 128) n) := by
  rw [range_block]
  apply push_both_block f (List.range' s 127) a b (s + 127) _ ra rb
  · rw [hta]; simp [paged_threshold_eq]
  · rw [htb]; simp [paged_threshold_eq]
  · rw [hta]; exact hra
  · exact hea
  · rw [htb]; exact hrb
  · exact heb

theorem block_getD (s i : Nat) (hi : i < 128) :
    (List.range' s 127 ++ [s + 127]).getD i 0 = s + i := by
  rw [← List.range'_1_concat s 127, List.getD_eq_getElem?_getD, List.getElem?_range' s 1 hi]
  simp

/-- Reading a file into which blocks were copied at multiples of 128: an entry of the block at
`pos` comes from the last block that was copied there. -/
theorem write_blocks_data (W : bucket_file) (l : List (Nat × Nat))
    (hl : ∀ w, w ∈ l → w.1 % 128 = 0) (pos i : Nat) (hp : pos % 128 = 0) (hi : i < 128) :
    (W.write_blocks l).data (pos + i) =
      match l.reverse.find? (fun w => decide (w.1 = pos)) with
      | some w => w.2 + i
      | none => W.data (pos + i) := by
  induction l using List.reverseRecOn with
  | nil => rfl
  | append_singleton l w ih =>
    rw [← write_blocks_snoc, List.reverse_append, List.reverse_singleton, List.singleton_append,
      List.find?_cons]
    have hw : w.1 % 128 = 0 := hl w (List.mem_append_right _ (List.mem_singleton_self _))
    have hlen : (List.range' w.2 127 ++ [w.2 + 127]).length = 128 := by simp
    by_cases h : w.1 = pos
    · simp only [h, decide_True]
      unfold bucket_file.write
      simp only
      rw [hlen, if_pos ⟨by omega, by omega⟩, Nat.add_sub_cancel_left]
      exact block_getD w.2 i hi
    · simp only [h, decide_False]
      unfold bucket_file.write
      simp only
      rw [hlen, if_neg (by omega)]
      exact ih (fun v hv => hl v (List.mem_append_left _ hv))

theorem range_blocks (g : Nat → imageId) : ∀ k : Nat,
    (List.range (128 * k)).map g
      = (List.range k).flatMap (fun i => (List.range 128).map (fun r => g (128 * i + r))) := by
  intro k
  induction k with
  | zero => rfl
  | succ k ih =>
    have e : List.range (k + 1) = List.range k ++ [k] := List.range_succ k
    rw [Nat.mul_succ, List.range_add, List.map_append, ih, e, List.flatMap_append, List.map_map]
    simp [Function.comp_def]

/-- The ids a bucket of single pages holds, read block by block from a scratch file into which
blocks of 128 ids were copied at multiples of 128: block `i` of the bucket lies at the entry
`m_pages[i / 4].first / 8 + i % 4 * 128` of the file and is the last block copied there. -/
theorem paged_contents_blocks (b : imageIdIndex_list_paged) (W : bucket_file) (S : Nat)
    (l : List (Nat × Nat)) (k : Nat)
    (hp : ∀ pg, pg ∈ b.m_pages → pg.2 = 4096 ∧ pg.1 % 4096 = 0)
    (hs : b.m_size = 128 * k) (hk : k ≤ 4 * b.m_pages.length)
    (hl : ∀ w, w ∈ l → w.1 % 128 = 0) :
    b.contents { W.write_blocks l with size := S } =
      (List.range k).flatMap (fun i =>
        match l.reverse.find?
          (fun w => decide (w.1 = (b.m_pages.getD (i / 4) (0, 0)).1 / 8 + i % 4 * 128)) with
        | some w => List.range' w.2 128
        | none => (List.range 128).map (fun r =>
            W.data ((b.m_pages.getD (i / 4) (0, 0)).1 / 8 + i % 4 * 128 + r))) ++ b.m_tail := by
  unfold imageIdIndex_list_paged.contents
  rw [hs, range_blocks]
  congr 1
  apply List.flatMap_congr
  intro i hi
  have hik : i < k := List.mem_range.mp hi
  have hlt : i / 4 < b.m_pages.length := by omega
  obtain ⟨pg, hpg⟩ : ∃ pg, b.m_pages[i / 4]? = some pg := ⟨_, List.getElem?_eq_getElem hlt⟩
  have hmem : pg ∈ b.m_pages := List.mem_iff_getElem?.mpr ⟨_, hpg⟩
  have hgd : b.m_pages.getD (i / 4) (0, 0) = pg := by
    rw [List.getD_eq_getElem?_getD, hpg]; rfl
  rw [hgd]
  have h1 := (hp pg hmem).1
  have h2 := (hp pg hmem).2
  have hent : ∀ r, r < 128 →
      b.entry { W.write_blocks l with size := S } (128 * i + r)
        = (W.write_blocks l).data (pg.1 / 8 + i % 4 * 128 + r) := by
    intro r hr
    have e1 : (128 * i + r) / pageImgs = i / 4 := by rw [pageImgs_eq]; omega
    rw [paged_entry_one_page b _ (128 * i + r) (fun q hq => by rw [pageSize_eq]; exact (hp q hq).1)
      pg (by rw [e1]; exact hpg)]
    rw [pageImgs_eq, sizeof_imageId_eq]
    show (W.write_blocks l).data _ = _
    congr 1
    omega
  have hpos : (pg.1 / 8 + i % 4 * 128) % 128 = 0 := by omega
  cases hf : l.reverse.find? (fun w => decide (w.1 = pg.1 / 8 + i % 4 * 128)) with
  | none =>
    simp only
    apply List.map_congr_left
    intro r hr
    rw [hent r (List.mem_range.mp hr), write_blocks_data W l hl _ r hpos (List.mem_range.mp hr), hf]
  | some w =>
    simp only
    rw [List.range'_eq_map_range]
    apply List.map_congr_left
    intro r hr
    rw [hent r (List.mem_range.mp hr), write_blocks_data W l hl _ r hpos (List.mem_range.mp hr), hf]

/-- The buckets of `twoBuckets` and their scratch file, block by block: the buckets are given
their pages in turn, and each block of 128 ids is copied into the page of its bucket. A bucket
is written `⟨m_pages, m_size, m_capacity, m_baseofs, m_tail⟩`. -/
theorem twoBuckets_eq :
    twoBuckets =
      ({ bucket_file.empty.write_blocks [(0, 1), (512, 1), (128, 129), (640, 129), (256, 257),
           (768, 257), (384, 385), (896, 385), (1024, 513), (1536, 513), (1152, 641), (1664, 641),
           (1280, 769), (1792, 769), (1408, 897), (1920, 897), (2048, 1025), (2560, 1025)] with size := 24576 },
       (⟨[(0, 4096), (8192, 4096), (16384, 4096)], 1152, 1536, 0, []⟩ : imageIdIndex_list_paged),
       (⟨[(4096, 4096), (12288, 4096), (20480, 4096)], 1152, 1536, 0, []⟩ : imageIdIndex_list_paged),
       none) := by
  have s0 :
      push_both
        { bucket_file.empty.write_blocks [] with size := 0 }
        (⟨[], 0, 0, 0, []⟩ : imageIdIndex_list_paged)
        (⟨[], 0, 0, 0, []⟩ : imageIdIndex_list_paged)
        (List.range' 1 1152)
      = push_both
        { bucket_file.empty.write_blocks [(0, 1), (512, 1)] with size := 8192 }
        (⟨[(0, 4096)], 128, 512, 0, []⟩ : imageIdIndex_list_paged)
        (⟨[(4096, 4096)], 128, 512, 0, []⟩ : imageIdIndex_list_paged)
        (List.range' 129 1024) :=
    push_both_range_block _ _ _ 1 1024
      ({ file :=
            { bucket_file.empty.write_blocks [(0, 1)] with size := 4096 },
         bucket := (⟨[(0, 4096)], 128, 512, 0, []⟩ : imageIdIndex_list_paged),
         err := none } : paged_result)
      ({ file :=
            { bucket_file.empty.write_blocks [(0, 1), (512, 1)] with size := 8192 },
         bucket := (⟨[(4096, 4096)], 128, 512, 0, []⟩ : imageIdIndex_list_paged),
         err := none } : paged_result)
      rfl rfl
      (paged_push_back_grow
        (⟨[], 0, 0, 0, (List.range' 1 127)⟩ : imageIdIndex_list_paged)
        bucket_file.empty 0
        []
        1 rfl (by decide) (by decide) (by decide)) rfl
      (paged_push_back_grow
        (⟨[], 0, 0, 0, (List.range' 1 127)⟩ : imageIdIndex_list_paged)
        bucket_file.empty 4096
        [(0, 1)]
        1 rfl (by decide) (by decide) (by decide)) rfl
  have s1 :
      push_both
        { bucket_file.empty.write_blocks [(0, 1), (512, 1)] with size := 8192 }
        (⟨[(0, 4096)], 128, 512, 0, []⟩ : imageIdIndex_list_paged)
        (⟨[(4096, 4096)], 128, 512, 0, []⟩ : imageIdIndex_list_paged)
        (List.range' 129 1024)
      = push_both
        { bucket_file.empty.write_blocks [(0, 1), (512, 1), (128, 129), (640, 129)] with size := 8192 }
        (⟨[(0, 4096)], 256, 512, 0, []⟩ : imageIdIndex_list_paged)
        (⟨[(4096, 4096)], 256, 512, 0, []⟩ : imageIdIndex_list_paged)
        (List.range' 257 896) :=
    push_both_range_block _ _ _ 129 896
      ({ file :=
            { bucket_file.empty.write_blocks [(0, 1), (512, 1), (128, 129)] with size := 8192 },
         bucket := (⟨[(0, 4096)], 256, 512, 0, []⟩ : imageIdIndex_list_paged),
         err := none } : paged_result)
      ({ file :=
            { bucket_file.empty.write_blocks [(0, 1), (512, 1), (128, 129), (640, 129)] with size := 8192 },
         bucket := (⟨[(4096, 4096)], 256, 512, 0, []⟩ : imageIdIndex_list_paged),
         err := none } : paged_result)
      rfl rfl
      (paged_push_back_found
        (⟨[(0, 4096)], 128, 512, 0, (List.range' 129 127)⟩ : imageIdIndex_list_paged)
        bucket_file.empty 8192
        [(0, 1), (512, 1)]
        129 (0, 4096) 0 4096 rfl (by decide) (by decide) (by decide) (by decide) (by decide)) rfl
      (paged_push_back_found
        (⟨[(4096, 4096)], 128, 512, 0, (List.range' 129 127)⟩ : imageIdIndex_list_paged)
        bucket_file.empty 8192
        [(0, 1), (512, 1), (128, 129)]
        129 (4096, 4096) 4096 4096 rfl (by decide) (by decide) (by decide) (by decide) (by decide)) rfl
  have s2 :
      push_both
        { bucket_file.empty.write_blocks [(0, 1), (512, 1), (128, 129), (640, 129)] with size := 8192 }
        (⟨[(0, 4096)], 256, 512, 0, []⟩ : imageIdIndex_list_paged)
        (⟨[(4096, 4096)], 256, 512, 0, []⟩ : imageIdIndex_list_paged)
        (List.range' 257 896)
      = push_both
        { bucket_file.empty.write_blocks [(0, 1), (512, 1), (128, 129), (640, 129), (256, 257),
            (768, 257)] with size := 8192 }
        (⟨[(0, 4096)], 384, 512, 0, []⟩ : imageIdIndex_list_paged)
        (⟨[(4096, 4096)], 384, 512, 0, []⟩ : imageIdIndex_list_paged)
        (List.range' 385 768) :=
    push_both_range_block _ _ _ 257 768
      ({ file :=
            { bucket_file.empty.write_blocks [(0, 1), (512, 1), (128, 129), (640, 129), (256, 257)] with size := 8192 },
         bucket := (⟨[(0, 4096)], 384, 512, 0, []⟩ : imageIdIndex_list_paged),
         err := none } : paged_result)
      ({ file :=
            { bucket_file.empty.write_blocks [(0, 1), (512, 1), (128, 129), (640, 129),
                (256, 257), (768, 257)] with size := 8192 },
         bucket := (⟨[(4096, 4096)], 384, 512, 0, []⟩ : imageIdIndex_list_paged),
         err := none } : paged_result)
      rfl rfl
      (paged_push_back_found
        (⟨[(0, 4096)], 256, 512, 0, (List.range' 257 127)⟩ : imageIdIndex_list_paged)
        bucket_file.empty 8192
        [(0, 1), (512, 1), (128, 129), (640, 129)]
        257 (0, 4096) 0 4096 rfl (by decide) (by decide) (by decide) (by decide) (by decide)) rfl
      (paged_push_back_found
        (⟨[(4096, 4096)], 256, 512, 0, (List.range' 257 127)⟩ : imageIdIndex_list_paged)
        bucket_file.empty 8192
        [(0, 1), (512, 1), (128, 129), (640, 129), (256, 257)]
        257 (4096, 4096) 4096 4096 rfl (by decide) (by decide) (by decide) (by decide) (by decide)) rfl
  have s3 :
      push_both
        { bucket_file.empty.write_blocks [(0, 1), (512, 1), (128, 129), (640, 129), (256, 257),
            (768, 257)] with size := 8192 }
        (⟨[(0, 4096)], 384, 512, 0, []⟩ : imageIdIndex_list_paged)
        (⟨[(4096, 4096)], 384, 512, 0, []⟩ : imageIdIndex_list_paged)
        (List.range' 385 768)
      = push_both
        { bucket_file.empty.write_blocks [(0, 1), (512, 1), (128, 129), (640, 129), (256, 257),
            (768, 257), (384, 385), (896, 385)] with size := 8192 }
        (⟨[(0, 4096)], 512, 512, 0, []⟩ : imageIdIndex_list_paged)
        (⟨[(4096, 4096)], 512, 512, 0, []⟩ : imageIdIndex_list_paged)
        (List.range' 513 640) :=
    push_both_range_block _ _ _ 385 640
      ({ file :=
            { bucket_file.empty.write_blocks [(0, 1), (512, 1), (128, 129), (640, 129),
                (256, 257), (768, 257), (384, 385)] with size := 8192 },
         bucket := (⟨[(0, 4096)], 512, 512, 0, []⟩ : imageIdIndex_list_paged),
         err := none } : paged_result)
      ({ file :=
            { bucket_file.empty.write_blocks [(0, 1), (512, 1), (128, 129), (640, 129),
                (256, 257), (768, 257), (384, 385), (896, 385)] with size := 8192 },
         bucket := (⟨[(4096, 4096)], 512, 512, 0, []⟩ : imageIdIndex_list_paged),
         err := none } : paged_result)
      rfl rfl
      (paged_push_back_found
        (⟨[(0, 4096)], 384, 512, 0, (List.range' 385 127)⟩ : imageIdIndex_list_paged)
        bucket_file.empty 8192
        [(0, 1), (512, 1), (128, 129), (640, 129), (256, 257), (768, 257)]
        385 (0, 4096) 0 4096 rfl (by decide) (by decide) (by decide) (by decide) (by decide)) rfl
      (paged_push_back_found
        (⟨[(4096, 4096)], 384, 512, 0, (List.range' 385 127)⟩ : imageIdIndex_list_paged)
        bucket_file.empty 8192
        [(0, 1), (512, 1), (128, 129), (640, 129), (256, 257), (768, 257), (384, 385)]
        385 (4096, 4096) 4096 4096 rfl (by decide) (by decide) (by decide) (by decide) (by decide)) rfl
  have s4 :
      push_both
        { bucket_file.empty.write_blocks [(0, 1), (512, 1), (128, 129), (640, 129), (256, 257),
            (768, 257), (384, 385), (896, 385)] with size := 8192 }
        (⟨[(0, 4096)], 512, 512, 0, []⟩ : imageIdIndex_list_paged)
        (⟨[(4096, 4096)], 512, 512, 0, []⟩ : imageIdIndex_list_paged)
        (List.range' 513 640)
      = push_both
        { bucket_file.empty.write_blocks [(0, 1), (512, 1), (128, 129), (640, 129), (256, 257),
            (768, 257), (384, 385), (896, 385), (1024, 513), (1536, 513)] with size := 16384 }
        (⟨[(0, 4096), (8192, 4096)], 640, 1024, 0, []⟩ : imageIdIndex_list_paged)
        (⟨[(4096, 4096), (12288, 4096)], 640, 1024, 0, []⟩ : imageIdIndex_list_paged)
        (List.range' 641 512) :=
    push_both_range_block _ _ _ 513 512
      ({ file :=
            { bucket_file.empty.write_blocks [(0, 1), (512, 1), (128, 129), (640, 129),
                (256, 257), (768, 257), (384, 385), (896, 385), (1024, 513)] with size := 12288 },
         bucket := (⟨[(0, 4096), (8192, 4096)], 640, 1024, 0, []⟩ : imageIdIndex_list_paged),
         err := none } : paged_result)
      ({ file :=
            { bucket_file.empty.write_blocks [(0, 1), (512, 1), (128, 129), (640, 129),
                (256, 257), (768, 257), (384, 385), (896, 385), (1024, 513), (1536, 513)] with size := 16384 },
         bucket := (⟨[(4096, 4096), (12288, 4096)], 640, 1024, 0, []⟩ : imageIdIndex_list_paged),
         err := none } : paged_result)
      rfl rfl
      (paged_push_back_grow
        (⟨[(0, 4096)], 512, 512, 0, (List.range' 513 127)⟩ : imageIdIndex_list_paged)
        bucket_file.empty 8192
        [(0, 1), (512, 1), (128, 129), (640, 129), (256, 257), (768, 257), (384, 385), (896, 385)]
        513 rfl (by decide) (by decide) (by decide)) rfl
      (paged_push_back_grow
        (⟨[(4096, 4096)], 512, 512, 0, (List.range' 513 127)⟩ : imageIdIndex_list_paged)
        bucket_file.empty 12288
        [(0, 1), (512, 1), (128, 129), (640, 129), (256, 257), (768, 257), (384, 385), (896, 385),
         (1024, 513)]
        513 rfl (by decide) (by decide) (by decide)) rfl
  have s5 :
      push_both
        { bucket_file.empty.write_blocks [(0, 1), (512, 1), (128, 129), (640, 129), (256, 257),
            (768, 257), (384, 385), (896, 385), (1024, 513), (1536, 513)] with size := 16384 }
        (⟨[(0, 4096), (8192, 4096)], 640, 1024, 0, []⟩ : imageIdIndex_list_paged)
        (⟨[(4096, 4096), (12288, 4096)], 640, 1024, 0, []⟩ : imageIdIndex_list_paged)
        (List.range' 641 512)
      = push_both
        { bucket_file.empty.write_blocks [(0, 1), (512, 1), (128, 129), (640, 129), (256, 257),
            (768, 257), (384, 385), (896, 385), (1024, 513), (1536, 513), (1152, 641), (1664, 641)] with size := 16384 }
        (⟨[(0, 4096), (8192, 4096)], 768, 1024, 0, []⟩ : imageIdIndex_list_paged)
        (⟨[(4096, 4096), (12288, 4096)], 768, 1024, 0, []⟩ : imageIdIndex_list_paged)
        (List.range' 769 384) :=
    push_both_range_block _ _ _ 641 384
      ({ file :=
            { bucket_file.empty.write_blocks [(0, 1), (512, 1), (128, 129), (640, 129),
                (256, 257), (768, 257), (384, 385), (896, 385), (1024, 513), (1536, 513),
                (1152, 641)] with size := 16384 },
         bucket := (⟨[(0, 4096), (8192, 4096)], 768, 1024, 0, []⟩ : imageIdIndex_list_paged),
         err := none } : paged_result)
      ({ file :=
            { bucket_file.empty.write_blocks [(0, 1), (512, 1), (128, 129), (640, 129),
                (256, 257), (768, 257), (384, 385), (896, 385), (1024, 513), (1536, 513),
                (1152, 641), (1664, 641)] with size := 16384 },
         bucket := (⟨[(4096, 4096), (12288, 4096)], 768, 1024, 0, []⟩ : imageIdIndex_list_paged),
         err := none } : paged_result)
      rfl rfl
      (paged_push_back_found
        (⟨[(0, 4096), (8192, 4096)], 640, 1024, 0, (List.range' 641 127)⟩ : imageIdIndex_list_paged)
        bucket_file.empty 16384
        [(0, 1), (512, 1), (128, 129), (640, 129), (256, 257), (768, 257), (384, 385), (896, 385),
         (1024, 513), (1536, 513)]
        641 (8192, 4096) 8192 4096 rfl (by decide) (by decide) (by decide) (by decide) (by decide)) rfl
      (paged_push_back_found
        (⟨[(4096, 4096), (12288, 4096)], 640, 1024, 0, (List.range' 641 127)⟩ : imageIdIndex_list_paged)
        bucket_file.empty 16384
        [(0, 1), (512, 1), (128, 129), (640, 129), (256, 257), (768, 257), (384, 385), (896, 385),
         (1024, 513), (1536, 513), (1152, 641)]
        641 (12288, 4096) 12288 4096 rfl (by decide) (by decide) (by decide) (by decide) (by decide)) rfl
  have s6 :
      push_both
        { bucket_file.empty.write_blocks [(0, 1), (512, 1), (128, 129), (640, 129), (256, 257),
            (768, 257), (384, 385), (896, 385), (1024, 513), (1536, 513), (1152, 641), (1664, 641)] with size := 16384 }
        (⟨[(0, 4096), (8192, 4096)], 768, 1024, 0, []⟩ : imageIdIndex_list_paged)
        (⟨[(4096, 4096), (12288, 4096)], 768, 1024, 0, []⟩ : imageIdIndex_list_paged)
        (List.range' 769 384)
      = push_both
        { bucket_file.empty.write_blocks [(0, 1), (512, 1), (128, 129), (640, 129), (256, 257),
            (768, 257), (384, 385), (896, 385), (1024, 513), (1536, 513), (1152, 641),
            (1664, 641), (1280, 769), (1792, 769)] with size := 16384 }
        (⟨[(0, 4096), (8192, 4096)], 896, 1024, 0, []⟩ : imageIdIndex_list_paged)
        (⟨[(4096, 4096), (12288, 4096)], 896, 1024, 0, []⟩ : imageIdIndex_list_paged)
        (List.range' 897 256) :=
    push_both_range_block _ _ _ 769 256
      ({ file :=
            { bucket_file.empty.write_blocks [(0, 1), (512, 1), (128, 129), (640, 129),
                (256, 257), (768, 257), (384, 385), (896, 385), (1024, 513), (1536, 513),
                (1152, 641), (1664, 641), (1280, 769)] with size := 16384 },
         bucket := (⟨[(0, 4096), (8192, 4096)], 896, 1024, 0, []⟩ : imageIdIndex_list_paged),
         err := none } : paged_result)
      ({ file :=
            { bucket_file.empty.write_blocks [(0, 1), (512, 1), (128, 129), (640, 129),
                (256, 257), (768, 257), (384, 385), (896, 385), (1024, 513), (1536, 513),
                (1152, 641), (1664, 641), (1280, 769), (1792, 769)] with size := 16384 },
         bucket := (⟨[(4096, 4096), (12288, 4096)], 896, 1024, 0, []⟩ : imageIdIndex_list_paged),
         err := none } : paged_result)
      rfl rfl
      (paged_push_back_found
        (⟨[(0, 4096), (8192, 4096)], 768, 1024, 0, (List.range' 769 127)⟩ : imageIdIndex_list_paged)
        bucket_file.empty 16384
        [(0, 1), (512, 1), (128, 129), (640, 129), (256, 257), (768, 257), (384, 385), (896, 385),
         (1024, 513), (1536, 513), (1152, 641), (1664, 641)]
        769 (8192, 4096) 8192 4096 rfl (by decide) (by decide) (by decide) (by decide) (by decide)) rfl
      (paged_push_back_found
        (⟨[(4096, 4096), (12288, 4096)], 768, 1024, 0, (List.range' 769 127)⟩ : imageIdIndex_list_paged)
        bucket_file.empty 16384
        [(0, 1), (512, 1), (128, 129), (640, 129), (256, 257), (768, 257), (384, 385), (896, 385),
         (1024, 513), (1536, 513), (1152, 641), (1664, 641), (1280, 769)]
        769 (12288, 4096) 12288 4096 rfl (by decide) (by decide) (by decide) (by decide) (by decide)) rfl
  have s7 :
      push_both
        { bucket_file.empty.write_blocks [(0, 1), (512, 1), (128, 129), (640, 129), (256, 257),
            (768, 257), (384, 385), (896, 385), (1024, 513), (1536, 513), (1152, 641),
            (1664, 641), (1280, 769), (1792, 769)] with size := 16384 }
        (⟨[(0, 4096), (8192, 4096)], 896, 1024, 0, []⟩ : imageIdIndex_list_paged)
        (⟨[(4096, 4096), (12288, 4096)], 896, 1024, 0, []⟩ : imageIdIndex_list_paged)
        (List.range' 897 256)
      = push_both
        { bucket_file.empty.write_blocks [(0, 1), (512, 1), (128, 129), (640, 129), (256, 257),
            (768, 257), (384, 385), (896, 385), (1024, 513), (1536, 513), (1152, 641),
            (1664, 641), (1280, 769), (1792, 769), (1408, 897), (1920, 897)] with size := 16384 }
        (⟨[(0, 4096), (8192, 4096)], 1024, 1024, 0, []⟩ : imageIdIndex_list_paged)
        (⟨[(4096, 4096), (12288, 4096)], 1024, 1024, 0, []⟩ : imageIdIndex_list_paged)
        (List.range' 1025 128) :=
    push_both_range_block _ _ _ 897 128
      ({ file :=
            { bucket_file.empty.write_blocks [(0, 1), (512, 1), (128, 129), (640, 129),
                (256, 257), (768, 257), (384, 385), (896, 385), (1024, 513), (1536, 513),
                (1152, 641), (1664, 641), (1280, 769), (1792, 769), (1408, 897)] with size := 16384 },
         bucket := (⟨[(0, 4096), (8192, 4096)], 1024, 1024, 0, []⟩ : imageIdIndex_list_paged),
         err := none } : paged_result)
      ({ file :=
            { bucket_file.empty.write_blocks [(0, 1), (512, 1), (128, 129), (640, 129),
                (256, 257), (768, 257), (384, 385), (896, 385), (1024, 513), (1536, 513),
                (1152, 641), (1664, 641), (1280, 769), (1792, 769), (1408, 897), (1920, 897)] with size := 16384 },
         bucket := (⟨[(4096, 4096), (12288, 4096)], 1024, 1024, 0, []⟩ : imageIdIndex_list_paged),
         err := none } : paged_result)
      rfl rfl
      (paged_push_back_found
        (⟨[(0, 4096), (8192, 4096)], 896, 1024, 0, (List.range' 897 127)⟩ : imageIdIndex_list_paged)
        bucket_file.empty 16384
        [(0, 1), (512, 1), (128, 129), (640, 129), (256, 257), (768, 257), (384, 385), (896, 385),
         (1024, 513), (1536, 513), (1152, 641), (1664, 641), (1280, 769), (1792, 769)]
        897 (8192, 4096) 8192 4096 rfl (by decide) (by decide) (by decide) (by decide) (by decide)) rfl
      (paged_push_back_found
        (⟨[(4096, 4096), (12288, 4096)], 896, 1024, 0, (List.range' 897 127)⟩ : imageIdIndex_list_paged)
        bucket_file.empty 16384
        [(0, 1), (512, 1), (128, 129), (640, 129), (256, 257), (768, 257), (384, 385), (896, 385),
         (1024, 513), (1536, 513), (1152, 641), (1664, 641), (1280, 769), (1792, 769), (1408, 897)]
        897 (12288, 4096) 12288 4096 rfl (by decide) (by decide) (by decide) (by decide) (by decide)) rfl
  have s8 :
      push_both
        { bucket_file.empty.write_blocks [(0, 1), (512, 1), (128, 129), (640, 129), (256, 257),
            (768, 257), (384, 385), (896, 385), (1024, 513), (1536, 513), (1152, 641),
            (1664, 641), (1280, 769), (1792, 769), (1408, 897), (1920, 897)] with size := 16384 }
        (⟨[(0, 4096), (8192, 4096)], 1024, 1024, 0, []⟩ : imageIdIndex_list_paged)
        (⟨[(4096, 4096), (12288, 4096)], 1024, 1024, 0, []⟩ : imageIdIndex_list_paged)
        (List.range' 1025 128)
      = push_both
        { bucket_file.empty.write_blocks [(0, 1), (512, 1), (128, 129), (640, 129), (256, 257),
            (768, 257), (384, 385), (896, 385), (1024, 513), (1536, 513), (1152, 641),
            (1664, 641), (1280, 769), (1792, 769), (1408, 897), (1920, 897), (2048, 1025),
            (2560, 1025)] with size := 24576 }
        (⟨[(0, 4096), (8192, 4096), (16384, 4096)], 1152, 1536, 0, []⟩ : imageIdIndex_list_paged)
        (⟨[(4096, 4096), (12288, 4096), (20480, 4096)], 1152, 1536, 0, []⟩ : imageIdIndex_list_paged)
        (List.range' 1153 0) :=
    push_both_range_block _ _ _ 1025 0
      ({ file :=
            { bucket_file.empty.write_blocks [(0, 1), (512, 1), (128, 129), (640, 129),
                (256, 257), (768, 257), (384, 385), (896, 385), (1024, 513), (1536, 513),
                (1152, 641), (1664, 641), (1280, 769), (1792, 769), (1408, 897), (1920, 897),
                (2048, 1025)] with size := 20480 },
         bucket := (⟨[(0, 4096), (8192, 4096), (16384, 4096)], 1152, 1536, 0, []⟩ : imageIdIndex_list_paged),
         err := none } : paged_result)
      ({ file :=
            { bucket_file.empty.write_blocks [(0, 1), (512, 1), (128, 129), (640, 129),
                (256, 257), (768, 257), (384, 385), (896, 385), (1024, 513), (1536, 513),
                (1152, 641), (1664, 641), (1280, 769), (1792, 769), (1408, 897), (1920, 897),
                (2048, 1025), (2560, 1025)] with size := 24576 },
         bucket := (⟨[(4096, 4096), (12288, 4096), (20480, 4096)], 1152, 1536, 0, []⟩ : imageIdIndex_list_paged),
         err := none } : paged_result)
      rfl rfl
      (paged_push_back_grow
        (⟨[(0, 4096), (8192, 4096)], 1024, 1024, 0, (List.range' 1025 127)⟩ : imageIdIndex_list_paged)
        bucket_file.empty 16384
        [(0, 1), (512, 1), (128, 129), (640, 129), (256, 257), (768, 257), (384, 385), (896, 385),
         (1024, 513), (1536, 513), (1152, 641), (1664, 641), (1280, 769), (1792, 769),
         (1408, 897), (1920, 897)]
        1025 rfl (by decide) (by decide) (by decide)) rfl
      (paged_push_back_grow
        (⟨[(4096, 4096), (12288, 4096)], 1024, 1024, 0, (List.range' 1025 127)⟩ : imageIdIndex_list_paged)
        bucket_file.empty 20480
        [(0, 1), (512, 1), (128, 129), (640, 129), (256, 257), (768, 257), (384, 385), (896, 385),
         (1024, 513), (1536, 513), (1152, 641), (1664, 641), (1280, 769), (1792, 769),
         (1408, 897), (1920, 897), (2048, 1025)]
        1025 rfl (by decide) (by decide) (by decide)) rfl
  show push_both bucket_file.empty imageIdIndex_list_paged.empty imageIdIndex_list_paged.empty
    (List.range' 1 1152) = _
  exact s0.trans (s1.trans (s2.trans (s3.trans (s4.trans (s5.trans (s6.trans (s7.trans (s8))))))))

/-- The buckets of `twoBucketsRehashed` and their scratch file, block by block: the blocks
513 to 1024 of the first bucket are copied to the entries 512 to 1023 of the file, the first page
of the second bucket, and those of the second bucket to the entries 1024 to 1535, the second
page of the first bucket. -/
theorem twoBucketsRehashed_eq :
    twoBucketsRehashed =
      ({ bucket_file.empty.write_blocks [(0, 1), (512, 1), (128, 129), (640, 129), (256, 257),
           (768, 257), (384, 385), (896, 385), (1024, 513), (1536, 513), (1152, 641), (1664, 641),
           (1280, 769), (1792, 769), (1408, 897), (1920, 897), (2048, 1025), (2560, 1025), (0, 1),
           (512, 1), (128, 129), (640, 129), (256, 257), (768, 257), (384, 385), (896, 385),
           (512, 513), (1024, 513), (640, 641), (1152, 641), (768, 769), (1280, 769), (896, 897),
           (1408, 897), (2048, 1025), (2560, 1025)] with size := 24576 },
       (⟨[(0, 4096), (8192, 4096), (16384, 4096)], 1152, 1536, 0, []⟩ : imageIdIndex_list_paged),
       (⟨[(4096, 4096), (12288, 4096), (20480, 4096)], 1152, 1536, 0, []⟩ : imageIdIndex_list_paged),
       none) := by
  have s0 :
      push_both
        { bucket_file.empty.write_blocks [(0, 1), (512, 1), (128, 129), (640, 129), (256, 257),
            (768, 257), (384, 385), (896, 385), (1024, 513), (1536, 513), (1152, 641),
            (1664, 641), (1280, 769), (1792, 769), (1408, 897), (1920, 897), (2048, 1025),
            (2560, 1025)] with size := 24576 }
        (⟨[(0, 4096), (8192, 4096), (16384, 4096)], 0, 1536, 0, []⟩ : imageIdIndex_list_paged)
        (⟨[(4096, 4096), (12288, 4096), (20480, 4096)], 0, 1536, 0, []⟩ : imageIdIndex_list_paged)
        (List.range' 1 1152)
      = push_both
        { bucket_file.empty.write_blocks [(0, 1), (512, 1), (128, 129), (640, 129), (256, 257),
            (768, 257), (384, 385), (896, 385), (1024, 513), (1536, 513), (1152, 641),
            (1664, 641), (1280, 769), (1792, 769), (1408, 897), (1920, 897), (2048, 1025),
            (2560, 1025), (0, 1), (512, 1)] with size := 24576 }
        (⟨[(0, 4096), (8192, 4096), (16384, 4096)], 128, 1536, 0, []⟩ : imageIdIndex_list_paged)
        (⟨[(4096, 4096), (12288, 4096), (20480, 4096)], 128, 1536, 0, []⟩ : imageIdIndex_list_paged)
        (List.range' 129 1024) :=
    push_both_range_block _ _ _ 1 1024
      ({ file :=
            { bucket_file.empty.write_blocks [(0, 1), (512, 1), (128, 129), (640, 129),
                (256, 257), (768, 257), (384, 385), (896, 385), (1024, 513), (1536, 513),
                (1152, 641), (1664, 641), (1280, 769), (1792, 769), (1408, 897), (1920, 897),
                (2048, 1025), (2560, 1025), (0, 1)] with size := 24576 },
         bucket := (⟨[(0, 4096), (8192, 4096), (16384, 4096)], 128, 1536, 0, []⟩ : imageIdIndex_list_paged),
         err := none } : paged_result)
      ({ file :=
            { bucket_file.empty.write_blocks [(0, 1), (512, 1), (128, 129), (640, 129),
                (256, 257), (768, 257), (384, 385), (896, 385), (1024, 513), (1536, 513),
                (1152, 641), (1664, 641), (1280, 769), (1792, 769), (1408, 897), (1920, 897),
                (2048, 1025), (2560, 1025), (0, 1), (512, 1)] with size := 24576 },
         bucket := (⟨[(4096, 4096), (12288, 4096), (20480, 4096)], 128, 1536, 0, []⟩ : imageIdIndex_list_paged),
         err := none } : paged_result)
      rfl rfl
      (paged_push_back_found
        (⟨[(0, 4096), (8192, 4096), (16384, 4096)], 0, 1536, 0, (List.range' 1 127)⟩ : imageIdIndex_list_paged)
        bucket_file.empty 24576
        [(0, 1), (512, 1), (128, 129), (640, 129), (256, 257), (768, 257), (384, 385), (896, 385),
         (1024, 513), (1536, 513), (1152, 641), (1664, 641), (1280, 769), (1792, 769),
         (1408, 897), (1920, 897), (2048, 1025), (2560, 1025)]
        1 (16384, 4096) 0 4096 rfl (by decide) (by decide) (by decide) (by decide) (by decide)) rfl
      (paged_push_back_found
        (⟨[(4096, 4096), (12288, 4096), (20480, 4096)], 0, 1536, 0, (List.range' 1 127)⟩ : imageIdIndex_list_paged)
        bucket_file.empty 24576
        [(0, 1), (512, 1), (128, 129), (640, 129), (256, 257), (768, 257), (384, 385), (896, 385),
         (1024, 513), (1536, 513), (1152, 641), (1664, 641), (1280, 769), (1792, 769),
         (1408, 897), (1920, 897), (2048, 1025), (2560, 1025), (0, 1)]
        1 (20480, 4096) 4096 4096 rfl (by decide) (by decide) (by decide) (by decide) (by decide)) rfl
  have s1 :
      push_both
        { bucket_file.empty.write_blocks [(0, 1), (512, 1), (128, 129), (640, 129), (256, 257),
            (768, 257), (384, 385), (896, 385), (1024, 513), (1536, 513), (1152, 641),
            (1664, 641), (1280, 769), (1792, 769), (1408, 897), (1920, 897), (2048, 1025),
            (2560, 1025), (0, 1), (512, 1)] with size := 24576 }
        (⟨[(0, 4096), (8192, 4096), (16384, 4096)], 128, 1536, 0, []⟩ : imageIdIndex_list_paged)
        (⟨[(4096, 4096), (12288, 4096), (20480, 4096)], 128, 1536, 0, []⟩ : imageIdIndex_list_paged)
        (List.range' 129 1024)
      = push_both
        { bucket_file.empty.write_blocks [(0, 1), (512, 1), (128, 129), (640, 129), (256, 257),
            (768, 257), (384, 385), (896, 385), (1024, 513), (1536, 513), (1152, 641),
            (1664, 641), (1280, 769), (1792, 769), (1408, 897), (1920, 897), (2048, 1025),
            (2560, 1025), (0, 1), (512, 1), (128, 129), (640, 129)] with size := 24576 }
        (⟨[(0, 4096), (8192, 4096), (16384, 4096)], 256, 1536, 0, []⟩ : imageIdIndex_list_paged)
        (⟨[(4096, 4096), (12288, 4096), (20480, 4096)], 256, 1536, 0, []⟩ : imageIdIndex_list_paged)
        (List.range' 257 896) :=
    push_both_range_block _ _ _ 129 896
      ({ file :=
            { bucket_file.empty.write_blocks [(0, 1), (512, 1), (128, 129), (640, 129),
                (256, 257), (768, 257), (384, 385), (896, 385), (1024, 513), (1536, 513),
                (1152, 641), (1664, 641), (1280, 769), (1792, 769), (1408, 897), (1920, 897),
                (2048, 1025), (2560, 1025), (0, 1), (512, 1), (128, 129)] with size := 24576 },
         bucket := (⟨[(0, 4096), (8192, 4096), (16384, 4096)], 256, 1536, 0, []⟩ : imageIdIndex_list_paged),
         err := none } : paged_result)
      ({ file :=
            { bucket_file.empty.write_blocks [(0, 1), (512, 1), (128, 129), (640, 129),
                (256, 257), (768, 257), (384, 385), (896, 385), (1024, 513), (1536, 513),
                (1152, 641), (1664, 641), (1280, 769), (1792, 769), (1408, 897), (1920, 897),
                (2048, 1025), (2560, 1025), (0, 1), (512, 1), (128, 129), (640, 129)] with size := 24576 },
         bucket := (⟨[(4096, 4096), (12288, 4096), (20480, 4096)], 256, 1536, 0, []⟩ : imageIdIndex_list_paged),
         err := none } : paged_result)
      rfl rfl
      (paged_push_back_found
        (⟨[(0, 4096), (8192, 4096), (16384, 4096)], 128, 1536, 0, (List.range' 129 127)⟩ : imageIdIndex_list_paged)
        bucket_file.empty 24576
        [(0, 1), (512, 1), (128, 129), (640, 129), (256, 257), (768, 257), (384, 385), (896, 385),
         (1024, 513), (1536, 513), (1152, 641), (1664, 641), (1280, 769), (1792, 769),
         (1408, 897), (1920, 897), (2048, 1025), (2560, 1025), (0, 1), (512, 1)]
        129 (16384, 4096) 0 4096 rfl (by decide) (by decide) (by decide) (by decide) (by decide)) rfl
      (paged_push_back_found
        (⟨[(4096, 4096), (12288, 4096), (20480, 4096)], 128, 1536, 0, (List.range' 129 127)⟩ : imageIdIndex_list_paged)
        bucket_file.empty 24576
        [(0, 1), (512, 1), (128, 129), (640, 129), (256, 257), (768, 257), (384, 385), (896, 385),
         (1024, 513), (1536, 513), (1152, 641), (1664, 641), (1280, 769), (1792, 769),
         (1408, 897), (1920, 897), (2048, 1025), (2560, 1025), (0, 1), (512, 1), (128, 129)]
        129 (20480, 4096) 4096 4096 rfl (by decide) (by decide) (by decide) (by decide) (by decide)) rfl
  have s2 :
      push_both
        { bucket_file.empty.write_blocks [(0, 1), (512, 1), (128, 129), (640, 129), (256, 257),
            (768, 257), (384, 385), (896, 385), (1024, 513), (1536, 513), (1152, 641),
            (1664, 641), (1280, 769), (1792, 769), (1408, 897), (1920, 897), (2048, 1025),
            (2560, 1025), (0, 1), (512, 1), (128, 129), (640, 129)] with size := 24576 }
        (⟨[(0, 4096), (8192, 4096), (16384, 4096)], 256, 1536, 0, []⟩ : imageIdIndex_list_paged)
        (⟨[(4096, 4096), (12288, 4096), (20480, 4096)], 256, 1536, 0, []⟩ : imageIdIndex_list_paged)
        (List.range' 257 896)
      = push_both
        { bucket_file.empty.write_blocks [(0, 1), (512, 1), (128, 129), (640, 129), (256, 257),
            (768, 257), (384, 385), (896, 385), (1024, 513), (1536, 513), (1152, 641),
            (1664, 641), (1280, 769), (1792, 769), (1408, 897), (1920, 897), (2048, 1025),
            (2560, 1025), (0, 1), (512, 1), (128, 129), (640, 129), (256, 257), (768, 257)] with size := 24576 }
        (⟨[(0, 4096), (8192, 4096), (16384, 4096)], 384, 1536, 0, []⟩ : imageIdIndex_list_paged)
        (⟨[(4096, 4096), (12288, 4096), (20480, 4096)], 384, 1536, 0, []⟩ : imageIdIndex_list_paged)
        (List.range' 385 768) :=
    push_both_range_block _ _ _ 257 768
      ({ file :=
            { bucket_file.empty.write_blocks [(0, 1), (512, 1), (128, 129), (640, 129),
                (256, 257), (768, 257), (384, 385), (896, 385), (1024, 513), (1536, 513),
                (1152, 641), (1664, 641), (1280, 769), (1792, 769), (1408, 897), (1920, 897),
                (2048, 1025), (2560, 1025), (0, 1), (512, 1), (128, 129), (640, 129), (256, 257)] with size := 24576 },
         bucket := (⟨[(0, 4096), (8192, 4096), (16384, 4096)], 384, 1536, 0, []⟩ : imageIdIndex_list_paged),
         err := none } : paged_result)
      ({ file :=
            { bucket_file.empty.write_blocks [(0, 1), (512, 1), (128, 129), (640, 129),
                (256, 257), (768, 257), (384, 385), (896, 385), (1024, 513), (1536, 513),
                (1152, 641), (1664, 641), (1280, 769), (1792, 769), (1408, 897), (1920, 897),
                (2048, 1025), (2560, 1025), (0, 1), (512, 1), (128, 129), (640, 129), (256, 257),
                (768, 257)] with size := 24576 },
         bucket := (⟨[(4096, 4096), (12288, 4096), (20480, 4096)], 384, 1536, 0, []⟩ : imageIdIndex_list_paged),
         err := none } : paged_result)
      rfl rfl
      (paged_push_back_found
        (⟨[(0, 4096), (8192, 4096), (16384, 4096)], 256, 1536, 0, (List.range' 257 127)⟩ : imageIdIndex_list_paged)
        bucket_file.empty 24576
        [(0, 1), (512, 1), (128, 129), (640, 129), (256, 257), (768, 257), (384, 385), (896, 385),
         (1024, 513), (1536, 513), (1152, 641), (1664, 641), (1280, 769), (1792, 769),
         (1408, 897), (1920, 897), (2048, 1025), (2560, 1025), (0, 1), (512, 1), (128, 129),
         (640, 129)]
        257 (16384, 4096) 0 4096 rfl (by decide) (by decide) (by decide) (by decide) (by decide)) rfl
      (paged_push_back_found
        (⟨[(4096, 4096), (12288, 4096), (20480, 4096)], 256, 1536, 0, (List.range' 257 127)⟩ : imageIdIndex_list_paged)
        bucket_file.empty 24576
        [(0, 1), (512, 1), (128, 129), (640, 129), (256, 257), (768, 257), (384, 385), (896, 385),
         (1024, 513), (1536, 513), (1152, 641), (1664, 641), (1280, 769), (1792, 769),
         (1408, 897), (1920, 897), (2048, 1025), (2560, 1025), (0, 1), (512, 1), (128, 129),
         (640, 129), (256, 257)]
        257 (20480, 4096) 4096 4096 rfl (by decide) (by decide) (by decide) (by decide) (by decide)) rfl
  have s3 :
      push_both
        { bucket_file.empty.write_blocks [(0, 1), (512, 1), (128, 129), (640, 129), (256, 257),
            (768, 257), (384, 385), (896, 385), (1024, 513), (1536, 513), (1152, 641),
            (1664, 641), (1280, 769), (1792, 769), (1408, 897), (1920, 897), (2048, 1025),
            (2560, 1025), (0, 1), (512, 1), (128, 129), (640, 129), (256, 257), (768, 257)] with size := 24576 }
        (⟨[(0, 4096), (8192, 4096), (16384, 4096)], 384, 1536, 0, []⟩ : imageIdIndex_list_paged)
        (⟨[(4096, 4096), (12288, 4096), (20480, 4096)], 384, 1536, 0, []⟩ : imageIdIndex_list_paged)
        (List.range' 385 768)
      = push_both
        { bucket_file.empty.write_blocks [(0, 1), (512, 1), (128, 129), (640, 129), (256, 257),
            (768, 257), (384, 385), (896, 385), (1024, 513), (1536, 513), (1152, 641),
            (1664, 641), (1280, 769), (1792, 769), (1408, 897), (1920, 897), (2048, 1025),
            (2560, 1025), (0, 1), (512, 1), (128, 129), (640, 129), (256, 257), (768, 257),
            (384, 385), (896, 385)] with size := 24576 }
        (⟨[(0, 4096), (8192, 4096), (16384, 4096)], 512, 1536, 0, []⟩ : imageIdIndex_list_paged)
        (⟨[(4096, 4096), (12288, 4096), (20480, 4096)], 512, 1536, 0, []⟩ : imageIdIndex_list_paged)
        (List.range' 513 640) :=
    push_both_range_block _ _ _ 385 640
      ({ file :=
            { bucket_file.empty.write_blocks [(0, 1), (512, 1), (128, 129), (640, 129),
                (256, 257), (768, 257), (384, 385), (896, 385), (1024, 513), (1536, 513),
                (1152, 641), (1664, 641), (1280, 769), (1792, 769), (1408, 897), (1920, 897),
                (2048, 1025), (2560, 1025), (0, 1), (512, 1), (128, 129), (640, 129), (256, 257),
                (768, 257), (384, 385)] with size := 24576 },
         bucket := (⟨[(0, 4096), (8192, 4096), (16384, 4096)], 512, 1536, 0, []⟩ : imageIdIndex_list_paged),
         err := none } : paged_result)
      ({ file :=
            { bucket_file.empty.write_blocks [(0, 1), (512, 1), (128, 129), (640, 129),
                (256, 257), (768, 257), (384, 385), (896, 385), (1024, 513), (1536, 513),
                (1152, 641), (1664, 641), (1280, 769), (1792, 769), (1408, 897), (1920, 897),
                (2048, 1025), (2560, 1025), (0, 1), (512, 1), (128, 129), (640, 129), (256, 257),
                (768, 257), (384, 385), (896, 385)] with size := 24576 },
         bucket := (⟨[(4096, 4096), (12288, 4096), (20480, 4096)], 512, 1536, 0, []⟩ : imageIdIndex_list_paged),
         err := none } : paged_result)
      rfl rfl
      (paged_push_back_found
        (⟨[(0, 4096), (8192, 4096), (16384, 4096)], 384, 1536, 0, (List.range' 385 127)⟩ : imageIdIndex_list_paged)
        bucket_file.empty 24576
        [(0, 1), (512, 1), (128, 129), (640, 129), (256, 257), (768, 257), (384, 385), (896, 385),
         (1024, 513), (1536, 513), (1152, 641), (1664, 641), (1280, 769), (1792, 769),
         (1408, 897), (1920, 897), (2048, 1025), (2560, 1025), (0, 1), (512, 1), (128, 129),
         (640, 129), (256, 257), (768, 257)]
        385 (16384, 4096) 0 4096 rfl (by decide) (by decide) (by decide) (by decide) (by decide)) rfl
      (paged_push_back_found
        (⟨[(4096, 4096), (12288, 4096), (20480, 4096)], 384, 1536, 0, (List.range' 385 127)⟩ : imageIdIndex_list_paged)
        bucket_file.empty 24576
        [(0, 1), (512, 1), (128, 129), (640, 129), (256, 257), (768, 257), (384, 385), (896, 385),
         (1024, 513), (1536, 513), (1152, 641), (1664, 641), (1280, 769), (1792, 769),
         (1408, 897), (1920, 897), (2048, 1025), (2560, 1025), (0, 1), (512, 1), (128, 129),
         (640, 129), (256, 257), (768, 257), (384, 385)]
        385 (20480, 4096) 4096 4096 rfl (by decide) (by decide) (by decide) (by decide) (by decide)) rfl
  have s4 :
      push_both
        { bucket_file.empty.write_blocks [(0, 1), (512, 1), (128, 129), (640, 129), (256, 257),
            (768, 257), (384, 385), (896, 385), (1024, 513), (1536, 513), (1152, 641),
            (1664, 641), (1280, 769), (1792, 769), (1408, 897), (1920, 897), (2048, 1025),
            (2560, 1025), (0, 1), (512, 1), (128, 129), (640, 129), (256, 257), (768, 257),
            (384, 385), (896, 385)] with size := 24576 }
        (⟨[(0, 4096), (8192, 4096), (16384, 4096)], 512, 1536, 0, []⟩ : imageIdIndex_list_paged)
        (⟨[(4096, 4096), (12288, 4096), (20480, 4096)], 512, 1536, 0, []⟩ : imageIdIndex_list_paged)
        (List.range' 513 640)
      = push_both
        { bucket_file.empty.write_blocks [(0, 1), (512, 1), (128, 129), (640, 129), (256, 257),
            (768, 257), (384, 385), (896, 385), (1024, 513), (1536, 513), (1152, 641),
            (1664, 641), (1280, 769), (1792, 769), (1408, 897), (1920, 897), (2048, 1025),
            (2560, 1025), (0, 1), (512, 1), (128, 129), (640, 129), (256, 257), (768, 257),
            (384, 385), (896, 385), (512, 513), (1024, 513)] with size := 24576 }
        (⟨[(0, 4096), (8192, 4096), (16384, 4096)], 640, 1536, 0, []⟩ : imageIdIndex_list_paged)
        (⟨[(4096, 4096), (12288, 4096), (20480, 4096)], 640, 1536, 0, []⟩ : imageIdIndex_list_paged)
        (List.range' 641 512) :=
    push_both_range_block _ _ _ 513 512
      ({ file :=
            { bucket_file.empty.write_blocks [(0, 1), (512, 1), (128, 129), (640, 129),
                (256, 257), (768, 257), (384, 385), (896, 385), (1024, 513), (1536, 513),
                (1152, 641), (1664, 641), (1280, 769), (1792, 769), (1408, 897), (1920, 897),
                (2048, 1025), (2560, 1025), (0, 1), (512, 1), (128, 129), (640, 129), (256, 257),
                (768, 257), (384, 385), (896, 385), (512, 513)] with size := 24576 },
         bucket := (⟨[(0, 4096), (8192, 4096), (16384, 4096)], 640, 1536, 0, []⟩ : imageIdIndex_list_paged),
         err := none } : paged_result)
      ({ file :=
            { bucket_file.empty.write_blocks [(0, 1), (512, 1), (128, 129), (640, 129),
                (256, 257), (768, 257), (384, 385), (896, 385), (1024, 513), (1536, 513),
                (1152, 641), (1664, 641), (1280, 769), (1792, 769), (1408, 897), (1920, 897),
                (2048, 1025), (2560, 1025), (0, 1), (512, 1), (128, 129), (640, 129), (256, 257),
                (768, 257), (384, 385), (896, 385), (512, 513), (1024, 513)] with size := 24576 },
         bucket := (⟨[(4096, 4096), (12288, 4096), (20480, 4096)], 640, 1536, 0, []⟩ : imageIdIndex_list_paged),
         err := none } : paged_result)
      rfl rfl
      (paged_push_back_found
        (⟨[(0, 4096), (8192, 4096), (16384, 4096)], 512, 1536, 0, (List.range' 513 127)⟩ : imageIdIndex_list_paged)
        bucket_file.empty 24576
        [(0, 1), (512, 1), (128, 129), (640, 129), (256, 257), (768, 257), (384, 385), (896, 385),
         (1024, 513), (1536, 513), (1152, 641), (1664, 641), (1280, 769), (1792, 769),
         (1408, 897), (1920, 897), (2048, 1025), (2560, 1025), (0, 1), (512, 1), (128, 129),
         (640, 129), (256, 257), (768, 257), (384, 385), (896, 385)]
        513 (16384, 4096) 4096 0 rfl (by decide) (by decide) (by decide) (by decide) (by decide)) rfl
      (paged_push_back_found
        (⟨[(4096, 4096), (12288, 4096), (20480, 4096)], 512, 1536, 0, (List.range' 513 127)⟩ : imageIdIndex_list_paged)
        bucket_file.empty 24576
        [(0, 1), (512, 1), (128, 129), (640, 129), (256, 257), (768, 257), (384, 385), (896, 385),
         (1024, 513), (1536, 513), (1152, 641), (1664, 641), (1280, 769), (1792, 769),
         (1408, 897), (1920, 897), (2048, 1025), (2560, 1025), (0, 1), (512, 1), (128, 129),
         (640, 129), (256, 257), (768, 257), (384, 385), (896, 385), (512, 513)]
        513 (20480, 4096) 8192 0 rfl (by decide) (by decide) (by decide) (by decide) (by decide)) rfl
  have s5 :
      push_both
        { bucket_file.empty.write_blocks [(0, 1), (512, 1), (128, 129), (640, 129), (256, 257),
            (768, 257), (384, 385), (896, 385), (1024, 513), (1536, 513), (1152, 641),
            (1664, 641), (1280, 769), (1792, 769), (1408, 897), (1920, 897), (2048, 1025),
            (2560, 1025), (0, 1), (512, 1), (128, 129), (640, 129), (256, 257), (768, 257),
            (384, 385), (896, 385), (512, 513), (1024, 513)] with size := 24576 }
        (⟨[(0, 4096), (8192, 4096), (16384, 4096)], 640, 1536, 0, []⟩ : imageIdIndex_list_paged)
        (⟨[(4096, 4096), (12288, 4096), (20480, 4096)], 640, 1536, 0, []⟩ : imageIdIndex_list_paged)
        (List.range' 641 512)
      = push_both
        { bucket_file.empty.write_blocks [(0, 1), (512, 1), (128, 129), (640, 129), (256, 257),
            (768, 257), (384, 385), (896, 385), (1024, 513), (1536, 513), (1152, 641),
            (1664, 641), (1280, 769), (1792, 769), (1408, 897), (1920, 897), (2048, 1025),
            (2560, 1025), (0, 1), (512, 1), (128, 129), (640, 129), (256, 257), (768, 257),
            (384, 385), (896, 385), (512, 513), (1024, 513), (640, 641), (1152, 641)] with size := 24576 }
        (⟨[(0, 4096), (8192, 4096), (16384, 4096)], 768, 1536, 0, []⟩ : imageIdIndex_list_paged)
        (⟨[(4096, 4096), (12288, 4096), (20480, 4096)], 768, 1536, 0, []⟩ : imageIdIndex_list_paged)
        (List.range' 769 384) :=
    push_both_range_block _ _ _ 641 384
      ({ file :=
            { bucket_file.empty.write_blocks [(0, 1), (512, 1), (128, 129), (640, 129),
                (256, 257), (768, 257), (384, 385), (896, 385), (1024, 513), (1536, 513),
                (1152, 641), (1664, 641), (1280, 769), (1792, 769), (1408, 897), (1920, 897),
                (2048, 1025), (2560, 1025), (0, 1), (512, 1), (128, 129), (640, 129), (256, 257),
                (768, 257), (384, 385), (896, 385), (512, 513), (1024, 513), (640, 641)] with size := 24576 },
         bucket := (⟨[(0, 4096), (8192, 4096), (16384, 4096)], 768, 1536, 0, []⟩ : imageIdIndex_list_paged),
         err := none } : paged_result)
      ({ file :=
            { bucket_file.empty.write_blocks [(0, 1), (512, 1), (128, 129), (640, 129),
                (256, 257), (768, 257), (384, 385), (896, 385), (1024, 513), (1536, 513),
                (1152, 641), (1664, 641), (1280, 769), (1792, 769), (1408, 897), (1920, 897),
                (2048, 1025), (2560, 1025), (0, 1), (512, 1), (128, 129), (640, 129), (256, 257),
                (768, 257), (384, 385), (896, 385), (512, 513), (1024, 513), (640, 641),
                (1152, 641)] with size := 24576 },
         bucket := (⟨[(4096, 4096), (12288, 4096), (20480, 4096)], 768, 1536, 0, []⟩ : imageIdIndex_list_paged),
         err := none } : paged_result)
      rfl rfl
      (paged_push_back_found
        (⟨[(0, 4096), (8192, 4096), (16384, 4096)], 640, 1536, 0, (List.range' 641 127)⟩ : imageIdIndex_list_paged)
        bucket_file.empty 24576
        [(0, 1), (512, 1), (128, 129), (640, 129), (256, 257), (768, 257), (384, 385), (896, 385),
         (1024, 513), (1536, 513), (1152, 641), (1664, 641), (1280, 769), (1792, 769),
         (1408, 897), (1920, 897), (2048, 1025), (2560, 1025), (0, 1), (512, 1), (128, 129),
         (640, 129), (256, 257), (768, 257), (384, 385), (896, 385), (512, 513), (1024, 513)]
        641 (16384, 4096) 4096 0 rfl (by decide) (by decide) (by decide) (by decide) (by decide)) rfl
      (paged_push_back_found
        (⟨[(4096, 4096), (12288, 4096), (20480, 4096)], 640, 1536, 0, (List.range' 641 127)⟩ : imageIdIndex_list_paged)
        bucket_file.empty 24576
        [(0, 1), (512, 1), (128, 129), (640, 129), (256, 257), (768, 257), (384, 385), (896, 385),
         (1024, 513), (1536, 513), (1152, 641), (1664, 641), (1280, 769), (1792, 769),
         (1408, 897), (1920, 897), (2048, 1025), (2560, 1025), (0, 1), (512, 1), (128, 129),
         (640, 129), (256, 257), (768, 257), (384, 385), (896, 385), (512, 513), (1024, 513),
         (640, 641)]
        641 (20480, 4096) 8192 0 rfl (by decide) (by decide) (by decide) (by decide) (by decide)) rfl
  have s6 :
      push_both
        { bucket_file.empty.write_blocks [(0, 1), (512, 1), (128, 129), (640, 129), (256, 257),
            (768, 257), (384, 385), (896, 385), (1024, 513), (1536, 513), (1152, 641),
            (1664, 641), (1280, 769), (1792, 769), (1408, 897), (1920, 897), (2048, 1025),
            (2560, 1025), (0, 1), (512, 1), (128, 129), (640, 129), (256, 257), (768, 257),
            (384, 385), (896, 385), (512, 513), (1024, 513), (640, 641), (1152, 641)] with size := 24576 }
        (⟨[(0, 4096), (8192, 4096), (16384, 4096)], 768, 1536, 0, []⟩ : imageIdIndex_list_paged)
        (⟨[(4096, 4096), (12288, 4096), (20480, 4096)], 768, 1536, 0, []⟩ : imageIdIndex_list_paged)
        (List.range' 769 384)
      = push_both
        { bucket_file.empty.write_blocks [(0, 1), (512, 1), (128, 129), (640, 129), (256, 257),
            (768, 257), (384, 385), (896, 385), (1024, 513), (1536, 513), (1152, 641),
            (1664, 641), (1280, 769), (1792, 769), (1408, 897), (1920, 897), (2048, 1025),
            (2560, 1025), (0, 1), (512, 1), (128, 129), (640, 129), (256, 257), (768, 257),
            (384, 385), (896, 385), (512, 513), (1024, 513), (640, 641), (1152, 641), (768, 769),
            (1280, 769)] with size := 24576 }
        (⟨[(0, 4096), (8192, 4096), (16384, 4096)], 896, 1536, 0, []⟩ : imageIdIndex_list_paged)
        (⟨[(4096, 4096), (12288, 4096), (20480, 4096)], 896, 1536, 0, []⟩ : imageIdIndex_list_paged)
        (List.range' 897 256) :=
    push_both_range_block _ _ _ 769 256
      ({ file :=
            { bucket_file.empty.write_blocks [(0, 1), (512, 1), (128, 129), (640, 129),
                (256, 257), (768, 257), (384, 385), (896, 385), (1024, 513), (1536, 513),
                (1152, 641), (1664, 641), (1280, 769), (1792, 769), (1408, 897), (1920, 897),
                (2048, 1025), (2560, 1025), (0, 1), (512, 1), (128, 129), (640, 129), (256, 257),
                (768, 257), (384, 385), (896, 385), (512, 513), (1024, 513), (640, 641),
                (1152, 641), (768, 769)] with size := 24576 },
         bucket := (⟨[(0, 4096), (8192, 4096), (16384, 4096)], 896, 1536, 0, []⟩ : imageIdIndex_list_paged),
         err := none } : paged_result)
      ({ file :=
            { bucket_file.empty.write_blocks [(0, 1), (512, 1), (128, 129), (640, 129),
                (256, 257), (768, 257), (384, 385), (896, 385), (1024, 513), (1536, 513),
                (1152, 641), (1664, 641), (1280, 769), (1792, 769), (1408, 897), (1920, 897),
                (2048, 1025), (2560, 1025), (0, 1), (512, 1), (128, 129), (640, 129), (256, 257),
                (768, 257), (384, 385), (896, 385), (512, 513), (1024, 513), (640, 641),
                (1152, 641), (768, 769), (1280, 769)] with size := 24576 },
         bucket := (⟨[(4096, 4096), (12288, 4096), (20480, 4096)], 896, 1536, 0, []⟩ : imageIdIndex_list_paged),
         err := none } : paged_result)
      rfl rfl
      (paged_push_back_found
        (⟨[(0, 4096), (8192, 4096), (16384, 4096)], 768, 1536, 0, (List.range' 769 127)⟩ : imageIdIndex_list_paged)
        bucket_file.empty 24576
        [(0, 1), (512, 1), (128, 129), (640, 129), (256, 257), (768, 257), (384, 385), (896, 385),
         (1024, 513), (1536, 513), (1152, 641), (1664, 641), (1280, 769), (1792, 769),
         (1408, 897), (1920, 897), (2048, 1025), (2560, 1025), (0, 1), (512, 1), (128, 129),
         (640, 129), (256, 257), (768, 257), (384, 385), (896, 385), (512, 513), (1024, 513),
         (640, 641), (1152, 641)]
        769 (16384, 4096) 4096 0 rfl (by decide) (by decide) (by decide) (by decide) (by decide)) rfl
      (paged_push_back_found
        (⟨[(4096, 4096), (12288, 4096), (20480, 4096)], 768, 1536, 0, (List.range' 769 127)⟩ : imageIdIndex_list_paged)
        bucket_file.empty 24576
        [(0, 1), (512, 1), (128, 129), (640, 129), (256, 257), (768, 257), (384, 385), (896, 385),
         (1024, 513), (1536, 513), (1152, 641), (1664, 641), (1280, 769), (1792, 769),
         (1408, 897), (1920, 897), (2048, 1025), (2560, 1025), (0, 1), (512, 1), (128, 129),
         (640, 129), (256, 257), (768, 257), (384, 385), (896, 385), (512, 513), (1024, 513),
         (640, 641), (1152, 641), (768, 769)]
        769 (20480, 4096) 8192 0 rfl (by decide) (by decide) (by decide) (by decide) (by decide)) rfl
  have s7 :
      push_both
        { bucket_file.empty.write_blocks [(0, 1), (512, 1), (128, 129), (640, 129), (256, 257),
            (768, 257), (384, 385), (896, 385), (1024, 513), (1536, 513), (1152, 641),
            (1664, 641), (1280, 769), (1792, 769), (1408, 897), (1920, 897), (2048, 1025),
            (2560, 1025), (0, 1), (512, 1), (128, 129), (640, 129), (256, 257), (768, 257),
            (384, 385), (896, 385), (512, 513), (1024, 513), (640, 641), (1152, 641), (768, 769),
            (1280, 769)] with size := 24576 }
        (⟨[(0, 4096), (8192, 4096), (16384, 4096)], 896, 1536, 0, []⟩ : imageIdIndex_list_paged)
        (⟨[(4096, 4096), (12288, 4096), (20480, 4096)], 896, 1536, 0, []⟩ : imageIdIndex_list_paged)
        (List.range' 897 256)
      = push_both
        { bucket_file.empty.write_blocks [(0, 1), (512, 1), (128, 129), (640, 129), (256, 257),
            (768, 257), (384, 385), (896, 385), (1024, 513), (1536, 513), (1152, 641),
            (1664, 641), (1280, 769), (1792, 769), (1408, 897), (1920, 897), (2048, 1025),
            (2560, 1025), (0, 1), (512, 1), (128, 129), (640, 129), (256, 257), (768, 257),
            (384, 385), (896, 385), (512, 513), (1024, 513), (640, 641), (1152, 641), (768, 769),
            (1280, 769), (896, 897), (1408, 897)] with size := 24576 }
        (⟨[(0, 4096), (8192, 4096), (16384, 4096)], 1024, 1536, 0, []⟩ : imageIdIndex_list_paged)
        (⟨[(4096, 4096), (12288, 4096), (20480, 4096)], 1024, 1536, 0, []⟩ : imageIdIndex_list_paged)
        (List.range' 1025 128) :=
    push_both_range_block _ _ _ 897 128
      ({ file :=
            { bucket_file.empty.write_blocks [(0, 1), (512, 1), (128, 129), (640, 129),
                (256, 257), (768, 257), (384, 385), (896, 385), (1024, 513), (1536, 513),
                (1152, 641), (1664, 641), (1280, 769), (1792, 769), (1408, 897), (1920, 897),
                (2048, 1025), (2560, 1025), (0, 1), (512, 1), (128, 129), (640, 129), (256, 257),
                (768, 257), (384, 385), (896, 385), (512, 513), (1024, 513), (640, 641),
                (1152, 641), (768, 769), (1280, 769), (896, 897)] with size := 24576 },
         bucket := (⟨[(0, 4096), (8192, 4096), (16384, 4096)], 1024, 1536, 0, []⟩ : imageIdIndex_list_paged),
         err := none } : paged_result)
      ({ file :=
            { bucket_file.empty.write_blocks [(0, 1), (512, 1), (128, 129), (640, 129),
                (256, 257), (768, 257), (384, 385), (896, 385), (1024, 513), (1536, 513),
                (1152, 641), (1664, 641), (1280, 769), (1792, 769), (1408, 897), (1920, 897),
                (2048, 1025), (2560, 1025), (0, 1), (512, 1), (128, 129), (640, 129), (256, 257),
                (768, 257), (384, 385), (896, 385), (512, 513), (1024, 513), (640, 641),
                (1152, 641), (768, 769), (1280, 769), (896, 897), (1408, 897)] with size := 24576 },
         bucket := (⟨[(4096, 4096), (12288, 4096), (20480, 4096)], 1024, 1536, 0, []⟩ : imageIdIndex_list_paged),
         err := none } : paged_result)
      rfl rfl
      (paged_push_back_found
        (⟨[(0, 4096), (8192, 4096), (16384, 4096)], 896, 1536, 0, (List.range' 897 127)⟩ : imageIdIndex_list_paged)
        bucket_file.empty 24576
        [(0, 1), (512, 1), (128, 129), (640, 129), (256, 257), (768, 257), (384, 385), (896, 385),
         (1024, 513), (1536, 513), (1152, 641), (1664, 641), (1280, 769), (1792, 769),
         (1408, 897), (1920, 897), (2048, 1025), (2560, 1025), (0, 1), (512, 1), (128, 129),
         (640, 129), (256, 257), (768, 257), (384, 385), (896, 385), (512, 513), (1024, 513),
         (640, 641), (1152, 641), (768, 769), (1280, 769)]
        897 (16384, 4096) 4096 0 rfl (by decide) (by decide) (by decide) (by decide) (by decide)) rfl
      (paged_push_back_found
        (⟨[(4096, 4096), (12288, 4096), (20480, 4096)], 896, 1536, 0, (List.range' 897 127)⟩ : imageIdIndex_list_paged)
        bucket_file.empty 24576
        [(0, 1), (512, 1), (128, 129), (640, 129), (256, 257), (768, 257), (384, 385), (896, 385),
         (1024, 513), (1536, 513), (1152, 641), (1664, 641), (1280, 769), (1792, 769),
         (1408, 897), (1920, 897), (2048, 1025), (2560, 1025), (0, 1), (512, 1), (128, 129),
         (640, 129), (256, 257), (768, 257), (384, 385), (896, 385), (512, 513), (1024, 513),
         (640, 641), (1152, 641), (768, 769), (1280, 769), (896, 897)]
        897 (20480, 4096) 8192 0 rfl (by decide) (by decide) (by decide) (by decide) (by decide)) rfl
  have s8 :
      push_both
        { bucket_file.empty.write_blocks [(0, 1), (512, 1), (128, 129), (640, 129), (256, 257),
            (768, 257), (384, 385), (896, 385), (1024, 513), (1536, 513), (1152, 641),
            (1664, 641), (1280, 769), (1792, 769), (1408, 897), (1920, 897), (2048, 1025),
            (2560, 1025), (0, 1), (512, 1), (128, 129), (640, 129), (256, 257), (768, 257),
            (384, 385), (896, 385), (512, 513), (1024, 513), (640, 641), (1152, 641), (768, 769),
            (1280, 769), (896, 897), (1408, 897)] with size := 24576 }
        (⟨[(0, 4096), (8192, 4096), (16384, 4096)], 1024, 1536, 0, []⟩ : imageIdIndex_list_paged)
        (⟨[(4096, 4096), (12288, 4096), (20480, 4096)], 1024, 1536, 0, []⟩ : imageIdIndex_list_paged)
        (List.range' 1025 128)
      = push_both
        { bucket_file.empty.write_blocks [(0, 1), (512, 1), (128, 129), (640, 129), (256, 257),
            (768, 257), (384, 385), (896, 385), (1024, 513), (1536, 513), (1152, 641),
            (1664, 641), (1280, 769), (1792, 769), (1408, 897), (1920, 897), (2048, 1025),
            (2560, 1025), (0, 1), (512, 1), (128, 129), (640, 129), (256, 257), (768, 257),
            (384, 385), (896, 385), (512, 513), (1024, 513), (640, 641), (1152, 641), (768, 769),
            (1280, 769), (896, 897), (1408, 897), (2048, 1025), (2560, 1025)] with size := 24576 }
        (⟨[(0, 4096), (8192, 4096), (16384, 4096)], 1152, 1536, 0, []⟩ : imageIdIndex_list_paged)
        (⟨[(4096, 4096), (12288, 4096), (20480, 4096)], 1152, 1536, 0, []⟩ : imageIdIndex_list_paged)
        (List.range' 1153 0) :=
    push_both_range_block _ _ _ 1025 0
      ({ file :=
            { bucket_file.empty.write_blocks [(0, 1), (512, 1), (128, 129), (640, 129),
                (256, 257), (768, 257), (384, 385), (896, 385), (1024, 513), (1536, 513),
                (1152, 641), (1664, 641), (1280, 769), (1792, 769), (1408, 897), (1920, 897),
                (2048, 1025), (2560, 1025), (0, 1), (512, 1), (128, 129), (640, 129), (256, 257),
                (768, 257), (384, 385), (896, 385), (512, 513), (1024, 513), (640, 641),
                (1152, 641), (768, 769), (1280, 769), (896, 897), (1408, 897), (2048, 1025)] with size := 24576 },
         bucket := (⟨[(0, 4096), (8192, 4096), (16384, 4096)], 1152, 1536, 0, []⟩ : imageIdIndex_list_paged),
         err := none } : paged_result)
      ({ file :=
            { bucket_file.empty.write_blocks [(0, 1), (512, 1), (128, 129), (640, 129),
                (256, 257), (768, 257), (384, 385), (896, 385), (1024, 513), (1536, 513),
                (1152, 641), (1664, 641), (1280, 769), (1792, 769), (1408, 897), (1920, 897),
                (2048, 1025), (2560, 1025), (0, 1), (512, 1), (128, 129), (640, 129), (256, 257),
                (768, 257), (384, 385), (896, 385), (512, 513), (1024, 513), (640, 641),
                (1152, 641), (768, 769), (1280, 769), (896, 897), (1408, 897), (2048, 1025),
                (2560, 1025)] with size := 24576 },
         bucket := (⟨[(4096, 4096), (12288, 4096), (20480, 4096)], 1152, 1536, 0, []⟩ : imageIdIndex_list_paged),
         err := none } : paged_result)
      rfl rfl
      (paged_push_back_found
        (⟨[(0, 4096), (8192, 4096), (16384, 4096)], 1024, 1536, 0, (List.range' 1025 127)⟩ : imageIdIndex_list_paged)
        bucket_file.empty 24576
        [(0, 1), (512, 1), (128, 129), (640, 129), (256, 257), (768, 257), (384, 385), (896, 385),
         (1024, 513), (1536, 513), (1152, 641), (1664, 641), (1280, 769), (1792, 769),
         (1408, 897), (1920, 897), (2048, 1025), (2560, 1025), (0, 1), (512, 1), (128, 129),
         (640, 129), (256, 257), (768, 257), (384, 385), (896, 385), (512, 513), (1024, 513),
         (640, 641), (1152, 641), (768, 769), (1280, 769), (896, 897), (1408, 897)]
        1025 (16384, 4096) 16384 4096 rfl (by decide) (by decide) (by decide) (by decide) (by decide)) rfl
      (paged_push_back_found
        (⟨[(4096, 4096), (12288, 4096), (20480, 4096)], 1024, 1536, 0, (List.range' 1025 127)⟩ : imageIdIndex_list_paged)
        bucket_file.empty 24576
        [(0, 1), (512, 1), (128, 129), (640, 129), (256, 257), (768, 257), (384, 385), (896, 385),
         (1024, 513), (1536, 513), (1152, 641), (1664, 641), (1280, 769), (1792, 769),
         (1408, 897), (1920, 897), (2048, 1025), (2560, 1025), (0, 1), (512, 1), (128, 129),
         (640, 129), (256, 257), (768, 257), (384, 385), (896, 385), (512, 513), (1024, 513),
         (640, 641), (1152, 641), (768, 769), (1280, 769), (896, 897), (1408, 897), (2048, 1025)]
        1025 (20480, 4096) 20480 4096 rfl (by decide) (by decide) (by decide) (by decide) (by decide)) rfl
  unfold twoBucketsRehashed
  rw [twoBuckets_eq]
  show
    push_both
      { bucket_file.empty.write_blocks [(0, 1), (512, 1), (128, 129), (640, 129), (256, 257),
          (768, 257), (384, 385), (896, 385), (1024, 513), (1536, 513), (1152, 641), (1664, 641),
          (1280, 769), (1792, 769), (1408, 897), (1920, 897), (2048, 1025), (2560, 1025)] with size := 24576 }
      (⟨[(0, 4096), (8192, 4096), (16384, 4096)], 0, 1536, 0, []⟩ : imageIdIndex_list_paged)
      (⟨[(4096, 4096), (12288, 4096), (20480, 4096)], 0, 1536, 0, []⟩ : imageIdIndex_list_paged)
      (List.range' 1 1152) = _
  exact s0.trans (s1.trans (s2.trans (s3.trans (s4.trans (s5.trans (s6.trans (s7.trans (s8))))))))

set_option maxRecDepth 100000 in
/-- C11, the failing case. Two buckets are filled side by side with the ids 1 to 1152 (the
buckets of two coefficients that 1152 images have in common): each is given three pages of the
scratch file, at the offsets 0, 8192, 16384 and 4096, 12288, 20480, and holds the 1152 ids.
`rehash` clears both and pushes the same ids again. When the first bucket pages out its ids 513
to 640, `page_out` looks for the page of entry 512, its loop leaves the first chunk used up
and stops with the offset 4096 behind it, and the ids are written into the first page of the
second bucket. After the `rehash` the second bucket holds the ids 513 to 1024 twice and the ids
1025 to 1152; the ids 1 to 512 are in the catalog and not in the bucket. -/
theorem rehash_overwrites_other_bucket :
    twoBuckets.2.2.2 = none ∧
    twoBuckets.2.1.m_pages = [(0, 4096), (8192, 4096), (16384, 4096)] ∧
    twoBuckets.2.2.1.m_pages = [(4096, 4096), (12288, 4096), (20480, 4096)] ∧
    twoBuckets.2.1.contents twoBuckets.1 = List.range' 1 1152 ∧
    twoBuckets.2.2.1.contents twoBuckets.1 = List.range' 1 1152 ∧
    twoBucketsRehashed.2.2.2 = none ∧
    twoBucketsRehashed.2.1.contents twoBucketsRehashed.1 = List.range' 1 1152 ∧
    twoBucketsRehashed.2.2.1.contents twoBucketsRehashed.1
      = List.range' 513 512 ++ List.range' 513 512 ++ List.range' 1025 128 ∧
    (1 : imageId) ∉ twoBucketsRehashed.2.2.1.contents twoBucketsRehashed.1 := by
  rw [twoBuckets_eq, twoBucketsRehashed_eq]
  dsimp only
  rw [paged_contents_blocks _ bucket_file.empty 24576 _ 9 (by decide) rfl (by decide) (by decide),
    paged_contents_blocks _ bucket_file.empty 24576 _ 9 (by decide) rfl (by decide) (by decide),
    paged_contents_blocks _ bucket_file.empty 24576 _ 9 (by decide) rfl (by decide) (by decide),
    paged_contents_blocks _ bucket_file.empty 24576 _ 9 (by decide) rfl (by decide) (by decide)]
  decide!

/-- The defect behind the failing case, for any bucket of three single pages `p1`, `p2`, `p3`
that holds 512 paged entries and a full tail: `page_out` copies the tail to the page at the
offset `p1.first + pageSize`, the page behind the first chunk in the scratch file, whether or
not that is the second page `p2` of the bucket. -/
theorem page_copy_behind_first_chunk (b : imageIdIndex_list_paged) (f : bucket_file)
    (p1 p2 p3 : Nat × Nat) (hp : b.m_pages = [p1, p2, p3]) (h1 : p1.2 = pageSize)
    (hs : b.m_size = pageImgs) (hc : b.m_capacity = 3 * pageImgs)
    (ht : b.m_tail.length = paged_threshold) (hf : p1.1 + 2 * pageSize ≤ f.size) :
    b.page_copy f (b.m_size % pageImgs) =
      { file := f.write ((p1.1 + pageSize) / sizeof_imageId) b.m_tail,
        bucket := { b with m_size := pageImgs + paged_threshold, m_tail := [] },
        err := none } := by
  simp only [pageImgs_eq, pageSize_eq, paged_threshold_eq, sizeof_imageId_eq] at *
  have hsz : b.size = 640 := by
    unfold imageIdIndex_list_paged.size; rw [hs, ht]
  have hskip : page_skip 512 512 p1 0 = ((p1.1 + 4096, 0), 512) := by
    show page_skip 512 (511 + 1) p1 0 = _
    unfold page_skip
    rw [if_pos ⟨by rw [h1]; decide, by decide⟩]
    show page_skip 512 (510 + 1) _ _ = _
    unfold page_skip
    simp only [pageImgs_eq, pageSize_eq, h1]
    rw [if_neg (by decide)]
    rfl
  have hsearch : page_search 512 [p1, p2, p3] p3 0 = ((p1.1 + 4096, 0), 512) := by
    unfold page_search
    simp only [hskip]
    rw [if_pos (Nat.le_refl _)]
  unfold imageIdIndex_list_paged.page_copy
  simp only [pageImgs_eq, pageImgMask_eq, pageSize_eq, sizeof_imageId_eq, hp, hs, hc, hsz, ht,
    List.getLast?_cons_cons, List.getLast?_singleton]
  have hfound : (if (640 + 511) / 512 * 512 ≠ 3 * 512 then
        page_search 512 [p1, p2, p3] p3 (512 % 512)
      else ((p3.1 + p3.2 - 4096, p3.2), 512)) = ((p1.1 + 4096, 0), 512) := by
    rw [if_pos (by decide)]
    exact hsearch
  simp only [hfound]
  rw [if_neg (by simp), if_neg (by omega)]
  have ht1 : b.m_tail.take 128 = b.m_tail := List.take_of_length_le (by omega)
  have ht2 : b.m_tail.drop 128 = [] := List.drop_of_length_le (by omega)
  simp [ht1, ht2]

theorem sampleB_wf : sampleB.wf := by
  refine ⟨⟨rfl, ?_⟩, ⟨rfl, ?_⟩, ⟨rfl, ?_⟩⟩ <;> decide

/-! ### C15: the flag `uniqueset` -/

theorem pq_push_perm (x : sim_result) (l : List sim_result) : (pq_push x l).Perm (x :: l) := by
  induction l with
  | nil => exact List.Perm.refl _
  | cons y ys ih =>
    unfold pq_push
    split
    · exact List.Perm.refl _
    · exact (List.Perm.cons y ih).trans (List.Perm.swap x y ys)

theorem setTags_pq_push_count (x : sim_result) (l : List sim_result) (k : Nat) :
    (setTags (pq_push x l)).count k = (setTags l).count k + (if x.info.set = k then 1 else 0) := by
  have hp : (setTags (pq_push x l)).Perm (x.info.set :: setTags l) :=
    (pq_push_perm x l).map _
  rw [hp.count_eq, List.count_cons]
  simp only [beq_iff_eq]

theorem setTags_pq_push_toFinset (x : sim_result) (l : List sim_result) :
    (setTags (pq_push x l)).toFinset = insert x.info.set (setTags l).toFinset := by
  have hp : (setTags (pq_push x l)).Perm (x.info.set :: setTags l) :=
    (pq_push_perm x l).map _
  rw [List.toFinset_eq_of_perm _ _ hp, List.toFinset_cons]

theorem pq_push_length (x : sim_result) (l : List sim_result) :
    (pq_push x l).length = l.length + 1 := by
  rw [(pq_push_perm x l).length_eq, List.length_cons]

theorem setTags_card_le (l : List sim_result) : (setTags l).toFinset.card ≤ l.length := by
  have := List.toFinset_card_le (setTags l)
  unfold setTags at this ⊢
  rw [List.length_map] at this
  exact this

/-- A push with the bookkeeping of `flag_uniqueset` keeps the counts and the value of `need`. -/
theorem sel_push_uniqInv (N : Nat) (q : queryArg) (st : SelState) (s : Int)
    (e : Nat × image_info) (hflag : hasFlag q.flags flag_uniqueset = true)
    (hinv : UniqInv N st) (hlen : N + st.pq.length + 1 < 4294967296) :
    UniqInv N (sel_push q st s e) ∧ (sel_push q st s e).pq.length = st.pq.length + 1 ∧
    st.need ≤ (sel_push q st s e).need := by
  have hcnt : (setTags st.pq).count e.2.set ≤ st.pq.length := by
    have := List.count_le_length e.2.set (setTags st.pq)
    unfold setTags at this ⊢
    rw [List.length_map] at this
    exact this
  have hcard := setTags_card_le st.pq
  have hneed := hinv.need_eq
  have hM : SIZE_T_MOD = 18446744073709551616 := by decide
  unfold sel_push
  simp only [hflag, if_true]
  unfold sets_incr
  simp only
  have hs := hinv.sets_eq e.2.set
  have hwrap : (st.sets e.2.set + 1) % SIZE_T_MOD = (setTags st.pq).count e.2.set + 1 := by
    rw [hs, hM]
    apply Nat.mod_eq_of_lt
    omega
  rw [hwrap]
  refine ⟨⟨?_, ?_⟩, ?_, ?_⟩
  · intro k
    show (if k = e.2.set then (setTags st.pq).count e.2.set + 1 else st.sets k)
      = (setTags (pq_push { score := s, ind := e.1, info := e.2 } st.pq)).count k
    rw [setTags_pq_push_count]
    by_cases hk : k = e.2.set
    · subst hk
      rw [if_pos rfl, if_pos rfl]
    · rw [if_neg hk, if_neg (fun h => hk h.symm), hinv.sets_eq k]
      rfl
  · show (if 1 < (setTags st.pq).count e.2.set + 1 then (st.need + 1) % 4294967296 else st.need)
        + (setTags (pq_push { score := s, ind := e.1, info := e.2 } st.pq)).toFinset.card
      = N + (pq_push { score := s, ind := e.1, info := e.2 } st.pq).length
    rw [setTags_pq_push_toFinset, pq_push_length]
    by_cases hmem : e.2.set ∈ (setTags st.pq).toFinset
    · rw [Finset.card_insert_of_mem hmem]
      have hpos : 0 < (setTags st.pq).count e.2.set :=
        List.count_pos_iff.mpr (List.mem_toFinset.mp hmem)
      rw [if_pos (by omega), Nat.mod_eq_of_lt (by omega)]
      omega
    · rw [Finset.card_insert_of_not_mem hmem]
      have hz : (setTags st.pq).count e.2.set = 0 :=
        List.count_eq_zero.mpr (fun h => hmem (List.mem_toFinset.mpr h))
      rw [hz, if_neg (by omega)]
      omega
  · show (pq_push { score := s, ind := e.1, info := e.2 } st.pq).length = st.pq.length + 1
    exact pq_push_length _ _
  · show st.need ≤ (if 1 < (setTags st.pq).count e.2.set + 1 then (st.need + 1) % 4294967296
      else st.need)
    split
    · rw [Nat.mod_eq_of_lt (by omega)]
      omega
    · exact Nat.le_refl _

/-- The loop that drops the worst elements keeps the bookkeeping and ends with at most `need`
elements. -/
theorem sel_drain_uniqInv (N : Nat) : ∀ (pq : List sim_result) (sets : Nat → Nat) (need : Nat)
    (st : SelState), UniqInv N { pq := pq, sets := sets, need := need } →
    N + pq.length < 4294967296 →
    sel_drain pq sets need = .ok st →
    UniqInv N st ∧ st.pq.length ≤ st.need ∧ st.pq.length ≤ pq.length := by
  intro pq
  induction pq with
  | nil => intro sets need st _ _ h; simp [sel_drain] at h
  | cons top rest ih =>
    intro sets need st hinv hlen h
    unfold sel_drain at h
    by_cases hc : need < (top :: rest).length ∨ 1 < sets top.info.set
    · rw [if_pos hc] at h
      simp only at h
      have hM : SIZE_T_MOD = 18446744073709551616 := by decide
      have hs := hinv.sets_eq top.info.set
      have hneed := hinv.need_eq
      simp only [setTags, List.map_cons, List.count_cons_self, List.toFinset_cons,
        List.length_cons] at hs hneed
      have hcnt : List.count top.info.set (List.map (fun r => r.info.set) rest) ≤ rest.length := by
        have := List.count_le_length top.info.set (List.map (fun r => r.info.set) rest)
        rw [List.length_map] at this
        exact this
      have hcard := setTags_card_le rest
      unfold setTags at hcard
      simp only [List.length_cons] at hlen
      obtain ⟨i1, i2, i3⟩ := ih _ _ st (by
        constructor
        · intro k
          show (if k = top.info.set then (sets top.info.set + SIZE_T_MOD - 1) % SIZE_T_MOD
            else sets k) = (setTags rest).count k
          by_cases hk : k = top.info.set
          · rw [hk, if_pos rfl, hs, hM]
            unfold setTags
            rw [show List.count top.info.set (List.map (fun r => r.info.set) rest) + 1
                + 18446744073709551616 - 1
              = List.count top.info.set (List.map (fun r => r.info.set) rest)
                + 18446744073709551616 by omega,
              Nat.add_mod_right]
            apply Nat.mod_eq_of_lt
            omega
          · rw [if_neg hk]
            have := hinv.sets_eq k
            simp only [setTags, List.map_cons] at this
            rw [List.count_cons_of_ne hk] at this
            unfold setTags
            exact this
        · show (if 1 < sets top.info.set then (need + 4294967296 - 1) % 4294967296 else need)
            + (setTags rest).toFinset.card = N + rest.length
          unfold setTags
          by_cases hmem : top.info.set ∈ (List.map (fun r => r.info.set) rest).toFinset
          · rw [Finset.card_insert_of_mem hmem] at hneed
            have hpos : 0 < List.count top.info.set (List.map (fun r => r.info.set) rest) :=
              List.count_pos_iff.mpr (List.mem_toFinset.mp hmem)
            rw [if_pos (by omega)]
            rw [show need + 4294967296 - 1 = (need - 1) + 4294967296 by omega,
              Nat.add_mod_right, Nat.mod_eq_of_lt (by omega)]
            omega
          · rw [Finset.card_insert_of_not_mem hmem] at hneed
            have hz : List.count top.info.set (List.map (fun r => r.info.set) rest) = 0 :=
              List.count_eq_zero.mpr (fun h => hmem (List.mem_toFinset.mpr h))
            rw [if_neg (by omega)]
            omega) (by omega) h
      exact ⟨i1, i2, by simp only [List.length_cons]; omega⟩
    · rw [if_neg hc] at h
      simp only [Except.ok.injEq] at h
      rw [← h]
      refine ⟨hinv, ?_, Nat.le_refl _⟩
      show (top :: rest).length ≤ need
      omega

/-- The first selection loop with `flag_uniqueset`. -/
theorem sel_fill_uniqInv (N M : Nat) (q : queryArg) (scores : List Int)
    (hflag : hasFlag q.flags flag_uniqueset = true) (hM : N + M < 4294967296) :
    ∀ (es : List (Nat × image_info)) (st st1 : SelState) (rest : List (Nat × image_info)),
      UniqInv N st → st.pq.length ≤ st.need → st.pq.length + es.length ≤ M →
      sel_fill q scores es st = .ok (st1, rest) →
      UniqInv N st1 ∧ st1.pq.length ≤ st1.need ∧ st1.pq.length + rest.length ≤ M := by
  intro es
  induction es with
  | nil =>
    intro st st1 rest hinv hle hlen h
    simp only [sel_fill, Except.ok.injEq, Prod.mk.injEq] at h
    rw [← h.1, ← h.2]
    exact ⟨hinv, hle, hlen⟩
  | cons e es ih =>
    intro st st1 rest hinv hle hlen h
    simp only [List.length_cons] at hlen
    unfold sel_fill at h
    by_cases hn : st.pq.length < st.need
    · rw [if_pos hn] at h
      cases hsk : skip_image e.2 q with
      | true =>
        rw [hsk] at h
        exact ih st st1 rest hinv hle (by omega) h
      | false =>
        rw [hsk] at h
        simp only [Bool.false_eq_true, if_false] at h
        cases hs : scores[e.1]? with
        | none => rw [hs] at h; simp at h
        | some s =>
          rw [hs] at h
          obtain ⟨p1, p2, p3⟩ := sel_push_uniqInv N q st s e hflag hinv (by omega)
          exact ih _ st1 rest p1 (by omega) (by omega) h
    · rw [if_neg hn] at h
      simp only [Except.ok.injEq, Prod.mk.injEq] at h
      rw [← h.1, ← h.2]
      exact ⟨hinv, hle, by simp only [List.length_cons]; omega⟩

/-- The second selection loop with `flag_uniqueset`. -/
theorem sel_replace_uniqInv (N M : Nat) (q : queryArg) (scores : List Int)
    (hflag : hasFlag q.flags flag_uniqueset = true) (hM : N + M < 4294967296) :
    ∀ (es : List (Nat × image_info)) (st st1 : SelState),
      UniqInv N st → st.pq.length ≤ st.need → st.pq.length + es.length ≤ M →
      sel_replace q scores es st = .ok st1 →
      UniqInv N st1 ∧ st1.pq.length ≤ st1.need ∧ st1.pq.length ≤ M := by
  intro es
  induction es with
  | nil =>
    intro st st1 hinv hle hlen h
    simp only [sel_replace, Except.ok.injEq] at h
    rw [← h]
    exact ⟨hinv, hle, by simpa using hlen⟩
  | cons e es ih =>
    intro st st1 hinv hle hlen h
    simp only [List.length_cons] at hlen
    unfold sel_replace at h
    cases hs : scores[e.1]? with
    | none => rw [hs] at h; simp at h
    | some s =>
      rw [hs] at h
      cases hpq : st.pq with
      | nil => rw [hpq] at h; simp at h
      | cons top rest =>
        rw [hpq] at h
        simp only at h
        by_cases hlt : s < top.score
        · rw [if_pos hlt] at h
          cases hsk : skip_image e.2 q with
          | true =>
            rw [hsk] at h
            exact ih st st1 hinv hle (by omega) h
          | false =>
            rw [hsk] at h
            simp only [Bool.false_eq_true, if_false] at h
            rw [if_pos hflag] at h
            obtain ⟨p1, p2, _⟩ := sel_push_uniqInv N q st s e hflag hinv (by omega)
            cases hd : sel_drain (sel_push q st s e).pq (sel_push q st s e).sets
                (sel_push q st s e).need with
            | error err => rw [hd] at h; simp at h
            | ok st2 =>
              rw [hd] at h
              have hl1 : N + (sel_push q st s e).pq.length < 4294967296 := by rw [p2]; omega
              obtain ⟨d1, d2, d3⟩ := sel_drain_uniqInv N (sel_push q st s e).pq
                (sel_push q st s e).sets (sel_push q st s e).need st2 p1 hl1 hd
              have hl2 : st2.pq.length + es.length ≤ M := by rw [p2] at d3; omega
              exact ih st2 st1 d1 d2 hl2 h
        · rw [if_neg hlt] at h
          exact ih st st1 hinv hle (by omega) h

/-- The loop that empties the queue with `flag_uniqueset`: one result for each set tag of the
queue. -/
theorem sel_emit_uniq (q : queryArg) (scale : Int)
    (hflag : hasFlag q.flags flag_uniqueset = true) :
    ∀ (pq : List sim_result) (sets : Nat → Nat),
      (∀ k, sets k = (setTags pq).count k) → pq.length < 4294967296 →
      ((sel_emit q scale pq sets).map (fun v => v.width)).Nodup ∧
      (∀ v, v ∈ sel_emit q scale pq sets → v.width ∈ setTags pq) ∧
      (sel_emit q scale pq sets).length = (setTags pq).toFinset.card := by
  intro pq
  induction pq with
  | nil =>
    intro sets _ _
    simp [sel_emit, setTags]
  | cons top rest ih =>
    intro sets hsets hlen
    simp only [List.length_cons] at hlen
    have hM : SIZE_T_MOD = 18446744073709551616 := by decide
    have hs := hsets top.info.set
    simp only [setTags, List.map_cons, List.count_cons_self] at hs
    have hcnt : List.count top.info.set (List.map (fun r => r.info.set) rest) ≤ rest.length := by
      have := List.count_le_length top.info.set (List.map (fun r => r.info.set) rest)
      rw [List.length_map] at this
      exact this
    have hsets1 : ∀ k, (if k = top.info.set then (sets top.info.set + SIZE_T_MOD - 1) % SIZE_T_MOD
        else sets k) = (setTags rest).count k := by
      intro k
      by_cases hk : k = top.info.set
      · rw [hk, if_pos rfl, hs, hM]
        unfold setTags
        rw [show List.count top.info.set (List.map (fun r => r.info.set) rest) + 1
            + 18446744073709551616 - 1
          = List.count top.info.set (List.map (fun r => r.info.set) rest)
            + 18446744073709551616 by omega,
          Nat.add_mod_right]
        apply Nat.mod_eq_of_lt
        omega
      · rw [if_neg hk]
        have := hsets k
        simp only [setTags, List.map_cons] at this
        rw [List.count_cons_of_ne hk] at this
        unfold setTags
        exact this
    obtain ⟨r1, r2, r3⟩ := ih _ hsets1 (by omega)
    unfold sel_emit
    rw [if_pos hflag]
    simp only
    by_cases hc : sets top.info.set < 2
    · rw [if_pos hc]
      have hz : List.count top.info.set (List.map (fun r => r.info.set) rest) = 0 := by omega
      have hnot : top.info.set ∉ setTags rest := List.count_eq_zero.mp hz
      refine ⟨?_, ?_, ?_⟩
      · rw [List.map_cons, List.nodup_cons]
        refine ⟨?_, r1⟩
        intro hmem
        obtain ⟨v, hv, hw⟩ := List.mem_map.mp hmem
        apply hnot
        have := r2 v hv
        rw [hw] at this
        exact this
      · intro v hv
        rcases List.mem_cons.mp hv with h1 | h1
        · rw [h1]
          exact List.mem_cons_self _ _
        · exact List.mem_cons_of_mem _ (r2 v h1)
      · rw [List.length_cons, r3]
        show _ = (List.toFinset (top.info.set :: setTags rest)).card
        rw [List.toFinset_cons, Finset.card_insert_of_not_mem
          (fun h => hnot (List.mem_toFinset.mp h))]
    · rw [if_neg hc]
      have hpos : 0 < List.count top.info.set (List.map (fun r => r.info.set) rest) := by omega
      have hmem : top.info.set ∈ setTags rest := List.count_pos_iff.mp hpos
      refine ⟨r1, fun v hv => List.mem_cons_of_mem _ (r2 v hv), ?_⟩
      rw [r3]
      show _ = (List.toFinset (top.info.set :: setTags rest)).card
      rw [List.toFinset_cons, Finset.card_insert_of_mem (List.mem_toFinset.mpr hmem)]

theorem indexedFrom_length {α : Type} : ∀ (l : List α) (n : Nat),
    (indexedFrom n l).length = l.length := by
  intro l
  induction l with
  | nil => intro n; rfl
  | cons x xs ih => intro n; simp [indexedFrom, ih]

/-- With `flag_uniqueset`, `do_query` returns results of pairwise different set tags (the
field `width` shares its storage with `set`), at most `numres` of them. -/
theorem do_query_uniqueset (db : dbSpaceImpl_true) (q : queryArg) (nc : Nat)
    (hflag : hasFlag q.flags flag_uniqueset = true)
    (hbound : db.m_info.length + q.numres < 4294967296)
    (V : List sim_value) (h : db.do_query q nc = .ok V) :
    (V.map (fun v => v.width)).Nodup ∧ V.length ≤ q.numres := by
  unfold dbSpaceImpl_true.do_query at h
  split at h
  · simp at h
  · cases hsc : score_phase db q nc with
    | error err => rw [hsc] at h; simp at h
    | ok p =>
      obtain ⟨scale, scores⟩ := p
      rw [hsc] at h
      simp only at h
      cases hsel : select_phase db q scores with
      | error err => rw [hsel] at h; simp at h
      | ok st =>
        rw [hsel] at h
        simp only [Except.ok.injEq] at h
        have hN : q.numres % 4294967296 = q.numres := Nat.mod_eq_of_lt (by omega)
        have hfin : UniqInv q.numres st ∧ st.pq.length ≤ st.need ∧
            st.pq.length ≤ db.m_info.length := by
          unfold select_phase at hsel
          rw [hN] at hsel
          cases hf : sel_fill q scores (indexedFrom 0 db.m_info)
              { pq := [], sets := fun _ => 0, need := q.numres } with
          | error err => rw [hf] at hsel; simp at hsel
          | ok p1 =>
            obtain ⟨st0, rest⟩ := p1
            rw [hf] at hsel
            simp only at hsel
            have hinit : UniqInv q.numres { pq := [], sets := fun _ => 0, need := q.numres } :=
              ⟨fun k => by simp [setTags], by simp [setTags]⟩
            obtain ⟨f1, f2, f3⟩ := sel_fill_uniqInv q.numres db.m_info.length q scores hflag
              (by omega) _ _ st0 rest hinit (Nat.zero_le _)
              (by simp [indexedFrom_length]) hf
            exact sel_replace_uniqInv q.numres db.m_info.length q scores hflag
              (by omega) rest st0 st f1 f2 f3 hsel
        obtain ⟨u1, u2, u3⟩ := hfin
        obtain ⟨e1, e2, e3⟩ := sel_emit_uniq q (invert_scale scale) hflag st.pq st.sets
          u1.sets_eq (by omega)
        rw [← h]
        refine ⟨?_, ?_⟩
        · rw [List.map_reverse]
          exact List.nodup_reverse.mpr e1
        · rw [List.length_reverse, e3]
          have := u1.need_eq
          omega

theorem sel_emit_fields (q : queryArg) (scale : Int) :
    ∀ (pq : List sim_result) (sets : Nat → Nat) (v : sim_value),
      v ∈ sel_emit q scale pq sets → ∃ r, r ∈ pq ∧ v.id = r.info.id ∧ v.width = r.info.set := by
  intro pq
  induction pq with
  | nil => intro sets v h; simp [sel_emit] at h
  | cons top rest ih =>
    intro sets v h
    unfold sel_emit at h
    split at h
    · simp only at h
      split at h
      · rcases List.mem_cons.mp h with h1 | h1
        · exact ⟨top, List.mem_cons_self _ _, by rw [h1], by rw [h1]; rfl⟩
        · obtain ⟨r, hr, hv⟩ := ih _ v h1
          exact ⟨r, List.mem_cons_of_mem _ hr, hv⟩
      · obtain ⟨r, hr, hv⟩ := ih _ v h
        exact ⟨r, List.mem_cons_of_mem _ hr, hv⟩
    · rcases List.mem_cons.mp h with h1 | h1
      · exact ⟨top, List.mem_cons_self _ _, by rw [h1], by rw [h1]; rfl⟩
      · obtain ⟨r, hr, hv⟩ := ih _ v h1
        exact ⟨r, List.mem_cons_of_mem _ hr, hv⟩

theorem select_phase_fromCatalog (db : dbSpaceImpl_true) (q : queryArg) (scores : List Int)
    (st : SelState) (hsel : select_phase db q scores = .ok st) :
    ∀ r, r ∈ st.pq → fromCatalog db.m_info q r := by
  unfold select_phase at hsel
  cases hf : sel_fill q scores (indexedFrom 0 db.m_info)
      { pq := [], sets := fun _ => 0, need := q.numres % 4294967296 } with
  | error err => rw [hf] at hsel; simp at hsel
  | ok p1 =>
    obtain ⟨st0, rest⟩ := p1
    rw [hf] at hsel
    simp only at hsel
    have h1 := sel_fill_fromCatalog db.m_info q scores _ _ st0 rest
      (fun e he => mem_indexedFrom _ _ e he) (fun r hr => by simp at hr) hf
    exact sel_replace_fromCatalog db.m_info q scores rest st0 st h1.2 h1.1 hsel

/-- Every result of `do_query` has the id and, as `width`, the set tag of an entry of the
catalog. -/
theorem do_query_results_tags (db : dbSpaceImpl_true) (q : queryArg) (nc : Nat)
    (V : List sim_value) (h : db.do_query q nc = .ok V) (v : sim_value) (hv : v ∈ V) :
    ∃ e, e ∈ db.m_info ∧ v.id = e.id ∧ v.width = e.set := by
  unfold dbSpaceImpl_true.do_query at h
  split at h
  · simp at h
  · cases hsc : score_phase db q nc with
    | error err => rw [hsc] at h; simp at h
    | ok p =>
      obtain ⟨scale, scores⟩ := p
      rw [hsc] at h
      simp only at h
      cases hsel : select_phase db q scores with
      | error err => rw [hsel] at h; simp at h
      | ok st =>
        rw [hsel] at h
        simp only [Except.ok.injEq] at h
        rw [← h, List.mem_reverse] at hv
        obtain ⟨r, hr, hid, hw⟩ := sel_emit_fields q _ _ _ v hv
        exact ⟨r.info, (select_phase_fromCatalog db q scores st hsel r hr).1, hid, hw⟩

/-- C15. For every query with the flag `uniqueset` on a read-only database (catalog size plus
result limit `N` below 2^32, the range of the counter `need`), whatever `queryImg` returns has
pairwise different set tags and at most `N` entries; the set tag of a result is its field
`width`, which is the `set` of the catalog entry of the result. -/
theorem uniqueset_results_distinct (db : dbSpaceImpl_true) (q : queryArg)
    (hflag : hasFlag q.flags flag_uniqueset = true)
    (hbound : db.m_info.length + q.numres < 4294967296)
    (V : List sim_value) (h : db.queryImg q = .ok V) :
    (V.map (fun v => v.width)).Nodup ∧ V.length ≤ q.numres ∧
    ∀ v, v ∈ V → ∃ e, e ∈ db.m_info ∧ v.id = e.id ∧ v.width = e.set := by
  unfold dbSpaceImpl_true.queryImg at h
  split at h
  · obtain ⟨h1, h2⟩ := do_query_uniqueset db q 1 hflag hbound V h
    exact ⟨h1, h2, fun v hv => do_query_results_tags db q 1 V h v hv⟩
  · obtain ⟨h1, h2⟩ := do_query_uniqueset db q 3 hflag hbound V h
    exact ⟨h1, h2, fun v hv => do_query_results_tags db q 3 V h v hv⟩

set_option maxRecDepth 100000 in
/-- C15 on the database of `sampleA`, `sampleB` and `sampleC` (`sampleA` and `sampleC` share the
set tag 800), queried with the signature of `sampleA`, limit 8 and `uniqueset`: of the set 800
only `sampleA` is returned. -/
theorem uniqueset_results_distinct_witness :
    sampleDbSets.queryImg (queryArg.ofImgData sampleA 8 flag_uniqueset)
      = .ok [{ id := 1, score := 104854551, width := 800, height := 600 },
             { id := 2, score := -15168853, width := 640, height := 480 }] ∧
    (([{ id := 1, score := 104854551, width := 800, height := 600 },
       { id := 2, score := -15168853, width := 640, height := 480 }] : List sim_value).map
        (fun v => v.width)).Nodup ∧
    ([{ id := 1, score := 104854551, width := 800, height := 600 },
      { id := 2, score := -15168853, width := 640, height := 480 }] : List sim_value).length
      ≤ (queryArg.ofImgData sampleA 8 flag_uniqueset).numres ∧
    ∀ v, v ∈ ([{ id := 1, score := 104854551, width := 800, height := 600 },
        { id := 2, score := -15168853, width := 640, height := 480 }] : List sim_value) →
      ∃ e, e ∈ sampleDbSets.m_info ∧ v.id = e.id ∧ v.width = e.set :=
  ⟨rfl, uniqueset_results_distinct sampleDbSets (queryArg.ofImgData sampleA 8 flag_uniqueset)
    rfl (by decide) _ rfl⟩

/-! ### Alter mode: the invariant of slots, records and id table -/

theorem sigOf_of_find (db : dbSpaceAlter) (id : imageId) (k : Nat)
    (h : imageIdMap_find db.m_images id = some k) : db.sigOf id = db.get_sig k := by
  unfold dbSpaceAlter.sigOf
  rw [h]

theorem sigOf_of_absent (db : dbSpaceAlter) (id : imageId)
    (h : imageIdMap_find db.m_images id = none) : db.sigOf id = none := by
  unfold dbSpaceAlter.sigOf
  rw [h]

/-- With the invariant, an id has a record exactly when it is in the map. -/
theorem sigOf_isSome_iff (db : dbSpaceAlter) (hinv : AlterInv db) (id : imageId) :
    (db.sigOf id).isSome = db.hasImage id := by
  unfold dbSpaceAlter.hasImage
  cases hf : imageIdMap_find db.m_images id with
  | none => rw [sigOf_of_absent db id hf]; rfl
  | some k =>
    rw [sigOf_of_find db id k hf]
    obtain ⟨sig, hs, _⟩ := hinv.recs id k (imageIdMap_find_some_mem _ _ _ hf)
    rw [hs]; rfl

/-- The state after `store` of a new image in a slot that is neither in use nor deleted. -/
theorem alter_store_inv (d : dbSpaceAlter) (img : ImgData) (ind : Nat)
    (habs : img.id ∉ d.m_images.map Prod.fst)
    (hslots : (d.m_images.map Prod.snd ++ d.m_deleted).Nodup)
    (hind : ind ∉ d.m_images.map Prod.snd ++ d.m_deleted)
    (hlt : ∀ k, k ∈ d.m_images.map Prod.snd ++ d.m_deleted →
      k < d.m_images.length + 1 + d.m_deleted.length)
    (hindlt : ind < d.m_images.length + 1 + d.m_deleted.length)
    (hrecs : ∀ id k, (id, k) ∈ d.m_images → ∃ sig, d.get_sig k = some sig ∧ sig.id = id)
    (hids : d.m_rewriteIDs = false → ∀ id k, (id, k) ∈ d.m_images →
      d.file_ids (d.m_imgOff + k * sizeof_imageId) = some id) :
    ((d.store img ind).m_images.map Prod.snd ++ (d.store img ind).m_deleted).Nodup ∧
    (∀ k, k ∈ (d.store img ind).m_images.map Prod.snd ++ (d.store img ind).m_deleted →
      k < (d.store img ind).m_images.length + (d.store img ind).m_deleted.length) ∧
    (∀ id k, (id, k) ∈ (d.store img ind).m_images →
      ∃ sig, (d.store img ind).get_sig k = some sig ∧ sig.id = id) ∧
    ((d.store img ind).m_rewriteIDs = false → ∀ id k, (id, k) ∈ (d.store img ind).m_images →
      (d.store img ind).file_ids ((d.store img ind).m_imgOff + k * sizeof_imageId) = some id) ∧
    (∀ x, (d.store img ind).sigOf x = if x = img.id then some img else d.sigOf x) := by
  have hmi : (d.store img ind).m_images = d.m_images ++ [(img.id, ind)] :=
    imageIdMap_set_of_absent d.m_images img.id ind habs
  have hdel : (d.store img ind).m_deleted = d.m_deleted := rfl
  have hsd : sizeof_ImgData = 520 := rfl
  have hsz : sizeof_imageId = 8 := rfl
  have hget : ∀ k, (d.store img ind).get_sig k
      = if k = ind then some img else d.get_sig k := by
    intro k
    show write_sig_at d.file_sigs (d.m_sigOff + ind * sizeof_ImgData) img
      (d.m_sigOff + k * sizeof_ImgData) = _
    unfold write_sig_at dbSpaceAlter.get_sig
    by_cases hk : k = ind
    · rw [hk, if_pos rfl, if_pos rfl]
    · rw [if_neg hk, if_neg (by rw [hsd]; omega)]
  have hslot_ne : ∀ id k, (id, k) ∈ d.m_images → k ≠ ind := by
    intro id k hm e
    apply hind
    rw [← e]
    exact List.mem_append_left _ (List.mem_map.mpr ⟨(id, k), hm, rfl⟩)
  refine ⟨?_, ?_, ?_, ?_, ?_⟩
  · rw [hmi, hdel, List.map_append, List.map_cons, List.map_nil]
    have hperm : (List.map Prod.snd d.m_images ++ [ind] ++ d.m_deleted).Perm
        (ind :: (List.map Prod.snd d.m_images ++ d.m_deleted)) := by
      rw [List.append_assoc]
      exact (List.perm_middle)
    rw [hperm.nodup_iff, List.nodup_cons]
    exact ⟨hind, hslots⟩
  · intro k hk
    rw [hmi, hdel, List.map_append, List.map_cons, List.map_nil] at hk
    rw [hmi, hdel, List.length_append, List.length_singleton]
    rcases List.mem_append.mp hk with h1 | h1
    · rcases List.mem_append.mp h1 with h2 | h2
      · exact hlt k (List.mem_append_left _ h2)
      · rw [List.mem_singleton.mp h2]; exact hindlt
    · exact hlt k (List.mem_append_right _ h1)
  · intro id k hm
    rw [hmi] at hm
    rw [hget]
    rcases List.mem_append.mp hm with h1 | h1
    · rw [if_neg (hslot_ne id k h1)]
      exact hrecs id k h1
    · have e := List.mem_singleton.mp h1
      injection e with e1 e2
      rw [e2, if_pos rfl]
      exact ⟨img, rfl, e1.symm⟩
  · intro hrw id k hm
    have hrw1 : d.m_rewriteIDs = false := hrw
    rw [hmi] at hm
    show (if d.m_rewriteIDs then d.file_ids
          else write_id_at d.file_ids (d.m_imgOff + ind * sizeof_imageId) img.id)
        (d.m_imgOff + k * sizeof_imageId) = some id
    rw [hrw1]
    simp only [Bool.false_eq_true, if_false]
    unfold write_id_at
    rcases List.mem_append.mp hm with h1 | h1
    · have := hslot_ne id k h1
      rw [if_neg (by rw [hsz]; omega)]
      exact hids hrw1 id k h1
    · have e := List.mem_singleton.mp h1
      injection e with e1 e2
      rw [e2, if_pos rfl, e1]
  · intro x
    by_cases hx : x = img.id
    · rw [if_pos hx, hx]
      have hf : imageIdMap_find (d.store img ind).m_images img.id = some ind :=
        imageIdMap_find_set_self d.m_images img.id ind habs
      rw [sigOf_of_find _ _ _ hf, hget, if_pos rfl]
    · rw [if_neg hx]
      have hf : imageIdMap_find (d.store img ind).m_images x = imageIdMap_find d.m_images x :=
        imageIdMap_find_set_other d.m_images img.id x ind hx
      unfold dbSpaceAlter.sigOf
      rw [hf]
      cases hfx : imageIdMap_find d.m_images x with
      | none => rfl
      | some k =>
        simp only
        rw [hget, if_neg (hslot_ne x k (imageIdMap_find_some_mem _ _ _ hfx))]

theorem imageIdMap_erase_perm {T : Type} (m : List (imageId × T)) (id : imageId) (v : T)
    (hnd : (m.map Prod.fst).Nodup) (h : (id, v) ∈ m) :
    m.Perm ((id, v) :: imageIdMap_erase m id) := by
  unfold imageIdMap_erase
  induction m with
  | nil => simp at h
  | cons p m ih =>
    simp only [List.map_cons, List.nodup_cons] at hnd
    rcases List.mem_cons.mp h with h1 | h1
    · subst h1
      have hf : (m.filter (fun p => !(p.1 == id))) = m := by
        apply List.filter_eq_self.mpr
        intro q hq
        have : q.1 ≠ id := fun e => hnd.1 (by
          show id ∈ List.map Prod.fst m
          rw [← e]
          exact List.mem_map_of_mem Prod.fst hq)
        simpa using this
      simp only [List.filter, beq_self_eq_true, Bool.not_true]
      rw [hf]
    · have hp : p.1 ≠ id := fun e => hnd.1 (by
        rw [e]
        exact List.mem_map_of_mem Prod.fst h1)
      have hb : (p.1 == id) = false := by simpa using hp
      simp only [List.filter, hb, Bool.not_false]
      exact (List.Perm.cons p (ih hnd.2 h1)).trans (List.Perm.swap _ _ _)

theorem imageIdMap_erase_subset {T : Type} (m : List (imageId × T)) (id : imageId)
    (p : imageId × T) (h : p ∈ imageIdMap_erase m id) : p ∈ m := by
  unfold imageIdMap_erase at h
  exact (List.mem_filter.mp h).1

/-- `removeImage` keeps the invariant and drops the record of the id. -/
theorem alter_remove_inv (db : dbSpaceAlter) (id : imageId) (hinv : AlterInv db) :
    AlterInv (db.removeImage id).1 ∧
    ∀ x, (db.removeImage id).1.sigOf x = if x = id then none else db.sigOf x := by
  have hro := hinv.wf.1
  have hnd := hinv.wf.2.1
  cases hf : imageIdMap_find db.m_images id with
  | none =>
    have hres : db.removeImage id = (db, some .invalid_id) := by
      unfold dbSpaceAlter.removeImage
      simp [hro, hf]
    rw [hres]
    refine ⟨hinv, ?_⟩
    intro x
    by_cases hx : x = id
    · rw [if_pos hx, hx]; exact sigOf_of_absent db id hf
    · rw [if_neg hx]
  | some ind =>
    have hmem : (id, ind) ∈ db.m_images := imageIdMap_find_some_mem _ _ _ hf
    have hhas : db.hasImage id = true := by
      unfold dbSpaceAlter.hasImage; rw [hf]; rfl
    have hres : db.removeImage id
        = ({ db with m_deleted := db.m_deleted ++ [ind],
                     m_images := imageIdMap_erase db.m_images id }, none) := by
      unfold dbSpaceAlter.removeImage
      simp only [hro, Bool.false_eq_true, if_false, hf]
    have hwf := (alter_remove_present db id hinv.wf hhas).2.1
    rw [hres] at hwf ⊢
    have hperm := imageIdMap_erase_perm db.m_images id ind hnd hmem
    have hlen : (imageIdMap_erase db.m_images id).length + 1 = db.m_images.length := by
      have := hperm.length_eq
      rw [List.length_cons] at this
      omega
    have hp2 : (List.map Prod.snd (imageIdMap_erase db.m_images id) ++ (db.m_deleted ++ [ind])).Perm
        (List.map Prod.snd db.m_images ++ db.m_deleted) := by
      have h1 : (List.map Prod.snd db.m_images).Perm
          (ind :: List.map Prod.snd (imageIdMap_erase db.m_images id)) := hperm.map Prod.snd
      have h2 : (List.map Prod.snd (imageIdMap_erase db.m_images id) ++ (db.m_deleted ++ [ind])).Perm
          (ind :: (List.map Prod.snd (imageIdMap_erase db.m_images id) ++ db.m_deleted)) := by
        rw [← List.append_assoc]
        exact List.perm_append_singleton _ _
      exact h2.trans ((List.Perm.append_right db.m_deleted h1).symm)
    refine ⟨⟨hwf, ?_, ?_, ?_, ?_⟩, ?_⟩
    · exact hp2.nodup_iff.mpr hinv.slots_nodup
    · intro k hk
      have := hinv.slots_lt k (hp2.subset hk)
      show k < (imageIdMap_erase db.m_images id).length + (db.m_deleted ++ [ind]).length
      rw [List.length_append, List.length_singleton]
      omega
    · intro x k hm
      exact hinv.recs x k (imageIdMap_erase_subset _ _ _ hm)
    · intro hrw x k hm
      exact hinv.ids hrw x k (imageIdMap_erase_subset _ _ _ hm)
    · intro x
      unfold dbSpaceAlter.sigOf
      show (match imageIdMap_find (imageIdMap_erase db.m_images id) x with
        | none => none
        | some k => db.file_sigs (db.m_sigOff + k * sizeof_ImgData)) = _
      by_cases hx : x = id
      · rw [if_pos hx, hx, imageIdMap_find_erase_same]
      · rw [if_neg hx, imageIdMap_find_erase_other _ _ _ hx]
        rfl

theorem read_sigs_get (f : Nat → Option ImgData) (n : Nat) : ∀ (off : Nat) (l : List ImgData),
    read_sigs f off n = some l →
    l.length = n ∧ ∀ k, k < n → f (off + k * sizeof_ImgData) = l[k]? := by
  induction n with
  | zero =>
    intro off l h
    simp only [read_sigs, Option.some.injEq] at h
    rw [← h]
    exact ⟨rfl, fun k hk => absurd hk (Nat.not_lt_zero k)⟩
  | succ n ih =>
    intro off l h
    unfold read_sigs at h
    cases h0 : f off with
    | none => rw [h0] at h; simp at h
    | some s =>
      cases hr : read_sigs f (off + sizeof_ImgData) n with
      | none => rw [h0, hr] at h; simp at h
      | some rest =>
        rw [h0, hr] at h
        simp only [Option.some.injEq] at h
        obtain ⟨hl, hg⟩ := ih (off + sizeof_ImgData) rest hr
        rw [← h]
        refine ⟨by simp [hl], ?_⟩
        intro k hk
        cases k with
        | zero => simp [h0]
        | succ k =>
          have := hg k (by omega)
          rw [show off + (k + 1) * sizeof_ImgData = off + sizeof_ImgData + k * sizeof_ImgData
            by ring, this]
          simp

theorem write_sigs_get_other (l : List ImgData) : ∀ (f : Nat → Option ImgData) (off o : Nat),
    o < off → write_sigs f off l o = f o := by
  induction l with
  | nil => intro f off o _; rfl
  | cons s l ih =>
    intro f off o ho
    simp only [write_sigs]
    rw [ih _ _ _ (by omega)]
    unfold write_sig_at
    rw [if_neg (by omega)]

theorem write_sigs_get_written (l : List ImgData) : ∀ (f : Nat → Option ImgData) (off k : Nat),
    k < l.length → write_sigs f off l (off + k * sizeof_ImgData) = l[k]? := by
  induction l with
  | nil => intro f off k hk; simp at hk
  | cons s l ih =>
    intro f off k hk
    have hsd : sizeof_ImgData = 520 := rfl
    cases k with
    | zero =>
      simp only [Nat.zero_mul, Nat.add_zero, write_sigs]
      rw [write_sigs_get_other _ _ _ _ (by rw [hsd]; omega)]
      simp [write_sig_at]
    | succ k =>
      simp only [write_sigs]
      have := ih (write_sig_at f off s) (off + sizeof_ImgData) k (by simpa using hk)
      rw [show off + (k + 1) * sizeof_ImgData = off + sizeof_ImgData + k * sizeof_ImgData by ring,
        this]
      simp

theorem imageIdMap_find_map_snd (m : List (imageId × Nat)) (g : Nat → Nat) (x : imageId) :
    imageIdMap_find (m.map (fun p => (p.1, g p.2))) x = (imageIdMap_find m x).map g := by
  unfold imageIdMap_find
  induction m with
  | nil => rfl
  | cons p m ih =>
    by_cases hp : p.1 = x
    · simp [List.find?, hp]
    · have hb : (p.1 == x) = false := by simpa using hp
      simp only [List.map_cons, List.find?, hb]
      exact ih

/-- `addImageData` of an id that is absent returns, keeps the invariant and stores the record. -/
theorem alter_add_inv (db : dbSpaceAlter) (img : ImgData) (hinv : AlterInv db)
    (h : db.hasImage img.id = false) :
    (db.addImageData img).2 = none ∧ AlterInv (db.addImageData img).1 ∧
    ∀ x, (db.addImageData img).1.sigOf x = if x = img.id then some img else db.sigOf x := by
  obtain ⟨hnone, hwf2, _⟩ := alter_add_fresh db img hinv.wf h
  obtain ⟨hro, hnd, hrec, hj1, hj2⟩ := hinv.wf
  have habs : img.id ∉ db.m_images.map Prod.fst := by
    intro hm
    have := (alter_hasImage_iff db img.id).mpr hm
    rw [h] at this; exact absurd this (by simp)
  have hsz : sizeof_imageId = 8 := rfl
  have hsd : sizeof_ImgData = 520 := rfl
  have hrn : resize_numrel = 16 := by decide
  -- in each case the result is `store` on a state `d` that satisfies the premises
  have key : ∀ (d : dbSpaceAlter) (ind : Nat),
      db.addImageData img = (d.store img ind, none) →
      img.id ∉ d.m_images.map Prod.fst →
      (d.m_images.map Prod.snd ++ d.m_deleted).Nodup →
      ind ∉ d.m_images.map Prod.snd ++ d.m_deleted →
      (∀ k, k ∈ d.m_images.map Prod.snd ++ d.m_deleted →
        k < d.m_images.length + 1 + d.m_deleted.length) →
      ind < d.m_images.length + 1 + d.m_deleted.length →
      (∀ id k, (id, k) ∈ d.m_images → ∃ sig, d.get_sig k = some sig ∧ sig.id = id) →
      (d.m_rewriteIDs = false → ∀ id k, (id, k) ∈ d.m_images →
        d.file_ids (d.m_imgOff + k * sizeof_imageId) = some id) →
      (∀ x, d.sigOf x = db.sigOf x) →
      (db.addImageData img).2 = none ∧ AlterInv (db.addImageData img).1 ∧
      ∀ x, (db.addImageData img).1.sigOf x = if x = img.id then some img else db.sigOf x := by
    intro d ind hres a1 a2 a3 a4 a5 a6 a7 a8
    obtain ⟨s1, s2, s3, s4, s5⟩ := alter_store_inv d img ind a1 a2 a3 a4 a5 a6 a7
    rw [hres] at hwf2 ⊢
    refine ⟨rfl, ⟨hwf2, s1, s2, s3, s4⟩, ?_⟩
    intro x
    rw [s5 x, a8 x]
  cases hdel : db.m_deleted.getLast? with
  | some ind =>
    have hne : db.m_deleted ≠ [] := by
      intro e; rw [e] at hdel; simp at hdel
    have hsplit : db.m_deleted.dropLast ++ [ind] = db.m_deleted :=
      List.dropLast_append_getLast? ind (by rw [hdel]; rfl)
    have hdl : db.m_deleted.dropLast.length + 1 = db.m_deleted.length := by
      have := congrArg List.length hsplit
      rw [List.length_append, List.length_singleton] at this
      exact this
    have hres : db.addImageData img
        = (({ db with m_deleted := db.m_deleted.dropLast } : dbSpaceAlter).store img ind, none) := by
      unfold dbSpaceAlter.addImageData
      simp only [hro, h, Bool.false_eq_true, if_false, hdel]
    have hnd2 : ((List.map Prod.snd db.m_images ++ db.m_deleted.dropLast) ++ [ind]).Nodup := by
      rw [List.append_assoc, hsplit]
      exact hinv.slots_nodup
    have hsub : ∀ k, k ∈ List.map Prod.snd db.m_images ++ db.m_deleted.dropLast →
        k ∈ List.map Prod.snd db.m_images ++ db.m_deleted := by
      intro k hk
      rw [← hsplit, ← List.append_assoc]
      exact List.mem_append_left _ hk
    apply key _ ind hres habs
    · exact (List.nodup_append.mp hnd2).1
    · intro hk
      exact (List.nodup_append.mp hnd2).2.2 hk (List.mem_singleton_self ind) 
    · intro k hk
      have := hinv.slots_lt k (hsub k hk)
      show k < db.m_images.length + 1 + db.m_deleted.dropLast.length
      omega
    · have := hinv.slots_lt ind (by
        rw [← hsplit, ← List.append_assoc]
        exact List.mem_append_right _ (List.mem_singleton_self ind))
      show ind < db.m_images.length + 1 + db.m_deleted.dropLast.length
      omega
    · exact hinv.recs
    · exact hinv.ids
    · intro x; rfl
  | none =>
    have hdn : db.m_deleted = [] := by
      cases hd : db.m_deleted with
      | nil => rfl
      | cons a l => rw [hd] at hdel; simp at hdel
    have hslt : ∀ k, k ∈ List.map Prod.snd db.m_images → k < db.m_images.length := by
      intro k hk
      have := hinv.slots_lt k (List.mem_append_left _ hk)
      rw [hdn] at this
      simpa using this
    have hsnd : (List.map Prod.snd db.m_images).Nodup := by
      have := hinv.slots_nodup
      rw [hdn, List.append_nil] at this
      exact this
    simp only [hdn, List.length_nil, Nat.add_zero] at hrec hj1
    by_cases hfull : db.m_sigOff ≤ db.m_imgOff + (db.m_images.length + 1) * sizeof_imageId
    · have h16 : ¬ db.m_images.length < resize_numrel := by
        rw [hrn]; rw [hsz] at hfull hj2; omega
      have hn16 : 16 ≤ db.m_images.length := by rw [hrn] at h16; omega
      obtain ⟨sigs, hsigs, hslen⟩ := read_sigs_isSome db.file_sigs resize_numrel db.m_sigOff
        (fun k hk => hrec k (by omega))
      obtain ⟨_, hsget⟩ := read_sigs_get db.file_sigs resize_numrel db.m_sigOff sigs hsigs
      obtain ⟨db1, hdb1⟩ : ∃ db1 : dbSpaceAlter, db1 =
          { db with m_sigOff := db.m_sigOff + resize_numrel * sizeof_ImgData,
                    file_sigs := write_sigs db.file_sigs
                      (db.m_sigOff + db.m_images.length * sizeof_ImgData) sigs,
                    m_images := db.m_images.map
                      (fun p => (p.1, if resize_numrel ≤ p.2 then p.2 - resize_numrel
                                      else p.2 + (db.m_images.length - resize_numrel))),
                    m_rewriteIDs := true } := ⟨_, rfl⟩
      have hres : db.resize_header = (db1, none) := by
        unfold dbSpaceAlter.resize_header
        simp only [hro, Bool.false_eq_true, if_false, h16, hsigs, hdb1]
      have hso : db1.m_sigOff = db.m_sigOff + resize_numrel * sizeof_ImgData := by rw [hdb1]
      have hio : db1.m_imgOff = db.m_imgOff := by rw [hdb1]
      have hd1 : db1.m_deleted = [] := by rw [hdb1]; exact hdn
      have hrw1 : db1.m_rewriteIDs = true := by rw [hdb1]
      have hfs : db1.file_sigs = write_sigs db.file_sigs
          (db.m_sigOff + db.m_images.length * sizeof_ImgData) sigs := by rw [hdb1]
      have hmi1 : db1.m_images = db.m_images.map
          (fun p => (p.1, if resize_numrel ≤ p.2 then p.2 - resize_numrel
                          else p.2 + (db.m_images.length - resize_numrel))) := by rw [hdb1]
      have hkeys1 : db1.m_images.map Prod.fst = db.m_images.map Prod.fst := by
        rw [hmi1]; simp [List.map_map, Function.comp_def]
      have hsnd1 : db1.m_images.map Prod.snd = (db.m_images.map Prod.snd).map
          (fun k => if resize_numrel ≤ k then k - resize_numrel
                    else k + (db.m_images.length - resize_numrel)) := by
        rw [hmi1]; simp [List.map_map, Function.comp_def]
      have hlen1 : db1.m_images.length = db.m_images.length := by rw [hmi1]; simp
      have hpass : ¬ (db1.m_sigOff ≤ db1.m_imgOff + (db.m_images.length + 1) * sizeof_imageId) := by
        rw [hso, hio, hrn, hsd, hsz]; rw [hsz] at hj1; omega
      have hadd : db.addImageData img = (db1.store img db.m_images.length, none) := by
        unfold dbSpaceAlter.addImageData
        simp only [hro, h, Bool.false_eq_true, if_false, hdel, hfull, if_true, hres, hpass]
      -- the record of old slot `k` is in the new slot
      have hgetC : ∀ k, k < db.m_images.length →
          db1.get_sig (if resize_numrel ≤ k then k - resize_numrel
                       else k + (db.m_images.length - resize_numrel)) = db.get_sig k := by
        intro k hk
        unfold dbSpaceAlter.get_sig
        rw [hso, hfs]
        by_cases hge : resize_numrel ≤ k
        · rw [if_pos hge]
          rw [show db.m_sigOff + resize_numrel * sizeof_ImgData + (k - resize_numrel) * sizeof_ImgData
            = db.m_sigOff + k * sizeof_ImgData by rw [hsd]; omega]
          exact write_sigs_get_other _ _ _ _ (by rw [hsd]; omega)
        · rw [if_neg hge]
          rw [show db.m_sigOff + resize_numrel * sizeof_ImgData
              + (k + (db.m_images.length - resize_numrel)) * sizeof_ImgData
            = db.m_sigOff + db.m_images.length * sizeof_ImgData + k * sizeof_ImgData
            by rw [hsd, hrn]; omega]
          rw [write_sigs_get_written _ _ _ _ (by omega), ← hsget k (by omega)]
      have hslt1 : ∀ k, k ∈ List.map Prod.snd db1.m_images → k < db.m_images.length := by
        intro k hk
        rw [hsnd1] at hk
        obtain ⟨k0, hk0, e⟩ := List.mem_map.mp hk
        have := hslt k0 hk0
        rw [← e, hrn]
        split <;> omega
      apply key db1 db.m_images.length hadd
      · rw [hkeys1]; exact habs
      · rw [hd1, List.append_nil, hsnd1]
        apply List.Nodup.map_on _ hsnd
        intro a ha b hb e
        have h1 := hslt a ha
        have h2 := hslt b hb
        rw [hrn] at e
        split at e <;> split at e <;> omega
      · rw [hd1, List.append_nil]
        intro hk
        have := hslt1 _ hk
        omega
      · intro k hk
        rw [hd1, List.append_nil] at hk
        have := hslt1 k hk
        rw [hlen1]; omega
      · rw [hlen1]; omega
      · intro id k' hm
        rw [hmi1] at hm
        obtain ⟨p, hp, e⟩ := List.mem_map.mp hm
        injection e with e1 e2
        have hpk : p.2 < db.m_images.length := hslt p.2 (List.mem_map_of_mem Prod.snd hp)
        rw [← e2, hgetC p.2 hpk, ← e1]
        exact hinv.recs p.1 p.2 hp
      · intro hf
        rw [hrw1] at hf
        exact absurd hf (by simp)
      · intro x
        unfold dbSpaceAlter.sigOf
        rw [hmi1, imageIdMap_find_map_snd db.m_images
          (fun k => if resize_numrel ≤ k then k - resize_numrel
                    else k + (db.m_images.length - resize_numrel)) x]
        cases hfx : imageIdMap_find db.m_images x with
        | none => rfl
        | some k =>
          simp only [Option.map_some']
          have hk : k < db.m_images.length :=
            hslt k (List.mem_map.mpr ⟨(x, k), imageIdMap_find_some_mem _ _ _ hfx, rfl⟩)
          exact hgetC k hk
    · have hadd : db.addImageData img = (db.store img db.m_images.length, none) := by
        unfold dbSpaceAlter.addImageData
        simp only [hro, h, Bool.false_eq_true, if_false, hdel, hfull]
      apply key db db.m_images.length hadd habs hinv.slots_nodup
      · rw [hdn, List.append_nil]
        intro hk
        have := hslt _ hk
        omega
      · intro k hk
        have := hinv.slots_lt k hk
        omega
      · omega
      · exact hinv.recs
      · exact hinv.ids
      · intro x; rfl

/-! ### Alter mode: move_deleted -/

theorem dropWhile_ge_countP (n : Nat) (l : List Nat) :
    (l.dropWhile (fun d => decide (n ≤ d))).countP (fun d => decide (d < n))
      = l.countP (fun d => decide (d < n)) := by
  induction l with
  | nil => rfl
  | cons a l ih =>
    by_cases h : n ≤ a
    · have h1 : decide (n ≤ a) = true := by simpa using h
      have h2 : decide (a < n) = false := by simp; omega
      rw [List.dropWhile_cons, if_pos h1, ih, List.countP_cons, h2]
      simp
    · have h1 : ¬ (decide (n ≤ a) = true) := by simpa using h
      rw [List.dropWhile_cons, if_neg h1]

theorem dropWhile_ge_head (n : Nat) (l : List Nat) (d : Nat) (ds : List Nat)
    (h : l.dropWhile (fun d => decide (n ≤ d)) = d :: ds) : d < n := by
  induction l with
  | nil => simp at h
  | cons a l ih =>
    by_cases ha : n ≤ a
    · have h1 : decide (n ≤ a) = true := by simpa using ha
      rw [List.dropWhile_cons, if_pos h1] at h
      exact ih h
    · have h1 : ¬ (decide (n ≤ a) = true) := by simpa using ha
      rw [List.dropWhile_cons, if_neg h1] at h
      injection h with e1 e2
      omega

theorem countP_eq_zero_all_ge (n : Nat) (l : List Nat)
    (h : l.countP (fun d => decide (d < n)) = 0) : l.dropWhile (fun d => decide (n ≤ d)) = [] := by
  induction l with
  | nil => rfl
  | cons a l ih =>
    rw [List.countP_cons] at h
    have h0 : l.countP (fun d => decide (d < n)) = 0 := by omega
    have ha : ¬ (a < n) := by
      intro hlt
      have : decide (a < n) = true := by simpa using hlt
      rw [this] at h
      simp at h
    have h1 : decide (n ≤ a) = true := by simp; omega
    rw [List.dropWhile_cons, if_pos h1]
    exact ih h0

theorem write_sig_at_isSome_mono (f : Nat → Option ImgData) (off : Nat) (s : ImgData) (o : Nat)
    (h : (f o).isSome = true) : (write_sig_at f off s o).isSome = true :=
  write_sig_at_isSome f off s o (Or.inl h)

/-- The loop of `move_deleted`: when as many entries sit at or past the new end `n` as there are
holes below `n`, every hole below `n` is filled, no deleted slot is left over, the ids are
unchanged, every entry ends below `n` with its own record, and (unless the id table is to be
rewritten) with its id in the id table. -/
theorem move_deleted_loop_spec (n sigOff imgOff : Nat) (rw0 : Bool) :
    ∀ (imgs : List (imageId × Nat)) (del : List Nat) (fs : Nat → Option ImgData)
      (fi : Nat → Option imageId),
      (imgs.map Prod.snd ++ del).Nodup →
      (imgs.map Prod.snd).countP (fun k => decide (n ≤ k)) = del.countP (fun d => decide (d < n)) →
      (∀ id k, (id, k) ∈ imgs → ∃ sig, fs (sigOff + k * sizeof_ImgData) = some sig ∧ sig.id = id) →
      (rw0 = false → ∀ id k, (id, k) ∈ imgs → fi (imgOff + k * sizeof_imageId) = some id) →
      ∃ imgs1 fs1 fi1,
        move_deleted_loop n sigOff imgOff rw0 imgs del fs fi = (imgs1, [], fs1, fi1, none) ∧
        imgs1.map Prod.fst = imgs.map Prod.fst ∧
        (imgs1.map Prod.snd).Nodup ∧
        (∀ k, k ∈ imgs1.map Prod.snd → k < n ∧ k ∈ imgs.map Prod.snd ++ del) ∧
        (∀ id k1, (id, k1) ∈ imgs1 → ∃ k, (id, k) ∈ imgs ∧
          fs1 (sigOff + k1 * sizeof_ImgData) = fs (sigOff + k * sizeof_ImgData)) ∧
        (rw0 = false → ∀ id k1, (id, k1) ∈ imgs1 →
          fi1 (imgOff + k1 * sizeof_imageId) = some id) ∧
        (∀ o, (∀ x, x ∈ del → o ≠ sigOff + x * sizeof_ImgData) → fs1 o = fs o) ∧
        (∀ o, (∀ x, x ∈ del → o ≠ imgOff + x * sizeof_imageId) → fi1 o = fi o) ∧
        (∀ o, (fs o).isSome = true → (fs1 o).isSome = true) := by
  intro imgs
  have hsd : sizeof_ImgData = 520 := rfl
  have hsz : sizeof_imageId = 8 := rfl
  induction imgs with
  | nil =>
    intro del fs fi _ hcnt _ _
    have hz : del.countP (fun d => decide (d < n)) = 0 := by
      rw [← hcnt]; rfl
    refine ⟨[], fs, fi, ?_, rfl, List.nodup_nil, ?_, ?_, ?_, fun _ _ => rfl, fun _ _ => rfl,
      fun _ h => h⟩
    · unfold move_deleted_loop
      rw [countP_eq_zero_all_ge n del hz]
    · intro k hk; simp at hk
    · intro id k hk; simp at hk
    · intro _ id k hk; simp at hk
  | cons p rest ih =>
    intro del fs fi hnd hcnt hrecs hids
    have hsub : (del.dropWhile (fun d => decide (n ≤ d))).Sublist del :=
      List.dropWhile_sublist _
    have hcnt2 := dropWhile_ge_countP n del
    cases hdw : del.dropWhile (fun d => decide (n ≤ d)) with
    | nil =>
      -- no hole below `n` is left: every remaining entry is below `n`
      rw [hdw] at hcnt2
      have hz : ((p :: rest).map Prod.snd).countP (fun k => decide (n ≤ k)) = 0 := by
        rw [hcnt, ← hcnt2]; rfl
      have hall : ∀ k, k ∈ (p :: rest).map Prod.snd → k < n := by
        intro k hk
        have := List.countP_eq_zero.mp hz k hk
        simpa using this
      refine ⟨p :: rest, fs, fi, ?_, rfl, ?_, ?_, ?_, ?_, fun _ _ => rfl, fun _ _ => rfl,
        fun _ h => h⟩
      · unfold move_deleted_loop
        rw [hdw]
      · exact (List.nodup_append.mp hnd).1
      · intro k hk
        exact ⟨hall k hk, List.mem_append_left _ hk⟩
      · intro id k hm
        exact ⟨k, hm, rfl⟩
      · intro hr id k hm
        exact hids hr id k hm
    | cons d ds =>
      have hdn : d < n := dropWhile_ge_head n del d ds hdw
      rw [hdw] at hsub hcnt2
      have hdmem : d ∈ del := hsub.subset (List.mem_cons_self _ _)
      have hdsmem : ∀ x, x ∈ ds → x ∈ del := fun x hx => hsub.subset (List.mem_cons_of_mem _ hx)
      have hnd_del : del.Nodup := (List.nodup_append.mp hnd).2.1
      have hnd_dds : (d :: ds).Nodup := hnd_del.sublist hsub
      have hdisj : ∀ k, k ∈ (p :: rest).map Prod.snd → k ∉ del :=
        fun k hk hk2 => (List.nodup_append.mp hnd).2.2 hk hk2
      have hnd_imgs : ((p :: rest).map Prod.snd).Nodup := (List.nodup_append.mp hnd).1
      rw [List.map_cons, List.nodup_cons] at hnd_imgs
      have hrest_recs : ∀ id k, (id, k) ∈ rest →
          ∃ sig, fs (sigOff + k * sizeof_ImgData) = some sig ∧ sig.id = id :=
        fun id k hm => hrecs id k (List.mem_cons_of_mem _ hm)
      have hrest_ids : rw0 = false → ∀ id k, (id, k) ∈ rest →
          fi (imgOff + k * sizeof_imageId) = some id :=
        fun hr id k hm => hids hr id k (List.mem_cons_of_mem _ hm)
      by_cases hp : p.2 < n
      · -- the entry stays where it is
        have hcnt3 : (rest.map Prod.snd).countP (fun k => decide (n ≤ k))
            = (d :: ds).countP (fun d => decide (d < n)) := by
          rw [hcnt2, ← hcnt, List.map_cons, List.countP_cons]
          have : decide (n ≤ p.2) = false := by simp; omega
          rw [this]
          simp
        have hnd3 : (rest.map Prod.snd ++ (d :: ds)).Nodup := by
          apply List.nodup_append.mpr
          refine ⟨hnd_imgs.2, hnd_dds, ?_⟩
          intro k hk hk2
          exact hdisj k (List.mem_cons_of_mem _ hk) (hsub.subset hk2)
        obtain ⟨imgs1, fs1, fi1, hrun, c1, c2, c3, c4, c5, c6, c7, c8⟩ :=
          ih (d :: ds) fs fi hnd3 hcnt3 hrest_recs hrest_ids
        have hpdel : p.2 ∉ del := hdisj p.2 (List.mem_cons_self _ _)
        refine ⟨p :: imgs1, fs1, fi1, ?_, ?_, ?_, ?_, ?_, ?_, ?_, ?_, c8⟩
        · rw [move_deleted_loop, hdw]
          simp only
          rw [if_pos hp, hrun]
        · rw [List.map_cons, List.map_cons, c1]
        · rw [List.map_cons, List.nodup_cons]
          refine ⟨?_, c2⟩
          intro hk
          rcases List.mem_append.mp (c3 p.2 hk).2 with h1 | h1
          · exact hnd_imgs.1 h1
          · exact hpdel (hsub.subset h1)
        · intro k hk
          rw [List.map_cons] at hk
          rcases List.mem_cons.mp hk with h1 | h1
          · rw [h1]
            exact ⟨hp, List.mem_append_left _ (List.mem_cons_self _ _)⟩
          · obtain ⟨a1, a2⟩ := c3 k h1
            refine ⟨a1, ?_⟩
            rcases List.mem_append.mp a2 with h2 | h2
            · exact List.mem_append_left _ (List.mem_cons_of_mem _ h2)
            · exact List.mem_append_right _ (hsub.subset h2)
        · intro id k1 hm
          rcases List.mem_cons.mp hm with h1 | h1
          · refine ⟨k1, by rw [h1]; exact List.mem_cons_self _ _, ?_⟩
            have e : k1 = p.2 := by rw [← h1]
            rw [e]
            apply c6
            intro x hx
            have : x ≠ p.2 := fun e2 => hpdel (e2 ▸ hsub.subset hx)
            rw [hsd]; omega
          · obtain ⟨k, hk, e⟩ := c4 id k1 h1
            exact ⟨k, List.mem_cons_of_mem _ hk, e⟩
        · intro hr id k1 hm
          rcases List.mem_cons.mp hm with h1 | h1
          · have e1 : k1 = p.2 := by rw [← h1]
            have e2 : id = p.1 := by rw [← h1]
            rw [e1, c7 _ (by
              intro x hx
              have : x ≠ p.2 := fun e2 => hpdel (e2 ▸ hsub.subset hx)
              rw [hsz]; omega), e2]
            exact hids hr p.1 p.2 (List.mem_cons_self _ _)
          · exact c5 hr id k1 h1
        · intro o ho
          exact c6 o (fun x hx => ho x (hsub.subset hx))
        · intro o ho
          exact c7 o (fun x hx => ho x (hsub.subset hx))
      · -- the entry moves into the hole `d`
        obtain ⟨sig, hsig, hsigid⟩ := hrecs p.1 p.2 (List.mem_cons_self _ _)
        have hcnt3 : (rest.map Prod.snd).countP (fun k => decide (n ≤ k))
            = ds.countP (fun d => decide (d < n)) := by
          have h1 := hcnt
          rw [← hcnt2, List.map_cons, List.countP_cons, List.countP_cons] at h1
          have e1 : decide (n ≤ p.2) = true := by simp; omega
          have e2 : decide (d < n) = true := by simpa using hdn
          rw [e1, e2] at h1
          simp only [if_true] at h1
          omega
        rw [List.nodup_cons] at hnd_dds
        have hnd3 : (rest.map Prod.snd ++ ds).Nodup := by
          apply List.nodup_append.mpr
          refine ⟨hnd_imgs.2, hnd_dds.2, ?_⟩
          intro k hk hk2
          exact hdisj k (List.mem_cons_of_mem _ hk) (hdsmem k hk2)
        have hrest_ne : ∀ id k, (id, k) ∈ rest → k ≠ d := by
          intro id k hm e
          exact hdisj k (List.mem_cons_of_mem _ (List.mem_map.mpr ⟨(id, k), hm, rfl⟩)) (e ▸ hdmem)
        obtain ⟨imgs1, fs1, fi1, hrun, c1, c2, c3, c4, c5, c6, c7, c8⟩ :=
          ih ds (write_sig_at fs (sigOff + d * sizeof_ImgData) sig)
            (if rw0 then fi else write_id_at fi (imgOff + d * sizeof_imageId) sig.id)
            hnd3 hcnt3
            (by
              intro id k hm
              unfold write_sig_at
              have := hrest_ne id k hm
              rw [if_neg (by rw [hsd]; omega)]
              exact hrest_recs id k hm)
            (by
              intro hr id k hm
              rw [hr]
              simp only [Bool.false_eq_true, if_false]
              unfold write_id_at
              have := hrest_ne id k hm
              rw [if_neg (by rw [hsz]; omega)]
              exact hrest_ids hr id k hm)
        have hd_ds : ∀ x, x ∈ ds → x ≠ d := fun x hx e => hnd_dds.1 (e ▸ hx)
        refine ⟨(p.1, d) :: imgs1, fs1, fi1, ?_, ?_, ?_, ?_, ?_, ?_, ?_, ?_, ?_⟩
        · rw [move_deleted_loop, hdw]
          simp only
          rw [if_neg hp, hsig]
          simp only
          rw [hrun]
        · rw [List.map_cons, List.map_cons, c1]
        · rw [List.map_cons, List.nodup_cons]
          refine ⟨?_, c2⟩
          intro hk
          rcases List.mem_append.mp (c3 d hk).2 with h1 | h1
          · exact hdisj d (List.mem_cons_of_mem _ h1) hdmem
          · exact hnd_dds.1 h1
        · intro k hk
          rw [List.map_cons] at hk
          rcases List.mem_cons.mp hk with h1 | h1
          · rw [h1]
            exact ⟨hdn, List.mem_append_right _ hdmem⟩
          · obtain ⟨a1, a2⟩ := c3 k h1
            refine ⟨a1, ?_⟩
            rcases List.mem_append.mp a2 with h2 | h2
            · exact List.mem_append_left _ (List.mem_cons_of_mem _ h2)
            · exact List.mem_append_right _ (hdsmem k h2)
        · intro id k1 hm
          rcases List.mem_cons.mp hm with h1 | h1
          · injection h1 with e1 e2
            refine ⟨p.2, by rw [e1]; exact List.mem_cons_self _ _, ?_⟩
            rw [e2, c6 _ (by
              intro x hx
              have := hd_ds x hx
              rw [hsd]; omega), hsig]
            simp [write_sig_at]
          · obtain ⟨k, hk, e⟩ := c4 id k1 h1
            refine ⟨k, List.mem_cons_of_mem _ hk, ?_⟩
            rw [e]
            unfold write_sig_at
            have := hrest_ne id k hk
            rw [if_neg (by rw [hsd]; omega)]
        · intro hr id k1 hm
          rcases List.mem_cons.mp hm with h1 | h1
          · injection h1 with e1 e2
            rw [e2, c7 _ (by
              intro x hx
              have := hd_ds x hx
              rw [hsz]; omega), hr]
            simp only [Bool.false_eq_true, if_false]
            unfold write_id_at
            rw [if_pos rfl, hsigid, e1]
          · exact c5 hr id k1 h1
        · intro o ho
          rw [c6 o (fun x hx => ho x (hdsmem x hx))]
          unfold write_sig_at
          rw [if_neg (ho d hdmem)]
        · intro o ho
          rw [c7 o (fun x hx => ho x (hdsmem x hx))]
          by_cases hr : rw0 = true
          · rw [if_pos hr]
          · rw [if_neg hr]
            unfold write_id_at
            rw [if_neg (ho d hdmem)]
        · intro o ho
          exact c8 o (write_sig_at_isSome_mono _ _ _ _ ho)

/-! ### Alter mode: save_file -/

theorem perm_range_of_nodup (l : List Nat) (m : Nat) (hnd : l.Nodup)
    (hlt : ∀ k, k ∈ l → k < m) (hlen : l.length = m) : l.Perm (List.range m) := by
  apply List.perm_of_nodup_nodup_toFinset_eq hnd (List.nodup_range m)
  apply Finset.eq_of_subset_of_card_le
  · intro k hk
    rw [List.mem_toFinset] at hk
    rw [List.mem_toFinset, List.mem_range]
    exact hlt k hk
  · rw [List.toFinset_card_of_nodup hnd, List.toFinset_card_of_nodup (List.nodup_range m),
      List.length_range, hlen]

theorem countP_lt_range_add (n d : Nat) :
    (List.range (n + d)).countP (fun k => decide (k < n)) = n := by
  induction d with
  | zero =>
    rw [Nat.add_zero]
    have : (List.range n).countP (fun k => decide (k < n)) = (List.range n).length := by
      apply List.countP_eq_length.mpr
      intro k hk
      simpa using List.mem_range.mp hk
    rw [this, List.length_range]
  | succ d ih =>
    rw [show n + (d + 1) = (n + d) + 1 by omega, List.range_succ, List.countP_append, ih]
    have : decide (n + d < n) = false := by simp
    simp [List.countP_cons, this]

theorem countP_ge_add_lt (n : Nat) (l : List Nat) :
    l.countP (fun k => decide (n ≤ k)) + l.countP (fun k => decide (k < n)) = l.length := by
  induction l with
  | nil => rfl
  | cons a l ih =>
    rw [List.countP_cons, List.countP_cons, List.length_cons]
    by_cases h : a < n
    · have h1 : decide (a < n) = true := by simpa using h
      have h2 : decide (n ≤ a) = false := by simp; omega
      rw [h1, h2]
      simp only [Bool.false_eq_true, if_false, if_true]
      omega
    · have h1 : decide (a < n) = false := by simpa using h
      have h2 : decide (n ≤ a) = true := by simp; omega
      rw [h1, h2]
      simp only [Bool.false_eq_true, if_false, if_true]
      omega

/-- As many images sit in slots at or past the number of images as there are deleted slots
below it. -/
theorem alter_holes_count (db : dbSpaceAlter) (hinv : AlterInv db) :
    (db.m_images.map Prod.snd).countP (fun k => decide (db.m_images.length ≤ k))
      = db.m_deleted.countP (fun d => decide (d < db.m_images.length)) := by
  have hperm := perm_range_of_nodup _ (db.m_images.length + db.m_deleted.length)
    hinv.slots_nodup hinv.slots_lt (by simp)
  have h1 := hperm.countP_eq (fun k => decide (k < db.m_images.length))
  rw [countP_lt_range_add, List.countP_append] at h1
  have h2 := countP_ge_add_lt db.m_images.length (db.m_images.map Prod.snd)
  rw [List.length_map] at h2
  omega

theorem find_eq_of_keys_mem (m1 m2 : List (imageId × Nat)) (hk : m1.map Prod.fst = m2.map Prod.fst)
    (x : imageId) :
    (imageIdMap_find m1 x = none ↔ imageIdMap_find m2 x = none) := by
  rw [imageIdMap_find_eq_none_iff, imageIdMap_find_eq_none_iff, hk]

/-- `move_deleted` on a database that satisfies the invariant returns, leaves no deleted slot,
and keeps the invariant, the ids and the record of every image. -/
theorem alter_move_deleted_inv (db : dbSpaceAlter) (hinv : AlterInv db) :
    (db.move_deleted).2 = none ∧ AlterInv (db.move_deleted).1 ∧
    (db.move_deleted).1.m_deleted = [] ∧
    (db.move_deleted).1.getImgIdList = db.getImgIdList ∧
    (db.move_deleted).1.m_rewriteIDs = db.m_rewriteIDs ∧
    ∀ x, (db.move_deleted).1.sigOf x = db.sigOf x := by
  obtain ⟨hro, hnd, hrec, hj1, hj2⟩ := hinv.wf
  obtain ⟨imgs1, fs1, fi1, hrun, c1, c2, c3, c4, c5, c6, c7, c8⟩ :=
    move_deleted_loop_spec db.m_images.length db.m_sigOff db.m_imgOff db.m_rewriteIDs
      db.m_images db.m_deleted db.file_sigs db.file_ids hinv.slots_nodup
      (alter_holes_count db hinv) hinv.recs hinv.ids
  have hres : db.move_deleted
      = ({ db with m_images := imgs1, file_sigs := fs1, file_ids := fi1, m_deleted := [] },
         none) := by
    unfold dbSpaceAlter.move_deleted
    simp only [hro, Bool.false_eq_true, if_false, hrun]
    simp
  have hlen : imgs1.length = db.m_images.length := by
    have := congrArg List.length c1
    simpa using this
  rw [hres]
  refine ⟨rfl, ⟨⟨hro, ?_, ?_, ?_, hj2⟩, ?_, ?_, ?_, ?_⟩, rfl, c1, rfl, ?_⟩
  · show (imgs1.map Prod.fst).Nodup
    rw [c1]; exact hnd
  · intro k hk
    show (fs1 (db.m_sigOff + k * sizeof_ImgData)).isSome = true
    apply c8
    apply hrec
    have hk1 : k < imgs1.length + 0 := hk
    omega
  · show db.m_imgOff + sizeof_imageId * (imgs1.length + 0) < db.m_sigOff
    have hsz : sizeof_imageId = 8 := rfl
    rw [hsz] at hj1 ⊢
    omega
  · show (imgs1.map Prod.snd ++ []).Nodup
    rw [List.append_nil]; exact c2
  · intro k hk
    show k < imgs1.length + 0
    have hk1 : k ∈ imgs1.map Prod.snd ++ [] := hk
    rw [List.append_nil] at hk1
    have := (c3 k hk1).1
    omega
  · intro id k1 hm
    obtain ⟨k, hk, e⟩ := c4 id k1 hm
    show ∃ sig, fs1 (db.m_sigOff + k1 * sizeof_ImgData) = some sig ∧ sig.id = id
    rw [e]
    exact hinv.recs id k hk
  · intro hr id k1 hm
    exact c5 hr id k1 hm
  · intro x
    unfold dbSpaceAlter.sigOf
    show (match imageIdMap_find imgs1 x with
      | none => none
      | some k => fs1 (db.m_sigOff + k * sizeof_ImgData)) = _
    cases hf1 : imageIdMap_find imgs1 x with
    | none =>
      have := (find_eq_of_keys_mem imgs1 db.m_images c1 x).mp hf1
      rw [this]
    | some k1 =>
      obtain ⟨k, hk, e⟩ := c4 x k1 (imageIdMap_find_some_mem _ _ _ hf1)
      rw [imageIdMap_find_of_mem_nodup db.m_images x k hnd hk]
      simp only
      rw [e]
      rfl

theorem fill_ids_spec : ∀ (imgs : List (imageId × Nat)) (ids : List imageId),
    (imgs.map Prod.snd).Nodup →
    (∀ k, k ∈ imgs.map Prod.snd → k < ids.length ∧ ids.getD k imageId_ones = imageId_ones) →
    ∃ r, fill_ids imgs ids = .ok r ∧ r.length = ids.length ∧
      (∀ id k, (id, k) ∈ imgs → r[k]? = some id) ∧
      (∀ j, j ∉ imgs.map Prod.snd → r[j]? = ids[j]?) := by
  intro imgs
  induction imgs with
  | nil =>
    intro ids _ _
    exact ⟨ids, rfl, rfl, fun id k h => by simp at h, fun _ _ => rfl⟩
  | cons p rest ih =>
    intro ids hnd hok
    rw [List.map_cons, List.nodup_cons] at hnd
    obtain ⟨hp1, hp2⟩ := hok p.2 (by simp)
    obtain ⟨r, hr, hlen, hget, hoth⟩ := ih (ids.set p.2 p.1) hnd.2 (by
      intro k hk
      have hne : p.2 ≠ k := fun e => hnd.1 (e ▸ hk)
      obtain ⟨a1, a2⟩ := hok k (by simp [hk])
      refine ⟨by simpa using a1, ?_⟩
      rw [List.getD_eq_getElem?_getD, List.getElem?_set_ne hne, ← List.getD_eq_getElem?_getD]
      exact a2)
    refine ⟨r, ?_, by simpa using hlen, ?_, ?_⟩
    · unfold fill_ids
      rw [if_neg (by omega), if_neg (by rw [hp2]; exact fun h => h rfl)]
      exact hr
    · intro id k hm
      rcases List.mem_cons.mp hm with h1 | h1
      · have e1 : k = p.2 := by rw [← h1]
        have e2 : id = p.1 := by rw [← h1]
        rw [e1, hoth p.2 hnd.1, List.getElem?_set_self hp1, e2]
      · exact hget id k h1
    · intro j hj
      rw [List.map_cons, List.mem_cons, not_or] at hj
      rw [hoth j hj.2, List.getElem?_set_ne (fun e => hj.1 e.symm)]

theorem write_ids_get_other (l : List imageId) : ∀ (f : Nat → Option imageId) (off o : Nat),
    o < off → write_ids f off l o = f o := by
  induction l with
  | nil => intro f off o _; rfl
  | cons s l ih =>
    intro f off o ho
    simp only [write_ids]
    rw [ih _ _ _ (by omega)]
    unfold write_id_at
    rw [if_neg (by omega)]

theorem write_ids_get_written (l : List imageId) : ∀ (f : Nat → Option imageId) (off k : Nat),
    k < l.length → write_ids f off l (off + k * sizeof_imageId) = l[k]? := by
  induction l with
  | nil => intro f off k hk; simp at hk
  | cons s l ih =>
    intro f off k hk
    have hsz : sizeof_imageId = 8 := rfl
    cases k with
    | zero =>
      simp only [Nat.zero_mul, Nat.add_zero, write_ids]
      rw [write_ids_get_other _ _ _ _ (by rw [hsz]; omega)]
      simp [write_id_at]
    | succ k =>
      simp only [write_ids]
      have := ih (write_id_at f off s) (off + sizeof_imageId) k (by simpa using hk)
      rw [show off + (k + 1) * sizeof_imageId = off + sizeof_imageId + k * sizeof_imageId by ring,
        this]
      simp

/-- The step of `save_file` that rewrites the id table. -/
theorem alter_rewrite_ids_inv (db : dbSpaceAlter) (hinv : AlterInv db) (hdel : db.m_deleted = []) :
    ∃ db2, (if db.m_rewriteIDs then
              match fill_ids db.m_images (List.replicate db.m_images.length imageId_ones) with
              | .error e => (db, some e)
              | .ok ids =>
                ({ db with file_ids := write_ids db.file_ids db.m_imgOff ids,
                           m_rewriteIDs := false }, none)
            else (db, none)) = (db2, none) ∧
      AlterInv db2 ∧ db2.m_rewriteIDs = false ∧ db2.m_deleted = [] ∧
      db2.m_images = db.m_images ∧ db2.m_sigOff = db.m_sigOff ∧ db2.m_buckets = db.m_buckets ∧
      ∀ x, db2.sigOf x = db.sigOf x := by
  by_cases hrw : db.m_rewriteIDs = true
  · rw [if_pos hrw]
    have hsn : (db.m_images.map Prod.snd).Nodup := by
      have := hinv.slots_nodup
      rw [hdel, List.append_nil] at this
      exact this
    have hslt : ∀ k, k ∈ db.m_images.map Prod.snd → k < db.m_images.length := by
      intro k hk
      have := hinv.slots_lt k (List.mem_append_left _ hk)
      rw [hdel] at this
      simpa using this
    obtain ⟨r, hr, hlen, hget, _⟩ := fill_ids_spec db.m_images
      (List.replicate db.m_images.length imageId_ones) hsn (by
        intro k hk
        have := hslt k hk
        refine ⟨by simpa using this, ?_⟩
        rw [List.getD_eq_getElem?_getD, List.getElem?_replicate, if_pos this]
        rfl)
    rw [hr]
    refine ⟨_, rfl, ⟨hinv.wf, hinv.slots_nodup, hinv.slots_lt, hinv.recs, ?_⟩, rfl, hdel, rfl,
      rfl, rfl, fun x => rfl⟩
    intro _ id k hm
    show write_ids db.file_ids db.m_imgOff r (db.m_imgOff + k * sizeof_imageId) = some id
    have hk : k < r.length := by
      rw [hlen, List.length_replicate]
      exact hslt k (List.mem_map.mpr ⟨(id, k), hm, rfl⟩)
    rw [write_ids_get_written r _ _ k hk]
    exact hget id k hm
  · rw [if_neg hrw]
    have hrw2 : db.m_rewriteIDs = false := by simpa using hrw
    exact ⟨db, rfl, hinv, hrw2, hdel, rfl, rfl, rfl, fun x => rfl⟩

/-- `save_file` on a database that satisfies the invariant returns; afterwards no slot is
deleted, the id table is written, the header holds the number of images, and the ids and the
record of every image are as before. -/
theorem alter_save_inv (db : dbSpaceAlter) (hinv : AlterInv db) :
    (db.save_file).2 = none ∧ AlterInv (db.save_file).1 ∧
    (db.save_file).1.m_deleted = [] ∧ (db.save_file).1.m_rewriteIDs = false ∧
    (db.save_file).1.hdr_count = (db.save_file).1.m_images.length ∧
    (db.save_file).1.hdr_sigOff = (db.save_file).1.m_sigOff ∧
    (db.save_file).1.getImgIdList = db.getImgIdList ∧
    ∀ x, (db.save_file).1.sigOf x = db.sigOf x := by
  have hro := hinv.wf.1
  -- the first stage: move_deleted when a slot is deleted
  obtain ⟨db1, hs1, hinv1, hdel1, hkeys1, hsig1⟩ : ∃ db1,
      (if db.m_deleted ≠ [] then db.move_deleted else (db, none)) = (db1, none) ∧
      AlterInv db1 ∧ db1.m_deleted = [] ∧ db1.getImgIdList = db.getImgIdList ∧
      ∀ x, db1.sigOf x = db.sigOf x := by
    by_cases hd : db.m_deleted ≠ []
    · rw [if_pos hd]
      obtain ⟨m1, m2, m3, m4, _, m6⟩ := alter_move_deleted_inv db hinv
      exact ⟨(db.move_deleted).1, Prod.ext rfl m1, m2, m3, m4, m6⟩
    · rw [if_neg hd]
      exact ⟨db, rfl, hinv, by simpa using hd, rfl, fun x => rfl⟩
  obtain ⟨db2, hs2, hinv2, hrw2, hdel2, hmi2, hso2, hb2, hsig2⟩ :=
    alter_rewrite_ids_inv db1 hinv1 hdel1
  have hres : db.save_file
      = ({ db2 with hdr_count := db2.m_images.length, hdr_sigOff := db2.m_sigOff,
                    hdr_buckets := db2.m_buckets }, none) := by
    unfold dbSpaceAlter.save_file
    simp only [hro, Bool.false_eq_true, if_false]
    rw [hs1]
    simp only
    rw [hs2]
  rw [hres]
  refine ⟨rfl, ⟨hinv2.wf, hinv2.slots_nodup, hinv2.slots_lt, hinv2.recs, hinv2.ids⟩, hdel2, hrw2,
    rfl, rfl, ?_, ?_⟩
  · show db2.m_images.map Prod.fst = db.getImgIdList
    rw [hmi2]
    exact hkeys1
  · intro x
    show db2.sigOf x = db.sigOf x
    rw [hsig2 x, hsig1 x]

theorem alter_apply_inv (db : dbSpaceAlter) (op : AlterOp) (hinv : AlterInv db) :
    AlterInv (db.apply op) ∧
    ∀ ops x, liveSig (db.apply op).sigOf ops x = liveSig db.sigOf (op :: ops) x := by
  cases op with
  | add img =>
    by_cases hp : db.hasImage img.id = true
    · have hres : db.apply (.add img) = db := by
        show (db.addImageData img).1 = db
        rw [alter_add_dup db img hinv.wf.1 hp]
      rw [hres]
      refine ⟨hinv, ?_⟩
      intro ops x
      have hs : (db.sigOf img.id).isSome = true := by rw [sigOf_isSome_iff db hinv, hp]
      show _ = liveSig (fun x => if (db.sigOf img.id).isSome then db.sigOf x
        else if x = img.id then some img else db.sigOf x) ops x
      simp only [hs, if_true]
    · have hp2 : db.hasImage img.id = false := by simpa using hp
      obtain ⟨_, a2, a3⟩ := alter_add_inv db img hinv hp2
      refine ⟨a2, ?_⟩
      intro ops x
      have hs : (db.sigOf img.id).isSome = false := by rw [sigOf_isSome_iff db hinv, hp2]
      show liveSig (db.addImageData img).1.sigOf ops x
        = liveSig (fun x => if (db.sigOf img.id).isSome then db.sigOf x
        else if x = img.id then some img else db.sigOf x) ops x
      have hfun : (db.addImageData img).1.sigOf
          = (fun x => if (db.sigOf img.id).isSome then db.sigOf x
              else if x = img.id then some img else db.sigOf x) := by
        funext y
        rw [a3 y, hs]
        simp
      rw [hfun]
  | remove id =>
    obtain ⟨r1, r2⟩ := alter_remove_inv db id hinv
    refine ⟨r1, ?_⟩
    intro ops x
    show liveSig (db.removeImage id).1.sigOf ops x
      = liveSig (fun x => if x = id then none else db.sigOf x) ops x
    have hfun : (db.removeImage id).1.sigOf = (fun x => if x = id then none else db.sigOf x) := by
      funext y
      exact r2 y
    rw [hfun]

theorem alter_run_inv (ops : List AlterOp) : ∀ db : dbSpaceAlter, AlterInv db →
    AlterInv (db.run ops) ∧ ∀ x, (db.run ops).sigOf x = liveSig db.sigOf ops x := by
  induction ops with
  | nil => intro db h; exact ⟨h, fun x => rfl⟩
  | cons op ops ih =>
    intro db h
    obtain ⟨a1, a2⟩ := alter_apply_inv db op h
    obtain ⟨b1, b2⟩ := ih (db.apply op) a1
    have hrun : db.run (op :: ops) = (db.apply op).run ops := rfl
    rw [hrun]
    refine ⟨b1, ?_⟩
    intro x
    rw [b2 x, a2 ops x]

theorem load_empty_inv : AlterInv dbSpaceAlter.load_empty :=
  ⟨load_empty_wf, by simp [dbSpaceAlter.load_empty],
    fun k hk => by simp [dbSpaceAlter.load_empty] at hk,
    fun id k hm => by simp [dbSpaceAlter.load_empty] at hm,
    fun _ id k hm => by simp [dbSpaceAlter.load_empty] at hm⟩

/-- C13. In alter mode, from a database that satisfies the invariant of `load` (slots, records
and id table consistent), after any sequence of `addImageData` and `removeImage` calls,
`save_file` returns normally and afterwards: the list of deleted slots is empty; the header
holds the number of images; the slots of the images are exactly `0 .. count - 1`, one image per
slot; the entry `k` of the id table is the id of the image in slot `k`, whose record carries
that id; the ids are those before the save; and the record of every image is the signature it
was last added with (or, for an image never added or removed in the sequence, the record it had
at the start). -/
theorem alter_save_compacts (db0 : dbSpaceAlter) (ops : List AlterOp) (hinv : AlterInv db0) :
    ((db0.run ops).save_file).2 = none ∧
    ((db0.run ops).save_file).1.m_deleted = [] ∧
    ((db0.run ops).save_file).1.hdr_count = ((db0.run ops).save_file).1.getImgCount ∧
    (((db0.run ops).save_file).1.m_images.map Prod.snd).Perm
      (List.range ((db0.run ops).save_file).1.getImgCount) ∧
    (∀ id k, (id, k) ∈ ((db0.run ops).save_file).1.m_images →
      ((db0.run ops).save_file).1.file_ids
          (((db0.run ops).save_file).1.m_imgOff + k * sizeof_imageId) = some id ∧
      ∃ sig, ((db0.run ops).save_file).1.get_sig k = some sig ∧ sig.id = id) ∧
    ((db0.run ops).save_file).1.getImgIdList = (db0.run ops).getImgIdList ∧
    ∀ id, ((db0.run ops).save_file).1.sigOf id = liveSig db0.sigOf ops id := by
  obtain ⟨hrun, hsig⟩ := alter_run_inv ops db0 hinv
  obtain ⟨s1, s2, s3, s4, s5, _, s7, s8⟩ := alter_save_inv (db0.run ops) hrun
  refine ⟨s1, s3, s5, ?_, ?_, s7, ?_⟩
  · apply perm_range_of_nodup
    · have := s2.slots_nodup
      rw [s3, List.append_nil] at this
      exact this
    · intro k hk
      have := s2.slots_lt k (List.mem_append_left _ hk)
      rw [s3] at this
      simpa using this
    · simp [dbSpaceAlter.getImgCount]
  · intro id k hm
    exact ⟨s2.ids s4 id k hm, s2.recs id k hm⟩
  · intro id
    rw [s8 id, hsig id]

set_option maxRecDepth 100000 in
/-- C13 on the database file of an empty database, after the adds of `sampleA`, `sampleB` and
`sampleC` and the removal of `sampleA` (id 1, slot 0): the save moves `sampleC` from slot 2 into
slot 0. -/
theorem alter_save_compacts_witness :
    ((dbSpaceAlter.load_empty.run
        [.add sampleA, .add sampleB, .add sampleC, .remove 1]).save_file).1.m_images
      = [(2, 1), (4, 0)] ∧
    (((dbSpaceAlter.load_empty.run
        [.add sampleA, .add sampleB, .add sampleC, .remove 1]).save_file).2 = none ∧
     ((dbSpaceAlter.load_empty.run
        [.add sampleA, .add sampleB, .add sampleC, .remove 1]).save_file).1.m_deleted = [] ∧
     ((dbSpaceAlter.load_empty.run
        [.add sampleA, .add sampleB, .add sampleC, .remove 1]).save_file).1.hdr_count
      = ((dbSpaceAlter.load_empty.run
        [.add sampleA, .add sampleB, .add sampleC, .remove 1]).save_file).1.getImgCount ∧
     (((dbSpaceAlter.load_empty.run
        [.add sampleA, .add sampleB, .add sampleC, .remove 1]).save_file).1.m_images.map
          Prod.snd).Perm
      (List.range ((dbSpaceAlter.load_empty.run
        [.add sampleA, .add sampleB, .add sampleC, .remove 1]).save_file).1.getImgCount) ∧
     (∀ id k, (id, k) ∈ ((dbSpaceAlter.load_empty.run
          [.add sampleA, .add sampleB, .add sampleC, .remove 1]).save_file).1.m_images →
       ((dbSpaceAlter.load_empty.run
          [.add sampleA, .add sampleB, .add sampleC, .remove 1]).save_file).1.file_ids
          (((dbSpaceAlter.load_empty.run
            [.add sampleA, .add sampleB, .add sampleC, .remove 1]).save_file).1.m_imgOff
            + k * sizeof_imageId) = some id ∧
       ∃ sig, ((dbSpaceAlter.load_empty.run
          [.add sampleA, .add sampleB, .add sampleC, .remove 1]).save_file).1.get_sig k = some sig ∧
         sig.id = id) ∧
     ((dbSpaceAlter.load_empty.run
        [.add sampleA, .add sampleB, .add sampleC, .remove 1]).save_file).1.getImgIdList
      = (dbSpaceAlter.load_empty.run
        [.add sampleA, .add sampleB, .add sampleC, .remove 1]).getImgIdList ∧
     ∀ id, ((dbSpaceAlter.load_empty.run
        [.add sampleA, .add sampleB, .add sampleC, .remove 1]).save_file).1.sigOf id
      = liveSig dbSpaceAlter.load_empty.sigOf
          [.add sampleA, .add sampleB, .add sampleC, .remove 1] id) :=
  ⟨by decide, alter_save_compacts dbSpaceAlter.load_empty
    [.add sampleA, .add sampleB, .add sampleC, .remove 1] load_empty_inv⟩

/-! ### Read-only mode: next_index counts the catalog entries -/

/-- In the states of a read-only database reached by calls, `m_nextIndex` is the number of
entries of `m_info` (the entries ever created, tombstones included): it is the count the test
of `nocommon` divides by 10 and the length of the score array. -/
theorem readOnly_nextIndex_eq (db : dbSpaceImpl_true) (h : ReadOnlyReachable db) :
    db.m_nextIndex = db.m_info.length := by
  obtain ⟨ws, ops, hdb⟩ := h
  have hgen : ∀ (ops : List ReadOnlyOp) (d : dbSpaceImpl_true),
      d.m_nextIndex = d.m_info.length → (d.run ops).m_nextIndex = (d.run ops).m_info.length := by
    intro ops
    induction ops with
    | nil => intro d hd; exact hd
    | cons op ops ih =>
      intro d hd
      apply ih (d.apply op)
      cases op with
      | add img =>
        show (d.addImageData img).1.m_nextIndex = (d.addImageData img).1.m_info.length
        unfold dbSpaceImpl_true.addImageData
        by_cases hp : d.hasImage img.id = true
        · rw [if_pos hp]; exact hd
        · rw [if_neg hp]
          simp only
          rw [if_neg (by omega), if_pos hd]
          by_cases hsf : d.has_sigFile = true
          · rw [if_pos hsf]
            by_cases hofs : d.m_cacheOfs ≠ d.m_nextIndex * sizeof_ImgData
            · rw [if_pos hofs]
              show d.m_nextIndex + 1 = (d.m_info ++ [_]).length
              rw [List.length_append, List.length_singleton, hd]
            · rw [if_neg hofs]
              show d.m_nextIndex + 1 = (d.m_info ++ [_]).length
              rw [List.length_append, List.length_singleton, hd]
          · rw [if_neg hsf]
            show d.m_nextIndex + 1 = (d.m_info ++ [_]).length
            rw [List.length_append, List.length_singleton, hd]
      | remove y =>
        show (d.removeImage y).1.m_nextIndex = (d.removeImage y).1.m_info.length
        cases hy : imageIdMap_find d.m_images y with
        | none =>
          have : d.removeImage y = (d, some .invalid_id) := by
            unfold dbSpaceImpl_true.removeImage; rw [hy]
          rw [this]; exact hd
        | some ind =>
          rw [readOnly_remove_state d y ind hy]
          show d.m_nextIndex = (d.m_info.modify _ ind).length
          rw [List.length_modify]; exact hd
      | setImageRes y w h =>
        show (d.setImageRes y w h).1.m_nextIndex = (d.setImageRes y w h).1.m_info.length
        unfold dbSpaceImpl_true.setImageRes
        cases hy : imageIdMap_find d.m_images y with
        | none => exact hd
        | some ind =>
          show d.m_nextIndex = (d.m_info.modify _ ind).length
          rw [List.length_modify]; exact hd
      | load_done => exact hd
  rw [hdb]
  exact hgen ops _ rfl

/-! ### C21: iterating a paged bucket -/

theorem paged_pushAll_cons (b : imageIdIndex_list_paged) (f : bucket_file) (i : imageId)
    (rest : List imageId) (h : (b.push_back f i).err = none) :
    b.pushAll f (i :: rest) = (b.push_back f i).bucket.pushAll (b.push_back f i).file rest := by
  show (match (b.push_back f i).err with
    | some e =>
      ({ file := (b.push_back f i).file, bucket := (b.push_back f i).bucket, err := some e } :
        paged_result)
    | none => (b.push_back f i).bucket.pushAll (b.push_back f i).file rest) = _
  rw [h]

theorem paged_contents_length (b : imageIdIndex_list_paged) (f : bucket_file) :
    (b.contents f).length = b.size := by
  unfold imageIdIndex_list_paged.contents imageIdIndex_list_paged.size
  rw [List.length_append, List.length_map, List.length_range]

/-- After any sequence of `push_back` calls on a new bucket with a new scratch file, no call
has raised, the entries in use (`m_size` entries of the pages, then the tail) are the pushed ids
in order, `size()` is their number, the tail holds fewer than 128 entries, and `m_size` is a
multiple of 128. -/
theorem paged_pushAll_contents (ids : List imageId) :
    (imageIdIndex_list_paged.empty.pushAll bucket_file.empty ids).err = none ∧
    (imageIdIndex_list_paged.empty.pushAll bucket_file.empty ids).bucket.ok
      (imageIdIndex_list_paged.empty.pushAll bucket_file.empty ids).file ∧
    (imageIdIndex_list_paged.empty.pushAll bucket_file.empty ids).bucket.contents
      (imageIdIndex_list_paged.empty.pushAll bucket_file.empty ids).file = ids ∧
    (imageIdIndex_list_paged.empty.pushAll bucket_file.empty ids).bucket.size = ids.length ∧
    (imageIdIndex_list_paged.empty.pushAll bucket_file.empty ids).bucket.m_tail.length
      < paged_threshold ∧
    (imageIdIndex_list_paged.empty.pushAll bucket_file.empty ids).bucket.m_size
      % paged_threshold = 0 := by
  have hgen : ∀ (ids : List imageId) (b : imageIdIndex_list_paged) (f : bucket_file),
      b.ok f → f.size % pageSize = 0 →
      (b.pushAll f ids).err = none ∧ (b.pushAll f ids).bucket.ok (b.pushAll f ids).file ∧
      (b.pushAll f ids).bucket.contents (b.pushAll f ids).file = b.contents f ++ ids := by
    intro ids
    induction ids with
    | nil =>
      intro b f hok _
      refine ⟨rfl, hok, ?_⟩
      show b.contents f = b.contents f ++ []
      rw [List.append_nil]
    | cons x xs ih =>
      intro b f hok ha
      obtain ⟨herr, hrok, hal, _, hcont, _, _, _⟩ := paged_push_back_spec b f x hok ha
      rw [paged_pushAll_cons b f x xs herr]
      obtain ⟨h1, h2, h3⟩ := ih _ _ hrok hal
      refine ⟨h1, h2, ?_⟩
      rw [h3, hcont, List.append_assoc]
      rfl
  obtain ⟨h1, h2, h3⟩ := hgen ids imageIdIndex_list_paged.empty bucket_file.empty
    (paged_empty_ok _) rfl
  have hc : (imageIdIndex_list_paged.empty.pushAll bucket_file.empty ids).bucket.contents
      (imageIdIndex_list_paged.empty.pushAll bucket_file.empty ids).file = ids := by
    rw [h3]; rfl
  refine ⟨h1, h2, hc, ?_, h2.tail_lt, h2.size_mod⟩
  rw [← paged_contents_length _ (imageIdIndex_list_paged.empty.pushAll bucket_file.empty ids).file,
    hc]

set_option maxRecDepth 100000 in
/-- C21, the failing case. After 128 `push_back` calls with the ids 1 to 128 the tail is paged
out into one page of 512 entries, `m_size` is 128 and `m_capacity` is 512; the map of `map_all`
runs from `base` to `base + m_capacity`, so that iterating it yields the 128 ids followed by the
384 zero entries of the rest of the page, 512 entries for a bucket of `size()` 128. After a
single `push_back` the bucket has no page, `map_all` returns a default-constructed map, and
the iteration compares iterators that were never assigned. -/
theorem paged_map_all_yields_padding :
    (imageIdIndex_list_paged.empty.pushAll bucket_file.empty (List.range' 1 128)).err = none ∧
    (imageIdIndex_list_paged.empty.pushAll bucket_file.empty (List.range' 1 128)).bucket.m_size
      = 128 ∧
    (imageIdIndex_list_paged.empty.pushAll bucket_file.empty (List.range' 1 128)).bucket.m_capacity
      = 512 ∧
    (imageIdIndex_list_paged.empty.pushAll bucket_file.empty (List.range' 1 128)).bucket.m_tail
      = [] ∧
    (imageIdIndex_list_paged.empty.pushAll bucket_file.empty (List.range' 1 128)).bucket.size
      = 128 ∧
    (imageIdIndex_list_paged.empty.pushAll bucket_file.empty (List.range' 1 128)).bucket.iterate
        (imageIdIndex_list_paged.empty.pushAll bucket_file.empty (List.range' 1 128)).file
      = .ok (List.range' 1 128 ++ List.replicate 384 0) ∧
    (imageIdIndex_list_paged.empty.pushAll bucket_file.empty [7]).bucket.map_all
        (imageIdIndex_list_paged.empty.pushAll bucket_file.empty [7]).file = .ok none ∧
    (imageIdIndex_list_paged.empty.pushAll bucket_file.empty [7]).bucket.iterate
        (imageIdIndex_list_paged.empty.pushAll bucket_file.empty [7]).file
      = .error Error.undefined_behaviour := by
  decide!

/-! ### C22: the storage of a delta_queue -/

/-- The reference layout has, after the packing word, one escape word for each gap of 255 or
more, one packing word for each eight bytes completed, and the spare word. -/
theorem senc_snd_length (gs : List Nat) : ∀ j, j < 8 →
    (senc j gs).2.length = 1 + gs.countP (fun g => decide (255 ≤ g)) + (j + gs.length) / 8 := by
  induction gs with
  | nil =>
    intro j hj
    simp only [senc, List.length_singleton, List.countP_nil, List.length_nil]
    omega
  | cons g gs ih =>
    intro j hj
    have h1 := ih ((j + 1) % 8) (Nat.mod_lt _ (by decide))
    have hesc : (if 255 ≤ g then [g - 255] else []).length
        = List.countP (fun g => decide (255 ≤ g)) [g] := by
      by_cases hg : 255 ≤ g <;> simp [hg]
    have hcnt : List.countP (fun g => decide (255 ≤ g)) (g :: gs)
        = List.countP (fun g => decide (255 ≤ g)) [g]
          + List.countP (fun g => decide (255 ≤ g)) gs := by
      rw [← List.countP_append]; rfl
    simp only [senc]
    by_cases h7 : j = 7
    · rw [if_pos h7]
      simp only [List.length_append, List.length_cons, hesc, h1, hcnt]
      subst h7
      omega
    · rw [if_neg h7]
      simp only [List.length_append, List.length_cons, hesc, h1, hcnt]
      have : (j + 1) % 8 = j + 1 := Nat.mod_eq_of_lt (by omega)
      rw [this]
      omega

set_option maxRecDepth 100000 in
/-- C22 as stated fails where `size_t` has 64 bits: the escape of a large gap is a whole storage
word, not four bytes. Pushing the value 2^33 on a new queue stores the marker byte 255 and the
escape word `2^33 - 255`, which does not fit in four bytes, and the iteration gives the value
back; pushing 300 stores the escape 45 in a word of its own, three words of eight bytes in
all. -/
theorem delta_queue_escape_is_word :
    sizeof_size_t = 8 ∧
    (delta_queue.empty.pushAll [8589934592]).m_base = [255, 8589934337, 0] ∧
    4294967296 ≤ 8589934337 ∧
    (delta_queue.empty.pushAll [8589934592]).toList = some [8589934592] ∧
    (delta_queue.empty.pushAll [300]).m_base = [255, 45, 0] := by
  refine ⟨rfl, rfl, by decide, rfl, rfl⟩

/-- C22, amended. For every strictly increasing sequence of `n` values of `size_t` pushed on a
new `delta_queue`, the storage is the reference layout `senc` of the gaps (the first value
being a gap from 0): each gap up to 254 is one byte of a packing word, each gap of 255 or more
is the marker byte 255 in the packing word and one whole storage word holding the gap less 255.
The number of storage words is `2 + n / W + L`, with `W = sizeof(size_t)` bytes in a word and
`L` the number of gaps of 255 or more. -/
theorem delta_queue_storage_words (vs : List Nat) (hs : vs.Sorted (· < ·))
    (hb : ∀ v ∈ vs, v < SIZE_T_MOD) :
    (delta_queue.empty.pushAll vs).m_base
      = (senc 0 (gapsFrom 0 vs)).1 :: (senc 0 (gapsFrom 0 vs)).2 ∧
    (delta_queue.empty.pushAll vs).m_base.length
      = 2 + vs.length / sizeof_size_t
          + (gapsFrom 0 vs).countP (fun g => decide (255 ≤ g)) := by
  have hl := (pushAll_laid vs delta_queue.empty [] 0 [] laid_empty
    (chain_of_sorted_lt vs hs) hb).1
  have hbase : (delta_queue.empty.pushAll vs).m_base
      = (senc 0 (gapsFrom 0 vs)).1 :: (senc 0 (gapsFrom 0 vs)).2 := by
    rw [hl]
    show [] ++ (0 + 256 ^ (0 % 8) * (senc (0 % 8) (gapsFrom 0 vs)).1)
        :: ([] ++ (senc (0 % 8) (gapsFrom 0 vs)).2) = _
    simp
  refine ⟨hbase, ?_⟩
  rw [hbase, List.length_cons, senc_snd_length _ 0 (by decide), gapsFrom_length]
  unfold sizeof_size_t
  omega

set_option maxRecDepth 100000 in
/-- C22, amended, at the values 3, 300, 301, 70000, 70001, 70002, 70003, 70004, 70005: nine
values and two gaps of 255 or more give 2 + 1 + 2 = 5 storage words. -/
theorem delta_queue_storage_words_witness :
    [3, 300, 301, 70000, 70001, 70002, 70003, 70004, 70005].Sorted (· < ·) ∧
    (delta_queue.empty.pushAll [3, 300, 301, 70000, 70001, 70002, 70003, 70004, 70005]).m_base
      = [72340177099554563, 42, 69444, 1, 0] ∧
    (delta_queue.empty.pushAll
      [3, 300, 301, 70000, 70001, 70002, 70003, 70004, 70005]).m_base.length = 2 + 9 / 8 + 2 :=
  ⟨by decide,
    (delta_queue_storage_words [3, 300, 301, 70000, 70001, 70002, 70003, 70004, 70005]
      (by decide) (by decide)).1.trans rfl,
    (delta_queue_storage_words [3, 300, 301, 70000, 70001, 70002, 70003, 70004, 70005]
      (by decide) (by decide)).2.trans rfl⟩

/-! ### C23: resize_header -/

/-- C23. `resize_header` on an alter-mode database that satisfies the invariant, has no pending
deletions and holds at least `numrel` images returns normally and keeps the ids; the slots,
which were the indices `0 .. count - 1`, are again the indices `0 .. count - 1`, the slot `k`
becoming `k - numrel` or `k + (count - numrel)`; and for every id the record read at its new
slot from the new signature offset is the record read at its old slot from the old offset. -/
theorem resize_header_relocates (db : dbSpaceAlter) (hinv : AlterInv db)
    (hdel : db.m_deleted = []) (hn : resize_numrel ≤ db.m_images.length) :
    db.resize_header.2 = none ∧
    db.resize_header.1.getImgIdList = db.getImgIdList ∧
    db.resize_header.1.m_sigOff = db.m_sigOff + resize_numrel * sizeof_ImgData ∧
    (db.m_images.map Prod.snd).Perm (List.range db.getImgCount) ∧
    (db.resize_header.1.m_images.map Prod.snd).Perm (List.range db.getImgCount) ∧
    (∀ id k, imageIdMap_find db.m_images id = some k →
      imageIdMap_find db.resize_header.1.m_images id
        = some (if resize_numrel ≤ k then k - resize_numrel
                else k + (db.m_images.length - resize_numrel)) ∧
      db.resize_header.1.file_sigs (db.resize_header.1.m_sigOff
          + (if resize_numrel ≤ k then k - resize_numrel
             else k + (db.m_images.length - resize_numrel)) * sizeof_ImgData)
        = db.file_sigs (db.m_sigOff + k * sizeof_ImgData)) ∧
    (∀ id, db.resize_header.1.sigOf id = db.sigOf id) := by
  obtain ⟨hro, hnd, hrec, hj1, hj2⟩ := hinv.wf
  have hsz : sizeof_imageId = 8 := rfl
  have hsd : sizeof_ImgData = 520 := rfl
  have hrn : resize_numrel = 16 := by decide
  have hslt : ∀ k, k ∈ List.map Prod.snd db.m_images → k < db.m_images.length := by
    intro k hk
    have := hinv.slots_lt k (List.mem_append_left _ hk)
    rw [hdel] at this
    simpa using this
  have hsnd : (List.map Prod.snd db.m_images).Nodup := by
    have := hinv.slots_nodup
    rw [hdel, List.append_nil] at this
    exact this
  simp only [hdel, List.length_nil, Nat.add_zero] at hrec
  have h16 : ¬ db.m_images.length < resize_numrel := by omega
  obtain ⟨sigs, hsigs, hslen⟩ := read_sigs_isSome db.file_sigs resize_numrel db.m_sigOff
    (fun k hk => hrec k (by omega))
  obtain ⟨_, hsget⟩ := read_sigs_get db.file_sigs resize_numrel db.m_sigOff sigs hsigs
  obtain ⟨db1, hdb1⟩ : ∃ db1 : dbSpaceAlter, db1 =
      { db with m_sigOff := db.m_sigOff + resize_numrel * sizeof_ImgData,
                file_sigs := write_sigs db.file_sigs
                  (db.m_sigOff + db.m_images.length * sizeof_ImgData) sigs,
                m_images := db.m_images.map
                  (fun p => (p.1, if resize_numrel ≤ p.2 then p.2 - resize_numrel
                                  else p.2 + (db.m_images.length - resize_numrel))),
                m_rewriteIDs := true } := ⟨_, rfl⟩
  have hres : db.resize_header = (db1, none) := by
    unfold dbSpaceAlter.resize_header
    simp only [hro, Bool.false_eq_true, if_false, h16, hsigs, hdb1]
  have hso : db1.m_sigOff = db.m_sigOff + resize_numrel * sizeof_ImgData := by rw [hdb1]
  have hfs : db1.file_sigs = write_sigs db.file_sigs
      (db.m_sigOff + db.m_images.length * sizeof_ImgData) sigs := by rw [hdb1]
  have hmi1 : db1.m_images = db.m_images.map
      (fun p => (p.1, if resize_numrel ≤ p.2 then p.2 - resize_numrel
                      else p.2 + (db.m_images.length - resize_numrel))) := by rw [hdb1]
  have hkeys1 : db1.m_images.map Prod.fst = db.m_images.map Prod.fst := by
    rw [hmi1]; simp [List.map_map, Function.comp_def]
  have hsnd1 : db1.m_images.map Prod.snd = (db.m_images.map Prod.snd).map
      (fun k => if resize_numrel ≤ k then k - resize_numrel
                else k + (db.m_images.length - resize_numrel)) := by
    rw [hmi1]; simp [List.map_map, Function.comp_def]
  have hgetC : ∀ k, k < db.m_images.length →
      db1.file_sigs (db1.m_sigOff + (if resize_numrel ≤ k then k - resize_numrel
                   else k + (db.m_images.length - resize_numrel)) * sizeof_ImgData)
        = db.file_sigs (db.m_sigOff + k * sizeof_ImgData) := by
    intro k hk
    rw [hso, hfs]
    by_cases hge : resize_numrel ≤ k
    · rw [if_pos hge]
      rw [show db.m_sigOff + resize_numrel * sizeof_ImgData + (k - resize_numrel) * sizeof_ImgData
        = db.m_sigOff + k * sizeof_ImgData by rw [hsd]; omega]
      exact write_sigs_get_other _ _ _ _ (by rw [hsd]; omega)
    · rw [if_neg hge]
      rw [show db.m_sigOff + resize_numrel * sizeof_ImgData
          + (k + (db.m_images.length - resize_numrel)) * sizeof_ImgData
        = db.m_sigOff + db.m_images.length * sizeof_ImgData + k * sizeof_ImgData
        by rw [hsd, hrn]; omega]
      rw [write_sigs_get_written _ _ _ _ (by omega), ← hsget k (by omega)]
  have hfind : ∀ id, imageIdMap_find db1.m_images id
      = (imageIdMap_find db.m_images id).map
          (fun k => if resize_numrel ≤ k then k - resize_numrel
                    else k + (db.m_images.length - resize_numrel)) := by
    intro id
    rw [hmi1]
    exact imageIdMap_find_map_snd db.m_images
      (fun k => if resize_numrel ≤ k then k - resize_numrel
                else k + (db.m_images.length - resize_numrel)) id
  rw [hres]
  refine ⟨rfl, hkeys1, hso, ?_, ?_, ?_, ?_⟩
  · exact perm_range_of_nodup _ _ hsnd hslt (by simp [dbSpaceAlter.getImgCount])
  · apply perm_range_of_nodup
    · show (db1.m_images.map Prod.snd).Nodup
      rw [hsnd1]
      apply List.Nodup.map_on _ hsnd
      intro a ha b hb e
      have h1 := hslt a ha
      have h2 := hslt b hb
      rw [hrn] at e hn
      split at e <;> split at e <;> omega
    · intro k hk
      have hk1 : k ∈ db1.m_images.map Prod.snd := hk
      rw [hsnd1] at hk1
      obtain ⟨k0, hk0, e⟩ := List.mem_map.mp hk1
      have := hslt k0 hk0
      rw [← e]
      show _ < db.m_images.length
      rw [hrn] at hn ⊢
      split <;> omega
    · show (db1.m_images.map Prod.snd).length = db.m_images.length
      rw [hsnd1]; simp
  · intro id k hf
    have hk : k < db.m_images.length :=
      hslt k (List.mem_map_of_mem Prod.snd (imageIdMap_find_some_mem _ _ _ hf))
    refine ⟨?_, hgetC k hk⟩
    show imageIdMap_find db1.m_images id = _
    rw [hfind id, hf]
    rfl
  · intro id
    show db1.sigOf id = db.sigOf id
    cases hf : imageIdMap_find db.m_images id with
    | none =>
      rw [sigOf_of_absent db id hf, sigOf_of_absent db1 id (by rw [hfind id, hf]; rfl)]
    | some k =>
      have hk : k < db.m_images.length :=
        hslt k (List.mem_map_of_mem Prod.snd (imageIdMap_find_some_mem _ _ _ hf))
      rw [sigOf_of_find db id k hf, sigOf_of_find db1 id _ (by rw [hfind id, hf]; rfl)]
      exact hgetC k hk

theorem sampleDbAlter17_inv : AlterInv sampleDbAlter17 :=
  (alter_run_inv _ dbSpaceAlter.load_empty load_empty_inv).1

set_option maxRecDepth 100000 in
/-- C23 on the alter-mode database of the 17 example images in the slots 0 to 16: the image
of slot 16 goes to slot 0 and the images of the slots 0 to 15 go to the slots 1 to 16, and the
record of the image 100, first in the file, is found again at its new slot 1. -/
theorem resize_header_relocates_witness :
    sampleDbAlter17.m_deleted = [] ∧ resize_numrel ≤ sampleDbAlter17.m_images.length ∧
    sampleDbAlter17.resize_header.1.m_images.map Prod.snd
      = [1, 2, 3, 4, 5, 6, 7, 8, 9, 10, 11, 12, 13, 14, 15, 16, 0] ∧
    sampleDbAlter17.resize_header.1.sigOf 100 = some (sampleN 0) ∧
    (sampleDbAlter17.resize_header.2 = none ∧
     sampleDbAlter17.resize_header.1.getImgIdList = sampleDbAlter17.getImgIdList ∧
     sampleDbAlter17.resize_header.1.m_sigOff
       = sampleDbAlter17.m_sigOff + resize_numrel * sizeof_ImgData ∧
     (sampleDbAlter17.m_images.map Prod.snd).Perm (List.range sampleDbAlter17.getImgCount) ∧
     (sampleDbAlter17.resize_header.1.m_images.map Prod.snd).Perm
       (List.range sampleDbAlter17.getImgCount) ∧
     (∀ id k, imageIdMap_find sampleDbAlter17.m_images id = some k →
       imageIdMap_find sampleDbAlter17.resize_header.1.m_images id
         = some (if resize_numrel ≤ k then k - resize_numrel
                 else k + (sampleDbAlter17.m_images.length - resize_numrel)) ∧
       sampleDbAlter17.resize_header.1.file_sigs (sampleDbAlter17.resize_header.1.m_sigOff
           + (if resize_numrel ≤ k then k - resize_numrel
              else k + (sampleDbAlter17.m_images.length - resize_numrel)) * sizeof_ImgData)
         = sampleDbAlter17.file_sigs (sampleDbAlter17.m_sigOff + k * sizeof_ImgData)) ∧
     (∀ id, sampleDbAlter17.resize_header.1.sigOf id = sampleDbAlter17.sigOf id)) :=
  ⟨rfl, by decide, rfl, rfl,
    resize_header_relocates sampleDbAlter17 sampleDbAlter17_inv rfl (by decide)⟩

/-! ### C24: the room for new ids in a saved file -/

/-- In every file `dbSpaceImpl<false>::save_file` writes, the id table starts after the version
code, the count, the offset field and the bucket sizes, and the signature offset lies
`1024 * sizeof(imageId) - sizeof(offset_t)` bytes after the end of the id table: `firstOff` is
computed from the position before the offset field is written, so the 8 bytes of the field come
off the room, which holds 1023 ids. -/
theorem normal_save_layout (db : dbSpaceImpl_false) (f : db_file) (h : db.save_file = .ok f) :
    f.count = db.getImgCount ∧ f.ids = db.getImgIdList ∧
    f.ids_off = 4 + sizeof_count_t + sizeof_offset_t + bucket_set_count * sizeof_count_t ∧
    f.sigs_off = f.firstOff ∧
    f.firstOff + sizeof_offset_t = f.ids_end + 1024 * sizeof_imageId ∧
    f.firstOff = f.ids_end + 1023 * sizeof_imageId := by
  unfold dbSpaceImpl_false.save_file at h
  simp only at h
  cases hs : save_sigs db.sigCache db.m_images with
  | error e => rw [hs] at h; exact absurd h (by simp)
  | ok sigs =>
    rw [hs] at h
    simp only [Except.ok.injEq] at h
    subst h
    refine ⟨rfl, rfl, rfl, rfl, ?_, ?_⟩
    · simp only [db_file.ids_end, List.length_map, sizeof_count_t, sizeof_offset_t,
        sizeof_imageId]
      omega
    · simp only [db_file.ids_end, List.length_map, sizeof_count_t, sizeof_offset_t,
        sizeof_imageId]
      omega

set_option maxRecDepth 100000 in
/-- C24, the failing case. In the file `save_file` writes for the normal-mode database of
`sampleA` and `sampleB` the id table of 2 entries starts at byte 786452 and ends at byte 786468,
and the signature offset in the header is 794652: 8184 bytes after the end of the id table, room
for 1023 ids, not the 8192 bytes of 1024 ids. The same holds for the empty database, whose file
has the offsets 786452 and 794636 with which alter mode loads it. -/
theorem normal_save_room_1023 :
    (sampleDbNormal.save_file.toOption.map (fun f => (f.ids, f.ids_off, f.ids_end, f.firstOff)))
      = some ([1, 2], 786452, 786468, 794652) ∧
    794652 - 786468 = 1023 * sizeof_imageId ∧
    786468 + 1024 * sizeof_imageId ≠ 794652 ∧
    (dbSpaceImpl_false.create.save_file.toOption.map
        (fun f => (f.ids, f.ids_off, f.ids_end, f.firstOff)))
      = some ([], dbSpaceAlter.load_empty.m_imgOff, dbSpaceAlter.load_empty.m_imgOff,
          dbSpaceAlter.load_empty.m_sigOff) := by
  refine ⟨rfl, by decide, by decide, rfl⟩

/-! ### C25: dupe_map::link -/

theorem getD_set_list {α : Type} (l : List α) (i j : Nat) (a d : α) :
    (l.set i a).getD j d = if i = j ∧ i < l.length then a else l.getD j d := by
  rw [List.getD_eq_getElem?_getD, List.getD_eq_getElem?_getD, List.getElem?_set]
  by_cases hij : i = j
  · by_cases hl : i < l.length
    · rw [if_pos hij, if_pos hl, if_pos ⟨hij, hl⟩]; rfl
    · rw [if_pos hij, if_neg hl, if_neg (fun h => hl h.2)]
      rw [← hij, List.getElem?_eq_none (by omega)]
  · rw [if_neg hij, if_neg (fun h => hij h.1)]

theorem getD_append_singleton (l : List (List imageId)) (a : List imageId) (j : Nat) :
    (l ++ [a]).getD j [] = if j = l.length then a else l.getD j [] := by
  rw [List.getD_eq_getElem?_getD, List.getD_eq_getElem?_getD]
  by_cases hj : j < l.length
  · rw [List.getElem?_append_left hj, if_neg (by omega)]
  · by_cases he : j = l.length
    · rw [if_pos he, he, List.getElem?_append_right (Nat.le_refl _), Nat.sub_self]
      rfl
    · rw [if_neg he, List.getElem?_eq_none (by simp; omega), List.getElem?_eq_none (by omega)]

theorem dupe_group_mem_groups (m : dupe_map) (g : Nat) (h : g < m.m_groups.length) :
    m.group g ∈ m.m_groups := by
  unfold dupe_map.group
  rw [List.getD_eq_getElem?_getD, List.getElem?_eq_getElem h]
  exact List.getElem_mem h

theorem dupe_groups_mem_group (m : dupe_map) (grp : List imageId) (h : grp ∈ m.m_groups) :
    ∃ g, g < m.m_groups.length ∧ m.group g = grp := by
  obtain ⟨g, hg⟩ := List.mem_iff_getElem?.mp h
  refine ⟨g, ?_, ?_⟩
  · by_contra hlt
    rw [List.getElem?_eq_none (by omega)] at hg
    exact absurd hg (by simp)
  · unfold dupe_map.group
    rw [List.getD_eq_getElem?_getD, hg]
    rfl

/-- The method `insert` for an id that is absent and a group of the list. -/
theorem dupe_insert_spec (m : dupe_map) (one : imageId) (g : Nat)
    (habs : imageIdMap_find m.entries one = none) (hg : g < m.m_groups.length) :
    (∀ x, imageIdMap_find (m.insert one g).entries x
      = if x = one then some g else imageIdMap_find m.entries x) ∧
    (∀ j, (m.insert one g).group j = if j = g then m.group g ++ [one] else m.group j) ∧
    (m.insert one g).m_groups.length = m.m_groups.length := by
  refine ⟨?_, ?_, ?_⟩
  · intro x
    show imageIdMap_find (if (imageIdMap_find m.entries one).isSome then m.entries
        else m.entries ++ [(one, g)]) x = _
    rw [habs]
    simp only [Option.isSome_none, Bool.false_eq_true, if_false]
    rw [imageIdMap_find_append]
    by_cases hx : x = one
    · rw [if_pos hx, hx, habs]
      simp
    · rw [if_neg hx]
      cases hf : imageIdMap_find m.entries x with
      | none => simp [Ne.symm hx]
      | some w => rfl
  · intro j
    show (m.m_groups.set g (m.group g ++ [one])).getD j [] = _
    rw [getD_set_list]
    by_cases hj : j = g
    · rw [if_pos ⟨hj.symm, hg⟩, if_pos hj]
    · rw [if_neg (fun h => hj h.1.symm), if_neg hj]
      rfl
  · show (m.m_groups.set g (m.group g ++ [one])).length = _
    simp

/-- The loop over the members of `gfrom`, all of which are in the map: no exception, and the
members are mapped to `gto`. -/
theorem dupe_relink_spec (gto : Nat) (xs : List imageId) : ∀ es : List (imageId × Nat),
    (∀ x, x ∈ xs → (imageIdMap_find es x).isSome = true) →
    ∃ es1, dupe_relink gto xs es = (es1, none) ∧
      ∀ y, imageIdMap_find es1 y = if y ∈ xs then some gto else imageIdMap_find es y := by
  induction xs with
  | nil =>
    intro es _
    exact ⟨es, rfl, fun y => by simp⟩
  | cons x xs ih =>
    intro es hall
    obtain ⟨w, hw⟩ := Option.isSome_iff_exists.mp (hall x (List.mem_cons_self x xs))
    have hfs : ∀ y, imageIdMap_find (imageIdMap_set es x gto) y
        = if y = x then some gto else imageIdMap_find es y := by
      intro y
      by_cases hy : y = x
      · rw [if_pos hy, hy, imageIdMap_find_set_same]
      · rw [if_neg hy, imageIdMap_find_set_other _ _ _ _ hy]
    obtain ⟨es1, h1, h2⟩ := ih (imageIdMap_set es x gto) (by
      intro y hy
      rw [hfs y]
      by_cases hyx : y = x
      · rw [if_pos hyx]; rfl
      · rw [if_neg hyx]; exact hall y (List.mem_cons_of_mem x hy))
    refine ⟨es1, ?_, ?_⟩
    · simp only [dupe_relink, hw]
      exact h1
    · intro y
      rw [h2 y, hfs y]
      by_cases hyx : y = x
      · rw [if_pos hyx]
        simp [hyx]
      · by_cases hym : y ∈ xs
        · simp [hym]
        · simp [hym, hyx]

theorem eqvGen_new_pair {R : imageId → imageId → Prop} {one two : imageId}
    (h2 : R one two ∨ R two one) : Relation.EqvGen R one two := by
  cases h2 with
  | inl h => exact Relation.EqvGen.rel _ _ h
  | inr h => exact Relation.EqvGen.symm _ _ (Relation.EqvGen.rel _ _ h)

/-- Linking two ids of the same group leaves the invariant. -/
theorem dupeInv_same (m : dupe_map) (R R1 : imageId → imageId → Prop) (one two : imageId)
    (g : Nat) (hinv : DupeInv m R) (h1 : ∀ x y, R x y → R1 x y)
    (h3 : ∀ x y, R1 x y → R x y ∨ (x = one ∧ y = two) ∨ (x = two ∧ y = one))
    (hf1 : imageIdMap_find m.entries one = some g)
    (hf2 : imageIdMap_find m.entries two = some g) : DupeInv m R1 := by
  refine ⟨hinv.mem_group, hinv.group_mem, hinv.group_nodup, hinv.group_size, ?_, ?_, ?_⟩
  · intro x y k hx hy
    exact Relation.EqvGen.mono h1 (hinv.sound x y k hx hy)
  · intro a b hab
    rcases h3 a b hab with h | ⟨ha, hb⟩ | ⟨ha, hb⟩
    · exact hinv.complete a b h
    · exact ⟨g, by rw [ha]; exact hf1, by rw [hb]; exact hf2⟩
    · exact ⟨g, by rw [ha]; exact hf2, by rw [hb]; exact hf1⟩
  · intro x k hx
    obtain ⟨y, hy⟩ := hinv.linked x k hx
    exact ⟨y, hy.imp (h1 _ _) (h1 _ _)⟩

/-- Linking two ids that are both absent: a new group of the two. -/
theorem dupeInv_new (m m1 : dupe_map) (R R1 : imageId → imageId → Prop) (one two : imageId)
    (hinv : DupeInv m R) (h1 : ∀ x y, R x y → R1 x y) (h2 : R1 one two ∨ R1 two one)
    (h3 : ∀ x y, R1 x y → R x y ∨ (x = one ∧ y = two) ∨ (x = two ∧ y = one))
    (hne : one ≠ two)
    (ha1 : imageIdMap_find m.entries one = none) (ha2 : imageIdMap_find m.entries two = none)
    (hfind : ∀ x, imageIdMap_find m1.entries x
      = if x = one ∨ x = two then some m.m_groups.length else imageIdMap_find m.entries x)
    (hgroup : ∀ j, m1.group j = if j = m.m_groups.length then [one, two] else m.group j)
    (hlen : m1.m_groups.length = m.m_groups.length + 1) : DupeInv m1 R1 := by
  have hold : ∀ x k, imageIdMap_find m.entries x = some k → ¬ (x = one ∨ x = two) := by
    intro x k hx h
    rcases h with h | h
    · rw [h, ha1] at hx; exact absurd hx (by simp)
    · rw [h, ha2] at hx; exact absurd hx (by simp)
  have hnew := eqvGen_new_pair h2
  refine ⟨?_, ?_, ?_, ?_, ?_, ?_, ?_⟩
  · intro x g hx
    rw [hfind x] at hx
    by_cases hc : x = one ∨ x = two
    · rw [if_pos hc] at hx
      injection hx with hx
      rw [← hx, hlen, hgroup, if_pos rfl]
      refine ⟨by omega, ?_⟩
      rcases hc with hc | hc <;> simp [hc]
    · rw [if_neg hc] at hx
      obtain ⟨hg, hm⟩ := hinv.mem_group x g hx
      rw [hlen, hgroup, if_neg (by omega)]
      exact ⟨by omega, hm⟩
  · intro g x hx
    rw [hgroup] at hx
    rw [hfind x]
    by_cases hg : g = m.m_groups.length
    · rw [if_pos hg] at hx
      have hc : x = one ∨ x = two := by simpa using hx
      rw [if_pos hc, hg]
    · rw [if_neg hg] at hx
      have hf := hinv.group_mem g x hx
      rw [if_neg (hold x g hf)]
      exact hf
  · intro g
    rw [hgroup]
    by_cases hg : g = m.m_groups.length
    · rw [if_pos hg]; simp [hne]
    · rw [if_neg hg]; exact hinv.group_nodup g
  · intro g
    rw [hgroup]
    by_cases hg : g = m.m_groups.length
    · rw [if_pos hg]; intro _; simp
    · rw [if_neg hg]; exact hinv.group_size g
  · intro x y g hx hy
    rw [hfind x] at hx
    rw [hfind y] at hy
    by_cases hcx : x = one ∨ x = two
    · by_cases hcy : y = one ∨ y = two
      · rcases hcx with hcx | hcx <;> rcases hcy with hcy | hcy
        · rw [hcx, hcy]; exact Relation.EqvGen.refl _
        · rw [hcx, hcy]; exact hnew
        · rw [hcx, hcy]; exact Relation.EqvGen.symm _ _ hnew
        · rw [hcx, hcy]; exact Relation.EqvGen.refl _
      · rw [if_pos hcx] at hx
        rw [if_neg hcy] at hy
        injection hx with hx
        have := (hinv.mem_group y g hy).1
        omega
    · by_cases hcy : y = one ∨ y = two
      · rw [if_neg hcx] at hx
        rw [if_pos hcy] at hy
        injection hy with hy
        have := (hinv.mem_group x g hx).1
        omega
      · rw [if_neg hcx] at hx
        rw [if_neg hcy] at hy
        exact Relation.EqvGen.mono h1 (hinv.sound x y g hx hy)
  · intro a b hab
    rcases h3 a b hab with h | ⟨ha, hb⟩ | ⟨ha, hb⟩
    · obtain ⟨g, hga, hgb⟩ := hinv.complete a b h
      exact ⟨g, by rw [hfind a, if_neg (hold a g hga)]; exact hga,
        by rw [hfind b, if_neg (hold b g hgb)]; exact hgb⟩
    · exact ⟨m.m_groups.length, by rw [hfind a, if_pos (Or.inl ha)],
        by rw [hfind b, if_pos (Or.inr hb)]⟩
    · exact ⟨m.m_groups.length, by rw [hfind a, if_pos (Or.inr ha)],
        by rw [hfind b, if_pos (Or.inl hb)]⟩
  · intro x g hx
    rw [hfind x] at hx
    by_cases hc : x = one ∨ x = two
    · rcases hc with hc | hc
      · exact ⟨two, by rw [hc]; exact h2⟩
      · exact ⟨one, by rw [hc]; exact h2.symm⟩
    · rw [if_neg hc] at hx
      obtain ⟨y, hy⟩ := hinv.linked x g hx
      exact ⟨y, hy.imp (h1 _ _) (h1 _ _)⟩

/-- Linking an id of a group with an absent id: the absent id joins the group. -/
theorem dupeInv_join (m m1 : dupe_map) (R R1 : imageId → imageId → Prop) (one two : imageId)
    (g1 : Nat) (hinv : DupeInv m R) (h1 : ∀ x y, R x y → R1 x y)
    (h2 : R1 one two ∨ R1 two one)
    (h3 : ∀ x y, R1 x y → R x y ∨ (x = one ∧ y = two) ∨ (x = two ∧ y = one))
    (hf1 : imageIdMap_find m.entries one = some g1)
    (ha2 : imageIdMap_find m.entries two = none)
    (hfind : ∀ x, imageIdMap_find m1.entries x
      = if x = two then some g1 else imageIdMap_find m.entries x)
    (hgroup : ∀ j, m1.group j = if j = g1 then m.group g1 ++ [two] else m.group j)
    (hlen : m1.m_groups.length = m.m_groups.length) : DupeInv m1 R1 := by
  have hold : ∀ x k, imageIdMap_find m.entries x = some k → x ≠ two := by
    intro x k hx h
    rw [h, ha2] at hx; exact absurd hx (by simp)
  have hnew := eqvGen_new_pair h2
  have hone := hinv.mem_group one g1 hf1
  refine ⟨?_, ?_, ?_, ?_, ?_, ?_, ?_⟩
  · intro x g hx
    rw [hfind x] at hx
    rw [hlen, hgroup]
    by_cases hc : x = two
    · rw [if_pos hc] at hx
      injection hx with hx
      rw [← hx, if_pos rfl]
      exact ⟨hone.1, by simp [hc]⟩
    · rw [if_neg hc] at hx
      obtain ⟨hg, hm⟩ := hinv.mem_group x g hx
      refine ⟨hg, ?_⟩
      by_cases hgg : g = g1
      · rw [if_pos hgg, ← hgg]; exact List.mem_append_left _ hm
      · rw [if_neg hgg]; exact hm
  · intro g x hx
    rw [hgroup] at hx
    rw [hfind x]
    by_cases hg : g = g1
    · rw [if_pos hg] at hx
      rcases List.mem_append.mp hx with hx | hx
      · have hf := hinv.group_mem g1 x hx
        rw [if_neg (hold x g1 hf), hg]; exact hf
      · have : x = two := by simpa using hx
        rw [if_pos this, hg]
    · rw [if_neg hg] at hx
      have hf := hinv.group_mem g x hx
      rw [if_neg (hold x g hf)]
      exact hf
  · intro g
    rw [hgroup]
    by_cases hg : g = g1
    · rw [if_pos hg]
      apply List.Nodup.append (hinv.group_nodup g1) (List.nodup_singleton two)
      intro x hx1 hx2
      have : x = two := by simpa using hx2
      exact hold x g1 (hinv.group_mem g1 x hx1) this
    · rw [if_neg hg]; exact hinv.group_nodup g
  · intro g
    rw [hgroup]
    by_cases hg : g = g1
    · rw [if_pos hg]
      intro _
      have : 0 < (m.group g1).length := List.length_pos_of_mem hone.2
      rw [List.length_append, List.length_singleton]
      omega
    · rw [if_neg hg]; exact hinv.group_size g
  · intro x y g hx hy
    rw [hfind x] at hx
    rw [hfind y] at hy
    by_cases hcx : x = two
    · by_cases hcy : y = two
      · rw [hcx, hcy]; exact Relation.EqvGen.refl _
      · rw [if_pos hcx] at hx
        rw [if_neg hcy] at hy
        injection hx with hx
        rw [← hx] at hy
        rw [hcx]
        exact Relation.EqvGen.trans _ _ _ (Relation.EqvGen.symm _ _ hnew)
          (Relation.EqvGen.mono h1 (hinv.sound one y g1 hf1 hy))
    · by_cases hcy : y = two
      · rw [if_neg hcx] at hx
        rw [if_pos hcy] at hy
        injection hy with hy
        rw [← hy] at hx
        rw [hcy]
        exact Relation.EqvGen.trans _ _ _
          (Relation.EqvGen.mono h1 (hinv.sound x one g1 hx hf1)) hnew
      · rw [if_neg hcx] at hx
        rw [if_neg hcy] at hy
        exact Relation.EqvGen.mono h1 (hinv.sound x y g hx hy)
  · intro a b hab
    have hone2 : one ≠ two := hold one g1 hf1
    rcases h3 a b hab with h | ⟨ha, hb⟩ | ⟨ha, hb⟩
    · obtain ⟨g, hga, hgb⟩ := hinv.complete a b h
      exact ⟨g, by rw [hfind a, if_neg (hold a g hga)]; exact hga,
        by rw [hfind b, if_neg (hold b g hgb)]; exact hgb⟩
    · exact ⟨g1, by rw [hfind a, ha, if_neg hone2]; exact hf1, by rw [hfind b, if_pos hb]⟩
    · exact ⟨g1, by rw [hfind a, if_pos ha], by rw [hfind b, hb, if_neg hone2]; exact hf1⟩
  · intro x g hx
    rw [hfind x] at hx
    by_cases hc : x = two
    · exact ⟨one, by rw [hc]; exact h2.symm⟩
    · rw [if_neg hc] at hx
      obtain ⟨y, hy⟩ := hinv.linked x g hx
      exact ⟨y, hy.imp (h1 _ _) (h1 _ _)⟩

/-- Linking two ids of different groups: the group of the second is merged into the group of
the first. -/
theorem dupeInv_merge (m m1 : dupe_map) (R R1 : imageId → imageId → Prop) (one two : imageId)
    (g1 g2 : Nat) (hinv : DupeInv m R) (h1 : ∀ x y, R x y → R1 x y)
    (h2 : R1 one two ∨ R1 two one)
    (hf1 : imageIdMap_find m.entries one = some g1)
    (hf2 : imageIdMap_find m.entries two = some g2) (hg12 : g1 ≠ g2)
    (hfind : ∀ x, imageIdMap_find m1.entries x
      = if x ∈ m.group g2 then some g1 else imageIdMap_find m.entries x)
    (hgroup : ∀ j, m1.group j
      = if j = g2 then [] else if j = g1 then m.group g1 ++ m.group g2 else m.group j)
    (hlen : m1.m_groups.length = m.m_groups.length)
    (h3 : ∀ x y, R1 x y → R x y ∨ (x = one ∧ y = two) ∨ (x = two ∧ y = one)) :
    DupeInv m1 R1 := by
  have hnew := eqvGen_new_pair h2
  have hone := hinv.mem_group one g1 hf1
  have htwo := hinv.mem_group two g2 hf2
  have hin2 : ∀ x, x ∈ m.group g2 ↔ imageIdMap_find m.entries x = some g2 :=
    fun x => ⟨hinv.group_mem g2 x, fun h => (hinv.mem_group x g2 h).2⟩
  have hone2 : one ∉ m.group g2 := by
    intro h
    rw [hin2 one, hf1] at h
    injection h with h
    exact hg12 h
  refine ⟨?_, ?_, ?_, ?_, ?_, ?_, ?_⟩
  · intro x g hx
    rw [hfind x] at hx
    rw [hlen, hgroup]
    by_cases hc : x ∈ m.group g2
    · rw [if_pos hc] at hx
      injection hx with hx
      rw [← hx, if_neg hg12, if_pos rfl]
      exact ⟨hone.1, List.mem_append_right _ hc⟩
    · rw [if_neg hc] at hx
      obtain ⟨hg, hm⟩ := hinv.mem_group x g hx
      refine ⟨hg, ?_⟩
      have hgg2 : g ≠ g2 := by
        intro e
        rw [e] at hm
        exact hc hm
      rw [if_neg hgg2]
      by_cases hgg : g = g1
      · rw [if_pos hgg, ← hgg]; exact List.mem_append_left _ hm
      · rw [if_neg hgg]; exact hm
  · intro g x hx
    rw [hgroup] at hx
    rw [hfind x]
    by_cases hg2 : g = g2
    · rw [if_pos hg2] at hx
      exact absurd hx (List.not_mem_nil x)
    · rw [if_neg hg2] at hx
      by_cases hg : g = g1
      · rw [if_pos hg] at hx
        rcases List.mem_append.mp hx with hx | hx
        · have hf := hinv.group_mem g1 x hx
          have hc : x ∉ m.group g2 := by
            intro h
            rw [hin2 x, hf] at h
            injection h with h
            exact hg12 h
          rw [if_neg hc, hg]; exact hf
        · rw [if_pos hx, hg]
      · rw [if_neg hg] at hx
        have hf := hinv.group_mem g x hx
        have hc : x ∉ m.group g2 := by
          intro h
          rw [hin2 x, hf] at h
          injection h with h
          exact hg2 h
        rw [if_neg hc]
        exact hf
  · intro g
    rw [hgroup]
    by_cases hg2 : g = g2
    · rw [if_pos hg2]; exact List.nodup_nil
    · rw [if_neg hg2]
      by_cases hg : g = g1
      · rw [if_pos hg]
        apply List.Nodup.append (hinv.group_nodup g1) (hinv.group_nodup g2)
        intro x hx1 hx2
        have e1 := hinv.group_mem g1 x hx1
        have e2 := hinv.group_mem g2 x hx2
        rw [e1] at e2
        injection e2 with e2
        exact hg12 e2
      · rw [if_neg hg]; exact hinv.group_nodup g
  · intro g
    rw [hgroup]
    by_cases hg2 : g = g2
    · rw [if_pos hg2]; intro h; exact absurd rfl h
    · rw [if_neg hg2]
      by_cases hg : g = g1
      · rw [if_pos hg]
        intro _
        have := hinv.group_size g1 (List.ne_nil_of_mem hone.2)
        rw [List.length_append]
        omega
      · rw [if_neg hg]; exact hinv.group_size g
  · intro x y g hx hy
    rw [hfind x] at hx
    rw [hfind y] at hy
    by_cases hcx : x ∈ m.group g2
    · have hx2 := (hin2 x).mp hcx
      rw [if_pos hcx] at hx
      injection hx with hx
      by_cases hcy : y ∈ m.group g2
      · exact Relation.EqvGen.mono h1 (hinv.sound x y g2 hx2 ((hin2 y).mp hcy))
      · rw [if_neg hcy, ← hx] at hy
        exact Relation.EqvGen.trans _ _ _
          (Relation.EqvGen.mono h1 (hinv.sound x two g2 hx2 hf2))
          (Relation.EqvGen.trans _ _ _ (Relation.EqvGen.symm _ _ hnew)
            (Relation.EqvGen.mono h1 (hinv.sound one y g1 hf1 hy)))
    · rw [if_neg hcx] at hx
      by_cases hcy : y ∈ m.group g2
      · have hy2 := (hin2 y).mp hcy
        rw [if_pos hcy] at hy
        injection hy with hy
        rw [← hy] at hx
        exact Relation.EqvGen.trans _ _ _
          (Relation.EqvGen.mono h1 (hinv.sound x one g1 hx hf1))
          (Relation.EqvGen.trans _ _ _ hnew
            (Relation.EqvGen.mono h1 (hinv.sound two y g2 hf2 hy2)))
      · rw [if_neg hcy] at hy
        exact Relation.EqvGen.mono h1 (hinv.sound x y g hx hy)
  · intro a b hab
    have hkeep : ∀ x g, imageIdMap_find m.entries x = some g →
        imageIdMap_find m1.entries x = some (if g = g2 then g1 else g) := by
      intro x g hx
      rw [hfind x]
      by_cases hg : g = g2
      · rw [if_pos hg, if_pos ((hin2 x).mpr (hg ▸ hx))]
      · rw [if_neg hg, if_neg (fun h => hg (by
          rw [hin2 x, hx] at h
          injection h)), hx]
    rcases h3 a b hab with h | ⟨ha, hb⟩ | ⟨ha, hb⟩
    · obtain ⟨g, hga, hgb⟩ := hinv.complete a b h
      exact ⟨_, hkeep a g hga, hkeep b g hgb⟩
    · refine ⟨g1, ?_, ?_⟩
      · rw [ha]
        have := hkeep one g1 hf1
        rw [if_neg hg12] at this
        exact this
      · rw [hb]
        have := hkeep two g2 hf2
        rw [if_pos rfl] at this
        exact this
    · refine ⟨g1, ?_, ?_⟩
      · rw [ha]
        have := hkeep two g2 hf2
        rw [if_pos rfl] at this
        exact this
      · rw [hb]
        have := hkeep one g1 hf1
        rw [if_neg hg12] at this
        exact this
  · intro x g hx
    rw [hfind x] at hx
    have hold : ∃ k, imageIdMap_find m.entries x = some k := by
      by_cases hc : x ∈ m.group g2
      · exact ⟨g2, (hin2 x).mp hc⟩
      · rw [if_neg hc] at hx; exact ⟨g, hx⟩
    obtain ⟨k, hk⟩ := hold
    obtain ⟨y, hy⟩ := hinv.linked x k hk
    exact ⟨y, hy.imp (h1 _ _) (h1 _ _)⟩

/-- The part of `link` after the swap: with the first id in the map unless both are absent, it
returns normally and the invariant holds for the relation with the new pair. -/
theorem dupe_link_found_inv (m : dupe_map) (R R1 : imageId → imageId → Prop) (one two : imageId)
    (hinv : DupeInv m R) (h1 : ∀ x y, R x y → R1 x y) (h2 : R1 one two ∨ R1 two one)
    (h3 : ∀ x y, R1 x y → R x y ∨ (x = one ∧ y = two) ∨ (x = two ∧ y = one))
    (hne : one ≠ two)
    (hsw : imageIdMap_find m.entries one = none → imageIdMap_find m.entries two = none) :
    (m.link_found one two (imageIdMap_find m.entries one) (imageIdMap_find m.entries two)).2
      = none ∧
    DupeInv (m.link_found one two (imageIdMap_find m.entries one)
      (imageIdMap_find m.entries two)).1 R1 := by
  cases hf1 : imageIdMap_find m.entries one with
  | none =>
    have hf2 := hsw hf1
    rw [hf2]
    refine ⟨rfl, ?_⟩
    -- the new group
    have hm1f : imageIdMap_find ({ m with m_groups := m.m_groups ++ [[]] } : dupe_map).entries one
        = none := hf1
    have hm1l : m.m_groups.length
        < ({ m with m_groups := m.m_groups ++ [[]] } : dupe_map).m_groups.length := by
      show m.m_groups.length < (m.m_groups ++ [[]]).length
      simp
    obtain ⟨i1, i2, i3⟩ := dupe_insert_spec
      ({ m with m_groups := m.m_groups ++ [[]] } : dupe_map) one m.m_groups.length hm1f hm1l
    have hf2b : imageIdMap_find
        ((({ m with m_groups := m.m_groups ++ [[]] } : dupe_map).insert one
          m.m_groups.length)).entries two = none := by
      rw [i1 two, if_neg (Ne.symm hne)]
      exact hf2
    obtain ⟨j1, j2, j3⟩ := dupe_insert_spec
      (({ m with m_groups := m.m_groups ++ [[]] } : dupe_map).insert one m.m_groups.length)
      two m.m_groups.length hf2b (by rw [i3]; exact hm1l)
    have hg0 : ∀ j, ({ m with m_groups := m.m_groups ++ [[]] } : dupe_map).group j
        = if j = m.m_groups.length then [] else m.group j := by
      intro j
      exact getD_append_singleton m.m_groups [] j
    apply dupeInv_new m _ R R1 one two hinv h1 h2 h3 hne hf1 hf2
    · intro x
      show imageIdMap_find (((({ m with m_groups := m.m_groups ++ [[]] } : dupe_map).insert one
          m.m_groups.length)).insert two m.m_groups.length).entries x = _
      rw [j1 x, i1 x]
      by_cases hx2 : x = two
      · rw [if_pos hx2, if_pos (Or.inr hx2)]
      · rw [if_neg hx2]
        by_cases hx1 : x = one
        · rw [if_pos hx1, if_pos (Or.inl hx1)]
        · rw [if_neg hx1, if_neg (by rintro (h | h); exact hx1 h; exact hx2 h)]
    · intro j
      show ((({ m with m_groups := m.m_groups ++ [[]] } : dupe_map).insert one
          m.m_groups.length).insert two m.m_groups.length).group j = _
      rw [j2 j]
      by_cases hj : j = m.m_groups.length
      · rw [if_pos hj, if_pos hj, i2, if_pos rfl, hg0, if_pos rfl]
        rfl
      · rw [if_neg hj, if_neg hj, i2, if_neg hj, hg0, if_neg hj]
    · show ((({ m with m_groups := m.m_groups ++ [[]] } : dupe_map).insert one
          m.m_groups.length).insert two m.m_groups.length).m_groups.length = _
      rw [j3, i3]
      show (m.m_groups ++ [[]]).length = _
      simp
  | some g1 =>
    have hone := hinv.mem_group one g1 hf1
    have hne1 : m.group g1 ≠ [] := List.ne_nil_of_mem hone.2
    cases hf2 : imageIdMap_find m.entries two with
    | none =>
      obtain ⟨i1, i2, i3⟩ := dupe_insert_spec m two g1 hf2 hone.1
      have hres : m.link_found one two (some g1) none = (m.insert two g1, none) := by
        simp only [dupe_map.link_found, hne1, if_false]
      rw [hres]
      exact ⟨rfl, dupeInv_join m _ R R1 one two g1 hinv h1 h2 h3 hf1 hf2 i1 i2 i3⟩
    | some g2 =>
      have htwo := hinv.mem_group two g2 hf2
      have hne2 : m.group g2 ≠ [] := List.ne_nil_of_mem htwo.2
      by_cases hg : g1 = g2
      · have hres : m.link_found one two (some g1) (some g2) = (m, none) := by
          simp only [dupe_map.link_found, hg, hne2, if_true, if_false]
        rw [hres]
        exact ⟨rfl, dupeInv_same m R R1 one two g1 hinv h1 h3 hf1 (hg ▸ hf2)⟩
      · obtain ⟨es1, hr1, hr2⟩ := dupe_relink_spec g1 (m.group g2) m.entries (by
          intro x hx
          rw [hinv.group_mem g2 x hx]; rfl)
        obtain ⟨m2, hm2⟩ : ∃ m2 : dupe_map, m2 = dupe_map.mk es1
            ((m.m_groups.set g1 (m.group g1 ++ m.group g2)).set g2 []) := ⟨_, rfl⟩
        have hm2e : m2.entries = es1 := by rw [hm2]
        have hm2g : m2.m_groups
            = (m.m_groups.set g1 (m.group g1 ++ m.group g2)).set g2 [] := by rw [hm2]
        have hgr : ∀ j, m2.group j
            = if j = g2 then [] else if j = g1 then m.group g1 ++ m.group g2 else m.group j := by
          intro j
          show m2.m_groups.getD j [] = _
          rw [hm2g, getD_set_list, getD_set_list]
          by_cases hj2 : j = g2
          · rw [if_pos ⟨hj2.symm, by simp; exact htwo.1⟩, if_pos hj2]
          · rw [if_neg (fun h => hj2 h.1.symm), if_neg hj2]
            by_cases hj1 : j = g1
            · rw [if_pos ⟨hj1.symm, hone.1⟩, if_pos hj1]
            · rw [if_neg (fun h => hj1 h.1.symm), if_neg hj1]
              rfl
        have hres : m.link_found one two (some g1) (some g2) = (m2, none) := by
          have hc1 : ¬ (m.group g2 = [] ∨ m.group g1 = []) := by
            rintro (h | h)
            · exact hne2 h
            · exact hne1 h
          have hc2 : ¬ (m2.group g2 ≠ [] ∨ m2.group g1 = []) := by
            rw [hgr g2, hgr g1, if_pos rfl, if_neg hg, if_pos rfl]
            rintro (h | h)
            · exact h rfl
            · exact hne1 (List.append_eq_nil.mp h).1
          rw [hm2] at hc2
          simp only [dupe_map.link_found, hg, if_false, hc1, hr1, hc2]
          rw [hm2]
        rw [hres]
        refine ⟨rfl, dupeInv_merge m m2 R R1 one two g1 g2 hinv h1 h2 hf1 hf2 hg ?_ hgr ?_ h3⟩
        · intro x
          rw [hm2e]; exact hr2 x
        · rw [hm2g]
          simp

/-- A call `link(one, two)` with different ids returns normally and the invariant holds for the
relation with the new pair. -/
theorem dupe_link_inv (m : dupe_map) (R R1 : imageId → imageId → Prop) (one two : imageId)
    (hinv : DupeInv m R) (h1 : ∀ x y, R x y → R1 x y) (h2 : R1 one two)
    (h3 : ∀ x y, R1 x y → R x y ∨ (x = one ∧ y = two))
    (hne : one ≠ two) :
    (m.link one two).2 = none ∧ DupeInv (m.link one two).1 R1 := by
  unfold dupe_map.link
  rw [if_neg hne]
  simp only
  cases hf1 : imageIdMap_find m.entries one with
  | none =>
    simp only [Option.isNone_none, if_true]
    have := dupe_link_found_inv m R R1 two one hinv h1 (Or.inr h2)
      (fun x y h => (h3 x y h).imp id (fun h => Or.inr h)) (Ne.symm hne) (fun _ => hf1)
    rw [hf1] at this
    exact this
  | some g1 =>
    simp only [Option.isNone_some, Bool.false_eq_true, if_false]
    have := dupe_link_found_inv m R R1 one two hinv h1 (Or.inl h2)
      (fun x y h => (h3 x y h).imp id (fun h => Or.inl h)) hne
      (fun h => by rw [hf1] at h; exact absurd h (by simp))
    rw [hf1] at this
    exact this

theorem dupe_empty_inv : DupeInv dupe_map.empty (fun _ _ => False) := by
  have hg : ∀ g, dupe_map.empty.group g = [] := by
    intro g
    show ([] : List (List imageId)).getD g [] = []
    simp
  refine ⟨?_, ?_, ?_, ?_, ?_, ?_, ?_⟩
  · intro x g h
    exact absurd h (by simp [dupe_map.empty, imageIdMap_find])
  · intro g x hx
    rw [hg g] at hx
    exact absurd hx (List.not_mem_nil x)
  · intro g; rw [hg g]; exact List.nodup_nil
  · intro g h; exact absurd (hg g) h
  · intro x y g h
    exact absurd h (by simp [dupe_map.empty, imageIdMap_find])
  · intro a b h; exact absurd h id
  · intro x g h
    exact absurd h (by simp [dupe_map.empty, imageIdMap_find])

theorem linkedPair_cons (p : imageId × imageId) (ps : List (imageId × imageId)) (x y : imageId) :
    linkedPair (p :: ps) x y ↔ (p.1 ≠ p.2 ∧ x = p.1 ∧ y = p.2) ∨ linkedPair ps x y := by
  unfold linkedPair
  constructor
  · rintro ⟨hm, hne⟩
    rcases List.mem_cons.mp hm with h | h
    · left
      have e1 : x = p.1 := congrArg Prod.fst h
      have e2 : y = p.2 := congrArg Prod.snd h
      exact ⟨by rw [← e1, ← e2]; exact hne, e1, e2⟩
    · exact Or.inr ⟨h, hne⟩
  · rintro (⟨hne, e1, e2⟩ | ⟨hm, hne⟩)
    · refine ⟨?_, by rw [e1, e2]; exact hne⟩
      rw [e1, e2]
      exact List.mem_cons_self _ _
    · exact ⟨List.mem_cons_of_mem _ hm, hne⟩

/-- A sequence of `link` calls returns normally and the invariant holds for the relation of
all the pairs. -/
theorem dupe_links_inv (ps : List (imageId × imageId)) :
    ∀ (m : dupe_map) (R Rf : imageId → imageId → Prop), DupeInv m R →
      (∀ x y, Rf x y ↔ R x y ∨ linkedPair ps x y) →
      (m.links ps).2 = none ∧ DupeInv (m.links ps).1 Rf := by
  induction ps with
  | nil =>
    intro m R Rf hinv hiff
    have e : Rf = R := by
      funext x y
      apply propext
      rw [hiff x y]
      simp [linkedPair]
    rw [e]
    exact ⟨rfl, hinv⟩
  | cons p ps ih =>
    intro m R Rf hinv hiff
    by_cases hp : p.1 = p.2
    · have hl : m.link p.1 p.2 = (m, none) := by
        unfold dupe_map.link
        rw [if_pos hp]
      have hls : m.links (p :: ps) = m.links ps := by
        simp only [dupe_map.links, hl]
      rw [hls]
      apply ih m R Rf hinv
      intro x y
      rw [hiff x y, linkedPair_cons]
      constructor
      · rintro (h | ⟨hne, _⟩ | h)
        · exact Or.inl h
        · exact absurd hp hne
        · exact Or.inr h
      · rintro (h | h)
        · exact Or.inl h
        · exact Or.inr (Or.inr h)
    · obtain ⟨e1, hinv1⟩ := dupe_link_inv m R (fun x y => R x y ∨ (x = p.1 ∧ y = p.2)) p.1 p.2
        hinv (fun _ _ h => Or.inl h) (Or.inr ⟨rfl, rfl⟩) (fun _ _ h => h) hp
      have hls : m.links (p :: ps) = (m.link p.1 p.2).1.links ps := by
        cases hl : m.link p.1 p.2 with
        | mk m1 r =>
          rw [hl] at e1
          have : r = none := e1
          subst this
          simp only [dupe_map.links, hl]
      rw [hls]
      apply ih _ _ Rf hinv1
      intro x y
      rw [hiff x y, linkedPair_cons]
      constructor
      · rintro (h | ⟨_, h⟩ | h)
        · exact Or.inl (Or.inl h)
        · exact Or.inl (Or.inr h)
        · exact Or.inr h
      · rintro ((h | h) | h)
        · exact Or.inl h
        · exact Or.inr (Or.inl ⟨hp, h⟩)
        · exact Or.inr (Or.inr h)

/-- C25. Any sequence of `dupe_map::link` calls on a new map returns normally, and afterwards:
two different ids are in the same group exactly when the reflexive, symmetric and transitive
closure of the linked pairs `(a, b)` with `a != b` relates them; an id is in a group exactly
when it is linked; every linked id is mapped to a group of the list, is in that group exactly
once and in no other group; and every group that is not empty has two members or more. -/
theorem dupe_link_groups (pairs : List (imageId × imageId)) :
    (dupe_map.empty.links pairs).2 = none ∧
    (∀ x y, x ≠ y →
      ((∃ grp, grp ∈ (dupe_map.empty.links pairs).1.m_groups ∧ x ∈ grp ∧ y ∈ grp) ↔
        Relation.EqvGen (linkedPair pairs) x y)) ∧
    (∀ x, (∃ grp, grp ∈ (dupe_map.empty.links pairs).1.m_groups ∧ x ∈ grp) ↔
      linkedId pairs x) ∧
    (∀ x, linkedId pairs x →
      ∃ g, imageIdMap_find (dupe_map.empty.links pairs).1.entries x = some g ∧
        g < (dupe_map.empty.links pairs).1.m_groups.length ∧
        ((dupe_map.empty.links pairs).1.group g).count x = 1 ∧
        ∀ k, k ≠ g → x ∉ (dupe_map.empty.links pairs).1.group k) ∧
    (∀ grp, grp ∈ (dupe_map.empty.links pairs).1.m_groups → grp ≠ [] → 2 ≤ grp.length) := by
  obtain ⟨hnone, hinv⟩ := dupe_links_inv pairs dupe_map.empty (fun _ _ => False)
    (linkedPair pairs) dupe_empty_inv (fun x y => by simp)
  generalize (dupe_map.empty.links pairs).1 = r at hinv ⊢
  have hlinked : ∀ x, linkedId pairs x → ∃ g, imageIdMap_find r.entries x = some g := by
    rintro x ⟨y, h | h⟩
    · obtain ⟨g, hg, _⟩ := hinv.complete x y h
      exact ⟨g, hg⟩
    · obtain ⟨g, _, hg⟩ := hinv.complete y x h
      exact ⟨g, hg⟩
  refine ⟨hnone, ?_, ?_, ?_, ?_⟩
  · intro x y hxy
    constructor
    · rintro ⟨grp, hmem, hx, hy⟩
      obtain ⟨g, _, hg⟩ := dupe_groups_mem_group r grp hmem
      rw [← hg] at hx hy
      exact hinv.sound x y g (hinv.group_mem g x hx) (hinv.group_mem g y hy)
    · intro h
      have hS : ∀ a b, Relation.EqvGen (linkedPair pairs) a b →
          a = b ∨ ∃ g, imageIdMap_find r.entries a = some g ∧
            imageIdMap_find r.entries b = some g := by
        intro a b hab
        induction hab with
        | rel a b hab => exact Or.inr (hinv.complete a b hab)
        | refl a => exact Or.inl rfl
        | symm a b _ ih =>
          rcases ih with e | ⟨g, h1, h2⟩
          · exact Or.inl e.symm
          · exact Or.inr ⟨g, h2, h1⟩
        | trans a b c _ _ ih1 ih2 =>
          rcases ih1 with e1 | ⟨g, h1, h2⟩
          · rw [e1]; exact ih2
          · rcases ih2 with e2 | ⟨k, h3, h4⟩
            · rw [← e2]; exact Or.inr ⟨g, h1, h2⟩
            · rw [h2] at h3
              injection h3 with h3
              rw [← h3] at h4
              exact Or.inr ⟨g, h1, h4⟩
      rcases hS x y h with e | ⟨g, h1, h2⟩
      · exact absurd e hxy
      · obtain ⟨hg, hx⟩ := hinv.mem_group x g h1
        exact ⟨r.group g, dupe_group_mem_groups r g hg, hx, (hinv.mem_group y g h2).2⟩
  · intro x
    constructor
    · rintro ⟨grp, hmem, hx⟩
      obtain ⟨g, _, hg⟩ := dupe_groups_mem_group r grp hmem
      rw [← hg] at hx
      exact hinv.linked x g (hinv.group_mem g x hx)
    · intro h
      obtain ⟨g, hg⟩ := hlinked x h
      obtain ⟨hlt, hx⟩ := hinv.mem_group x g hg
      exact ⟨r.group g, dupe_group_mem_groups r g hlt, hx⟩
  · intro x h
    obtain ⟨g, hg⟩ := hlinked x h
    obtain ⟨hlt, hx⟩ := hinv.mem_group x g hg
    refine ⟨g, hg, hlt, List.count_eq_one_of_mem (hinv.group_nodup g) hx, ?_⟩
    intro k hk hxk
    have := hinv.group_mem k x hxk
    rw [hg] at this
    injection this with this
    exact hk this.symm
  · intro grp hmem hne
    obtain ⟨g, _, hg⟩ := dupe_groups_mem_group r grp hmem
    rw [← hg] at hne ⊢
    exact hinv.group_size g hne

/-- The calls `link(1, 2)`, `link(3, 4)`, `link(5, 5)`, `link(2, 3)`, `link(6, 1)` and
`link(7, 8)` leave the groups `2 1 4 3 6` and `8 7` and an empty group, merged away. -/
theorem dupe_links_example :
    dupe_map.empty.links [(1, 2), (3, 4), (5, 5), (2, 3), (6, 1), (7, 8)]
      = ({ entries := [(2, 0), (1, 0), (4, 0), (3, 0), (6, 0), (8, 2), (7, 2)],
           m_groups := [[2, 1, 4, 3, 6], [], [8, 7]] }, none) := by
  decide

/-! ### C26: min_sim -/

theorem toDScore_of_bounds (x : Int) (h1 : -9223372036854775808 ≤ x)
    (h2 : x < 9223372036854775808) : toDScore x = x := by
  unfold toDScore
  omega

theorem sq_sum_append (c : List Int) (s : Int) : sq_sum (c ++ [s]) = sq_sum c + s * s := by
  unfold sq_sum
  simp

/-- Bounds of the sum and of the sum of squares of scores between 0 and 2^27. -/
theorem counted_bounds (c : List Int) (h : ∀ x, x ∈ c → 0 ≤ x ∧ x ≤ 134217728) :
    0 ≤ c.sum ∧ c.sum ≤ c.length * 134217728 ∧
    0 ≤ sq_sum c ∧ sq_sum c ≤ c.length * 18014398509481984 := by
  induction c with
  | nil => simp [sq_sum]
  | cons x xs ih =>
    obtain ⟨h1, h2, h3, h4⟩ := ih (fun y hy => h y (List.mem_cons_of_mem x hy))
    obtain ⟨hx0, hxB⟩ := h x (List.mem_cons_self x xs)
    have hsq0 : 0 ≤ x * x := Int.mul_nonneg hx0 hx0
    have hsqB : x * x ≤ 134217728 * 134217728 := Int.mul_le_mul hxB hxB hx0 (by decide)
    have e : sq_sum (x :: xs) = x * x + sq_sum xs := by
      unfold sq_sum; simp
    rw [e]
    simp only [List.sum_cons, List.length_cons, Nat.cast_add, Nat.cast_one]
    refine ⟨by omega, by omega, by omega, by omega⟩

/-- The loop of `min_sim` computes the walk of the specification: with scores up to 2^27, at
most 256 entries and `min_stddev` up to 2^27 in absolute value no counter wraps. -/
theorem min_sim_loop_eq_walk (dterm : Int → Int → Int) (min_stddev stddev_frac : Int)
    (hm1 : -134217728 ≤ min_stddev) (hm2 : min_stddev ≤ 134217728) :
    ∀ (walk : List sim_value) (c : List Int),
      (∀ x, x ∈ c → 0 ≤ x ∧ x ≤ 134217728) →
      (∀ v, v ∈ walk → v.score ≤ 134217728) →
      c.length + walk.length ≤ 256 →
      min_sim_loop dterm (toDScore (min_stddev * min_stddev)) stddev_frac walk
          c.length c.sum (sq_sum c)
        = min_sim_walk (fun s => decide (0 ≤ s)) dterm min_stddev stddev_frac c walk := by
  have hmm0 : 0 ≤ min_stddev * min_stddev := mul_self_nonneg min_stddev
  have hmmB : min_stddev * min_stddev ≤ 18014398509481984 := by
    have habs : |min_stddev| ≤ 134217728 := abs_le.mpr ⟨hm1, hm2⟩
    have h0 : 0 ≤ |min_stddev| := abs_nonneg _
    have := Int.mul_le_mul habs habs h0 (by decide : (0 : Int) ≤ 134217728)
    rw [abs_mul_abs_self] at this
    exact this
  have hmsq : toDScore (min_stddev * min_stddev) = min_stddev * min_stddev :=
    toDScore_of_bounds _ (by omega) (by omega)
  intro walk
  induction walk with
  | nil => intro c _ _ _; rfl
  | cons v walk ih =>
    intro c hc hw hlen
    have hlen1 : c.length + walk.length + 1 ≤ 256 := by
      simpa [Nat.add_assoc] using hlen
    have hw1 : ∀ u, u ∈ walk → u.score ≤ 134217728 :=
      fun u hu => hw u (List.mem_cons_of_mem v hu)
    by_cases hneg : v.score < 0
    · have hcnt : ¬ (decide (0 ≤ v.score) = true) := by simpa using hneg
      rw [min_sim_loop, if_pos hneg, min_sim_walk, if_neg hcnt]
      exact ih c hc hw1 (by omega)
    · have h0 : 0 ≤ v.score := by omega
      have hB : v.score ≤ 134217728 := hw v (List.mem_cons_self v walk)
      have hcnt : decide (0 ≤ v.score) = true := by simpa using h0
      rw [min_sim_loop, if_neg hneg, min_sim_walk, if_pos hcnt]
      have hc1 : ∀ x, x ∈ c ++ [v.score] → 0 ≤ x ∧ x ≤ 134217728 := by
        intro x hx
        rcases List.mem_append.mp hx with hx | hx
        · exact hc x hx
        · have : x = v.score := by simpa using hx
          rw [this]; exact ⟨h0, hB⟩
      obtain ⟨b1, b2, b3, b4⟩ := counted_bounds c hc
      obtain ⟨d1, d2, d3, d4⟩ := counted_bounds (c ++ [v.score]) hc1
      have hl1 : (c ++ [v.score]).length = c.length + 1 := by simp
      have hcl : (c.length : Int) ≤ 255 := by omega
      have hsq0 : 0 ≤ v.score * v.score := Int.mul_nonneg h0 h0
      have hsqB : v.score * v.score ≤ 134217728 * 134217728 :=
        Int.mul_le_mul hB hB h0 (by decide)
      have e1 : toDScore (c.sum + v.score) = (c ++ [v.score]).sum := by
        rw [toDScore_of_bounds _ (by omega) (by omega)]
        simp
      have e2 : toDScore (sq_sum c + toDScore (v.score * v.score))
          = sq_sum (c ++ [v.score]) := by
        rw [toDScore_of_bounds (v.score * v.score) (by omega) (by omega),
          toDScore_of_bounds _ (by omega) (by omega), sq_sum_append]
      dsimp only
      rw [e1, e2, ← hl1]
      generalize hc1' : c ++ [v.score] = c1 at *
      rw [hl1] at d2 d4
      push_cast at d2 d4
      by_cases h2 : c1.length < 2
      · rw [if_pos h2, if_neg (fun h => by omega)]
        exact ih c1 hc1 hw1 (by omega)
      · rw [if_neg h2]
        have hn0 : (0 : Int) < c1.length := by omega
        have hnB : (c1.length : Int) ≤ 256 := by omega
        have eavg : Int.tdiv c1.sum c1.length = c1.sum / c1.length :=
          Int.tdiv_eq_ediv d1 (by omega)
        have havg0 : 0 ≤ c1.sum / (c1.length : Int) := Int.ediv_nonneg d1 (by omega)
        have havgB : c1.sum / (c1.length : Int) ≤ 134217728 :=
          Int.ediv_le_of_le_mul hn0 (by rw [hl1]; push_cast; omega)
        have hp0 : 0 ≤ c1.sum * (c1.sum / c1.length) := Int.mul_nonneg d1 havg0
        have hpB : c1.sum * (c1.sum / c1.length) ≤ 34359738368 * 134217728 :=
          Int.mul_le_mul (by omega) havgB havg0 (by decide)
        have e3 : toDScore (sq_sum c1 - toDScore (c1.sum * (c1.sum / c1.length)))
            = sq_sum c1 - c1.sum * (c1.sum / c1.length) := by
          rw [toDScore_of_bounds (c1.sum * (c1.sum / c1.length)) (by omega) (by omega),
            toDScore_of_bounds _ (by omega) (by omega)]
        have hmn0 : 0 ≤ min_stddev * min_stddev * c1.length :=
          Int.mul_nonneg hmm0 (by omega)
        have hmnB : min_stddev * min_stddev * c1.length ≤ 18014398509481984 * 256 :=
          Int.mul_le_mul hmmB hnB (by omega) (by decide)
        have e4 : toDScore (toDScore (min_stddev * min_stddev) * (c1.length : Int))
            = min_stddev * min_stddev * c1.length := by
          rw [hmsq, toDScore_of_bounds _ (by omega) (by omega)]
        rw [eavg, e3]
        have e4' : toDScore (toDScore (min_stddev * min_stddev) * ((c1.length : Nat) : Int))
            = min_stddev * min_stddev * c1.length := e4
        rw [e4']
        by_cases ht : min_stddev * min_stddev * c1.length
            < sq_sum c1 - c1.sum * (c1.sum / c1.length)
        · rw [if_pos ht, if_pos ⟨by omega, ht⟩]
          unfold stddev_threshold
          rw [Int.tdiv_eq_ediv (by omega) (by omega)]
        · rw [if_neg ht, if_neg (fun h => ht h.2)]
          exact ih c1 hc1 hw1 (by omega)

/-- The average of `min_sim` is truncated to a whole fixed-point unit: for the scores 9 and 4
(in units of 2^-20) and `min_stddev` 3 the code finds `sqd = 97 - 13 * 6 = 19 > 18` and returns
a threshold, although the variance 6.25 of the two scores is below 9. -/
theorem min_sim_mean_truncated :
    (∀ dterm : Int → Int → Int,
      min_sim dterm [⟨1, 9, 0, 0⟩, ⟨2, 4, 0, 0⟩] 3 524288 = toScore (6 + dterm 524288 9)) ∧
    2 * sq_sum [4, 9] - [4, 9].sum * [4, 9].sum ≤ 3 * 3 * (2 * 2) := by
  refine ⟨fun dterm => rfl, by decide⟩

/-! ### C27: get_image_info -/

set_option maxRecDepth 100000 in
/-- C27, the failing case. For the 10 bytes `ff d8 ff d0 ff d0 ff d0 ff e0` (the JPEG start
marker, three RST markers and an APP0 marker at the end of the data) `get_jpeg_info` reaches
the marker `ff e0` with 2 bytes left; the block length is read with
`length < 2 ? 2 : ntohs(*(uint16_t*)(data+2))`, which for a length of 2 or 3 reads the bytes at
the offsets 10 and 11, behind the end of the buffer, and the value returned depends on them (2
if they are zero, 4662 if they are `12 34`). For the 10 bytes `ff d8 ff d0 ff d0 ff d0 ff d0`
`get_jpeg_info` returns -2, which `get_image_info` returns as the `size_t` 2^64 - 2. -/
theorem get_image_info_reads_past_end :
    (get_image_info (mem_of [0xff, 0xd8, 0xff, 0xd0, 0xff, 0xd0, 0xff, 0xd0, 0xff, 0xe0])
        10 info_unset).map (fun r => (r.ret, r.reads))
      = some (2, [0, 1, 2, 3, 4, 5, 6, 7, 8, 9, 10, 11]) ∧
    (get_image_info
        (mem_of [0xff, 0xd8, 0xff, 0xd0, 0xff, 0xd0, 0xff, 0xd0, 0xff, 0xe0, 0x12, 0x34])
        10 info_unset).map (fun r => (r.ret, r.reads))
      = some (4662, [0, 1, 2, 3, 4, 5, 6, 7, 8, 9, 10, 11]) ∧
    (get_image_info (mem_of [0xff, 0xd8, 0xff, 0xd0, 0xff, 0xd0, 0xff, 0xd0, 0xff, 0xd0])
        10 info_unset).map (fun r => (r.ret, r.reads))
      = some (18446744073709551614, [0, 1, 2, 3, 4, 5, 6, 7, 8, 9]) := by
  refine ⟨rfl, rfl, rfl⟩

/-- For data that does not start with the JPEG marker `ff d8` (PNG, GIF, BMP and unknown data)
`get_image_info` returns, reads only offsets below `length`, and returns 0 or a positive number
of bytes. -/
theorem get_image_info_reads_other (mem : Nat → Nat) (length : Nat) (info : resizer_image_info)
    (h : ¬ (mem 0 = 0xff ∧ mem 1 = 0xd8)) :
    ∃ r, get_image_info mem length info = some r ∧ (∀ o, o ∈ r.reads → o < length) ∧
      0 ≤ r.ret := by
  unfold get_image_info
  simp only
  by_cases h10 : length < 10
  · rw [if_pos h10]
    exact ⟨_, rfl, fun o ho => absurd ho (List.not_mem_nil o), by show 0 ≤ 10 - (length : Int); omega⟩
  · rw [if_neg h10, if_neg h]
    have hr0 : ∀ o, o ∈ (if mem 0 = 0xff then [0, 1] else [0]) → o < length := by
      intro o ho
      split at ho
      · simp at ho; omega
      · simp at ho; omega
    have hrB : ∀ o, o ∈ (if mem 0 = 0x42 then [0, 1] else [0]) → o < length := by
      intro o ho
      split at ho
      · simp at ho; omega
      · simp at ho; omega
    have hrange : ∀ n o, n ≤ length → o ∈ List.range n → o < length := by
      intro n o hn ho
      have := List.mem_range.mp ho
      omega
    have hrange' : ∀ s n o, s + n ≤ length → o ∈ List.range' s n → o < length := by
      intro s n o hn ho
      have := (List.mem_range'_1.mp ho).2
      omega
    by_cases hpng : mem_bytes mem 0 8 = png_signature
    · rw [if_pos hpng]
      by_cases h16 : length - 8 < 16
      · rw [if_pos h16]
        refine ⟨_, rfl, ?_, by show 0 ≤ 16 - ((length - 8 : Nat) : Int); omega⟩
        intro o ho
        rcases List.mem_append.mp ho with ho | ho
        · exact hr0 o ho
        · exact hrange 8 o (by omega) ho
      · rw [if_neg h16]
        by_cases hih : mem_bytes mem 8 8 ≠ png_ihdr
        · rw [if_pos hih]
          refine ⟨_, rfl, ?_, Int.le_refl 0⟩
          intro o ho
          rcases List.mem_append.mp ho with ho | ho
          · rcases List.mem_append.mp ho with ho | ho
            · exact hr0 o ho
            · exact hrange 8 o (by omega) ho
          · exact hrange' 8 8 o (by omega) ho
        · rw [if_neg hih]
          refine ⟨_, rfl, ?_, Int.le_refl 0⟩
          intro o ho
          rcases List.mem_append.mp ho with ho | ho
          · rcases List.mem_append.mp ho with ho | ho
            · rcases List.mem_append.mp ho with ho | ho
              · exact hr0 o ho
              · exact hrange 8 o (by omega) ho
            · exact hrange' 8 8 o (by omega) ho
          · exact hrange' 16 8 o (by omega) ho
    · rw [if_neg hpng]
      by_cases hgif : mem_bytes mem 0 3 = [0x47, 0x49, 0x46]
      · rw [if_pos hgif]
        refine ⟨_, rfl, ?_, Int.le_refl 0⟩
        intro o ho
        rcases List.mem_append.mp ho with ho | ho
        · rcases List.mem_append.mp ho with ho | ho
          · rcases List.mem_append.mp ho with ho | ho
            · exact hr0 o ho
            · exact hrange 8 o (by omega) ho
          · exact hrange 3 o (by omega) ho
        · simp at ho; omega
      · rw [if_neg hgif]
        have hr3 : ∀ o, o ∈ (if mem 0 = 0xff then [0, 1] else [0]) ++ List.range 8
            ++ List.range 3 ++ (if mem 0 = 0x42 then [0, 1] else [0]) → o < length := by
          intro o ho
          rcases List.mem_append.mp ho with ho | ho
          · rcases List.mem_append.mp ho with ho | ho
            · rcases List.mem_append.mp ho with ho | ho
              · exact hr0 o ho
              · exact hrange 8 o (by omega) ho
            · exact hrange 3 o (by omega) ho
          · exact hrB o ho
        by_cases hbm : mem 0 = 0x42 ∧ mem 1 = 0x4d
        · rw [if_pos hbm]
          by_cases h26 : length < 26
          · rw [if_pos h26]
            exact ⟨_, rfl, hr3, by show 0 ≤ 26 - (length : Int); omega⟩
          · rw [if_neg h26]
            by_cases h40 : get_le_32 mem 14 ≠ 40
            · rw [if_pos h40]
              refine ⟨_, rfl, ?_, Int.le_refl 0⟩
              intro o ho
              rcases List.mem_append.mp ho with ho | ho
              · exact hr3 o ho
              · exact hrange' 14 4 o (by omega) ho
            · rw [if_neg h40]
              refine ⟨_, rfl, ?_, Int.le_refl 0⟩
              intro o ho
              rcases List.mem_append.mp ho with ho | ho
              · rcases List.mem_append.mp ho with ho | ho
                · rcases List.mem_append.mp ho with ho | ho
                  · exact hr3 o ho
                  · exact hrange' 14 4 o (by omega) ho
                · exact hrange' 18 4 o (by omega) ho
              · exact hrange' 22 4 o (by omega) ho
        · rw [if_neg hbm]
          exact ⟨_, rfl, hr3, Int.le_refl 0⟩

/-- The loop of `get_jpeg_info` ends: each pass that does not return shortens the data by 2
bytes or more, so the fuel `get_image_info` gives it is enough. -/
theorem get_jpeg_info_isSome (mem : Nat → Nat) : ∀ (fuel off length : Nat)
    (info : resizer_image_info) (reads : List Nat), length < 2 * fuel →
    (get_jpeg_info mem fuel off length info reads).isSome = true := by
  intro fuel
  induction fuel with
  | zero => intro off length info reads h; omega
  | succ fuel ih =>
    intro off length info reads h
    unfold get_jpeg_info
    simp only
    by_cases h2 : length < 2
    · rw [if_pos h2]; rfl
    · rw [if_neg h2]
      split
      · rfl
      · split
        · exact ih _ _ _ _ (by omega)
        · split
          · split <;> rfl
          · split
            · rfl
            · exact ih _ _ _ _ (by omega)

/-- The function `get_image_info` returns for every buffer. -/
theorem get_image_info_isSome (mem : Nat → Nat) (length : Nat) (info : resizer_image_info) :
    (get_image_info mem length info).isSome = true := by
  by_cases h : mem 0 = 0xff ∧ mem 1 = 0xd8
  · unfold get_image_info
    simp only
    by_cases h10 : length < 10
    · rw [if_pos h10]; rfl
    · rw [if_neg h10, if_pos h]
      have := get_jpeg_info_isSome mem (length - 2 + 1) 2 (length - 2)
        { info with type := .IMG_UNKNOWN, mime_type := "application/octet-stream" }
        (if mem 0 = 0xff then [0, 1] else [0]) (by omega)
      obtain ⟨r, hr⟩ := Option.isSome_iff_exists.mp this
      rw [hr]
      rfl
  · obtain ⟨r, hr, _⟩ := get_image_info_reads_other mem length info h
    rw [hr]; rfl

/-! ### C28: setImageRes and the reported resolution -/

set_option maxRecDepth 100000 in
/-- C28, the failing case. In normal mode `setImageRes(1, 1024, 768)` on the database of
`sampleA` (id 1, 800 x 600) and `sampleB` returns normally and writes the new resolution into
the record of the signature cache, but `getImageWidth(1)` and `getImageHeight(1)` still return
800 and 600: they read the `SigStruct` of the image, which `setImageRes` does not touch. -/
theorem normal_setImageRes_keeps_width :
    (sampleDbNormal.setImageRes 1 1024 768).2 = none ∧
    (sampleDbNormal.setImageRes 1 1024 768).1.getImageWidth 1 = .ok 800 ∧
    (sampleDbNormal.setImageRes 1 1024 768).1.getImageHeight 1 = .ok 600 ∧
    ((sampleDbNormal.setImageRes 1 1024 768).1.getImgDataByID 1).toOption.map
      (fun sig => (sig.width, sig.height)) = some (1024, 768) := by
  refine ⟨rfl, rfl, rfl, rfl⟩

theorem toUInt16_of_lt (w : Int) (h0 : 0 ≤ w) (h1 : w < 65536) : ((toUInt16 w : Nat) : Int) = w := by
  unfold toUInt16
  rw [Int.emod_eq_of_lt h0 h1]
  exact Int.toNat_of_nonneg h0

theorem sel_emit_dims (q : queryArg) (scale : Int) :
    ∀ (pq : List sim_result) (sets : Nat → Nat) (v : sim_value),
      v ∈ sel_emit q scale pq sets →
      ∃ r, r ∈ pq ∧ v.id = r.info.id ∧ v.width = r.info.width ∧ v.height = r.info.height := by
  intro pq
  induction pq with
  | nil => intro sets v h; simp [sel_emit] at h
  | cons top rest ih =>
    intro sets v h
    unfold sel_emit at h
    split at h
    · simp only at h
      split at h
      · rcases List.mem_cons.mp h with h1 | h1
        · exact ⟨top, List.mem_cons_self _ _, by rw [h1], by rw [h1], by rw [h1]⟩
        · obtain ⟨r, hr, hv⟩ := ih _ v h1
          exact ⟨r, List.mem_cons_of_mem _ hr, hv⟩
      · obtain ⟨r, hr, hv⟩ := ih _ v h
        exact ⟨r, List.mem_cons_of_mem _ hr, hv⟩
    · rcases List.mem_cons.mp h with h1 | h1
      · exact ⟨top, List.mem_cons_self _ _, by rw [h1], by rw [h1], by rw [h1]⟩
      · obtain ⟨r, hr, hv⟩ := ih _ v h1
        exact ⟨r, List.mem_cons_of_mem _ hr, hv⟩

/-- Every result of `queryImg` has the id, the width and the height of an entry of `m_info`
that is not a tombstone. -/
theorem queryImg_results_dims (db : dbSpaceImpl_true) (q : queryArg)
    (V : List sim_value) (h : db.queryImg q = .ok V) (v : sim_value) (hv : v ∈ V) :
    ∃ e, e ∈ db.m_info ∧ e.avgl.v0 ≠ 0 ∧ v.id = e.id ∧ v.width = e.width ∧
      v.height = e.height := by
  have hgen : ∀ nc, db.do_query q nc = .ok V →
      ∃ e, e ∈ db.m_info ∧ e.avgl.v0 ≠ 0 ∧ v.id = e.id ∧ v.width = e.width ∧
        v.height = e.height := by
    intro nc h
    unfold dbSpaceImpl_true.do_query at h
    split at h
    · simp at h
    · cases hsc : score_phase db q nc with
      | error err => rw [hsc] at h; simp at h
      | ok p =>
        obtain ⟨scale, scores⟩ := p
        rw [hsc] at h
        simp only at h
        cases hsel : select_phase db q scores with
        | error err => rw [hsel] at h; simp at h
        | ok st =>
          rw [hsel] at h
          simp only [Except.ok.injEq] at h
          rw [← h, List.mem_reverse] at hv
          obtain ⟨r, hr, hid, hw, hh⟩ := sel_emit_dims q _ _ _ v hv
          have hc := select_phase_fromCatalog db q scores st hsel r hr
          exact ⟨r.info, hc.1, skip_image_false_live _ q hc.2, hid, hw, hh⟩
  unfold dbSpaceImpl_true.queryImg at h
  split at h
  · exact hgen 1 h
  · exact hgen 3 h

/-- In read-only mode, in a state reached by calls, `setImageRes(id, w, h)` on a present id with
`0 <= w, h < 65536` returns normally; afterwards `getImageWidth(id)` is `w`, `getImageHeight(id)`
is `h`, and every result of a query that carries the id reports `w` and `h`. -/
theorem readonly_setImageRes_get (db : dbSpaceImpl_true) (hr : ReadOnlyReachable db)
    (id : imageId) (w h : Int) (hp : db.hasImage id = true)
    (hw0 : 0 ≤ w) (hw1 : w < 65536) (hh0 : 0 ≤ h) (hh1 : h < 65536) :
    (db.setImageRes id w h).2 = none ∧
    (db.setImageRes id w h).1.getImageWidth id = .ok w ∧
    (db.setImageRes id w h).1.getImageHeight id = .ok h ∧
    ∀ (q : queryArg) (V : List sim_value), (db.setImageRes id w h).1.queryImg q = .ok V →
      ∀ v, v ∈ V → v.id = id → (v.width : Int) = w ∧ (v.height : Int) = h := by
  obtain ⟨ind, hind⟩ := Option.isSome_iff_exists.mp hp
  have hlt := readOnly_index_in_range db hr id ind hind
  have hreach : ReadOnlyReachable (db.setImageRes id w h).1 := by
    obtain ⟨ws, ops, hdb⟩ := hr
    refine ⟨ws, ops ++ [ReadOnlyOp.setImageRes id w h], ?_⟩
    rw [hdb]
    unfold dbSpaceImpl_true.run
    rw [List.foldl_append]
    rfl
  have hinv := readOnlyInv_of_reachable _ hreach
  have hst : (db.setImageRes id w h).2 = none ∧
      (db.setImageRes id w h).1.m_images = db.m_images ∧
      (db.setImageRes id w h).1.m_info = db.m_info.modify
        (fun e => { e with width := toUInt16 w, height := toUInt16 h }) ind := by
    unfold dbSpaceImpl_true.setImageRes
    rw [hind]
    exact ⟨rfl, rfl, rfl⟩
  obtain ⟨hnone, hmi, hinfo⟩ := hst
  generalize (db.setImageRes id w h).1 = db1 at hinv hmi hinfo ⊢
  obtain ⟨e, he⟩ : ∃ e, db.m_info[ind]? = some e := ⟨db.m_info[ind], List.getElem?_eq_getElem hlt⟩
  have hget : db1.m_info[ind]? = some { e with width := toUInt16 w, height := toUInt16 h } := by
    rw [hinfo, List.getElem?_modify_eq, he]
    rfl
  have hind1 : imageIdMap_find db1.m_images id = some ind := by rw [hmi]; exact hind
  refine ⟨hnone, ?_, ?_, ?_⟩
  · unfold dbSpaceImpl_true.getImageWidth
    simp only [hind1, hget]
    rw [toUInt16_of_lt w hw0 hw1]
  · unfold dbSpaceImpl_true.getImageHeight
    simp only [hind1, hget]
    rw [toUInt16_of_lt h hh0 hh1]
  · intro q V hq v hv hvid
    obtain ⟨e1, he1, hlive, hid, hwd, hht⟩ := queryImg_results_dims _ q V hq v hv
    obtain ⟨i, hi⟩ := List.getElem?_of_mem he1
    have hfi := hinv i e1 hi hlive
    rw [← hid, hvid, hind1] at hfi
    injection hfi with hfi
    rw [← hfi, hget] at hi
    injection hi with hi
    rw [hwd, hht, ← hi]
    exact ⟨toUInt16_of_lt w hw0 hw1, toUInt16_of_lt h hh0 hh1⟩

/-- In alter mode, on a well-formed database, `setImageRes(id, w, h)` on a present id returns
normally and afterwards `getImageWidth(id)` is `w` and `getImageHeight(id)` is `h`. -/
theorem alter_setImageRes_get (db : dbSpaceAlter) (hinv : AlterInv db) (id : imageId)
    (w h : Int) (hp : db.hasImage id = true) :
    (db.setImageRes id w h).2 = none ∧
    (db.setImageRes id w h).1.getImageWidth id = .ok w ∧
    (db.setImageRes id w h).1.getImageHeight id = .ok h := by
  obtain ⟨ind, hind⟩ := Option.isSome_iff_exists.mp hp
  obtain ⟨sig, hsig, _⟩ := hinv.recs id ind (imageIdMap_find_some_mem _ _ _ hind)
  have hst : (db.setImageRes id w h).2 = none ∧
      (db.setImageRes id w h).1.m_images = db.m_images ∧
      (db.setImageRes id w h).1.get_sig ind = some { sig with width := w, height := h } := by
    unfold dbSpaceAlter.setImageRes
    rw [hinv.wf.1]
    simp only [Bool.false_eq_true, if_false, hind, hsig, true_and]
    show write_sig_at db.file_sigs (db.m_sigOff + ind * sizeof_ImgData) _
      (db.m_sigOff + ind * sizeof_ImgData) = _
    unfold write_sig_at
    rw [if_pos rfl]
  obtain ⟨hnone, hmi, hget⟩ := hst
  generalize (db.setImageRes id w h).1 = db1 at hmi hget ⊢
  have hind1 : imageIdMap_find db1.m_images id = some ind := by rw [hmi]; exact hind
  refine ⟨hnone, ?_, ?_⟩
  · unfold dbSpaceAlter.getImageWidth
    simp only [hind1, hget]
  · unfold dbSpaceAlter.getImageHeight
    simp only [hind1, hget]

/-! ### C29: the upper bound of the scores -/

set_option maxRecDepth 100000 in
/-- C29, the failing case. The signatures of `sampleA` and `sampleB` have pairwise different
coefficients in each channel. The query `sampleQuery` on the read-only database of the two
leaves the scale at -146801 and the accumulated distances -146801 and 4635742, neither below
the scale, as the claim reasons; but the score of `sampleB`,
`DScSc(4635742 * 100 * -7489810) = -3311236076`, does not fit the 32 bits of `Score` and is
returned as 983731220, above `MakeScore(100) = 104857600`. -/
theorem queryImg_score_above_100 :
    (sampleA.sig1.Nodup ∧ sampleA.sig2.Nodup ∧ sampleA.sig3.Nodup) ∧
    (sampleB.sig1.Nodup ∧ sampleB.sig2.Nodup ∧ sampleB.sig3.Nodup) ∧
    score_phase sampleDb sampleQuery 3 = .ok (-146801, [-146801, 4635742]) ∧
    invert_scale (-146801) = -7489810 ∧
    DScSc (toDScore (toDScore (4635742 * 100) * -7489810)) = -3311236076 ∧
    (sampleDb.queryImg sampleQuery).toOption.map (fun V => V.map (fun v => (v.id, v.score)))
      = some [(1, 104857597), (2, 983731220)] ∧
    MakeScore 100 = 104857600 ∧ (104857600 : Int) < 983731220 := by
  refine ⟨by decide, by decide, rfl, rfl, rfl, rfl, rfl, by decide⟩

/-- The score of a result is at most `MakeScore(100)` where the 32 bits of `Score` hold it: for
a scale of -73400 or below (one weight or more was counted) and an accumulated distance `s` not
below the scale, provided that for `s >= 0` the product `100 * s * (2^40 / -scale)` is at most
2^51. -/
theorem result_score_le_100 (scale s : Int) (h1 : scale ≤ -73400)
    (h0 : -2147483648 ≤ scale) (h2 : scale ≤ s) (h3 : s < 2147483648)
    (h4 : 0 ≤ s → 100 * s * (1099511627776 / -scale) ≤ 2251799813685248) :
    result_score s (invert_scale scale) ≤ MakeScore 100 := by
  have ha : 0 < -scale := by omega
  obtain ⟨k, hk⟩ : ∃ k : Int, k = 1099511627776 / -scale := ⟨_, rfl⟩
  have hk0 : 0 ≤ k := by rw [hk]; exact Int.ediv_nonneg (by decide) (by omega)
  have hkB : k ≤ 14979723 := by
    rw [hk]
    apply Int.ediv_le_of_le_mul ha
    omega
  have hka : k * -scale ≤ 1099511627776 := by
    rw [hk]; exact Int.ediv_mul_le _ (by omega)
  have hinv : invert_scale scale = -k := by
    unfold invert_scale
    rw [if_pos (by omega)]
    have e1 : MakeScore 1 * MakeScore 1 = 1099511627776 := by decide
    rw [e1, toDScore_of_bounds _ (by decide) (by decide)]
    have e2 : Int.tdiv 1099511627776 scale = -k := by
      have : scale = -(-scale) := by omega
      rw [this, Int.tdiv_neg, Int.tdiv_eq_ediv (by decide) (by omega), ← hk]
    rw [e2]
    unfold toScore
    omega
  have hM : MakeScore 100 = 104857600 := by decide
  rw [hinv, hM]
  unfold result_score DScSc ScoreMax
  have hs100 : toDScore (s * 100) = s * 100 := toDScore_of_bounds _ (by omega) (by omega)
  rw [hs100]
  by_cases hs : 0 ≤ s
  · have hp := h4 hs
    rw [← hk] at hp
    have hp0 : 0 ≤ 100 * s * k := Int.mul_nonneg (by omega) hk0
    have e3 : s * 100 * -k = -(100 * s * k) := by ring
    rw [e3, toDScore_of_bounds _ (by omega) (by omega)]
    have hg0 : -(100 * s * k) / 1048576 ≤ 0 :=
      Int.ediv_le_of_le_mul (by decide) (by omega)
    have hgB : -2147483648 ≤ -(100 * s * k) / 1048576 :=
      Int.le_ediv_of_mul_le (by decide) (by omega)
    generalize -(100 * s * k) / 1048576 = g at hg0 hgB
    unfold toScore
    omega
  · have hs' : 0 < -s := by omega
    have hsk : -s * k ≤ -scale * k := Int.mul_le_mul_of_nonneg_right (by omega) hk0
    have hsk2 : -s * k ≤ 1099511627776 := by
      have : -scale * k = k * -scale := Int.mul_comm _ _
      omega
    have hsk0 : 0 ≤ -s * k := Int.mul_nonneg (by omega) hk0
    have e3 : s * 100 * -k = 100 * (-s * k) := by ring
    rw [e3, toDScore_of_bounds _ (by omega) (by omega)]
    have hg0 : 0 ≤ 100 * (-s * k) / 1048576 := Int.ediv_nonneg (by omega) (by decide)
    have hgB : 100 * (-s * k) / 1048576 ≤ 104857600 :=
      Int.ediv_le_of_le_mul (by decide) (by omega)
    generalize 100 * (-s * k) / 1048576 = g at hg0 hgB
    unfold toScore
    omega

/-! ### C30: a query to which no bucket contributes -/

theorem coef_step_not_counts (db : dbSpaceImpl_true) (q : queryArg) (sketch : Nat)
    (st : Int × List Int) (bc : Nat × Nat) (h : ¬ bucketCounts db q bc) :
    coef_step db q sketch st bc = .ok st := by
  unfold bucketCounts lookedUpBucket at h
  unfold coef_step
  simp only
  by_cases he : (db.imgbuckets.at bc.2 (sigAt (q.sig bc.2) bc.1)).1.is_empty = true
  · rw [if_pos he]
  · rw [if_neg he]
    have he2 : (db.imgbuckets.at bc.2 (sigAt (q.sig bc.2) bc.1)).1.is_empty = false := by
      simpa using he
    have hn : ¬ (hasFlag q.flags flag_nocommon = true →
        10 * (db.imgbuckets.at bc.2 (sigAt (q.sig bc.2) bc.1)).1.size ≤ db.m_nextIndex) :=
      fun hh => h ⟨he2, hh⟩
    have hflag : hasFlag q.flags flag_nocommon = true := by
      by_contra hc
      exact hn (fun hh => absurd hh hc)
    have hsz : db.m_nextIndex / 10
        < (db.imgbuckets.at bc.2 (sigAt (q.sig bc.2) bc.1)).1.size := by
      have : ¬ 10 * (db.imgbuckets.at bc.2 (sigAt (q.sig bc.2) bc.1)).1.size
          ≤ db.m_nextIndex := fun hh => hn (fun _ => hh)
      omega
    rw [if_pos (by simp [hflag, hsz])]

theorem coef_loop_not_counts (db : dbSpaceImpl_true) (q : queryArg) (sketch : Nat) :
    ∀ (pairs : List (Nat × Nat)) (st : Int × List Int),
      (∀ bc, bc ∈ pairs → ¬ bucketCounts db q bc) →
      coef_loop db q sketch pairs st = .ok st := by
  intro pairs
  induction pairs with
  | nil => intro st _; rfl
  | cons bc rest ih =>
    intro st h
    unfold coef_loop
    rw [coef_step_not_counts db q sketch st bc (h bc (List.mem_cons_self _ _))]
    exact ih st (fun x hx => h x (List.mem_cons_of_mem _ hx))

/-- With no bucket that counts, the scale stays 0 and the scores are the luminance terms. -/
theorem score_phase_not_counts (db : dbSpaceImpl_true) (q : queryArg) (nc : Nat)
    (hidx : db.m_info.length ≤ db.m_nextIndex)
    (h : ∀ bc, bc ∈ coef_pairs q.flags nc → ¬ bucketCounts db q bc) :
    score_phase db q nc
      = .ok (0, db.m_info.map (dc_score (if hasFlag q.flags flag_sketch then 1 else 0) nc q)) := by
  unfold score_phase
  simp only
  rw [if_neg (by omega)]
  exact coef_loop_not_counts db q _ _ _ h

theorem result_score_zero (s : Int) : result_score s (invert_scale 0) = 0 := by
  have : invert_scale 0 = 0 := by decide
  rw [this]
  unfold result_score
  rw [Int.mul_zero]
  decide

theorem sel_emit_scale_zero (q : queryArg) : ∀ (pq : List sim_result) (sets : Nat → Nat)
    (v : sim_value), v ∈ sel_emit q (invert_scale 0) pq sets → v.score = 0 := by
  intro pq
  induction pq with
  | nil => intro sets v h; simp [sel_emit] at h
  | cons top rest ih =>
    intro sets v h
    unfold sel_emit at h
    split at h
    · simp only at h
      split at h
      · rcases List.mem_cons.mp h with h1 | h1
        · rw [h1]; exact result_score_zero _
        · exact ih _ v h1
      · exact ih _ v h
    · rcases List.mem_cons.mp h with h1 | h1
      · rw [h1]; exact result_score_zero _
      · exact ih _ v h1

theorem sel_emit_plain (q : queryArg) (scale : Int)
    (hu : hasFlag q.flags flag_uniqueset = false) : ∀ (pq : List sim_result) (sets : Nat → Nat),
    sel_emit q scale pq sets = pq.map (fun r =>
      { id := r.info.id, score := result_score r.score scale,
        width := r.info.width, height := r.info.height }) := by
  intro pq
  induction pq with
  | nil => intro sets; rfl
  | cons top rest ih =>
    intro sets
    unfold sel_emit
    rw [if_neg (by rw [hu]; simp), ih sets]
    rfl

theorem pq_push_sorted (x : sim_result) : ∀ l : List sim_result,
    l.Pairwise (fun a b => b.score ≤ a.score) →
    (pq_push x l).Pairwise (fun a b => b.score ≤ a.score) := by
  intro l
  induction l with
  | nil => intro _; simp [pq_push]
  | cons y ys ih =>
    intro h
    obtain ⟨hy, hys⟩ := List.pairwise_cons.mp h
    unfold pq_push
    by_cases hlt : y.score < x.score
    · rw [if_pos hlt]
      refine List.pairwise_cons.mpr ⟨?_, h⟩
      intro b hb
      rcases List.mem_cons.mp hb with hb | hb
      · rw [hb]; omega
      · have := hy b hb
        omega
    · rw [if_neg hlt]
      refine List.pairwise_cons.mpr ⟨?_, ih hys⟩
      intro b hb
      rcases List.mem_cons.mp ((pq_push_perm x ys).mem_iff.mp hb) with hb | hb
      · rw [hb]; omega
      · exact hy b hb

theorem pq_push_inds (x : sim_result) (l : List sim_result) :
    ((pq_push x l).map (fun r => r.ind)).Perm (x.ind :: l.map (fun r => r.ind)) :=
  (pq_push_perm x l).map _

theorem notSkipped_append (q : queryArg) (done : List (Nat × image_info)) (e : Nat × image_info) :
    (notSkipped q (done ++ [e])).length
      = (notSkipped q done).length + (if skip_image e.2 q = false then 1 else 0) := by
  unfold notSkipped
  rw [List.filter_append, List.length_append]
  by_cases h : skip_image e.2 q = false
  · simp [h]
  · have : skip_image e.2 q = true := by simpa using h
    simp [this]

theorem sel_push_plain (q : queryArg) (hu : hasFlag q.flags flag_uniqueset = false)
    (st : SelState) (s : Int) (e : Nat × image_info) :
    sel_push q st s e = { st with pq := pq_push { score := s, ind := e.1, info := e.2 } st.pq } := by
  unfold sel_push
  rw [hu]
  rfl

theorem fillInv_inds (f : image_info → Int) (q : queryArg) (done : List (Nat × image_info))
    (pq : List sim_result) (h : ∀ r, r ∈ pq →
      (r.ind, r.info) ∈ done ∧ skip_image r.info q = false ∧ r.score = f r.info)
    (i : Nat) (hi : i ∈ pq.map (fun r => r.ind)) : i ∈ done.map Prod.fst := by
  obtain ⟨r, hr, e⟩ := List.mem_map.mp hi
  rw [← e]
  exact List.mem_map.mpr ⟨(r.ind, r.info), (h r hr).1, rfl⟩

theorem nodup_append_head (done : List (Nat × image_info)) (e : Nat × image_info)
    (es : List (Nat × image_info)) (h : ((done ++ e :: es).map Prod.fst).Nodup) :
    e.1 ∉ done.map Prod.fst ∧ (((done ++ [e]) ++ es).map Prod.fst).Nodup := by
  constructor
  · rw [List.map_append, List.map_cons] at h
    have := (List.nodup_append.mp h).2.2
    intro hm
    exact this hm (List.mem_cons_self _ _)
  · rw [List.append_assoc]
    exact h

theorem fillInv_skip (f : image_info → Int) (q : queryArg) (done : List (Nat × image_info))
    (pq : List sim_result) (e : Nat × image_info) (h : FillInv f q done pq)
    (hs : skip_image e.2 q = true) : FillInv f q (done ++ [e]) pq where
  sorted := h.sorted
  from_done := fun r hr => ⟨List.mem_append_left _ (h.from_done r hr).1, (h.from_done r hr).2⟩
  nodup := h.nodup
  all_in := by
    intro e1 he1 hs1
    rcases List.mem_append.mp he1 with h1 | h1
    · exact h.all_in e1 h1 hs1
    · rw [List.mem_singleton] at h1
      rw [h1, hs] at hs1
      exact absurd hs1 (by simp)
  length := by
    rw [h.length, notSkipped_append, if_neg (by rw [hs]; simp)]
    rfl

theorem fillInv_push (f : image_info → Int) (q : queryArg) (done : List (Nat × image_info))
    (pq : List sim_result) (e : Nat × image_info) (h : FillInv f q done pq)
    (hs : skip_image e.2 q = false) (hn : e.1 ∉ done.map Prod.fst) :
    FillInv f q (done ++ [e]) (pq_push { score := f e.2, ind := e.1, info := e.2 } pq) where
  sorted := pq_push_sorted _ _ h.sorted
  from_done := by
    intro r hr
    rcases (mem_pq_push _ r pq).mp hr with h1 | h1
    · rw [h1]
      exact ⟨List.mem_append_right _ (List.mem_singleton_self _), hs, rfl⟩
    · exact ⟨List.mem_append_left _ (h.from_done r h1).1, (h.from_done r h1).2⟩
  nodup := by
    rw [(pq_push_inds _ pq).nodup_iff]
    exact List.nodup_cons.mpr
      ⟨fun hm => hn (fillInv_inds f q done pq h.from_done _ hm), h.nodup⟩
  all_in := by
    intro e1 he1 hs1
    rw [(pq_push_inds _ pq).mem_iff]
    rcases List.mem_append.mp he1 with h1 | h1
    · exact List.mem_cons_of_mem _ (h.all_in e1 h1 hs1)
    · rw [List.mem_singleton] at h1
      rw [h1]
      exact List.mem_cons_self _ _
  length := by
    rw [pq_push_length, h.length, notSkipped_append, if_pos hs]

/-- The first selection loop of a query without `uniqueset`, from a queue that holds the
entries visited so far that are not skipped: it returns, it has visited a prefix `pre` of the
entries, the queue holds the entries visited that are not skipped, and if entries are left the
queue holds `N` results. -/
theorem sel_fill_inv (f : image_info → Int) (q : queryArg) (scores : List Int) (N : Nat)
    (hu : hasFlag q.flags flag_uniqueset = false) :
    ∀ (es done : List (Nat × image_info)) (st : SelState),
      FillInv f q done st.pq → st.need = N → st.pq.length ≤ N →
      (∀ e, e ∈ es → scores[e.1]? = some (f e.2)) →
      ((done ++ es).map Prod.fst).Nodup →
      ∃ st1 pre rest, sel_fill q scores es st = .ok (st1, rest) ∧ es = pre ++ rest ∧
        FillInv f q (done ++ pre) st1.pq ∧ st1.need = N ∧ st1.pq.length ≤ N ∧
        (rest ≠ [] → st1.pq.length = N) := by
  intro es
  induction es with
  | nil =>
    intro done st hinv hneed hlen _ _
    refine ⟨st, [], [], rfl, rfl, ?_, hneed, hlen, fun h => absurd rfl h⟩
    rw [List.append_nil]; exact hinv
  | cons e es ih =>
    intro done st hinv hneed hlen hsc hnd
    obtain ⟨hn, hnd2⟩ := nodup_append_head done e es hnd
    unfold sel_fill
    by_cases hlt : st.pq.length < st.need
    · rw [if_pos hlt]
      by_cases hs : skip_image e.2 q = true
      · rw [if_pos hs]
        obtain ⟨st1, pre, rest, h1, h2, h3, h4, h5, h6⟩ := ih (done ++ [e]) st
          (fillInv_skip f q done st.pq e hinv hs) hneed hlen
          (fun e1 he1 => hsc e1 (List.mem_cons_of_mem _ he1)) hnd2
        refine ⟨st1, e :: pre, rest, h1, by rw [h2]; rfl, ?_, h4, h5, h6⟩
        rw [List.append_assoc] at h3
        exact h3
      · have hs2 : skip_image e.2 q = false := by simpa using hs
        rw [if_neg hs, hsc e (List.mem_cons_self _ _)]
        simp only
        rw [sel_push_plain q hu]
        obtain ⟨st1, pre, rest, h1, h2, h3, h4, h5, h6⟩ := ih (done ++ [e])
          { st with pq := pq_push { score := f e.2, ind := e.1, info := e.2 } st.pq }
          (fillInv_push f q done st.pq e hinv hs2 hn) hneed
          (by show (pq_push _ st.pq).length ≤ N; rw [pq_push_length]; omega)
          (fun e1 he1 => hsc e1 (List.mem_cons_of_mem _ he1)) hnd2
        refine ⟨st1, e :: pre, rest, h1, by rw [h2]; rfl, ?_, h4, h5, h6⟩
        rw [List.append_assoc] at h3
        exact h3
    · rw [if_neg hlt]
      refine ⟨st, [], e :: es, rfl, rfl, ?_, hneed, hlen, fun _ => by omega⟩
      rw [List.append_nil]; exact hinv

theorem fillInv_selInv (f : image_info → Int) (q : queryArg) (N : Nat)
    (done : List (Nat × image_info)) (pq : List sim_result) (h : FillInv f q done pq)
    (hlen : pq.length ≤ N) : SelInv f q N done pq where
  sorted := h.sorted
  from_done := h.from_done
  nodup := h.nodup
  excluded := fun e he hs hne => absurd (h.all_in e he hs) hne
  length := by
    have := h.length
    omega

theorem selInv_step_keep (f : image_info → Int) (q : queryArg) (N : Nat)
    (done : List (Nat × image_info)) (pq : List sim_result) (e : Nat × image_info)
    (h : SelInv f q N done pq) (hlen : pq.length = N)
    (hk : skip_image e.2 q = true ∨ ∀ r, r ∈ pq → r.score ≤ f e.2) :
    SelInv f q N (done ++ [e]) pq where
  sorted := h.sorted
  from_done := fun r hr => ⟨List.mem_append_left _ (h.from_done r hr).1, (h.from_done r hr).2⟩
  nodup := h.nodup
  excluded := by
    intro e1 he1 hs1 hn1
    rcases List.mem_append.mp he1 with h1 | h1
    · exact h.excluded e1 h1 hs1 hn1
    · rw [List.mem_singleton] at h1
      rw [h1] at hs1 ⊢
      rcases hk with hk | hk
      · rw [hk] at hs1
        exact absurd hs1 (by simp)
      · exact hk
  length := by
    have h0 := h.length
    rw [notSkipped_append]
    by_cases hs : skip_image e.2 q = false
    · rw [if_pos hs]; omega
    · rw [if_neg hs]; omega

theorem selInv_step_replace (f : image_info → Int) (q : queryArg) (N : Nat)
    (done : List (Nat × image_info)) (top : sim_result) (rest : List sim_result)
    (e : Nat × image_info) (h : SelInv f q N done (top :: rest))
    (hlen : (top :: rest).length = N) (hs : skip_image e.2 q = false)
    (hlt : f e.2 < top.score) (hn : e.1 ∉ done.map Prod.fst)
    (hnd : (done.map Prod.fst).Nodup) :
    SelInv f q N (done ++ [e]) (pq_push { score := f e.2, ind := e.1, info := e.2 } rest) where
  sorted := pq_push_sorted _ _ (List.pairwise_cons.mp h.sorted).2
  from_done := by
    intro r hr
    rcases (mem_pq_push _ r rest).mp hr with h1 | h1
    · rw [h1]
      exact ⟨List.mem_append_right _ (List.mem_singleton_self _), hs, rfl⟩
    · exact ⟨List.mem_append_left _ (h.from_done r (List.mem_cons_of_mem _ h1)).1,
        (h.from_done r (List.mem_cons_of_mem _ h1)).2⟩
  nodup := by
    rw [(pq_push_inds _ rest).nodup_iff]
    have hnd0 := h.nodup
    rw [List.map_cons] at hnd0
    refine List.nodup_cons.mpr ⟨fun hm => hn ?_, (List.nodup_cons.mp hnd0).2⟩
    exact fillInv_inds f q done (top :: rest) h.from_done _
      (by rw [List.map_cons]; exact List.mem_cons_of_mem _ hm)
  excluded := by
    intro e1 he1 hs1 hn1 r hr
    rw [(pq_push_inds _ rest).mem_iff] at hn1
    have hne : e1.1 ≠ e.1 := fun hh => hn1 (by rw [hh]; exact List.mem_cons_self _ _)
    have hnr : e1.1 ∉ rest.map (fun r => r.ind) := fun hh => hn1 (List.mem_cons_of_mem _ hh)
    have he1d : e1 ∈ done := by
      rcases List.mem_append.mp he1 with h1 | h1
      · exact h1
      · rw [List.mem_singleton] at h1
        exact absurd (by rw [h1]) hne
    have hbound : top.score ≤ f e1.2 := by
      by_cases htop : e1.1 = top.ind
      · have hin := (h.from_done top (List.mem_cons_self _ _))
        have heq : e1 = (top.ind, top.info) :=
          List.inj_on_of_nodup_map hnd he1d hin.1 htop
        rw [heq]
        exact Int.le_of_eq hin.2.2
      · apply h.excluded e1 he1d hs1 _ top (List.mem_cons_self _ _)
        rw [List.map_cons]
        intro hm
        rcases List.mem_cons.mp hm with h2 | h2
        · exact htop h2
        · exact hnr h2
    rcases (mem_pq_push _ r rest).mp hr with h1 | h1
    · rw [h1]
      show f e.2 ≤ f e1.2
      omega
    · have := (List.pairwise_cons.mp h.sorted).1 r h1
      omega
  length := by
    have h0 := h.length
    rw [pq_push_length, notSkipped_append, if_pos hs]
    rw [List.length_cons] at hlen h0
    omega

/-- The second selection loop of a query without `uniqueset`, from a queue of `N` results that
are the `N` smallest of the entries visited so far: it returns, and its queue holds the `N`
smallest of all entries visited. -/
theorem sel_replace_inv (f : image_info → Int) (q : queryArg) (scores : List Int) (N : Nat)
    (hu : hasFlag q.flags flag_uniqueset = false) :
    ∀ (es done : List (Nat × image_info)) (st : SelState),
      SelInv f q N done st.pq → (es ≠ [] → st.pq.length = N ∧ 1 ≤ N) →
      (∀ e, e ∈ es → scores[e.1]? = some (f e.2)) →
      ((done ++ es).map Prod.fst).Nodup →
      ∃ st1, sel_replace q scores es st = .ok st1 ∧ SelInv f q N (done ++ es) st1.pq := by
  intro es
  induction es with
  | nil =>
    intro done st hinv _ _ _
    refine ⟨st, rfl, ?_⟩
    rw [List.append_nil]; exact hinv
  | cons e es ih =>
    intro done st hinv hlen hsc hnd
    obtain ⟨hlenN, hN⟩ := hlen (List.cons_ne_nil _ _)
    obtain ⟨hn, hnd2⟩ := nodup_append_head done e es hnd
    have hndd : (done.map Prod.fst).Nodup := by
      rw [List.map_append] at hnd
      exact (List.nodup_append.mp hnd).1
    have hsc2 : ∀ e1, e1 ∈ es → scores[e1.1]? = some (f e1.2) :=
      fun e1 he1 => hsc e1 (List.mem_cons_of_mem _ he1)
    have hfin : ∀ st2 : SelState, SelInv f q N (done ++ [e]) st2.pq → st2.pq.length = N →
        ∃ st1, sel_replace q scores es st2 = .ok st1 ∧ SelInv f q N (done ++ e :: es) st1.pq := by
      intro st2 hinv2 hl2
      obtain ⟨st1, h1, h2⟩ := ih (done ++ [e]) st2 hinv2 (fun _ => ⟨hl2, hN⟩) hsc2 hnd2
      refine ⟨st1, h1, ?_⟩
      rw [List.append_assoc] at h2
      exact h2
    cases hpq : st.pq with
    | nil => rw [hpq] at hlenN; simp at hlenN; omega
    | cons top rest =>
      rw [hpq] at hinv hlenN
      unfold sel_replace
      rw [hsc e (List.mem_cons_self _ _), hpq]
      simp only
      by_cases hlt : f e.2 < top.score
      · rw [if_pos hlt]
        by_cases hs : skip_image e.2 q = true
        · rw [if_pos hs]
          apply hfin st
          · rw [hpq]; exact selInv_step_keep f q N done _ e hinv hlenN (Or.inl hs)
          · rw [hpq]; exact hlenN
        · have hs2 : skip_image e.2 q = false := by simpa using hs
          rw [if_neg hs, if_neg (by rw [hu]; simp)]
          apply hfin
          · exact selInv_step_replace f q N done top rest e hinv hlenN hs2 hlt hn hndd
          · show (pq_push _ rest).length = N
            rw [pq_push_length]
            rw [List.length_cons] at hlenN
            exact hlenN
      · rw [if_neg hlt]
        apply hfin st
        · rw [hpq]
          apply selInv_step_keep f q N done _ e hinv hlenN (Or.inr ?_)
          intro r hr
          rcases List.mem_cons.mp hr with h1 | h1
          · rw [h1]; omega
          · have := (List.pairwise_cons.mp hinv.sorted).1 r h1
            omega
        · rw [hpq]; exact hlenN

theorem mem_indexedFrom_iff {α : Type} : ∀ (l : List α) (n i : Nat) (e : α),
    (i, e) ∈ indexedFrom n l ↔ n ≤ i ∧ l[i - n]? = some e := by
  intro l
  induction l with
  | nil => intro n i e; simp [indexedFrom]
  | cons x xs ih =>
    intro n i e
    unfold indexedFrom
    rw [List.mem_cons, ih]
    constructor
    · rintro (h | ⟨h1, h2⟩)
      · obtain ⟨h1, h2⟩ := Prod.mk.inj h
        rw [h1, h2, Nat.sub_self]
        exact ⟨Nat.le_refl _, List.getElem?_cons_zero⟩
      · refine ⟨by omega, ?_⟩
        have e1 : i - n = (i - (n + 1)) + 1 := by omega
        rw [e1, List.getElem?_cons_succ]
        exact h2
    · rintro ⟨h1, h2⟩
      by_cases hi : i = n
      · left
        rw [hi, Nat.sub_self, List.getElem?_cons_zero] at h2
        have : x = e := Option.some.inj h2
        rw [hi, this]
      · right
        refine ⟨by omega, ?_⟩
        have e1 : i - n = (i - (n + 1)) + 1 := by omega
        rw [e1, List.getElem?_cons_succ] at h2
        exact h2

theorem indexedFrom_fst {α : Type} : ∀ (l : List α) (n : Nat),
    (indexedFrom n l).map Prod.fst = List.range' n l.length := by
  intro l
  induction l with
  | nil => intro n; rfl
  | cons x xs ih =>
    intro n
    unfold indexedFrom
    rw [List.map_cons, ih, List.length_cons, List.range'_succ]

theorem queryImg_eq_do_query (db : dbSpaceImpl_true) (q : queryArg) :
    db.queryImg q = db.do_query q (query_colors q) := by
  unfold dbSpaceImpl_true.queryImg query_colors
  split <;> rfl

/-- The selection phase of a query without `uniqueset` and with a limit `N ≥ 1`, the scores
being the distances `f` of the entries: it returns, and the queue holds the `min(N, E)` entries
of smallest distance among the `E` entries that are not skipped. -/
theorem select_phase_plain (db : dbSpaceImpl_true) (q : queryArg) (f : image_info → Int)
    (hu : hasFlag q.flags flag_uniqueset = false) (hN : 1 ≤ q.numres)
    (hN2 : q.numres < 4294967296) :
    ∃ st, select_phase db q (db.m_info.map f) = .ok st ∧
      SelInv f q q.numres (indexedFrom 0 db.m_info) st.pq := by
  have hsc : ∀ e, e ∈ indexedFrom 0 db.m_info → (db.m_info.map f)[e.1]? = some (f e.2) := by
    intro e he
    have h := (mem_indexedFrom_iff db.m_info 0 e.1 e.2).mp he
    rw [Nat.sub_zero] at h
    rw [List.getElem?_map, h.2]
    rfl
  have hnd : ((indexedFrom 0 db.m_info).map Prod.fst).Nodup := by
    rw [indexedFrom_fst]
    exact List.nodup_range' _ _
  have hfill0 : FillInv f q [] [] :=
    { sorted := List.Pairwise.nil
      from_done := fun r hr => absurd hr (List.not_mem_nil _)
      nodup := List.nodup_nil
      all_in := fun e he => absurd he (List.not_mem_nil _)
      length := rfl }
  obtain ⟨st1, pre, rest, h1, h2, h3, h4, h5, h6⟩ :=
    sel_fill_inv f q (db.m_info.map f) q.numres hu (indexedFrom 0 db.m_info) []
      { pq := [], sets := fun _ => 0, need := q.numres % 4294967296 } hfill0
      (Nat.mod_eq_of_lt hN2) (Nat.zero_le _) hsc (by rw [List.nil_append]; exact hnd)
  rw [List.nil_append] at h3
  obtain ⟨st2, h7, h8⟩ := sel_replace_inv f q (db.m_info.map f) q.numres hu rest pre st1
    (fillInv_selInv f q q.numres pre st1.pq h3 h5) (fun hne => ⟨h6 hne, hN⟩)
    (fun e he => hsc e (by rw [h2]; exact List.mem_append_right _ he))
    (by rw [← h2]; exact hnd)
  refine ⟨st2, ?_, by rw [h2]; exact h8⟩
  unfold select_phase
  rw [h1]
  exact h7

/-- C30, the counterexample. A query with the flags `fast` and `uniqueset` and the limit 2 on
the database of `sampleA`, `sampleB` and `sampleC`: no bucket is looked up, the scale stays 0
and both results have the score 0, but the results are the images 1 and 2, and the image 4,
which is not skipped and whose DC distance 1048575 is smaller than the 4635742 of image 2, is
not returned (it has the set tag of image 1). -/
theorem fast_uniqueset_not_smallest_dc :
    coef_pairs (queryArg.ofImgData sampleA 2 (flag_fast + flag_uniqueset)).flags
      (query_colors (queryArg.ofImgData sampleA 2 (flag_fast + flag_uniqueset))) = [] ∧
    (score_phase sampleDbSets (queryArg.ofImgData sampleA 2 (flag_fast + flag_uniqueset)) 3).toOption.map
      (fun s => s.1) = some 0 ∧
    (sampleDbSets.queryImg (queryArg.ofImgData sampleA 2 (flag_fast + flag_uniqueset))).toOption.map
      (fun V => V.map (fun v => (v.id, v.score))) = some [(1, 0), (2, 0)] ∧
    sampleDbSets.m_info.map (fun e => (e.id,
        skip_image e (queryArg.ofImgData sampleA 2 (flag_fast + flag_uniqueset)),
        dc_score 0 3 (queryArg.ofImgData sampleA 2 (flag_fast + flag_uniqueset)) e))
      = [(1, false, 0), (2, false, 4635742), (4, false, 1048575)] := by
  decide!

/-- C30. When no looked-up bucket counts for a query (with the flag `fast` none is looked up),
the scale stays 0 and every score `queryImg` returns is 0. For a query without `uniqueset` and
with a limit `N` from 1 on, `queryImg` returns, and its results are the entries of a list `sel`
of `min(N, E)` different entries of the catalog that are not skipped, `E` being the number of
entries that are not skipped, in ascending order of their DC distance, such that no entry that
is not skipped and not in `sel` has a smaller DC distance than an entry of `sel`. -/
theorem no_bucket_scores_zero (db : dbSpaceImpl_true) (q : queryArg)
    (hidx : db.m_info.length ≤ db.m_nextIndex)
    (hnone : ∀ bc, bc ∈ coef_pairs q.flags (query_colors q) → ¬ bucketCounts db q bc) :
    score_phase db q (query_colors q)
      = .ok (0, db.m_info.map
          (dc_score (if hasFlag q.flags flag_sketch then 1 else 0) (query_colors q) q)) ∧
    (∀ V, db.queryImg q = .ok V → ∀ v, v ∈ V → v.score = 0) ∧
    (db.m_bucketsValid = true → hasFlag q.flags flag_uniqueset = false → 1 ≤ q.numres →
      q.numres < 4294967296 →
      ∃ sel : List sim_result,
        db.queryImg q = .ok (sel.map (fun r =>
          { id := r.info.id, score := 0, width := r.info.width, height := r.info.height })) ∧
        sel.length = min q.numres (notSkipped q (indexedFrom 0 db.m_info)).length ∧
        (sel.map (fun r => r.ind)).Nodup ∧
        (∀ r, r ∈ sel → db.m_info[r.ind]? = some r.info ∧ skip_image r.info q = false ∧
          r.score = dc_score (if hasFlag q.flags flag_sketch then 1 else 0) (query_colors q) q
            r.info) ∧
        sel.Pairwise (fun a b => a.score ≤ b.score) ∧
        (∀ (i : Nat) (e : image_info), db.m_info[i]? = some e → skip_image e q = false →
          i ∉ sel.map (fun r => r.ind) →
          ∀ r, r ∈ sel → r.score ≤
            dc_score (if hasFlag q.flags flag_sketch then 1 else 0) (query_colors q) q e)) := by
  have hsp := score_phase_not_counts db q (query_colors q) hidx hnone
  refine ⟨hsp, ?_, ?_⟩
  · intro V hV v hv
    rw [queryImg_eq_do_query] at hV
    unfold dbSpaceImpl_true.do_query at hV
    split at hV
    · exact absurd hV (by simp)
    · rw [hsp] at hV
      simp only at hV
      split at hV
      · exact absurd hV (by simp)
      · have hV2 := Except.ok.inj hV
        rw [← hV2] at hv
        exact sel_emit_scale_zero q _ _ v (List.mem_reverse.mp hv)
  · intro hvalid hu hN hN2
    obtain ⟨st, hst, hinv⟩ := select_phase_plain db q
      (dc_score (if hasFlag q.flags flag_sketch then 1 else 0) (query_colors q) q) hu hN hN2
    refine ⟨st.pq.reverse, ?_, ?_, ?_, ?_, ?_, ?_⟩
    · rw [queryImg_eq_do_query]
      unfold dbSpaceImpl_true.do_query
      rw [if_neg (by rw [hvalid]; simp), hsp]
      simp only
      rw [hst]
      simp only
      rw [sel_emit_plain q _ hu, List.map_reverse]
      congr 2
      apply List.map_congr_left
      intro r _
      rw [result_score_zero]
    · rw [List.length_reverse]; exact hinv.length
    · rw [List.map_reverse]; exact List.nodup_reverse.mpr hinv.nodup
    · intro r hr
      have h := hinv.from_done r (List.mem_reverse.mp hr)
      have h2 := (mem_indexedFrom_iff db.m_info 0 r.ind r.info).mp h.1
      rw [Nat.sub_zero] at h2
      exact ⟨h2.2, h.2⟩
    · rw [List.pairwise_reverse]; exact hinv.sorted
    · intro i e hie hs hni r hr
      apply hinv.excluded (i, e) ((mem_indexedFrom_iff db.m_info 0 i e).mpr
        ⟨Nat.zero_le _, by rw [Nat.sub_zero]; exact hie⟩) hs _ r (List.mem_reverse.mp hr)
      intro hm
      apply hni
      rw [List.map_reverse]
      exact List.mem_reverse.mpr hm

theorem no_bucket_scores_zero_witness :
    sampleDbSets.m_info.length ≤ sampleDbSets.m_nextIndex ∧
    (∀ bc, bc ∈ coef_pairs (queryArg.ofImgData sampleA 2 flag_fast).flags
        (query_colors (queryArg.ofImgData sampleA 2 flag_fast)) →
      ¬ bucketCounts sampleDbSets (queryArg.ofImgData sampleA 2 flag_fast) bc) ∧
    sampleDbSets.m_bucketsValid = true ∧
    hasFlag (queryArg.ofImgData sampleA 2 flag_fast).flags flag_uniqueset = false ∧
    (sampleDbSets.queryImg (queryArg.ofImgData sampleA 2 flag_fast)).toOption.map
      (fun V => V.map (fun v => (v.id, v.score))) = some [(1, 0), (4, 0)] ∧
    (∀ V, sampleDbSets.queryImg (queryArg.ofImgData sampleA 2 flag_fast) = .ok V →
      ∀ v, v ∈ V → v.score = 0) ∧
    (∃ sel : List sim_result,
      sampleDbSets.queryImg (queryArg.ofImgData sampleA 2 flag_fast) = .ok (sel.map (fun r =>
        { id := r.info.id, score := 0, width := r.info.width, height := r.info.height })) ∧
      sel.length = 2) := by
  obtain ⟨_, h2, h3⟩ := no_bucket_scores_zero sampleDbSets (queryArg.ofImgData sampleA 2 flag_fast)
    (by decide!) (by decide!)
  obtain ⟨sel, hs1, hs2, _⟩ := h3 (by decide!) (by decide!) (by decide!) (by decide!)
  exact ⟨by decide!, by decide!, by decide!, by decide!, by decide!, h2, sel, hs1,
    hs2.trans (by decide!)⟩

end iqdb
